import Mathlib

/-!
# Chess-System: the ordered map and the statistics engine

A shallow embedding of `map.c`, `player.c`, `game.c`, `tournament.c` and
`chessSystem.c`.

Conventions of the embedding.

* A C `int` is an `Int`; signed overflow is undefined in C and is not modelled.
  The totals of play time are the counters that valid calls can take out of the
  range of an `int`: the definitions with the suffix `Int32` embed the functions
  that add or subtract a play time with 32-bit arithmetic, and `ReachableInRange`
  are the states that the system reaches without such an overflow.
* A C `double` is a rational number.  A division is the division of rational
  numbers where the divisor cannot be 0; where it can, the result of a division
  by 0 is a value of its own (`Double.notFinite`).  In `playerGetLevel`, whose
  result the claims compare with the exact quotient, the division rounds to the
  nearest `double` (`roundDouble`); in the averages of play times the rounding
  of the division is not modelled.
* Allocation always succeeds, so the copy functions handed to `mapCreate` are
  the identity on values and the free functions have no effect on the contents.
  The exception is `chessAddGameAlloc` with the functions it calls
  (`newGameSystemAssignAlloc`, `playerSetupInMapAlloc`, `mapPutAlloc`), which
  embed `chessAddGame` when one of the allocations that the code tests fails.
* A pointer that may be `NULL` is an `Option`.
* `map.c` keeps its pairs in a singly linked list that starts at `head`.  The
  head node always exists; when the map holds no pair it is a lone node whose
  key and data are `NULL`.  The embedding keeps the list of the nodes that hold
  a key: `nodes = []` stands for the lone head node with `key == NULL`.  In
  every map that the functions of `map.c` can build, `mapClear` included, a
  node without key is such a lone head and then `size` is 0
  (`MapApiReachable.size_bounds`).
* A function of the system gets the system as a pointer and changes it in
  place: the embedded function returns the result code together with the
  system afterwards.  Where the C code dereferences `NULL` or uses a released
  object, the embedded function returns `none`.
* Inside the system the position of `current` in a map has no effect on any
  result: every loop over a map starts with `mapGetFirst`.  The functions of
  the system therefore use the results of the map functions and the maps that
  `mapPut` and `mapRemove` leave, and do not record how the queries move
  `current`.
-/

namespace Chess

/-! ## map.c -/

/-- Modelled from the spec: the enum `MapResult` of `map.h`, which is not among
the sources; these are the result codes that `map.c` and its callers name. -/
inductive MapResult where
  | MAP_SUCCESS
  | MAP_OUT_OF_MEMORY
  | MAP_NULL_ARGUMENT
  | MAP_ITEM_DOES_NOT_EXIST
  deriving DecidableEq

/-- The pointer `map->current`.
`node i` is the `i`-th node counted from `head` (`node 0` is the head node, also
when the head holds no key); `null` is `NULL`; `freed` is a node that
`mapRemove` unlinked and released; `unlinked next` is a node that `mapRemove`
unlinked but did not release (its `next` field still designates node `next` of
the list, or `NULL`). -/
inductive Cursor where
  | null
  | node (i : Nat)
  | freed
  | unlinked (next : Option Nat)
  deriving DecidableEq

/-- The struct `Map_t`: `size`, the linked nodes (key and data of each), and the
iterator `current`.  The five function pointers are the comparator, passed to
each operation, and the copy and free functions (identity, no effect). -/
structure Map (K V : Type) where
  size : Int
  nodes : List (K × V)
  current : Cursor
  deriving DecidableEq

/-- The function `mapCreate`: a lone head node without key, `current = head`, `size = 0`. -/
def mapCreate {K V : Type} : Map K V :=
  { size := 0, nodes := [], current := Cursor.node 0 }

/-- The function `mapGetSize`. -/
def mapGetSize {K V : Type} (map : Map K V) : Int :=
  map.size

/-- The scanning loop shared by `mapContains`, `mapGet`, `mapChangeExistingData`
and `mapRemove`: walk from `head` and stop at the first node whose key compares
equal to `key`; the result is the index of that node, or `none` when the walk
reaches `NULL`. -/
def mapFindNode {K V : Type} (cmp : K → K → Int) (key : K) : List (K × V) → Option Nat
  | [] => none
  | n :: rest =>
    if cmp n.1 key = 0 then some 0
    else match mapFindNode cmp key rest with
      | some i => some (i + 1)
      | none => none

/-- The function `mapContains`: `false` for a `NULL` key or when `size == 0`
(without touching `current`); otherwise the scan, which leaves `current` on the
node found or on `NULL`. -/
def mapContains {K V : Type} (cmp : K → K → Int) (map : Map K V) (key : Option K) :
    Bool × Map K V :=
  match key with
  | none => (false, map)
  | some k =>
    if mapGetSize map = 0 then (false, map)
    else match mapFindNode cmp k map.nodes with
      | some i => (true, { map with current := Cursor.node i })
      | none => (false, { map with current := Cursor.null })

/-- The list after the loop of `mapChangeExistingData`: the data of the first
node whose key compares equal is replaced.  (The C loop has no `NULL` test; it
is only called after `mapContains` returned `true`.) -/
def changeData {K V : Type} (cmp : K → K → Int) (key : K) (data : V) :
    List (K × V) → List (K × V)
  | [] => []
  | n :: rest =>
    if cmp n.1 key ≠ 0 then n :: changeData cmp key data rest
    else (n.1, data) :: rest

/-- The function `mapChangeExistingData`. -/
def mapChangeExistingData {K V : Type} (cmp : K → K → Int) (map : Map K V)
    (keyElement : K) (dataElement : V) : Map K V :=
  { map with
    nodes := changeData cmp keyElement dataElement map.nodes
    current := match mapFindNode cmp keyElement map.nodes with
      | some i => Cursor.node i
      | none => Cursor.null }

/-- The list after `mapInsertNewNode`: the loop passes every leading node whose
key compares smaller than the new key and the new node is linked in before the
node on which it stopped (or at the end when it reached `NULL`). -/
def insertNode {K V : Type} (cmp : K → K → Int) (key : K) (data : V) :
    List (K × V) → List (K × V)
  | [] => [(key, data)]
  | n :: rest =>
    if cmp n.1 key < 0 then n :: insertNode cmp key data rest
    else (key, data) :: n :: rest

/-- The number of nodes the loop of `mapInsertNewNode` passes. -/
def insertPos {K V : Type} (cmp : K → K → Int) (key : K) : List (K × V) → Nat
  | [] => 0
  | n :: rest => if cmp n.1 key < 0 then insertPos cmp key rest + 1 else 0

/-- The function `mapInsertNewNode` (always `true`: allocation succeeds).
Afterwards `current` is the successor of the new node. -/
def mapInsertNewNode {K V : Type} (cmp : K → K → Int) (map : Map K V)
    (keyElement : K) (dataElement : V) : Map K V :=
  { map with
    nodes := insertNode cmp keyElement dataElement map.nodes
    current :=
      if insertPos cmp keyElement map.nodes < map.nodes.length then
        Cursor.node (insertPos cmp keyElement map.nodes + 1)
      else Cursor.null }

/-- The function `mapPut`. -/
def mapPut {K V : Type} (cmp : K → K → Int) (map : Map K V)
    (keyElement : Option K) (dataElement : Option V) : MapResult × Map K V :=
  match keyElement, dataElement with
  | some k, some v =>
    match map.nodes with
    | [] => (MapResult.MAP_SUCCESS, { map with nodes := [(k, v)], size := 1 })
    | _ :: _ =>
      if (mapContains cmp map (some k)).1 = true then
        (MapResult.MAP_SUCCESS, mapChangeExistingData cmp (mapContains cmp map (some k)).2 k v)
      else
        (MapResult.MAP_SUCCESS,
          { mapInsertNewNode cmp (mapContains cmp map (some k)).2 k v with
            size := (mapContains cmp map (some k)).2.size + 1 })
  | _, _ => (MapResult.MAP_NULL_ARGUMENT, map)

/-- The data of node `i` of the list. -/
def nodeData {K V : Type} (nodes : List (K × V)) (i : Nat) : Option V :=
  match nodes.get? i with
  | some n => some n.2
  | none => none

/-- The key of node `i` of the list. -/
def nodeKey {K V : Type} (nodes : List (K × V)) (i : Nat) : Option K :=
  match nodes.get? i with
  | some n => some n.1
  | none => none

/-- The function `mapGet`: `NULL` when `mapContains` fails, otherwise the data of
the first node whose key compares equal, on which `current` is left. -/
def mapGet {K V : Type} (cmp : K → K → Int) (map : Map K V) (keyElement : Option K) :
    Option V × Map K V :=
  match keyElement with
  | none => (none, map)
  | some k =>
    if (mapContains cmp map (some k)).1 = false then (none, (mapContains cmp map (some k)).2)
    else match mapFindNode cmp k map.nodes with
      | some i => (nodeData map.nodes i, { map with current := Cursor.node i })
      | none => (none, { map with current := Cursor.null })

/-- The function `mapRemove`.  The node found is unlinked (`head` moves on when
it was the first one); a lone head node stays in place and only loses its key
and data.  The node is released unless the size became 0. -/
def mapRemove {K V : Type} (cmp : K → K → Int) (map : Map K V) (keyElement : Option K) :
    MapResult × Map K V :=
  match keyElement with
  | none => (MapResult.MAP_NULL_ARGUMENT, map)
  | some k =>
    if (mapContains cmp map (some k)).1 = false then
      (MapResult.MAP_ITEM_DOES_NOT_EXIST, (mapContains cmp map (some k)).2)
    else match mapFindNode cmp k map.nodes with
      | none => (MapResult.MAP_SUCCESS, map)
      | some i =>
        (MapResult.MAP_SUCCESS,
          { size := map.size - 1
            nodes := map.nodes.eraseIdx i
            current :=
              if map.size - 1 ≠ 0 then Cursor.freed
              else if i = 0 ∧ map.nodes.length = 1 then Cursor.node 0
              else Cursor.unlinked (if i + 1 < map.nodes.length then some i else none) })

/-- The function `mapGetFirst`: `NULL` when `size == 0`, otherwise `current`
moves to `head` and the key of the head is returned. -/
def mapGetFirst {K V : Type} (map : Map K V) : Option K × Map K V :=
  if map.size = 0 then (none, map)
  else (nodeKey map.nodes 0, { map with current := Cursor.node 0 })

/-- The function `mapGetNext`: `current` moves to its `next` node, whose key is
returned (`NULL` at the end of the list).  The outer `none` stands for the
dereference of a `NULL` or released `current`, which C leaves undefined. -/
def mapGetNext {K V : Type} (map : Map K V) : Option (Option K × Map K V) :=
  match map.current with
  | Cursor.null => none
  | Cursor.freed => none
  | Cursor.node i =>
    if i + 1 < map.nodes.length then
      some (nodeKey map.nodes (i + 1), { map with current := Cursor.node (i + 1) })
    else some (none, { map with current := Cursor.null })
  | Cursor.unlinked (some j) =>
    if j < map.nodes.length then
      some (nodeKey map.nodes j, { map with current := Cursor.node j })
    else some (none, { map with current := Cursor.null })
  | Cursor.unlinked none => some (none, { map with current := Cursor.null })

/-- The function `mapClear`: the loop walks all nodes, releases each data and
calls the key copy function on each key; no node is unlinked and no key is
reset.  Then `size = 0`. -/
def mapClear {K V : Type} (map : Map K V) : MapResult × Map K V :=
  (MapResult.MAP_SUCCESS, { map with size := 0, current := Cursor.null })

/-- The steps `mapGetNext`, `mapGetNext`, ... of a traversal, until `NULL` is
returned; `fuel` bounds the number of steps. -/
def mapTraverseLoop {K V : Type} : Nat → Map K V → Option (List K)
  | 0, _ => none
  | fuel + 1, map =>
    match mapGetNext map with
    | none => none
    | some (none, _) => some []
    | some (some k, map1) =>
      match mapTraverseLoop fuel map1 with
      | some ks => some (k :: ks)
      | none => none

/-- The traversal `mapGetFirst`, `mapGetNext`, ... until `NULL`: the keys it
yields, in the order in which it yields them. -/
def mapTraverse {K V : Type} (fuel : Nat) (map : Map K V) : Option (List K) :=
  match mapGetFirst map with
  | (none, _) => some []
  | (some k, map1) =>
    match mapTraverseLoop fuel map1 with
    | some ks => some (k :: ks)
    | none => none

/-- The comparator `compareKeyPlayerID` (also `compareKeyGameID`,
`compareKeyTournamentID`): the difference of the two ids. -/
def compareKeyPlayerID (element1 element2 : Int) : Int :=
  element1 - element2

/-! ## Specification vocabulary for the map -/

/-- The comparator is a total (pre)order: its sign flips when the arguments are
swapped, and "not greater" is transitive.  The three id comparators of the
system satisfy it. -/
structure CmpOrder {K : Type} (cmp : K → K → Int) : Prop where
  swap : ∀ a b, cmp a b < 0 ↔ 0 < cmp b a
  le_trans : ∀ a b c, cmp a b ≤ 0 → cmp b c ≤ 0 → cmp a c ≤ 0

/-- The keys of the linked nodes, from `head` on. -/
def mapKeys {K V : Type} (map : Map K V) : List K :=
  map.nodes.map Prod.fst

/-- The representation invariant of `map.c`: `size` counts the linked nodes that
hold a key, and their keys are strictly ascending. -/
def MapWF {K V : Type} (cmp : K → K → Int) (map : Map K V) : Prop :=
  map.size = map.nodes.length ∧ (mapKeys map).Pairwise (fun a b => cmp a b < 0)

/-- The data of the first node whose key compares equal to `key`. -/
def findData {K V : Type} (cmp : K → K → Int) (key : K) : List (K × V) → Option V
  | [] => none
  | n :: rest => if cmp n.1 key = 0 then some n.2 else findData cmp key rest

/-- The maps built from `mapCreate` by calls of `mapPut` and `mapRemove` (with
any arguments and any result), interleaved with the calls that only move the
iterator. -/
inductive MapReachable {K V : Type} (cmp : K → K → Int) : Map K V → Prop where
  | create : MapReachable cmp mapCreate
  | put (map : Map K V) (k : Option K) (v : Option V) :
      MapReachable cmp map → MapReachable cmp (mapPut cmp map k v).2
  | remove (map : Map K V) (k : Option K) :
      MapReachable cmp map → MapReachable cmp (mapRemove cmp map k).2
  | contains (map : Map K V) (k : Option K) :
      MapReachable cmp map → MapReachable cmp (mapContains cmp map k).2
  | get (map : Map K V) (k : Option K) :
      MapReachable cmp map → MapReachable cmp (mapGet cmp map k).2
  | getFirst (map : Map K V) :
      MapReachable cmp map → MapReachable cmp (mapGetFirst map).2
  | getNext (map map1 : Map K V) (r : Option K) :
      MapReachable cmp map → mapGetNext map = some (r, map1) → MapReachable cmp map1

/-- The maps that can be built from `mapCreate` by the functions of `map.c`,
`mapClear` included, called with any arguments. -/
inductive MapApiReachable {K V : Type} (cmp : K → K → Int) : Map K V → Prop where
  | create : MapApiReachable cmp mapCreate
  | put (map : Map K V) (k : Option K) (v : Option V) :
      MapApiReachable cmp map → MapApiReachable cmp (mapPut cmp map k v).2
  | remove (map : Map K V) (k : Option K) :
      MapApiReachable cmp map → MapApiReachable cmp (mapRemove cmp map k).2
  | clear (map : Map K V) :
      MapApiReachable cmp map → MapApiReachable cmp (mapClear map).2
  | contains (map : Map K V) (k : Option K) :
      MapApiReachable cmp map → MapApiReachable cmp (mapContains cmp map k).2
  | get (map : Map K V) (k : Option K) :
      MapApiReachable cmp map → MapApiReachable cmp (mapGet cmp map k).2
  | getFirst (map : Map K V) :
      MapApiReachable cmp map → MapApiReachable cmp (mapGetFirst map).2
  | getNext (map map1 : Map K V) (r : Option K) :
      MapApiReachable cmp map → mapGetNext map = some (r, map1) → MapApiReachable cmp map1

/-- The node list `mapPut` leaves on a map that satisfies the invariant: the
data is replaced when the key is found, a node is linked in otherwise. -/
def putNodes {K V : Type} (cmp : K → K → Int) (key : K) (data : V) (l : List (K × V)) :
    List (K × V) :=
  if (findData cmp key l).isSome then changeData cmp key data l else insertNode cmp key data l

/-- The node list `mapRemove` leaves on a map that satisfies the invariant. -/
def removeNodes {K V : Type} (cmp : K → K → Int) (key : K) (l : List (K × V)) :
    List (K × V) :=
  match mapFindNode cmp key l with
  | some i => l.eraseIdx i
  | none => l

/-- An example: the keys 3, 1, 2 are put into a new map in this order and key 3
is removed again. -/
def exampleMap : Map Int Int :=
  (mapRemove compareKeyPlayerID
    (mapPut compareKeyPlayerID
      (mapPut compareKeyPlayerID
        (mapPut compareKeyPlayerID mapCreate (some 3) (some 30)).2
        (some 1) (some 10)).2
      (some 2) (some 20)).2
    (some 3)).2

/-- An example: the pair (1, 10) is put into a new map and the map is cleared. -/
def clearedMap : Map Int Int :=
  (mapClear (mapPut compareKeyPlayerID mapCreate (some 1) (some 10)).2).2

/-- Modelled from the spec: the macro `MAP_FOREACH` of `map.h`, which is not
among the sources.  The loop variable runs over the keys that `mapGetFirst`,
`mapGetNext`, ... yield until `NULL`.  (The loop bodies of the system call, on
the traversed map, only `mapGet` with the key just yielded.) -/
def mapForEach {K V : Type} (map : Map K V) : List K :=
  match mapTraverse map.nodes.length map with
  | some keys => keys
  | none => []

/-- A write through the pointer that `mapGet` returned for `key`: the data of
the node found is overwritten in place (`NULL`: nothing is written).  Not a
function of `map.c`; the callers of `mapGet` mutate the object they receive. -/
def mapStore {K V : Type} (cmp : K → K → Int) (map : Map K V) (key : K) (data : Option V) :
    Map K V :=
  match data with
  | none => map
  | some v => { map with nodes := changeData cmp key v map.nodes }

/-! ## player.c -/

/-- Modelled from the spec: the enum `Winner` of `chessSystem.h`, which is not
among the sources (the spec's `FirstPlayer | SecondPlayer | Draw`).  `player.c`
indexes the array of the two players with it: `FIRST_PLAYER` is 0 and
`SECOND_PLAYER` is 1. -/
inductive Winner where
  | FIRST_PLAYER
  | SECOND_PLAYER
  | DRAW
  deriving DecidableEq

/-- The struct `player_t`. -/
structure Player where
  id : Int
  wins : Int
  loses : Int
  draws : Int
  total_play_time : Int
  deriving DecidableEq

/-- The constant `PLAYER_NOT_EXIST`. -/
def PLAYER_NOT_EXIST : Int := 0

/-- The function `playerCreate`. -/
def playerCreate (id : Int) : Player :=
  { id := id, wins := 0, loses := 0, draws := 0, total_play_time := 0 }

/-- The function `playerGetID`. -/
def playerGetID (player : Option Player) : Int :=
  match player with
  | none => PLAYER_NOT_EXIST
  | some p => p.id

/-- The function `playerGetWins`. -/
def playerGetWins (player : Option Player) : Int :=
  match player with
  | none => PLAYER_NOT_EXIST
  | some p => p.wins

/-- The function `playerGetLoses`. -/
def playerGetLoses (player : Option Player) : Int :=
  match player with
  | none => PLAYER_NOT_EXIST
  | some p => p.loses

/-- The function `playerGetDraws`. -/
def playerGetDraws (player : Option Player) : Int :=
  match player with
  | none => PLAYER_NOT_EXIST
  | some p => p.draws

/-- The function `playerGetTotalPlayTime`. -/
def playerGetTotalPlayTime (player : Option Player) : Int :=
  match player with
  | none => PLAYER_NOT_EXIST
  | some p => p.total_play_time

/-- The function `playerGetScore` (no `NULL` test in C). -/
def playerGetScore (player : Player) : Int :=
  2 * player.wins + player.draws

/-- The function `playersAddScore` on the array of the two player pointers
(two distinct records): nothing happens when one of them is `NULL`. -/
def playersAddScore (players : Option Player × Option Player) (score : Winner) :
    Option Player × Option Player :=
  match players with
  | (some first, some second) =>
    match score with
    | Winner.DRAW =>
      (some { first with draws := first.draws + 1 }, some { second with draws := second.draws + 1 })
    | Winner.FIRST_PLAYER =>
      (some { first with wins := first.wins + 1 }, some { second with loses := second.loses + 1 })
    | Winner.SECOND_PLAYER =>
      (some { first with loses := first.loses + 1 }, some { second with wins := second.wins + 1 })
  | _ => players

/-- The function `playersRemoveScore`.  When one pointer is `NULL` the other
player loses a win; when both are `NULL` the code dereferences
`players[SECOND_PLAYER]`, which is the outer `none`. -/
def playersRemoveScore (players : Option Player × Option Player) (score : Winner) :
    Option (Option Player × Option Player) :=
  match players with
  | (none, none) => none
  | (none, some second) => some (none, some { second with wins := second.wins - 1 })
  | (some first, none) => some (some { first with wins := first.wins - 1 }, none)
  | (some first, some second) =>
    match score with
    | Winner.DRAW =>
      some (some { first with draws := first.draws - 1 },
            some { second with draws := second.draws - 1 })
    | Winner.FIRST_PLAYER =>
      some (some { first with wins := first.wins - 1 },
            some { second with loses := second.loses - 1 })
    | Winner.SECOND_PLAYER =>
      some (some { first with loses := first.loses - 1 },
            some { second with wins := second.wins - 1 })

/-- The function `playersAddPlayTime` (outer `none`: both pointers `NULL`, the
code dereferences `players[SECOND_PLAYER]`). -/
def playersAddPlayTime (players : Option Player × Option Player) (play_time : Int) :
    Option (Option Player × Option Player) :=
  match players with
  | (none, none) => none
  | (none, some second) =>
    some (none, some { second with total_play_time := second.total_play_time + play_time })
  | (some first, none) =>
    some (some { first with total_play_time := first.total_play_time + play_time }, none)
  | (some first, some second) =>
    some (some { first with total_play_time := first.total_play_time + play_time },
          some { second with total_play_time := second.total_play_time + play_time })

/-- The function `playersRemovePlayTime` (outer `none`: both pointers `NULL`). -/
def playersRemovePlayTime (players : Option Player × Option Player) (play_time : Int) :
    Option (Option Player × Option Player) :=
  match players with
  | (none, none) => none
  | (none, some second) =>
    some (none, some { second with total_play_time := second.total_play_time - play_time })
  | (some first, none) =>
    some (some { first with total_play_time := first.total_play_time - play_time }, none)
  | (some first, some second) =>
    some (some { first with total_play_time := first.total_play_time - play_time },
          some { second with total_play_time := second.total_play_time - play_time })

/-! ## game.c -/

/-- The struct `game_t`. -/
structure Game where
  winner : Winner
  play_time : Int
  first_player : Int
  second_player : Int
  deriving DecidableEq

/-- The constant `GAME_NOT_EXIST`. -/
def GAME_NOT_EXIST : Int := 0

/-- The comparator `compareKeyGameID`. -/
def compareKeyGameID (element1 element2 : Int) : Int :=
  element1 - element2

/-- The function `gameCreate`. -/
def gameCreate (winner : Winner) (play_time first_player second_player : Int) : Game :=
  { winner := winner, play_time := play_time, first_player := first_player,
    second_player := second_player }

/-- The function `gameGetWinner` (no `NULL` test in C). -/
def gameGetWinner (game : Game) : Winner :=
  game.winner

/-- The function `gameGetPlayTime`. -/
def gameGetPlayTime (game : Option Game) : Int :=
  match game with
  | none => GAME_NOT_EXIST
  | some g => g.play_time

/-- The function `gameGetFirstPlayer`. -/
def gameGetFirstPlayer (game : Option Game) : Int :=
  match game with
  | none => GAME_NOT_EXIST
  | some g => g.first_player

/-- The function `gameGetSecondPlayer`. -/
def gameGetSecondPlayer (game : Option Game) : Int :=
  match game with
  | none => GAME_NOT_EXIST
  | some g => g.second_player

/-- The function `isPlayerInCurrentGame`. -/
def isPlayerInCurrentGame (game : Option Game) (player_id : Int) : Bool :=
  decide (gameGetFirstPlayer game = player_id) || decide (gameGetSecondPlayer game = player_id)

/-- The function `gameGetOpponent`. -/
def gameGetOpponent (game : Option Game) (opponent_id : Int) : Int :=
  match game with
  | none => GAME_NOT_EXIST
  | some g => if g.first_player = opponent_id then g.second_player else g.first_player

/-- The function `gameSetWinner`. -/
def gameSetWinner (game : Option Game) (winner_id : Int) : Option Game :=
  match game with
  | none => none
  | some g =>
    if g.first_player = winner_id then some { g with winner := Winner.FIRST_PLAYER }
    else some { g with winner := Winner.SECOND_PLAYER }

/-- The function `gameUpdateDeletedPlayerID`. -/
def gameUpdateDeletedPlayerID (game : Option Game) (player_id : Int) : Option Game :=
  match game with
  | none => none
  | some g =>
    if g.first_player = player_id then some { g with first_player := (-1) * player_id }
    else some { g with second_player := (-1) * player_id }

/-! ## tournament.c -/

/-- The struct `tournament_t`. -/
structure Tournament where
  games : Map Int Game
  players : Map Int Player
  winner : Int
  max_games_per_player : Int
  location : String
  number_of_games : Int
  number_of_players : Int
  longest_game_time : Int
  total_play_time : Int
  deriving DecidableEq

/-- The constant `TOURNAMENT_NOT_ENDED`. -/
def TOURNAMENT_NOT_ENDED : Int := 0

/-- The constant `TOURNAMENT_NOT_EXIST`. -/
def TOURNAMENT_NOT_EXIST : Int := 0

/-- The comparator `compareKeyTournamentID`. -/
def compareKeyTournamentID (element1 element2 : Int) : Int :=
  element1 - element2

/-- The function `tournamentCreate` (`gameMapFactory` and `playerMapFactory` are
`mapCreate` with the functions of the element type). -/
def tournamentCreate (max_games_per_player : Int) (location : String) : Tournament :=
  { games := mapCreate, players := mapCreate, winner := TOURNAMENT_NOT_ENDED,
    max_games_per_player := max_games_per_player, location := location,
    number_of_games := 0, number_of_players := 0, longest_game_time := 0,
    total_play_time := 0 }

/-- The function `tournamentGetWinner`. -/
def tournamentGetWinner (tournament : Option Tournament) : Int :=
  match tournament with
  | none => TOURNAMENT_NOT_EXIST
  | some t => t.winner

/-- The function `tournamentSetWinner`. -/
def tournamentSetWinner (tournament : Tournament) (winner_id : Int) : Tournament :=
  { tournament with winner := winner_id }

/-- The loop of `countGamesPlayerPlayedInTournament`. -/
def countGamesLoop (games : Map Int Game) (player_id : Int) : List Int → Int → Int
  | [], count => count
  | current_game_id :: rest, count =>
    if isPlayerInCurrentGame (mapGet compareKeyGameID games (some current_game_id)).1 player_id
        = true then
      countGamesLoop games player_id rest (count + 1)
    else countGamesLoop games player_id rest count

/-- The function `countGamesPlayerPlayedInTournament`. -/
def countGamesPlayerPlayedInTournament (tournament : Tournament) (player_id : Int) : Int :=
  countGamesLoop tournament.games player_id (mapForEach tournament.games) 0

/-- The function `isMaxGamesPerPlayerExceeded`. -/
def isMaxGamesPerPlayerExceeded (tournament : Tournament) (player_id : Int) : Bool :=
  decide (tournament.max_games_per_player ≤
    countGamesPlayerPlayedInTournament tournament player_id)

/-- The function `tournamentUpdateNumberOfGames`. -/
def tournamentUpdateNumberOfGames (tournament : Tournament) : Tournament :=
  { tournament with number_of_games := tournament.number_of_games + 1 }

/-- The function `tournamentUpdateNumberOfPlayers`. -/
def tournamentUpdateNumberOfPlayers (tournament : Tournament) : Tournament :=
  { tournament with number_of_players := tournament.number_of_players + 1 }

/-- The function `tournamentUpdateLongestGameTime`. -/
def tournamentUpdateLongestGameTime (tournament : Tournament) (game_play_time : Int) :
    Tournament :=
  if tournament.longest_game_time < game_play_time then
    { tournament with longest_game_time := game_play_time }
  else tournament

/-- The function `tournamentUpdateTotalPlayTime`. -/
def tournamentUpdateTotalPlayTime (tournament : Tournament) (game_play_time : Int) :
    Tournament :=
  { tournament with total_play_time := tournament.total_play_time + game_play_time }

/-- The function `tournamentUpdateStats`. -/
def tournamentUpdateStats (tournament : Tournament) (play_time : Int) : Tournament :=
  tournamentUpdateTotalPlayTime
    (tournamentUpdateLongestGameTime (tournamentUpdateNumberOfGames tournament) play_time)
    play_time

/-! ## chessSystem.c -/

/-- Modelled from the spec: the enum `ChessResult` of `chessSystem.h`, which is
not among the sources; these are the results that `chessSystem.c` names. -/
inductive ChessResult where
  | CHESS_OUT_OF_MEMORY
  | CHESS_NULL_ARGUMENT
  | CHESS_INVALID_ID
  | CHESS_INVALID_LOCATION
  | CHESS_INVALID_MAX_GAMES
  | CHESS_TOURNAMENT_ALREADY_EXISTS
  | CHESS_TOURNAMENT_NOT_EXIST
  | CHESS_GAME_ALREADY_EXISTS
  | CHESS_INVALID_PLAY_TIME
  | CHESS_EXCEEDED_GAMES
  | CHESS_PLAYER_NOT_EXIST
  | CHESS_TOURNAMENT_ENDED
  | CHESS_NO_TOURNAMENTS_ENDED
  | CHESS_NO_GAMES
  | CHESS_SAVE_FAILURE
  | CHESS_SUCCESS
  deriving DecidableEq

/-- The struct `chess_system_t`. -/
structure ChessSystem where
  tournaments : Map Int Tournament
  players : Map Int Player
  deriving DecidableEq

/-- The function `chessCreate` (`tournamentMapFactory` and `playerMapFactory`
are `mapCreate` with the functions of the element type). -/
def chessCreate : ChessSystem :=
  { tournaments := mapCreate, players := mapCreate }

/-- The function `isValidID`. -/
def isValidID (id : Int) : Bool :=
  decide (id > 0)

/-- The function `isMaxGamesPerPlayerValid`. -/
def isMaxGamesPerPlayerValid (max : Int) : Bool :=
  decide (max > 0)

/-- The function `isPlayTimeValid`. -/
def isPlayTimeValid (time : Int) : Bool :=
  decide (time ≥ 0)

/-- The function `isLocationValid`: the first character is an uppercase letter
(the terminating zero of an empty string is not), every later one is a space or
a lowercase letter. -/
def isLocationValid (str : String) : Bool :=
  match str.data with
  | [] => false
  | c :: rest =>
    if c < 'A' ∨ c > 'Z' then false
    else rest.all (fun x => !(decide (x ≠ ' ') && (decide (x < 'a') || decide (x > 'z'))))

/-- The function `chessAddTournamentErrorCheck`. -/
def chessAddTournamentErrorCheck (chess : Option ChessSystem) (tournament_id : Int)
    (max_games_per_player : Int) (tournament_location : Option String) : ChessResult :=
  match chess, tournament_location with
  | some c, some location =>
    if isValidID tournament_id = false then ChessResult.CHESS_INVALID_ID
    else if (mapContains compareKeyTournamentID c.tournaments (some tournament_id)).1 = true then
      ChessResult.CHESS_TOURNAMENT_ALREADY_EXISTS
    else if isLocationValid location = false then ChessResult.CHESS_INVALID_LOCATION
    else if isMaxGamesPerPlayerValid max_games_per_player = false then
      ChessResult.CHESS_INVALID_MAX_GAMES
    else ChessResult.CHESS_SUCCESS
  | _, _ => ChessResult.CHESS_NULL_ARGUMENT

/-- The function `chessAddTournament`.  `mapPut` stores a copy of the new
tournament (`tournamentCopy`, whose `mapCopy` of the two empty maps gives two new
empty maps).  The outer `none` of the result marks a path on which the C code
uses an invalid pointer. -/
def chessAddTournament (chess : Option ChessSystem) (tournament_id : Int)
    (max_games_per_player : Int) (tournament_location : Option String) :
    Option (ChessResult × Option ChessSystem) :=
  if chessAddTournamentErrorCheck chess tournament_id max_games_per_player tournament_location
      ≠ ChessResult.CHESS_SUCCESS then
    some (chessAddTournamentErrorCheck chess tournament_id max_games_per_player
      tournament_location, chess)
  else
    match chess, tournament_location with
    | some c, some location =>
      if (mapPut compareKeyTournamentID c.tournaments (some tournament_id)
            (some (tournamentCreate max_games_per_player location))).1
          ≠ MapResult.MAP_SUCCESS then
        some (ChessResult.CHESS_OUT_OF_MEMORY, none)
      else
        some (ChessResult.CHESS_SUCCESS,
          some { c with tournaments :=
            (mapPut compareKeyTournamentID c.tournaments (some tournament_id)
              (some (tournamentCreate max_games_per_player location))).2 })
    | _, _ => none

/-- The function `playersAddStatsToMap`: the two records are fetched with
`mapGet` and updated in place. -/
def playersAddStatsToMap (players_map : Map Int Player) (player1 player2 : Int)
    (winner : Winner) (play_time : Int) : Option (Map Int Player) :=
  match playersAddPlayTime
      (playersAddScore
        ((mapGet compareKeyPlayerID players_map (some player1)).1,
         (mapGet compareKeyPlayerID players_map (some player2)).1) winner) play_time with
  | none => none
  | some players =>
    some (mapStore compareKeyPlayerID
      (mapStore compareKeyPlayerID players_map player1 players.1) player2 players.2)

/-- The function `isGameExistInTournament`. -/
def isGameExistInTournament (tournament : Tournament) (player1 player2 : Int) : Bool :=
  (mapForEach tournament.games).any (fun current_game_id =>
    (decide (gameGetFirstPlayer
        (mapGet compareKeyGameID tournament.games (some current_game_id)).1 = player1) &&
      decide (gameGetSecondPlayer
        (mapGet compareKeyGameID tournament.games (some current_game_id)).1 = player2)) ||
    (decide (gameGetFirstPlayer
        (mapGet compareKeyGameID tournament.games (some current_game_id)).1 = player2) &&
      decide (gameGetSecondPlayer
        (mapGet compareKeyGameID tournament.games (some current_game_id)).1 = player1)))

/-- Which map the argument `player_map` of `playerSetupInMap` points to: the
players map of the system, or the players map of the tournament argument. -/
inductive PlayersMapRef where
  | chessPlayers
  | tournamentPlayers
  deriving DecidableEq

/-- The function `playerSetupInMap`, on the tournament and the players map of
the system.  The test `player_map == tournamentGetPlayersMap(tournament)` holds
exactly for `PlayersMapRef.tournamentPlayers`. -/
def playerSetupInMap (tournament : Tournament) (chess_players : Map Int Player)
    (player_map : PlayersMapRef) (player_id : Int) :
    MapResult × Tournament × Map Int Player :=
  match player_map with
  | PlayersMapRef.chessPlayers =>
    if (mapContains compareKeyPlayerID chess_players (some player_id)).1 = false then
      (if (mapPut compareKeyPlayerID chess_players (some player_id)
              (some (playerCreate player_id))).1 ≠ MapResult.MAP_SUCCESS
        then MapResult.MAP_OUT_OF_MEMORY else MapResult.MAP_SUCCESS,
       tournament,
       (mapPut compareKeyPlayerID chess_players (some player_id)
          (some (playerCreate player_id))).2)
    else (MapResult.MAP_SUCCESS, tournament, chess_players)
  | PlayersMapRef.tournamentPlayers =>
    if (mapContains compareKeyPlayerID tournament.players (some player_id)).1 = false then
      (if (mapPut compareKeyPlayerID tournament.players (some player_id)
              (some (playerCreate player_id))).1 ≠ MapResult.MAP_SUCCESS
        then MapResult.MAP_OUT_OF_MEMORY else MapResult.MAP_SUCCESS,
       tournamentUpdateNumberOfPlayers
         { tournament with players :=
            (mapPut compareKeyPlayerID tournament.players (some player_id)
              (some (playerCreate player_id))).2 },
       chess_players)
    else (MapResult.MAP_SUCCESS, tournament, chess_players)

/-- The function `playerMapUpdatePlayers`. -/
def playerMapUpdatePlayers (tournament : Tournament) (chess_players : Map Int Player)
    (players_map : PlayersMapRef) (first_player second_player : Int) :
    MapResult × Tournament × Map Int Player :=
  let r1 := playerSetupInMap tournament chess_players players_map first_player
  if r1.1 ≠ MapResult.MAP_SUCCESS then (MapResult.MAP_OUT_OF_MEMORY, r1.2)
  else
    let r2 := playerSetupInMap r1.2.1 r1.2.2 players_map second_player
    if r2.1 ≠ MapResult.MAP_SUCCESS then (MapResult.MAP_OUT_OF_MEMORY, r2.2)
    else (MapResult.MAP_SUCCESS, r2.2)

/-- The function `newGameSystemAssign`, on the tournament (whose games map and
players map the C arguments `tournament_games_map` and `tournament_players_map`
point to) and the players map of the system. -/
def newGameSystemAssign (tournament : Tournament) (chess_players_map : Map Int Player)
    (new_game : Game) (new_game_id first_player second_player : Int) :
    ChessResult × Tournament × Map Int Player :=
  let r0 := mapPut compareKeyGameID tournament.games (some new_game_id) (some new_game)
  if r0.1 ≠ MapResult.MAP_SUCCESS then
    (ChessResult.CHESS_OUT_OF_MEMORY, tournament, chess_players_map)
  else
    let r1 := playerMapUpdatePlayers { tournament with games := r0.2 } chess_players_map
      PlayersMapRef.chessPlayers first_player second_player
    if r1.1 ≠ MapResult.MAP_SUCCESS then (ChessResult.CHESS_OUT_OF_MEMORY, r1.2)
    else
      let r2 := playerMapUpdatePlayers r1.2.1 r1.2.2 PlayersMapRef.tournamentPlayers
        first_player second_player
      if r2.1 ≠ MapResult.MAP_SUCCESS then (ChessResult.CHESS_OUT_OF_MEMORY, r2.2)
      else (ChessResult.CHESS_SUCCESS, r2.2)

/-- The function `chessAddGameErrorCheck`. -/
def chessAddGameErrorCheck (chess : Option ChessSystem) (tournament_id first_player
    second_player : Int) (_winner : Winner) (play_time : Int) : ChessResult :=
  match chess with
  | none => ChessResult.CHESS_NULL_ARGUMENT
  | some c =>
    if isValidID tournament_id = false ∨ isValidID first_player = false ∨
        isValidID second_player = false ∨ first_player = second_player then
      ChessResult.CHESS_INVALID_ID
    else if (mapContains compareKeyTournamentID c.tournaments (some tournament_id)).1 = false then
      ChessResult.CHESS_TOURNAMENT_NOT_EXIST
    else
      match (mapGet compareKeyTournamentID c.tournaments (some tournament_id)).1 with
      | none => ChessResult.CHESS_TOURNAMENT_NOT_EXIST
      | some tournament =>
        if tournamentGetWinner (some tournament) ≠ TOURNAMENT_NOT_ENDED then
          ChessResult.CHESS_TOURNAMENT_ENDED
        else if isGameExistInTournament tournament first_player second_player = true then
          ChessResult.CHESS_GAME_ALREADY_EXISTS
        else if isPlayTimeValid play_time = false then ChessResult.CHESS_INVALID_PLAY_TIME
        else if isMaxGamesPerPlayerExceeded tournament first_player = true ∨
            isMaxGamesPerPlayerExceeded tournament second_player = true then
          ChessResult.CHESS_EXCEEDED_GAMES
        else ChessResult.CHESS_SUCCESS

/-- The part of `chessAddGame` after the error check, on the tournament that
`mapGet` returned and the players map of the system: the new game is stored
under the id `mapGetSize + 1`, the players are set up in both maps, the
statistics are added in both maps and the tournament counters are updated.
When `newGameSystemAssign` fails the C code destroys the system and goes on
using it, which is the result `none`. -/
def chessAddGameUpdate (current_tournament : Tournament) (chess_players : Map Int Player)
    (first_player second_player : Int) (winner : Winner) (play_time : Int) :
    Option (Tournament × Map Int Player) :=
  let new_game := gameCreate winner play_time first_player second_player
  let new_game_id := mapGetSize current_tournament.games + 1
  let assigned := newGameSystemAssign current_tournament chess_players new_game new_game_id
    first_player second_player
  if assigned.1 ≠ ChessResult.CHESS_SUCCESS then none
  else
    match playersAddStatsToMap assigned.2.2 first_player second_player winner play_time with
    | none => none
    | some players =>
      match playersAddStatsToMap assigned.2.1.players first_player second_player winner
          play_time with
      | none => none
      | some tournament_players =>
        some (tournamentUpdateStats { assigned.2.1 with players := tournament_players }
          play_time, players)

/-- The function `chessAddGame`.  The tournament is updated through the pointer
that `mapGet` returned.  The outer `none` of the result marks a path on which
the C code uses an invalid pointer. -/
def chessAddGame (chess : Option ChessSystem) (tournament_id first_player second_player : Int)
    (winner : Winner) (play_time : Int) : Option (ChessResult × Option ChessSystem) :=
  if chessAddGameErrorCheck chess tournament_id first_player second_player winner play_time
      ≠ ChessResult.CHESS_SUCCESS then
    some (chessAddGameErrorCheck chess tournament_id first_player second_player winner
      play_time, chess)
  else
    match chess with
    | none => none
    | some c =>
      match (mapGet compareKeyTournamentID c.tournaments (some tournament_id)).1 with
      | none => none
      | some current_tournament =>
        match chessAddGameUpdate current_tournament c.players first_player second_player
            winner play_time with
        | none => none
        | some (tournament, players) =>
          some (ChessResult.CHESS_SUCCESS,
            some { tournaments :=
                     mapStore compareKeyTournamentID c.tournaments tournament_id
                       (some tournament),
                   players := players })

/-- The function `playersRemoveStats`. -/
def playersRemoveStats (players_map : Map Int Player) (player1 player2 : Int)
    (winner : Winner) (play_time : Int) : Option (Map Int Player) :=
  if isValidID player1 = false ∧ isValidID player2 = false then some players_map
  else
    match playersRemoveScore
        ((mapGet compareKeyPlayerID players_map (some player1)).1,
         (mapGet compareKeyPlayerID players_map (some player2)).1) winner with
    | none => none
    | some players =>
      match playersRemovePlayTime players play_time with
      | none => none
      | some players1 =>
        some (mapStore compareKeyPlayerID
          (mapStore compareKeyPlayerID players_map player1 players1.1) player2 players1.2)

/-- The function `chessRemoveTournamentErrorCheck` (the maps of a system are
never `NULL`). -/
def chessRemoveTournamentErrorCheck (chess : Option ChessSystem) (tournament_id : Int) :
    ChessResult :=
  match chess with
  | none => ChessResult.CHESS_NULL_ARGUMENT
  | some c =>
    if isValidID tournament_id = false then ChessResult.CHESS_INVALID_ID
    else if (mapContains compareKeyTournamentID c.tournaments (some tournament_id)).1 = false then
      ChessResult.CHESS_TOURNAMENT_NOT_EXIST
    else ChessResult.CHESS_SUCCESS

/-- The `MAP_FOREACH` loop of `chessRemoveTournament` over the games of the
tournament: the statistics of each game are taken out of the players map of the
system.  (`gameGetWinner` dereferences the game.) -/
def removeTournamentLoop (games : Map Int Game) :
    List Int → Map Int Player → Option (Map Int Player)
  | [], players => some players
  | current_game_id :: rest, players =>
    match (mapGet compareKeyGameID games (some current_game_id)).1 with
    | none => none
    | some current_game =>
      match playersRemoveStats players (gameGetFirstPlayer (some current_game))
          (gameGetSecondPlayer (some current_game)) (gameGetWinner current_game)
          (gameGetPlayTime (some current_game)) with
      | none => none
      | some players1 => removeTournamentLoop games rest players1

/-- The function `chessRemoveTournament`. -/
def chessRemoveTournament (chess : Option ChessSystem) (tournament_id : Int) :
    Option (ChessResult × Option ChessSystem) :=
  if chessRemoveTournamentErrorCheck chess tournament_id ≠ ChessResult.CHESS_SUCCESS then
    some (chessRemoveTournamentErrorCheck chess tournament_id, chess)
  else
    match chess with
    | none => none
    | some c =>
      match (mapGet compareKeyTournamentID c.tournaments (some tournament_id)).1 with
      | none => none
      | some current_tournament =>
        match removeTournamentLoop current_tournament.games
            (mapForEach current_tournament.games) c.players with
        | none => none
        | some players =>
          some (ChessResult.CHESS_SUCCESS,
            some { tournaments :=
                     (mapRemove compareKeyTournamentID c.tournaments (some tournament_id)).2,
                   players := players })

/-- The function `playersMapTechnicalWinUpdateScore` (the argument `game` is not
used by the C code). -/
def playersMapTechnicalWinUpdateScore (players_map : Map Int Player) (player1 player2 : Int)
    (opponent : Int) (winner : Winner) : Option (Map Int Player) :=
  if isValidID player1 = false ∨ isValidID player2 = false then some players_map
  else
    match playersRemoveScore
        ((mapGet compareKeyPlayerID players_map (some player1)).1,
         (mapGet compareKeyPlayerID players_map (some player2)).1) winner with
    | none => none
    | some players =>
      let new_winner := if opponent = player1 then Winner.FIRST_PLAYER else Winner.SECOND_PLAYER
      let players1 := playersAddScore players new_winner
      some (mapStore compareKeyPlayerID
        (mapStore compareKeyPlayerID players_map player1 players1.1) player2 players1.2)

/-- The function `chessRemovePlayerErrorCheck`. -/
def chessRemovePlayerErrorCheck (chess : Option ChessSystem) (player_id : Int) : ChessResult :=
  match chess with
  | none => ChessResult.CHESS_NULL_ARGUMENT
  | some c =>
    if isValidID player_id = false then ChessResult.CHESS_INVALID_ID
    else if (mapContains compareKeyPlayerID c.players (some player_id)).1 = false then
      ChessResult.CHESS_PLAYER_NOT_EXIST
    else ChessResult.CHESS_SUCCESS

/-- The body of the inner `MAP_FOREACH` loop of `chessRemovePlayer`, on the
current tournament and the players map of the system.  The game is changed
through the pointer that `mapGet` returned. -/
def removePlayerGameStep (player_id : Int) (tournament : Tournament)
    (chess_players : Map Int Player) (current_game_id : Int) :
    Option (Tournament × Map Int Player) :=
  let current_game := (mapGet compareKeyGameID tournament.games (some current_game_id)).1
  if isPlayerInCurrentGame current_game player_id = true then
    let opponent_id := gameGetOpponent current_game player_id
    if isValidID opponent_id = true then
      match current_game with
      | none => none
      | some game =>
        match playersMapTechnicalWinUpdateScore chess_players
            (gameGetFirstPlayer current_game) (gameGetSecondPlayer current_game) opponent_id
            (gameGetWinner game) with
        | none => none
        | some chess_players1 =>
          match playersMapTechnicalWinUpdateScore tournament.players
              (gameGetFirstPlayer current_game) (gameGetSecondPlayer current_game) opponent_id
              (gameGetWinner game) with
          | none => none
          | some tournament_players1 =>
            some ({ tournament with
                    games := mapStore compareKeyGameID tournament.games current_game_id
                      (gameUpdateDeletedPlayerID (gameSetWinner current_game opponent_id)
                        player_id)
                    players := tournament_players1 }, chess_players1)
    else
      some ({ tournament with
              games := mapStore compareKeyGameID tournament.games current_game_id
                (gameUpdateDeletedPlayerID current_game player_id) }, chess_players)
  else some (tournament, chess_players)

/-- The inner `MAP_FOREACH` loop of `chessRemovePlayer` over the games of one
tournament. -/
def removePlayerGamesLoop (player_id : Int) :
    List Int → Tournament → Map Int Player → Option (Tournament × Map Int Player)
  | [], tournament, chess_players => some (tournament, chess_players)
  | current_game_id :: rest, tournament, chess_players =>
    match removePlayerGameStep player_id tournament chess_players current_game_id with
    | none => none
    | some (tournament1, chess_players1) =>
      removePlayerGamesLoop player_id rest tournament1 chess_players1

/-- The body of the outer `MAP_FOREACH` loop of `chessRemovePlayer`, on the
system: the games of a tournament that has not ended are worked through, and
the player is removed from the players map of the tournament in any case.  The
tournament is changed through the pointer that `mapGet` returned. -/
def removePlayerTournamentStep (player_id : Int) (chess : ChessSystem)
    (current_tournament_id : Int) : Option ChessSystem :=
  match (mapGet compareKeyTournamentID chess.tournaments (some current_tournament_id)).1 with
  | none => some chess
  | some current_tournament =>
    match (if tournamentGetWinner (some current_tournament) = TOURNAMENT_NOT_ENDED then
        removePlayerGamesLoop player_id (mapForEach current_tournament.games)
          current_tournament chess.players
      else some (current_tournament, chess.players)) with
    | none => none
    | some (tournament1, chess_players1) =>
      some { tournaments :=
               mapStore compareKeyTournamentID chess.tournaments current_tournament_id
                 (some { tournament1 with players :=
                    (mapRemove compareKeyPlayerID tournament1.players (some player_id)).2 }),
             players := chess_players1 }

/-- The outer `MAP_FOREACH` loop of `chessRemovePlayer` over the tournaments. -/
def removePlayerTournamentsLoop (player_id : Int) :
    List Int → ChessSystem → Option ChessSystem
  | [], chess => some chess
  | current_tournament_id :: rest, chess =>
    match removePlayerTournamentStep player_id chess current_tournament_id with
    | none => none
    | some chess1 => removePlayerTournamentsLoop player_id rest chess1

/-- The function `chessRemovePlayer`. -/
def chessRemovePlayer (chess : Option ChessSystem) (player_id : Int) :
    Option (ChessResult × Option ChessSystem) :=
  if chessRemovePlayerErrorCheck chess player_id ≠ ChessResult.CHESS_SUCCESS then
    some (chessRemovePlayerErrorCheck chess player_id, chess)
  else
    match chess with
    | none => none
    | some c =>
      match removePlayerTournamentsLoop player_id (mapForEach c.tournaments) c with
      | none => none
      | some c1 =>
        some (ChessResult.CHESS_SUCCESS,
          some { c1 with players :=
            (mapRemove compareKeyPlayerID c1.players (some player_id)).2 })

/-- The function `comparePlayerData`. -/
def comparePlayerData (players : Player × Player) (func : Player → Int) : Int :=
  func players.1 - func players.2

/-- The function `paritySign`. -/
def paritySign (index : Int) : Int :=
  (if index % 2 = 0 then 1 else 0) - (if index % 2 ≠ 0 then 1 else 0)

/-- The `for` loop of `tournamentFindWinner` over the remaining checks: the
values of `difference` and `index` when it ends. -/
def findWinnerLoop (players : Player × Player) : List (Player → Int) → Int → Int × Int
  | [], index => (0, index)
  | check :: rest, index =>
    if comparePlayerData players check ≠ 0 then (comparePlayerData players check, index)
    else findWinnerLoop players rest (index + 1)

/-- The function `tournamentFindWinner`. -/
def tournamentFindWinner (first_player second_player : Player) : Player :=
  let r := findWinnerLoop (first_player, second_player)
    [playerGetScore, fun p => playerGetLoses (some p), fun p => playerGetWins (some p),
     fun p => playerGetID (some p)] 0
  if r.1 * paritySign r.2 < 0 then second_player else first_player

/-- The function `chessEndTournamentErrorCheck`. -/
def chessEndTournamentErrorCheck (chess : Option ChessSystem) (tournament_id : Int) :
    ChessResult :=
  match chess with
  | none => ChessResult.CHESS_NULL_ARGUMENT
  | some c =>
    if isValidID tournament_id = false then ChessResult.CHESS_INVALID_ID
    else if (mapContains compareKeyTournamentID c.tournaments (some tournament_id)).1 = false then
      ChessResult.CHESS_TOURNAMENT_NOT_EXIST
    else
      match (mapGet compareKeyTournamentID c.tournaments (some tournament_id)).1 with
      | none => ChessResult.CHESS_TOURNAMENT_NOT_EXIST
      | some tournament =>
        if tournamentGetWinner (some tournament) ≠ TOURNAMENT_NOT_ENDED then
          ChessResult.CHESS_TOURNAMENT_ENDED
        else if mapGetSize tournament.games = 0 then ChessResult.CHESS_NO_GAMES
        else ChessResult.CHESS_SUCCESS

/-- The `MAP_FOREACH` loop of `chessEndTournament` over the players of the
tournament (`tournamentFindWinner` dereferences both players). -/
def endTournamentLoop (tournament_players_map : Map Int Player) :
    List Int → Option Player → Option (Option Player)
  | [], current_winner => some current_winner
  | current_player_id :: rest, current_winner =>
    if isValidID (playerGetID
        (mapGet compareKeyPlayerID tournament_players_map (some current_player_id)).1)
        = false then
      endTournamentLoop tournament_players_map rest current_winner
    else
      match current_winner,
          (mapGet compareKeyPlayerID tournament_players_map (some current_player_id)).1 with
      | some w, some current_player =>
        endTournamentLoop tournament_players_map rest
          (some (tournamentFindWinner w current_player))
      | _, _ => none

/-- The function `chessEndTournament`. -/
def chessEndTournament (chess : Option ChessSystem) (tournament_id : Int) :
    Option (ChessResult × Option ChessSystem) :=
  if chessEndTournamentErrorCheck chess tournament_id ≠ ChessResult.CHESS_SUCCESS then
    some (chessEndTournamentErrorCheck chess tournament_id, chess)
  else
    match chess with
    | none => none
    | some c =>
      match (mapGet compareKeyTournamentID c.tournaments (some tournament_id)).1 with
      | none => none
      | some tournament =>
        match endTournamentLoop tournament.players (mapForEach tournament.players)
            (mapGet compareKeyPlayerID tournament.players
              (mapGetFirst tournament.players).1).1 with
        | none => none
        | some current_winner =>
          some (ChessResult.CHESS_SUCCESS,
            some { c with tournaments :=
              (mapStore compareKeyTournamentID c.tournaments tournament_id
                (some (tournamentSetWinner tournament (playerGetID current_winner)))) })

/-- The states of the system that can be reached from `chessCreate` through
`chessAddTournament`, `chessAddGame`, `chessRemovePlayer`, `chessEndTournament`
and `chessRemoveTournament`, called with any arguments. -/
inductive Reachable : ChessSystem → Prop where
  | create : Reachable chessCreate
  | addTournament (s s1 : ChessSystem) (tournament_id max_games_per_player : Int)
      (location : Option String) (r : ChessResult) :
      Reachable s →
      chessAddTournament (some s) tournament_id max_games_per_player location
        = some (r, some s1) →
      Reachable s1
  | addGame (s s1 : ChessSystem) (tournament_id first_player second_player : Int)
      (winner : Winner) (play_time : Int) (r : ChessResult) :
      Reachable s →
      chessAddGame (some s) tournament_id first_player second_player winner play_time
        = some (r, some s1) →
      Reachable s1
  | removePlayer (s s1 : ChessSystem) (player_id : Int) (r : ChessResult) :
      Reachable s →
      chessRemovePlayer (some s) player_id = some (r, some s1) →
      Reachable s1
  | endTournament (s s1 : ChessSystem) (tournament_id : Int) (r : ChessResult) :
      Reachable s →
      chessEndTournament (some s) tournament_id = some (r, some s1) →
      Reachable s1
  | removeTournament (s s1 : ChessSystem) (tournament_id : Int) (r : ChessResult) :
      Reachable s →
      chessRemoveTournament (some s) tournament_id = some (r, some s1) →
      Reachable s1

/-! ## Specification vocabulary for the system -/

/-- The games of a tournament, as a traversal of its games map with `mapGet` on
each key visits them. -/
def tournamentGames (t : Tournament) : List Game :=
  (mapForEach t.games).filterMap
    (fun id => (mapGet compareKeyGameID t.games (some id)).1)

/-- The invariant of a tournament: both maps satisfy the map invariant, the game
keys lie between 1 and the size of the games map, no play time is negative, and
the three counters agree with the games map. -/
def TournamentInv (t : Tournament) : Prop :=
  MapWF compareKeyGameID t.games ∧ MapWF compareKeyPlayerID t.players ∧
  (∀ n ∈ t.games.nodes, 1 ≤ n.1 ∧ n.1 ≤ t.games.size) ∧
  (∀ n ∈ t.games.nodes, 0 ≤ n.2.play_time) ∧
  t.total_play_time = (t.games.nodes.map (fun n => n.2.play_time)).sum ∧
  t.longest_game_time = (t.games.nodes.map (fun n => n.2.play_time)).foldr max 0 ∧
  t.number_of_games = t.games.size

/-- The invariant of the system: both maps satisfy the map invariant and every
stored tournament satisfies the tournament invariant. -/
def SysInv (s : ChessSystem) : Prop :=
  MapWF compareKeyTournamentID s.tournaments ∧ MapWF compareKeyPlayerID s.players ∧
  ∀ n ∈ s.tournaments.nodes, TournamentInv n.2

/-- The players map that `playerSetupInMap` leaves: a new record is put when the
id is not contained. -/
def setupPlayer (players : Map Int Player) (player_id : Int) : Map Int Player :=
  if (mapContains compareKeyPlayerID players (some player_id)).1 = false then
    (mapPut compareKeyPlayerID players (some player_id) (some (playerCreate player_id))).2
  else players

/-- The record that `mapGet` returns for a player id in a players map. -/
def playerRecord (players : Map Int Player) (player_id : Int) : Option Player :=
  (mapGet compareKeyPlayerID players (some player_id)).1

/-- The tournament that `mapGet` returns for a tournament id in the system. -/
def tournamentRecord (s : ChessSystem) (tournament_id : Int) : Option Tournament :=
  (mapGet compareKeyTournamentID s.tournaments (some tournament_id)).1

/-- The record of a player before a game: the stored record, or the all-zero
record that is created for a player who is not yet present. -/
def recordBefore (players : Map Int Player) (player_id : Int) : Player :=
  match playerRecord players player_id with
  | some r => r
  | none => playerCreate player_id

/-- The statistics of a player after one more game, in the words of the
specification: for a draw the draws grow by 1, otherwise the wins of the winning
side or the losses of the losing side grow by 1, and the total play time grows
by the play time of the game.  `side` is the side of the player in the game
(`FIRST_PLAYER` or `SECOND_PLAYER`). -/
def playerAfterGame (record : Player) (side winner : Winner) (play_time : Int) : Player :=
  { id := record.id
    wins := record.wins + (if winner ≠ Winner.DRAW ∧ winner = side then 1 else 0)
    loses := record.loses + (if winner ≠ Winner.DRAW ∧ winner ≠ side then 1 else 0)
    draws := record.draws + (if winner = Winner.DRAW then 1 else 0)
    total_play_time := record.total_play_time + play_time }

/-- The statistics of a player with one game taken out again: the inverse of
`playerAfterGame`. -/
def playerBeforeGame (record : Player) (side winner : Winner) (play_time : Int) : Player :=
  { id := record.id
    wins := record.wins - (if winner ≠ Winner.DRAW ∧ winner = side then 1 else 0)
    loses := record.loses - (if winner ≠ Winner.DRAW ∧ winner ≠ side then 1 else 0)
    draws := record.draws - (if winner = Winner.DRAW then 1 else 0)
    total_play_time := record.total_play_time - play_time }

/-- The record of player `q` after the game `g`: changed by `playerAfterGame`
when `q` is one of the two sides of the game. -/
def addGameToPlayer (g : Game) (q : Int) (record : Player) : Player :=
  if q = g.first_player then
    playerAfterGame record Winner.FIRST_PLAYER g.winner g.play_time
  else if q = g.second_player then
    playerAfterGame record Winner.SECOND_PLAYER g.winner g.play_time
  else record

/-- The record of player `q` with the game `g` taken out: changed by
`playerBeforeGame` when `q` is one of the two sides of the game. -/
def removeGameFromPlayer (g : Game) (q : Int) (record : Player) : Player :=
  if q = g.first_player then
    playerBeforeGame record Winner.FIRST_PLAYER g.winner g.play_time
  else if q = g.second_player then
    playerBeforeGame record Winner.SECOND_PLAYER g.winner g.play_time
  else record

/-- The loop of `chessRemoveTournament` on the list of the games it visits. -/
def removeGamesStats : List Game → Map Int Player → Option (Map Int Player)
  | [], players => some players
  | g :: rest, players =>
    match playersRemoveStats players g.first_player g.second_player g.winner g.play_time with
    | none => none
    | some players1 => removeGamesStats rest players1

/-- A sequence of `chessAddGame` calls on one tournament, each with its own
players, winner and play time, whatever each call returns (`none`: a call used
an invalid pointer). -/
def addGames (s : ChessSystem) (tournament_id : Int) :
    List (Int × Int × Winner × Int) → Option ChessSystem
  | [] => some s
  | call :: rest =>
    match chessAddGame (some s) tournament_id call.1 call.2.1 call.2.2.1 call.2.2.2 with
    | some (_, some s1) => addGames s1 tournament_id rest
    | _ => none

/-- The invariant of the round trip, relative to the players map `players0` that
the system had before tournament `tid` was added: the system invariant holds,
tournament `tid` exists, both sides of each of its games are distinct players
present in the players map of the system, and every record of `players0` has
become that record after the games of the tournament, in their order. -/
def RoundTripInv (players0 : Map Int Player) (tid : Int) (s : ChessSystem) : Prop :=
  SysInv s ∧ 0 < tid ∧ ∃ t, tournamentRecord s tid = some t ∧
    (∀ n ∈ t.games.nodes, n.2.first_player ≠ n.2.second_player ∧ 0 < n.2.first_player ∧
      (playerRecord s.players n.2.first_player).isSome = true ∧
      (playerRecord s.players n.2.second_player).isSome = true) ∧
    (∀ q r, playerRecord players0 q = some r →
      playerRecord s.players q =
        some ((t.games.nodes.map Prod.snd).foldl (fun r g => addGameToPlayer g q r) r))

/-! ## Example runs -/

/-- Chaining of calls on one system: the next call gets the system pointer the
previous call left (nothing follows a call that used an invalid pointer). -/
def thenCall (r : Option (ChessResult × Option ChessSystem))
    (f : Option ChessSystem → Option (ChessResult × Option ChessSystem)) :
    Option (ChessResult × Option ChessSystem) :=
  match r with
  | some (_, s) => f s
  | none => none

/-- The system that a run left, `chessCreate` when it left none. -/
def systemOf (r : Option (ChessResult × Option ChessSystem)) : ChessSystem :=
  match r with
  | some (_, some s) => s
  | _ => chessCreate

/-- The result code that a run returned last. -/
def resultOf (r : Option (ChessResult × Option ChessSystem)) : Option ChessResult :=
  match r with
  | some (x, _) => some x
  | none => none

/-- The tournament stored under `tournament_id` in the system that a run left
(a new tournament when there is none). -/
def tournamentOf (r : Option (ChessResult × Option ChessSystem)) (tournament_id : Int) :
    Tournament :=
  match (mapGet compareKeyTournamentID (systemOf r).tournaments (some tournament_id)).1 with
  | some t => t
  | none => tournamentCreate 0 ""

/-- Example run: tournament 1 is added (two games per player, "London"). -/
def runA1 : Option (ChessResult × Option ChessSystem) :=
  chessAddTournament (some chessCreate) 1 2 (some "London")

/-- Example run, continued: players 1 and 2 play 10 seconds, player 1 wins. -/
def runA2 : Option (ChessResult × Option ChessSystem) :=
  thenCall runA1 (fun s => chessAddGame s 1 1 2 Winner.FIRST_PLAYER 10)

/-- Example run, continued: players 1 and 3 play 25 seconds, a draw. -/
def runA3 : Option (ChessResult × Option ChessSystem) :=
  thenCall runA2 (fun s => chessAddGame s 1 1 3 Winner.DRAW 25)

/-- Example run, continued: tournament 2 is added (three games per player,
"Paris"). -/
def runA4 : Option (ChessResult × Option ChessSystem) :=
  thenCall runA3 (fun s => chessAddTournament s 2 3 (some "Paris"))

/-- Second example run: tournament 1 is added (one game per player, "London"). -/
def runB1 : Option (ChessResult × Option ChessSystem) :=
  chessAddTournament (some chessCreate) 1 1 (some "London")

/-- Second example run, continued: players 1 and 2 play 10 seconds in
tournament 1, player 1 wins. -/
def runB2 : Option (ChessResult × Option ChessSystem) :=
  thenCall runB1 (fun s => chessAddGame s 1 1 2 Winner.FIRST_PLAYER 10)

/-- Second example run, continued: tournament 1 is ended. -/
def runB3 : Option (ChessResult × Option ChessSystem) :=
  thenCall runB2 (fun s => chessEndTournament s 1)

/-- Second example run, continued: player 1 is removed. -/
def runB4 : Option (ChessResult × Option ChessSystem) :=
  thenCall runB3 (fun s => chessRemovePlayer s 1)

/-- Second example run, continued: tournament 1 is removed. -/
def runB5 : Option (ChessResult × Option ChessSystem) :=
  thenCall runB4 (fun s => chessRemoveTournament s 1)

/-! ## Specification vocabulary for the winner of a tournament -/

/-- The tie-break order in the words of the specification: `a` is better than
`b` when its score is higher; if the scores are equal, when it has fewer losses;
if these are equal too, when it has more wins; if these are equal too, when its
id is lower. -/
def betterPlayer (a b : Player) : Prop :=
  playerGetScore b < playerGetScore a ∨
  (playerGetScore a = playerGetScore b ∧
    (a.loses < b.loses ∨
      (a.loses = b.loses ∧ (b.wins < a.wins ∨ (a.wins = b.wins ∧ a.id < b.id)))))

instance betterPlayerDecidable (a b : Player) : Decidable (betterPlayer a b) := by
  unfold betterPlayer
  infer_instance

/-- An example record: id 7, two wins, no loss, no draw (score 4). -/
def tieA : Player :=
  { id := 7, wins := 2, loses := 0, draws := 0, total_play_time := 30 }

/-- An example record: id 3, one win, one loss, two draws (score 4). -/
def tieB : Player :=
  { id := 3, wins := 1, loses := 1, draws := 2, total_play_time := 40 }

/-! ## Specification vocabulary for the removal of a player -/

/-- The statistics of a player whose result in a game is replaced by a win, in
the words of the specification: when the player had lost, the wins grow by 1 and
the losses shrink by 1; after a draw the wins grow by 1 and the draws shrink by
1; when the player had won nothing changes.  The total play time stays.  `side`
is the side of the player in the game, `winner` the stored result. -/
def technicalWin (record : Player) (side winner : Winner) : Player :=
  { record with
    wins := record.wins + (if winner = side then 0 else 1)
    loses := record.loses - (if winner ≠ Winner.DRAW ∧ winner ≠ side then 1 else 0)
    draws := record.draws - (if winner = Winner.DRAW then 1 else 0) }

/-- The statistics of the removed player after the same replacement: the result
of the game is taken out and a loss is counted. -/
def technicalLoss (record : Player) (side winner : Winner) : Player :=
  { record with
    wins := record.wins - (if winner = side then 1 else 0)
    loses := record.loses + (if winner ≠ Winner.DRAW ∧ winner ≠ side then 0 else 1)
    draws := record.draws - (if winner = Winner.DRAW then 1 else 0) }

/-- A game after the removal of player `player_id`, in the words of the
specification: a game in which the player is a current participant gets the
negated id on that side, and its stored winner becomes the side of the opponent
when the opponent has a valid id. -/
def gameAfterRemoval (player_id : Int) (g : Game) : Game :=
  if g.first_player = player_id then
    { g with
      first_player := -player_id
      winner := if 0 < g.second_player then Winner.SECOND_PLAYER else g.winner }
  else if g.second_player = player_id then
    { g with
      second_player := -player_id
      winner := if 0 < g.first_player then Winner.FIRST_PLAYER else g.winner }
  else g

/-- The record of player `q` after the removal of player `player_id`, as far as
game `g` is concerned: replaced by `technicalWin` when the removed player is a
current participant of the game and `q`, a valid id, is the opponent. -/
def technicalWinOver (player_id : Int) (g : Game) (q : Int) (record : Player) : Player :=
  if 0 < q ∧ g.first_player = player_id ∧ g.second_player = q then
    technicalWin record Winner.SECOND_PLAYER g.winner
  else if 0 < q ∧ g.second_player = player_id ∧ g.first_player = q then
    technicalWin record Winner.FIRST_PLAYER g.winner
  else record

/-- The record of player `q` after the technical wins over player `player_id`
in a list of games. -/
def technicalWins (player_id q : Int) (games : List Game) (record : Player) : Player :=
  games.foldl (fun r g => technicalWinOver player_id g q r) record

/-- The games of a tournament in which `chessRemovePlayer` gives technical wins:
all its games as long as it has not ended, none afterwards. -/
def openGames (t : Tournament) : List Game :=
  if t.winner = TOURNAMENT_NOT_ENDED then t.games.nodes.map Prod.snd else []

/-- The games of the tournaments of the system that have not ended, tournament
after tournament in the order of the tournaments map. -/
def notEndedGames (s : ChessSystem) : List Game :=
  s.tournaments.nodes.flatMap (fun n => openGames n.2)

/-- Two players maps hold records for the same ids, each with the same `id`
field. -/
def SameIds (m m1 : Map Int Player) : Prop :=
  ∀ q, (playerRecord m1 q).map (fun r => r.id) = (playerRecord m q).map (fun r => r.id)

/-- The invariant of a players map: every key is a valid id and the record
stored under it carries this id. -/
def PlayersInv (m : Map Int Player) : Prop :=
  ∀ q r, playerRecord m q = some r → 0 < q ∧ r.id = q

/-- The invariant of a game: the two sides are not 0 and are the ids, negated or
not, of two different players. -/
def GameInv (g : Game) : Prop :=
  g.first_player ≠ 0 ∧ g.second_player ≠ 0 ∧
    g.first_player.natAbs ≠ g.second_player.natAbs

/-- Both sides of a game, as far as they are valid ids, have a record in the
players map. -/
def GameLinked (players : Map Int Player) (g : Game) : Prop :=
  (0 < g.first_player → (playerRecord players g.first_player).isSome = true) ∧
  (0 < g.second_player → (playerRecord players g.second_player).isSome = true)

/-- What ties a tournament to the players map of the system: its players map
satisfies the players invariant, the limit of games is positive, every game
satisfies the game invariant, and as long as the tournament has not ended every
valid side of a game has a record in both players maps. -/
def TournamentLinks (players : Map Int Player) (t : Tournament) : Prop :=
  PlayersInv t.players ∧ 0 < t.max_games_per_player ∧
  (∀ n ∈ t.games.nodes, GameInv n.2) ∧
  (t.winner = TOURNAMENT_NOT_ENDED →
    ∀ n ∈ t.games.nodes, GameLinked t.players n.2 ∧ GameLinked players n.2)

/-- The second invariant of the system: the players map satisfies the players
invariant, every tournament id is valid and every tournament is tied to the
players map of the system. -/
def LinkInv (s : ChessSystem) : Prop :=
  PlayersInv s.players ∧
  ∀ tid t, tournamentRecord s tid = some t → 0 < tid ∧ TournamentLinks s.players t

/-- Two tournaments agree in the winner, the settings and the counters. -/
def SameSettings (t t1 : Tournament) : Prop :=
  t1.winner = t.winner ∧ t1.max_games_per_player = t.max_games_per_player ∧
  t1.location = t.location ∧ t1.number_of_games = t.number_of_games ∧
  t1.number_of_players = t.number_of_players ∧
  t1.longest_game_time = t.longest_game_time ∧ t1.total_play_time = t.total_play_time

/-- What `chessRemovePlayer` for player `player_id` makes of a tournament `t`:
the winner, the settings and the counters stay; the games of an ended tournament
stay, those of a tournament that has not ended become `gameAfterRemoval`; the
player has no record any more in the players map of the tournament, and every
other record is the one after the technical wins. -/
def RemovedFrom (player_id : Int) (t t1 : Tournament) : Prop :=
  SameSettings t t1 ∧ t1.games.size = t.games.size ∧
  (t.winner ≠ TOURNAMENT_NOT_ENDED → t1.games = t.games) ∧
  (t.winner = TOURNAMENT_NOT_ENDED →
    t1.games.nodes = t.games.nodes.map (fun n => (n.1, gameAfterRemoval player_id n.2))) ∧
  (∀ q, playerRecord t1.players q =
    if q = player_id then none
    else (playerRecord t.players q).map (technicalWins player_id q (openGames t)))

/-! ## Calls and sequences of calls -/

/-- A call of one of the five functions that change the system, with its
arguments. -/
inductive Call where
  | addTournament (tournament_id max_games_per_player : Int)
      (tournament_location : Option String)
  | addGame (tournament_id first_player second_player : Int) (winner : Winner)
      (play_time : Int)
  | removePlayer (player_id : Int)
  | endTournament (tournament_id : Int)
  | removeTournament (tournament_id : Int)
  deriving DecidableEq

/-- The call made on a system. -/
def Call.run (c : Call) (chess : Option ChessSystem) :
    Option (ChessResult × Option ChessSystem) :=
  match c with
  | Call.addTournament tournament_id max_games_per_player tournament_location =>
    chessAddTournament chess tournament_id max_games_per_player tournament_location
  | Call.addGame tournament_id first_player second_player winner play_time =>
    chessAddGame chess tournament_id first_player second_player winner play_time
  | Call.removePlayer player_id => chessRemovePlayer chess player_id
  | Call.endTournament tournament_id => chessEndTournament chess tournament_id
  | Call.removeTournament tournament_id => chessRemoveTournament chess tournament_id

/-- A sequence of calls on a system, whatever each call returns: the system
that the last call leaves (`none`: a call used an invalid pointer). -/
def runCalls : List Call → ChessSystem → Option ChessSystem
  | [], s => some s
  | c :: rest, s =>
    match c.run (some s) with
    | some (_, some s1) => runCalls rest s1
    | _ => none

/-- What one call can make of a tournament `t` that is stored under
`tournament_id`, as a relation between the tournament before and after: it is
left as it is, or a game is added to it, or its winner is set, or a player is
removed from it. -/
def CallChanges (players : Map Int Player) (c : Call) (r : ChessResult)
    (tournament_id : Int) (t t1 : Tournament) (players1 : Map Int Player) : Prop :=
  t1 = t ∨
  (∃ p1 p2 w time, c = Call.addGame tournament_id p1 p2 w time ∧
    r = ChessResult.CHESS_SUCCESS ∧ t.winner = TOURNAMENT_NOT_ENDED ∧ 0 < p1 ∧ 0 < p2 ∧
    p1 ≠ p2 ∧ chessAddGameUpdate t players p1 p2 w time = some (t1, players1)) ∨
  (∃ winner_id, c = Call.endTournament tournament_id ∧ r = ChessResult.CHESS_SUCCESS ∧
    t.winner = TOURNAMENT_NOT_ENDED ∧ t1 = tournamentSetWinner t winner_id) ∨
  (∃ p, c = Call.removePlayer p ∧ r = ChessResult.CHESS_SUCCESS ∧ 0 < p ∧
    RemovedFrom p t t1)

/-- The result codes of a sequence of calls on a system, call after call
(`none`: the call used an invalid pointer, and nothing follows it). -/
def callResults : List Call → Option ChessSystem → List (Option ChessResult)
  | [], _ => []
  | c :: rest, s =>
    match c.run s with
    | some (r, s1) => some r :: callResults rest s1
    | none => [none]

/-- The system after a sequence of calls on a new system (`chessCreate` when a
call used an invalid pointer). -/
def stateAfter (calls : List Call) : ChessSystem :=
  (runCalls calls chessCreate).getD chessCreate

/-- The tournament stored under `tournament_id` in a system (a new tournament
when there is none). -/
def tournamentIn (s : ChessSystem) (tournament_id : Int) : Tournament :=
  (tournamentRecord s tournament_id).getD (tournamentCreate 0 "")

/-- Example calls: tournament 1 is added, players 1 and 2 play in it, and it is
ended. -/
def callsEnded : List Call :=
  [Call.addTournament 1 1 (some "London"),
   Call.addGame 1 1 2 Winner.FIRST_PLAYER 10,
   Call.endTournament 1]

/-- Example calls after `callsEnded`: none of them removes tournament 1. -/
def callsLater : List Call :=
  [Call.addGame 1 3 4 Winner.DRAW 5,
   Call.removePlayer 1,
   Call.endTournament 1,
   Call.addTournament 2 2 (some "Paris"),
   Call.addGame 2 2 5 Winner.SECOND_PLAYER 7,
   Call.removeTournament 2]

/-- Example calls: tournament 1 is added; player 1 beats player 2, player 3 beats
player 4, and players 1 and 3 draw. -/
def callsTie : List Call :=
  [Call.addTournament 1 3 (some "London"),
   Call.addGame 1 3 4 Winner.FIRST_PLAYER 10,
   Call.addGame 1 1 2 Winner.FIRST_PLAYER 10,
   Call.addGame 1 3 1 Winner.DRAW 5]

/-- Example calls: tournament 1 is added, players 1 and 2 play in it, and both
players are removed from the system. -/
def callsNoPlayers : List Call :=
  [Call.addTournament 1 1 (some "London"),
   Call.addGame 1 1 2 Winner.FIRST_PLAYER 10,
   Call.removePlayer 1,
   Call.removePlayer 2]

/-- Example calls after `callsNoPlayers`: tournament 1 is ended, ended once
more, and players 3 and 4 play in it. -/
def callsEndTwice : List Call :=
  [Call.endTournament 1,
   Call.endTournament 1,
   Call.addGame 1 3 4 Winner.FIRST_PLAYER 5]

/-- Example calls: tournaments 1 and 2 are added; in tournament 1 player 1 beats
player 2 and players 3 and 1 draw; in tournament 2 player 2 beats player 1 and
player 3; tournament 2 is ended. -/
def callsTechnical : List Call :=
  [Call.addTournament 1 3 (some "London"),
   Call.addTournament 2 3 (some "Paris"),
   Call.addGame 1 1 2 Winner.FIRST_PLAYER 10,
   Call.addGame 1 3 1 Winner.DRAW 20,
   Call.addGame 2 1 2 Winner.SECOND_PLAYER 5,
   Call.addGame 2 2 3 Winner.FIRST_PLAYER 7,
   Call.endTournament 2]

/-- The function `chessCalculateAveragePlayTimeErrorCheck`. -/
def chessCalculateAveragePlayTimeErrorCheck (chess : Option ChessSystem) (player_id : Int) :
    ChessResult :=
  match chess with
  | none => ChessResult.CHESS_NULL_ARGUMENT
  | some c =>
    if isValidID player_id = false then ChessResult.CHESS_INVALID_ID
    else if (mapContains compareKeyPlayerID c.players (some player_id)).1 = false then
      ChessResult.CHESS_PLAYER_NOT_EXIST
    else ChessResult.CHESS_SUCCESS

/-- The result code that `chessCalculateAveragePlayTime` reports: the function
stores the value of its error check in `*chess_result` before anything else. -/
def chessCalculateAveragePlayTimeResult (chess : Option ChessSystem) (player_id : Int) :
    ChessResult :=
  chessCalculateAveragePlayTimeErrorCheck chess player_id

/-- Example calls, as in the repository's test `testChessRemovePlayer_2`:
tournament 1 is added and players 1 and 2 play in it. -/
def callsPlayed : List Call :=
  [Call.addTournament 1 3 (some "Location one"),
   Call.addGame 1 1 2 Winner.FIRST_PLAYER 6]

/-- Example calls: `callsPlayed`, and then player 1 is removed. -/
def callsRemoved : List Call :=
  callsPlayed ++ [Call.removePlayer 1]

/-- Example calls: `callsRemoved`, and then players 1 and 2 play in tournament 1
again. -/
def callsRejoined : List Call :=
  callsRemoved ++ [Call.addGame 1 1 2 Winner.FIRST_PLAYER 6]

/-! ## Specification vocabulary for the number of players -/

/-- The ids of the players that have taken part in the games of a tournament,
side by side and game by game; a removed player appears with the id it had (its
side holds the negated id). -/
def participantIds (t : Tournament) : List Int :=
  (tournamentGames t).flatMap (fun g =>
    [(g.first_player.natAbs : Int), (g.second_player.natAbs : Int)])

/-- The number of distinct player ids that have taken part in a game of the
tournament. -/
def distinctParticipants (t : Tournament) : Nat :=
  (participantIds t).dedup.length

/-- The invariant behind the number of players: it is at least the number of
distinct ids that have taken part, and every id with a record in the players map
of the tournament has taken part in a game. -/
def CountInv (t : Tournament) : Prop :=
  (distinctParticipants t : Int) ≤ t.number_of_players ∧
  ∀ q, (playerRecord t.players q).isSome = true → q ∈ participantIds t

/-! ## Specification vocabulary for the games of a pair and of a player -/

/-- The games of a tournament in which the id `p` is a current participant: one
of the two sides holds `p` (the side of a removed player holds the negated
id). -/
def gamesOf (t : Tournament) (p : Int) : List Game :=
  (tournamentGames t).filter (fun g => isPlayerInCurrentGame (some g) p)

/-- The games of a tournament between the unordered pair of current ids `a` and
`b`. -/
def gamesBetween (t : Tournament) (a b : Int) : List Game :=
  (tournamentGames t).filter (fun g =>
    (decide (g.first_player = a) && decide (g.second_player = b)) ||
    (decide (g.first_player = b) && decide (g.second_player = a)))

/-- The invariant behind the two limits of `chessAddGame`: no valid id is a
current participant of more than `max_games_per_player` games of the
tournament, and no unordered pair of valid ids has more than one game in it. -/
def LimitsInv (t : Tournament) : Prop :=
  (∀ p, 0 < p → ((gamesOf t p).length : Int) ≤ t.max_games_per_player) ∧
  (∀ a b, 0 < a → 0 < b → (gamesBetween t a b).length ≤ 1)

/-- Example calls: tournaments 1 and 2 are added, each with at most one game
for a player, and players 1 and 2 play in tournament 1. -/
def callsPair : List Call :=
  [Call.addTournament 1 1 (some "London"),
   Call.addTournament 2 1 (some "Paris"),
   Call.addGame 1 1 2 Winner.FIRST_PLAYER 10]

/-! ## player.c: levels and ranks -/

/-- The struct `rank_t`.  A C `double` is a rational number. -/
structure Rank where
  level : ℚ
  id : Int
  deriving DecidableEq

/-- The function `sign`, which returns `(num < 0) - (num > 0)`. -/
def sign (num : ℚ) : Int :=
  (if num < 0 then 1 else 0) - (if num > 0 then 1 else 0)

/-- The comparator `compareKeyRank`. -/
def compareKeyRank (element1 element2 : Rank) : Int :=
  if element1.level - element2.level ≠ 0 then sign (element1.level - element2.level)
  else element1.id - element2.id

/-- The function `playerRankCreate`. -/
def playerRankCreate (level : ℚ) (id : Int) : Rank :=
  { level := level, id := id }

/-- The function `playerRankGetID`. -/
def playerRankGetID (rank : Rank) : Int :=
  rank.id

/-- The function `playerRankGetLevel`. -/
def playerRankGetLevel (rank : Rank) : ℚ :=
  rank.level

/-- The integer nearest to `x`; when `x` lies half-way between two integers, the
even one of the two. -/
def roundHalfEven (x : ℚ) : Int :=
  if x - ⌊x⌋ < 1 / 2 then ⌊x⌋
  else if 1 / 2 < x - ⌊x⌋ then ⌊x⌋ + 1
  else if ⌊x⌋ % 2 = 0 then ⌊x⌋ else ⌊x⌋ + 1

/-- The result of an operation on `double`s whose exact result is `q`: the
nearest number with a significand of 53 binary digits, the one with the even
significand when two are equally near (IEEE 754 binary64, the default rounding
of C).  With `e = Int.log 2 |q|`, the exponent of `q`, the numbers of that form
around `q` are the multiples of `2 ^ (e - 52)`.  The range of the exponent of a
`double` is not modelled. -/
def roundDouble (q : ℚ) : ℚ :=
  if q = 0 then 0
  else (roundHalfEven (q / 2 ^ (Int.log 2 |q| - 52)) : ℚ) * 2 ^ (Int.log 2 |q| - 52)

/-- A rational number that is a `double`: an integer of at most 53 binary
digits times a power of two (the range of the exponent is not modelled). -/
def IsDouble (d : ℚ) : Prop :=
  ∃ m k : Int, |m| ≤ 2 ^ 53 ∧ d = (m : ℚ) * 2 ^ k

/-- The function `playerGetLevel`.  The three counters are converted to
`double`; the division is made only when the divisor `n` is not 0.  The
counters are `int`s, so the conversions, the three products and the sums are
exact in `double`; the division rounds to the nearest `double`. -/
def playerGetLevel (player : Option Player) : ℚ :=
  if (playerGetWins player : ℚ) + (playerGetLoses player : ℚ) + (playerGetDraws player : ℚ) = 0
  then (playerGetWins player : ℚ) + (playerGetLoses player : ℚ) + (playerGetDraws player : ℚ)
  else
    roundDouble ((6 * (playerGetWins player : ℚ) - 10 * (playerGetLoses player : ℚ) +
        2 * (playerGetDraws player : ℚ)) /
      ((playerGetWins player : ℚ) + (playerGetLoses player : ℚ) + (playerGetDraws player : ℚ)))

/-! ## chessSystem.c: the average play time and the levels report -/

/-- A `double` that `chessCalculateAveragePlayTime` returns: a rational number,
or the result of a division by 0 (an infinity or not a number), or the result
code converted to `double` (the numbers of the enum `ChessResult` are in
`chessSystem.h`, which is not among the sources). -/
inductive Double where
  | finite (value : ℚ)
  | notFinite
  | resultCode (chess_result : ChessResult)
  deriving DecidableEq

/-- The division of two `double` values. -/
def doubleDivide (x y : ℚ) : Double :=
  if y = 0 then Double.notFinite else Double.finite (x / y)

/-- The function `chessCalculateAveragePlayTime`: the result code that is stored
in `*chess_result`, and the `double` that is returned. -/
def chessCalculateAveragePlayTime (chess : Option ChessSystem) (player_id : Int) :
    Option (ChessResult × Double) :=
  if chessCalculateAveragePlayTimeErrorCheck chess player_id ≠ ChessResult.CHESS_SUCCESS then
    some (chessCalculateAveragePlayTimeErrorCheck chess player_id,
      Double.resultCode (chessCalculateAveragePlayTimeErrorCheck chess player_id))
  else
    match chess with
    | none => none
    | some c =>
      if (playerGetTotalPlayTime (mapGet compareKeyPlayerID c.players (some player_id)).1 : ℚ)
          = 0 then
        some (ChessResult.CHESS_SUCCESS,
          Double.finite
            (playerGetTotalPlayTime (mapGet compareKeyPlayerID c.players (some player_id)).1 : ℚ))
      else
        some (ChessResult.CHESS_SUCCESS,
          doubleDivide
            (playerGetTotalPlayTime (mapGet compareKeyPlayerID c.players (some player_id)).1 : ℚ)
            ((playerGetWins (mapGet compareKeyPlayerID c.players (some player_id)).1 : ℚ) +
              (playerGetLoses (mapGet compareKeyPlayerID c.players (some player_id)).1 : ℚ) +
              (playerGetDraws (mapGet compareKeyPlayerID c.players (some player_id)).1 : ℚ)))

/-- The first `MAP_FOREACH` loop of `chessSavePlayersLevels`, over the players
of the system: the rank map after the loop, or `none` when the function returns
`CHESS_OUT_OF_MEMORY` from inside the loop. -/
def savePlayersLevelsLoop (players : Map Int Player) :
    List Int → Map Rank Player → Option (Map Rank Player)
  | [], players_rank_map => some players_rank_map
  | current_player_id :: rest, players_rank_map =>
    if playerGetTotalPlayTime
        (mapGet compareKeyPlayerID players (some current_player_id)).1 = 0 then
      savePlayersLevelsLoop players rest players_rank_map
    else if (mapPut compareKeyRank players_rank_map
          (some (playerRankCreate
            (playerGetLevel (mapGet compareKeyPlayerID players (some current_player_id)).1)
            (playerGetID (mapGet compareKeyPlayerID players (some current_player_id)).1)))
          (mapGet compareKeyPlayerID players (some current_player_id)).1).1
        ≠ MapResult.MAP_SUCCESS then none
    else
      savePlayersLevelsLoop players rest
        (mapPut compareKeyRank players_rank_map
          (some (playerRankCreate
            (playerGetLevel (mapGet compareKeyPlayerID players (some current_player_id)).1)
            (playerGetID (mapGet compareKeyPlayerID players (some current_player_id)).1)))
          (mapGet compareKeyPlayerID players (some current_player_id)).1).2

/-- The function `chessSavePlayersLevels`.  The file is the list of the rows
written to it so far; a row is the pair of the id and the level that one call
`fprintf(file, "%d %.2lf\n", id, level)` gets, and writing to an open file
succeeds.  The second component of the result is the file afterwards. -/
def chessSavePlayersLevels (chess : Option ChessSystem) (file : Option (List (Int × ℚ))) :
    ChessResult × Option (List (Int × ℚ)) :=
  match chess, file with
  | some c, some rows =>
    match savePlayersLevelsLoop c.players (mapForEach c.players) mapCreate with
    | none => (ChessResult.CHESS_OUT_OF_MEMORY, some rows)
    | some players_rank_map =>
      (ChessResult.CHESS_SUCCESS,
        some (rows ++ (mapForEach players_rank_map).map
          (fun current_player_rank =>
            (playerRankGetID current_player_rank, playerRankGetLevel current_player_rank))))
  | _, _ => (ChessResult.CHESS_NULL_ARGUMENT, file)

/-- The rows that `chessSavePlayersLevels` writes for a system to an empty
file. -/
def playersLevelsRows (s : ChessSystem) : List (Int × ℚ) :=
  ((chessSavePlayersLevels (some s) (some [])).2).getD []

/-! ## Specification vocabulary for the levels report -/

/-- The key under which the first loop of `chessSavePlayersLevels` puts a player
record into the rank map. -/
def rankOf (record : Player) : Rank :=
  playerRankCreate (playerGetLevel (some record)) (playerGetID (some record))

/-- The node list of the rank map after the first loop of
`chessSavePlayersLevels` has visited the nodes `l` of the players map, from the
node list `acc`: a record whose total play time is 0 is skipped. -/
def rankNodes (l : List (Int × Player)) (acc : List (Rank × Player)) : List (Rank × Player) :=
  l.foldl (fun nodes n =>
    if n.2.total_play_time = 0 then nodes
    else putNodes compareKeyRank (rankOf n.2) n.2 nodes) acc

/-! ## Example runs for the average play time and the levels report -/

/-- Example calls: tournament 1 is added and players 1 and 2 play a game of 0
seconds in it. -/
def callsZeroTime : List Call :=
  [Call.addTournament 1 1 (some "London"),
   Call.addGame 1 1 2 Winner.FIRST_PLAYER 0]

/-- Example calls, as in the repository's test `testAvgGameTime`: tournaments 1
and 2 are added, and player 1 plays a game of 6 seconds and a game of 14 seconds
in tournament 1. -/
def callsAverage : List Call :=
  [Call.addTournament 1 3 (some "Location one"),
   Call.addTournament 2 3 (some "Location two"),
   Call.addGame 1 1 2 Winner.FIRST_PLAYER 6,
   Call.addGame 1 1 3 Winner.FIRST_PLAYER 14]

/-- Example calls: `callsAverage`, and then player 1 plays a game of 20 seconds
in tournament 2. -/
def callsAverageThree : List Call :=
  callsAverage ++ [Call.addGame 2 1 3 Winner.FIRST_PLAYER 20]

/-- Example calls: player 1 loses a game of 10 seconds in tournament 1, the
tournament is ended, player 1 is removed from the system and then wins a game
of 7 seconds in tournament 2, and tournament 1 is removed. -/
def callsDivide : List Call :=
  [Call.addTournament 1 1 (some "London"),
   Call.addGame 1 1 2 Winner.SECOND_PLAYER 10,
   Call.endTournament 1,
   Call.removePlayer 1,
   Call.addTournament 2 1 (some "Paris"),
   Call.addGame 2 1 3 Winner.FIRST_PLAYER 7,
   Call.removeTournament 1]

/-! ## A traversal that looks up each key -/

/-- Modelled from the spec: a `MAP_FOREACH` loop (the macro of `map.h`, which is
not among the sources) whose body calls `mapGet(map, key)` on the key that it
has just been given, as the loops of the system do.  These are the steps after
the first one: `mapGetNext`, then `mapGet` on the key, until `mapGetNext`
returns `NULL`; the result lists each key with what `mapGet` returned for it,
and `fuel` bounds the number of steps. -/
def mapTraverseGetLoop {K V : Type} (cmp : K → K → Int) :
    Nat → Map K V → Option (List (K × Option V))
  | 0, _ => none
  | fuel + 1, map =>
    match mapGetNext map with
    | none => none
    | some (none, _) => some []
    | some (some k, map1) =>
      match mapTraverseGetLoop cmp fuel (mapGet cmp map1 (some k)).2 with
      | some visits => some ((k, (mapGet cmp map1 (some k)).1) :: visits)
      | none => none

/-- Modelled from the spec: the whole `MAP_FOREACH` loop with `mapGet` in its
body, from `mapGetFirst` on. -/
def mapTraverseGet {K V : Type} (cmp : K → K → Int) (fuel : Nat) (map : Map K V) :
    Option (List (K × Option V)) :=
  match mapGetFirst map with
  | (none, _) => some []
  | (some k, map1) =>
    match mapTraverseGetLoop cmp fuel (mapGet cmp map1 (some k)).2 with
    | some visits => some ((k, (mapGet cmp map1 (some k)).1) :: visits)
    | none => none

/-! ## tournament.c and chessSystem.c: the tournament statistics -/

/-- The function `tournamentGetLongestGameTime`. -/
def tournamentGetLongestGameTime (tournament : Option Tournament) : Int :=
  match tournament with
  | none => TOURNAMENT_NOT_EXIST
  | some t => t.longest_game_time

/-- The function `tournamentGetLocation` (`INVALID_LOCATION` is `NULL`). -/
def tournamentGetLocation (tournament : Option Tournament) : Option String :=
  match tournament with
  | none => none
  | some t => some t.location

/-- The function `tournamentGetNumberOfGames`. -/
def tournamentGetNumberOfGames (tournament : Option Tournament) : Int :=
  match tournament with
  | none => TOURNAMENT_NOT_EXIST
  | some t => t.number_of_games

/-- The function `tournamentGetTotalPlayTime`. -/
def tournamentGetTotalPlayTime (tournament : Option Tournament) : Int :=
  match tournament with
  | none => TOURNAMENT_NOT_EXIST
  | some t => t.total_play_time

/-- The function `tournamentGetNumberOfPlayers`. -/
def tournamentGetNumberOfPlayers (tournament : Option Tournament) : Int :=
  match tournament with
  | none => TOURNAMENT_NOT_EXIST
  | some t => t.number_of_players

/-- The function `isAnyTournamentEnded`. -/
def isAnyTournamentEnded (chess : ChessSystem) : Bool :=
  (mapForEach chess.tournaments).any (fun current_tournament_id =>
    decide (tournamentGetWinner
      (mapGet compareKeyTournamentID chess.tournaments (some current_tournament_id)).1
        ≠ TOURNAMENT_NOT_ENDED))

/-- The six values that one `fprintf` call of `chessSaveTournamentStatistics`
writes for a tournament, in the order of the format string. -/
structure TournamentStatistics where
  winner : Int
  longest_game_time : Int
  average_game_time : ℚ
  location : Option String
  number_of_games : Int
  number_of_players : Int
  deriving DecidableEq

/-- The `MAP_FOREACH` loop of `chessSaveTournamentStatistics` over the
tournaments: the records written, in the order in which they are written.  A
tournament whose winner is not a valid id is skipped; the division is made only
when the divisor `number_of_games` is not 0. -/
def saveTournamentStatisticsLoop (tournaments : Map Int Tournament) :
    List Int → List TournamentStatistics
  | [] => []
  | current_tournament_id :: rest =>
    if isValidID (tournamentGetWinner
        (mapGet compareKeyTournamentID tournaments (some current_tournament_id)).1) = false then
      saveTournamentStatisticsLoop tournaments rest
    else
      { winner := tournamentGetWinner
          (mapGet compareKeyTournamentID tournaments (some current_tournament_id)).1
        longest_game_time := tournamentGetLongestGameTime
          (mapGet compareKeyTournamentID tournaments (some current_tournament_id)).1
        average_game_time :=
          if tournamentGetNumberOfGames
              (mapGet compareKeyTournamentID tournaments (some current_tournament_id)).1 ≠ 0 then
            (tournamentGetTotalPlayTime
              (mapGet compareKeyTournamentID tournaments (some current_tournament_id)).1 : ℚ) /
            (tournamentGetNumberOfGames
              (mapGet compareKeyTournamentID tournaments (some current_tournament_id)).1 : ℚ)
          else 0
        location := tournamentGetLocation
          (mapGet compareKeyTournamentID tournaments (some current_tournament_id)).1
        number_of_games := tournamentGetNumberOfGames
          (mapGet compareKeyTournamentID tournaments (some current_tournament_id)).1
        number_of_players := tournamentGetNumberOfPlayers
          (mapGet compareKeyTournamentID tournaments (some current_tournament_id)).1 } ::
        saveTournamentStatisticsLoop tournaments rest

/-- The function `chessSaveTournamentStatistics`.  Opening the file at
`path_file` for writing and writing to it succeed; the second component of the
result is the content of the file that was written, record after record
(`none`: no file was opened). -/
def chessSaveTournamentStatistics (chess : Option ChessSystem) (path_file : Option String) :
    ChessResult × Option (List TournamentStatistics) :=
  match chess, path_file with
  | some c, some _ =>
    if isAnyTournamentEnded c = false then (ChessResult.CHESS_NO_TOURNAMENTS_ENDED, none)
    else
      (ChessResult.CHESS_SUCCESS,
        some (saveTournamentStatisticsLoop c.tournaments (mapForEach c.tournaments)))
  | _, _ => (ChessResult.CHESS_NULL_ARGUMENT, none)

/-- The side of player `q` in a game of which `q` is a current participant. -/
def sideOf (g : Game) (q : Int) : Winner :=
  if g.first_player = q then Winner.FIRST_PLAYER else Winner.SECOND_PLAYER

/-- The record of player `q` after a list of games, from the all-zero record:
every game of which `q` is a side is counted with its stored winner and its
play time. -/
def tallyOf (q : Int) (games : List Game) : Player :=
  games.foldl (fun r g => addGameToPlayer g q r) (playerCreate q)

/-- The invariant of the players map of a tournament: every record is the tally
over the games of the tournament. -/
def TallyInv (t : Tournament) : Prop :=
  ∀ q r, playerRecord t.players q = some r → r = tallyOf q (tournamentGames t)

/-! ## chessAddGame when an allocation fails -/

/-- The function `chessDestroy`: the two maps and the system are released, so
no system remains. -/
def chessDestroy (_chess : Option ChessSystem) : Option ChessSystem :=
  none

/-- The function `chessOutOfMemoryDestroy`: the system is destroyed and the
result is `CHESS_OUT_OF_MEMORY`. -/
def chessOutOfMemoryDestroy (chess : Option ChessSystem) : ChessResult × Option ChessSystem :=
  (ChessResult.CHESS_OUT_OF_MEMORY, chessDestroy chess)

/-- The allocations of a call of `chessAddGame` whose result the code tests:
the `malloc` of `gameCreate` in `chessAddGame`; the `malloc` of `createNode`
when `mapPut` links a new node for the game; and, for a player and a players
map (of the system or of the tournament), the `malloc` of `playerCreate` in
`playerSetupInMap` and the `malloc` of `createNode` when `mapPut` links a new
node for the record.  The copies of the key and of the data that `mapPut` makes
are allocations as well; `map.c` does not test their result, and they are
taken to succeed. -/
inductive AllocationSite where
  | gameCreate
  | gameNode
  | playerCreate (player_map : PlayersMapRef) (player_id : Int)
  | playerNode (player_map : PlayersMapRef) (player_id : Int)
  deriving DecidableEq

/-- The function `gameCreate` with the outcome of its `malloc`: `NULL` when the
allocation fails. -/
def gameCreateAlloc (malloc_fails : Bool) (winner : Winner)
    (play_time first_player second_player : Int) : Option Game :=
  if malloc_fails = true then none
  else some (gameCreate winner play_time first_player second_player)

/-- The function `playerCreate` with the outcome of its `malloc`: `NULL` when
the allocation fails. -/
def playerCreateAlloc (malloc_fails : Bool) (id : Int) : Option Player :=
  if malloc_fails = true then none else some (playerCreate id)

/-- The function `mapPut` with the outcome of the `malloc` of `createNode`.  The
lone head node of an empty map and the node of a key that is present are used
again, without `createNode`.  Otherwise `mapInsertNewNode` calls `createNode`
first: when its `malloc` fails, `mapInsertNewNode` returns `false` and `mapPut`
returns `MAP_OUT_OF_MEMORY`, the map being as `mapContains` left it. -/
def mapPutAlloc {K V : Type} (node_malloc_fails : Bool) (cmp : K → K → Int) (map : Map K V)
    (keyElement : Option K) (dataElement : Option V) : MapResult × Map K V :=
  match keyElement, dataElement with
  | some k, some v =>
    match map.nodes with
    | [] => (MapResult.MAP_SUCCESS, { map with nodes := [(k, v)], size := 1 })
    | _ :: _ =>
      if (mapContains cmp map (some k)).1 = true then
        (MapResult.MAP_SUCCESS, mapChangeExistingData cmp (mapContains cmp map (some k)).2 k v)
      else if node_malloc_fails = true then
        (MapResult.MAP_OUT_OF_MEMORY, (mapContains cmp map (some k)).2)
      else
        (MapResult.MAP_SUCCESS,
          { mapInsertNewNode cmp (mapContains cmp map (some k)).2 k v with
            size := (mapContains cmp map (some k)).2.size + 1 })
  | _, _ => (MapResult.MAP_NULL_ARGUMENT, map)

/-- The function `playerSetupInMap` when allocations may fail (`fails` tells
for each tested allocation whether it fails).  When `playerCreate` returns
`NULL` the function returns `MAP_OUT_OF_MEMORY` at once; when `mapPut` fails the
function still goes on to `playerDestroy` and, for the players map of the
tournament, to `tournamentUpdateNumberOfPlayers`, and returns
`MAP_OUT_OF_MEMORY`. -/
def playerSetupInMapAlloc (fails : AllocationSite → Bool) (tournament : Tournament)
    (chess_players : Map Int Player) (player_map : PlayersMapRef) (player_id : Int) :
    MapResult × Tournament × Map Int Player :=
  match player_map with
  | PlayersMapRef.chessPlayers =>
    if (mapContains compareKeyPlayerID chess_players (some player_id)).1 = false then
      match playerCreateAlloc (fails (AllocationSite.playerCreate player_map player_id))
          player_id with
      | none => (MapResult.MAP_OUT_OF_MEMORY, tournament, chess_players)
      | some player =>
        (if (mapPutAlloc (fails (AllocationSite.playerNode player_map player_id))
                compareKeyPlayerID chess_players (some player_id) (some player)).1
              ≠ MapResult.MAP_SUCCESS
          then MapResult.MAP_OUT_OF_MEMORY else MapResult.MAP_SUCCESS,
         tournament,
         (mapPutAlloc (fails (AllocationSite.playerNode player_map player_id))
            compareKeyPlayerID chess_players (some player_id) (some player)).2)
    else (MapResult.MAP_SUCCESS, tournament, chess_players)
  | PlayersMapRef.tournamentPlayers =>
    if (mapContains compareKeyPlayerID tournament.players (some player_id)).1 = false then
      match playerCreateAlloc (fails (AllocationSite.playerCreate player_map player_id))
          player_id with
      | none => (MapResult.MAP_OUT_OF_MEMORY, tournament, chess_players)
      | some player =>
        (if (mapPutAlloc (fails (AllocationSite.playerNode player_map player_id))
                compareKeyPlayerID tournament.players (some player_id) (some player)).1
              ≠ MapResult.MAP_SUCCESS
          then MapResult.MAP_OUT_OF_MEMORY else MapResult.MAP_SUCCESS,
         tournamentUpdateNumberOfPlayers
           { tournament with players :=
              (mapPutAlloc (fails (AllocationSite.playerNode player_map player_id))
                compareKeyPlayerID tournament.players (some player_id) (some player)).2 },
         chess_players)
    else (MapResult.MAP_SUCCESS, tournament, chess_players)

/-- The function `playerMapUpdatePlayers` when allocations may fail. -/
def playerMapUpdatePlayersAlloc (fails : AllocationSite → Bool) (tournament : Tournament)
    (chess_players : Map Int Player) (players_map : PlayersMapRef)
    (first_player second_player : Int) : MapResult × Tournament × Map Int Player :=
  let r1 := playerSetupInMapAlloc fails tournament chess_players players_map first_player
  if r1.1 ≠ MapResult.MAP_SUCCESS then (MapResult.MAP_OUT_OF_MEMORY, r1.2)
  else
    let r2 := playerSetupInMapAlloc fails r1.2.1 r1.2.2 players_map second_player
    if r2.1 ≠ MapResult.MAP_SUCCESS then (MapResult.MAP_OUT_OF_MEMORY, r2.2)
    else (MapResult.MAP_SUCCESS, r2.2)

/-- The function `newGameSystemAssign` when allocations may fail: the three
steps are the operands of `||`, so the first one that fails ends the function
with `CHESS_OUT_OF_MEMORY`, whatever the earlier steps have stored. -/
def newGameSystemAssignAlloc (fails : AllocationSite → Bool) (tournament : Tournament)
    (chess_players_map : Map Int Player) (new_game : Game)
    (new_game_id first_player second_player : Int) :
    ChessResult × Tournament × Map Int Player :=
  let r0 := mapPutAlloc (fails AllocationSite.gameNode) compareKeyGameID tournament.games
    (some new_game_id) (some new_game)
  if r0.1 ≠ MapResult.MAP_SUCCESS then
    (ChessResult.CHESS_OUT_OF_MEMORY, { tournament with games := r0.2 }, chess_players_map)
  else
    let r1 := playerMapUpdatePlayersAlloc fails { tournament with games := r0.2 }
      chess_players_map PlayersMapRef.chessPlayers first_player second_player
    if r1.1 ≠ MapResult.MAP_SUCCESS then (ChessResult.CHESS_OUT_OF_MEMORY, r1.2)
    else
      let r2 := playerMapUpdatePlayersAlloc fails r1.2.1 r1.2.2 PlayersMapRef.tournamentPlayers
        first_player second_player
      if r2.1 ≠ MapResult.MAP_SUCCESS then (ChessResult.CHESS_OUT_OF_MEMORY, r2.2)
      else (ChessResult.CHESS_SUCCESS, r2.2)

/-- The function `chessAddGame` when allocations may fail.  When `gameCreate`
returns `NULL` the function returns `chessOutOfMemoryDestroy(chess)`.  When
`newGameSystemAssign` does not return `CHESS_SUCCESS` the function calls
`gameDestroy(new_game)` and `chessOutOfMemoryDestroy(chess)` and does not
return: the next statement, `playersAddStatsToMap(chess->players, ...)`, reads
the system that `chessDestroy` has released, which is the result `none`. -/
def chessAddGameAlloc (fails : AllocationSite → Bool) (chess : Option ChessSystem)
    (tournament_id first_player second_player : Int) (winner : Winner) (play_time : Int) :
    Option (ChessResult × Option ChessSystem) :=
  if chessAddGameErrorCheck chess tournament_id first_player second_player winner play_time
      ≠ ChessResult.CHESS_SUCCESS then
    some (chessAddGameErrorCheck chess tournament_id first_player second_player winner
      play_time, chess)
  else
    match chess with
    | none => none
    | some c =>
      match (mapGet compareKeyTournamentID c.tournaments (some tournament_id)).1 with
      | none => none
      | some current_tournament =>
        match gameCreateAlloc (fails AllocationSite.gameCreate) winner play_time first_player
            second_player with
        | none => some (chessOutOfMemoryDestroy chess)
        | some new_game =>
          let assigned := newGameSystemAssignAlloc fails current_tournament c.players new_game
            (mapGetSize current_tournament.games + 1) first_player second_player
          if assigned.1 ≠ ChessResult.CHESS_SUCCESS then none
          else
            match playersAddStatsToMap assigned.2.2 first_player second_player winner
                play_time with
            | none => none
            | some players =>
              match playersAddStatsToMap assigned.2.1.players first_player second_player
                  winner play_time with
              | none => none
              | some tournament_players =>
                some (ChessResult.CHESS_SUCCESS,
                  some { tournaments :=
                           mapStore compareKeyTournamentID c.tournaments tournament_id
                             (some (tournamentUpdateStats
                               { assigned.2.1 with players := tournament_players } play_time)),
                         players := players })

/-- No tested allocation fails. -/
def noFailure : AllocationSite → Bool :=
  fun _ => false

/-- The `malloc` of `playerCreate` fails when `playerSetupInMap` creates the
record of player `player_id` for the players map of the system. -/
def failsAtPlayerCreate (player_id : Int) : AllocationSite → Bool :=
  fun site => decide (site = AllocationSite.playerCreate PlayersMapRef.chessPlayers player_id)

/-! ## The totals of play time in 32-bit arithmetic -/

/-- The constant `INT_MAX` of an `int` of 32 bits. -/
def INT_MAX : Int := 2147483647

/-- The constant `INT_MIN` of an `int` of 32 bits. -/
def INT_MIN : Int := -2147483648

/-- The `int` of 32 bits that an addition or a subtraction with the exact
result `x` leaves: `x` itself when it lies between `INT_MIN` and `INT_MAX`, and
otherwise `x` reduced modulo 2^32 into that range.  (The overflow of a signed
addition is undefined in C; the reduction is what two's complement machines
do.  Whatever happens, an `int` cannot hold a value outside the range.) -/
def int32 (x : Int) : Int :=
  (x - INT_MIN) % 4294967296 + INT_MIN

/-- The function `playersAddPlayTime` with the addition of 32-bit `int`s. -/
def playersAddPlayTimeInt32 (players : Option Player × Option Player) (play_time : Int) :
    Option (Option Player × Option Player) :=
  match players with
  | (none, none) => none
  | (none, some second) =>
    some (none,
      some { second with total_play_time := int32 (second.total_play_time + play_time) })
  | (some first, none) =>
    some (some { first with total_play_time := int32 (first.total_play_time + play_time) },
      none)
  | (some first, some second) =>
    some (some { first with total_play_time := int32 (first.total_play_time + play_time) },
          some { second with total_play_time := int32 (second.total_play_time + play_time) })

/-- The function `playersRemovePlayTime` with the subtraction of 32-bit
`int`s. -/
def playersRemovePlayTimeInt32 (players : Option Player × Option Player) (play_time : Int) :
    Option (Option Player × Option Player) :=
  match players with
  | (none, none) => none
  | (none, some second) =>
    some (none,
      some { second with total_play_time := int32 (second.total_play_time - play_time) })
  | (some first, none) =>
    some (some { first with total_play_time := int32 (first.total_play_time - play_time) },
      none)
  | (some first, some second) =>
    some (some { first with total_play_time := int32 (first.total_play_time - play_time) },
          some { second with total_play_time := int32 (second.total_play_time - play_time) })

/-- The function `tournamentUpdateTotalPlayTime` with the addition of 32-bit
`int`s. -/
def tournamentUpdateTotalPlayTimeInt32 (tournament : Tournament) (game_play_time : Int) :
    Tournament :=
  { tournament with total_play_time := int32 (tournament.total_play_time + game_play_time) }

/-- The function `tournamentUpdateStats`, with `tournamentUpdateTotalPlayTimeInt32`. -/
def tournamentUpdateStatsInt32 (tournament : Tournament) (play_time : Int) : Tournament :=
  tournamentUpdateTotalPlayTimeInt32
    (tournamentUpdateLongestGameTime (tournamentUpdateNumberOfGames tournament) play_time)
    play_time

/-- The function `playersAddStatsToMap`, with `playersAddPlayTimeInt32`. -/
def playersAddStatsToMapInt32 (players_map : Map Int Player) (player1 player2 : Int)
    (winner : Winner) (play_time : Int) : Option (Map Int Player) :=
  match playersAddPlayTimeInt32
      (playersAddScore
        ((mapGet compareKeyPlayerID players_map (some player1)).1,
         (mapGet compareKeyPlayerID players_map (some player2)).1) winner) play_time with
  | none => none
  | some players =>
    some (mapStore compareKeyPlayerID
      (mapStore compareKeyPlayerID players_map player1 players.1) player2 players.2)

/-- The part of `chessAddGame` after the error check (`chessAddGameUpdate`),
with the totals of play time in 32-bit arithmetic. -/
def chessAddGameUpdateInt32 (current_tournament : Tournament) (chess_players : Map Int Player)
    (first_player second_player : Int) (winner : Winner) (play_time : Int) :
    Option (Tournament × Map Int Player) :=
  let new_game := gameCreate winner play_time first_player second_player
  let new_game_id := mapGetSize current_tournament.games + 1
  let assigned := newGameSystemAssign current_tournament chess_players new_game new_game_id
    first_player second_player
  if assigned.1 ≠ ChessResult.CHESS_SUCCESS then none
  else
    match playersAddStatsToMapInt32 assigned.2.2 first_player second_player winner
        play_time with
    | none => none
    | some players =>
      match playersAddStatsToMapInt32 assigned.2.1.players first_player second_player winner
          play_time with
      | none => none
      | some tournament_players =>
        some (tournamentUpdateStatsInt32 { assigned.2.1 with players := tournament_players }
          play_time, players)

/-- The function `chessAddGame` with the totals of play time in 32-bit
arithmetic. -/
def chessAddGameInt32 (chess : Option ChessSystem)
    (tournament_id first_player second_player : Int) (winner : Winner) (play_time : Int) :
    Option (ChessResult × Option ChessSystem) :=
  if chessAddGameErrorCheck chess tournament_id first_player second_player winner play_time
      ≠ ChessResult.CHESS_SUCCESS then
    some (chessAddGameErrorCheck chess tournament_id first_player second_player winner
      play_time, chess)
  else
    match chess with
    | none => none
    | some c =>
      match (mapGet compareKeyTournamentID c.tournaments (some tournament_id)).1 with
      | none => none
      | some current_tournament =>
        match chessAddGameUpdateInt32 current_tournament c.players first_player second_player
            winner play_time with
        | none => none
        | some (tournament, players) =>
          some (ChessResult.CHESS_SUCCESS,
            some { tournaments :=
                     mapStore compareKeyTournamentID c.tournaments tournament_id
                       (some tournament),
                   players := players })

/-- The function `playersRemoveStats`, with `playersRemovePlayTimeInt32`. -/
def playersRemoveStatsInt32 (players_map : Map Int Player) (player1 player2 : Int)
    (winner : Winner) (play_time : Int) : Option (Map Int Player) :=
  if isValidID player1 = false ∧ isValidID player2 = false then some players_map
  else
    match playersRemoveScore
        ((mapGet compareKeyPlayerID players_map (some player1)).1,
         (mapGet compareKeyPlayerID players_map (some player2)).1) winner with
    | none => none
    | some players =>
      match playersRemovePlayTimeInt32 players play_time with
      | none => none
      | some players1 =>
        some (mapStore compareKeyPlayerID
          (mapStore compareKeyPlayerID players_map player1 players1.1) player2 players1.2)

/-- The `MAP_FOREACH` loop of `chessRemoveTournament` (`removeTournamentLoop`),
with `playersRemoveStatsInt32`. -/
def removeTournamentLoopInt32 (games : Map Int Game) :
    List Int → Map Int Player → Option (Map Int Player)
  | [], players => some players
  | current_game_id :: rest, players =>
    match (mapGet compareKeyGameID games (some current_game_id)).1 with
    | none => none
    | some current_game =>
      match playersRemoveStatsInt32 players (gameGetFirstPlayer (some current_game))
          (gameGetSecondPlayer (some current_game)) (gameGetWinner current_game)
          (gameGetPlayTime (some current_game)) with
      | none => none
      | some players1 => removeTournamentLoopInt32 games rest players1

/-- The function `chessRemoveTournament` with the totals of play time in 32-bit
arithmetic. -/
def chessRemoveTournamentInt32 (chess : Option ChessSystem) (tournament_id : Int) :
    Option (ChessResult × Option ChessSystem) :=
  if chessRemoveTournamentErrorCheck chess tournament_id ≠ ChessResult.CHESS_SUCCESS then
    some (chessRemoveTournamentErrorCheck chess tournament_id, chess)
  else
    match chess with
    | none => none
    | some c =>
      match (mapGet compareKeyTournamentID c.tournaments (some tournament_id)).1 with
      | none => none
      | some current_tournament =>
        match removeTournamentLoopInt32 current_tournament.games
            (mapForEach current_tournament.games) c.players with
        | none => none
        | some players =>
          some (ChessResult.CHESS_SUCCESS,
            some { tournaments :=
                     (mapRemove compareKeyTournamentID c.tournaments (some tournament_id)).2,
                   players := players })

/-- The call made on a system, with the totals of play time in 32-bit
arithmetic.  `chessAddGame` and `chessRemoveTournament` are the two functions
that add or subtract a play time; the other three functions compute no total. -/
def Call.runInt32 (c : Call) (chess : Option ChessSystem) :
    Option (ChessResult × Option ChessSystem) :=
  match c with
  | Call.addTournament tournament_id max_games_per_player tournament_location =>
    chessAddTournament chess tournament_id max_games_per_player tournament_location
  | Call.addGame tournament_id first_player second_player winner play_time =>
    chessAddGameInt32 chess tournament_id first_player second_player winner play_time
  | Call.removePlayer player_id => chessRemovePlayer chess player_id
  | Call.endTournament tournament_id => chessEndTournament chess tournament_id
  | Call.removeTournament tournament_id => chessRemoveTournamentInt32 chess tournament_id

/-- A sequence of calls on a system with the totals in 32-bit arithmetic: the
result codes and the system that the last call leaves (`none`: a call used an
invalid pointer). -/
def runCallsInt32 : List Call → ChessSystem → Option (List ChessResult × ChessSystem)
  | [], s => some ([], s)
  | c :: rest, s =>
    match c.runInt32 (some s) with
    | some (r, some s1) =>
      match runCallsInt32 rest s1 with
      | some (results, s2) => some (r :: results, s2)
      | none => none
    | _ => none

/-- The states that the system reaches from `chessCreate` through calls of the
five functions, with any arguments, as long as no total of play times leaves
the range of an `int`: every call gives with 32-bit arithmetic (`runInt32`)
the result that it gives with exact arithmetic (`run`). -/
inductive ReachableInRange : ChessSystem → Prop where
  | create : ReachableInRange chessCreate
  | call (s s1 : ChessSystem) (c : Call) (r : ChessResult) :
      ReachableInRange s →
      c.runInt32 (some s) = some (r, some s1) →
      c.run (some s) = some (r, some s1) →
      ReachableInRange s1

/-- A sequence of calls on a system in which 32-bit arithmetic and exact
arithmetic agree call by call: the system that the last call leaves (`none`
when a call leaves no system or the two differ). -/
def runCallsInRange : List Call → ChessSystem → Option ChessSystem
  | [], s => some s
  | c :: rest, s =>
    match c.run (some s) with
    | some (r, some s1) =>
      if c.runInt32 (some s) = some (r, some s1) then runCallsInRange rest s1 else none
    | _ => none

/-- Whether `x` is a value of an `int` of 32 bits. -/
def inInt32 (x : Int) : Prop :=
  INT_MIN ≤ x ∧ x ≤ INT_MAX

/-- Example calls: tournament 1 is added and player 1 wins two games of
2000000000 seconds in it, against player 2 and against player 3. -/
def callsLongGames : List Call :=
  [Call.addTournament 1 3 (some "London"),
   Call.addGame 1 1 2 Winner.FIRST_PLAYER 2000000000,
   Call.addGame 1 1 3 Winner.FIRST_PLAYER 2000000000]

/-- Example calls: the first two calls of `callsLongGames`. -/
def callsLongGame : List Call :=
  [Call.addTournament 1 3 (some "London"),
   Call.addGame 1 1 2 Winner.FIRST_PLAYER 2000000000]

instance (x : Int) : Decidable (inInt32 x) := by
  unfold inInt32
  infer_instance

/-- The system after a sequence of calls on a new system, with the totals in
32-bit arithmetic (`chessCreate` when a call used an invalid pointer). -/
def stateAfterInt32 (calls : List Call) : ChessSystem :=
  ((runCallsInt32 calls chessCreate).map Prod.snd).getD chessCreate

/-- Every record of a players map has a total play time that is a value of an
`int` of 32 bits. -/
def RecordsInRange (players : Map Int Player) : Prop :=
  ∀ q r, playerRecord players q = some r → inInt32 r.total_play_time

/-- The total play time of every tournament of the system, and of every record
in the players map of a tournament, is a value of an `int` of 32 bits. -/
def TotalsInRange (s : ChessSystem) : Prop :=
  ∀ tid t, tournamentRecord s tid = some t →
    inInt32 t.total_play_time ∧ RecordsInRange t.players

/-! ## The comparator -/

theorem CmpOrder.le_iff {K : Type} {cmp : K → K → Int} (h : CmpOrder cmp) (a b : K) :
    cmp a b ≤ 0 ↔ 0 ≤ cmp b a := by
  have h1 := h.swap b a
  constructor
  · intro hab
    by_contra hc
    have : 0 < cmp a b := h1.mp (by omega)
    omega
  · intro hba
    by_contra hc
    have : cmp b a < 0 := h1.mpr (by omega)
    omega

theorem CmpOrder.refl {K : Type} {cmp : K → K → Int} (h : CmpOrder cmp) (a : K) :
    cmp a a = 0 := by
  have h1 := h.swap a a
  by_contra hc
  rcases lt_or_gt_of_ne hc with hlt | hgt
  · have := h1.mp hlt
    omega
  · have := h1.mpr hgt
    omega

theorem CmpOrder.eq_symm {K : Type} {cmp : K → K → Int} (h : CmpOrder cmp) {a b : K}
    (hab : cmp a b = 0) : cmp b a = 0 := by
  have h1 := h.le_iff a b
  have h2 := h.le_iff b a
  have : 0 ≤ cmp b a := h1.mp (by omega)
  have : cmp b a ≤ 0 := h2.mpr (by omega)
  omega

theorem CmpOrder.eq_trans {K : Type} {cmp : K → K → Int} (h : CmpOrder cmp) {a b c : K}
    (hab : cmp a b = 0) (hbc : cmp b c = 0) : cmp a c = 0 := by
  have hba := h.eq_symm hab
  have hcb := h.eq_symm hbc
  have h1 := h.le_trans a b c (by omega) (by omega)
  have h2 := h.le_trans c b a (by omega) (by omega)
  have := (h.le_iff c a).mp h2
  omega

theorem CmpOrder.lt_of_lt_of_le {K : Type} {cmp : K → K → Int} (h : CmpOrder cmp)
    {a b c : K} (hab : cmp a b < 0) (hbc : cmp b c ≤ 0) : cmp a c < 0 := by
  by_contra hc
  have hca : cmp c a ≤ 0 := (h.le_iff c a).mpr (by omega)
  have hba := h.le_trans b c a hbc hca
  have := (h.swap a b).mp hab
  omega

theorem CmpOrder.lt_of_le_of_lt {K : Type} {cmp : K → K → Int} (h : CmpOrder cmp)
    {a b c : K} (hab : cmp a b ≤ 0) (hbc : cmp b c < 0) : cmp a c < 0 := by
  by_contra hc
  have hca : cmp c a ≤ 0 := (h.le_iff c a).mpr (by omega)
  have hcb := h.le_trans c a b hca hab
  have := (h.swap b c).mp hbc
  omega

theorem CmpOrder.lt_trans {K : Type} {cmp : K → K → Int} (h : CmpOrder cmp)
    {a b c : K} (hab : cmp a b < 0) (hbc : cmp b c < 0) : cmp a c < 0 :=
  h.lt_of_lt_of_le hab (by omega)

theorem CmpOrder.eq_congr_left {K : Type} {cmp : K → K → Int} (h : CmpOrder cmp)
    {a b : K} (c : K) (hab : cmp a b = 0) : cmp a c = 0 ↔ cmp b c = 0 :=
  ⟨fun hac => h.eq_trans (h.eq_symm hab) hac, fun hbc => h.eq_trans hab hbc⟩

theorem CmpOrder.eq_congr_right {K : Type} {cmp : K → K → Int} (h : CmpOrder cmp)
    {a b : K} (c : K) (hab : cmp a b = 0) : cmp c a = 0 ↔ cmp c b = 0 :=
  ⟨fun hca => h.eq_trans hca hab, fun hcb => h.eq_trans hcb (h.eq_symm hab)⟩

theorem compareKeyPlayerID_order : CmpOrder compareKeyPlayerID := by
  constructor
  · intro a b
    unfold compareKeyPlayerID
    omega
  · intro a b c
    unfold compareKeyPlayerID
    omega

/-! ## The loops of map.c on the node list -/

theorem mapFindNode_none_iff {K V : Type} (cmp : K → K → Int) (k : K) (l : List (K × V)) :
    mapFindNode cmp k l = none ↔ ∀ n ∈ l, cmp n.1 k ≠ 0 := by
  induction l with
  | nil => simp [mapFindNode]
  | cons n rest ih =>
    unfold mapFindNode
    by_cases h : cmp n.1 k = 0
    · simp [h]
    · simp only [h, if_false, List.mem_cons, forall_eq_or_imp, ne_eq, not_false_eq_true,
        true_and]
      rw [← ih]
      cases mapFindNode cmp k rest <;> simp

theorem mapFindNode_lt {K V : Type} (cmp : K → K → Int) (k : K) (l : List (K × V)) (i : Nat)
    (h : mapFindNode cmp k l = some i) : i < l.length := by
  induction l generalizing i with
  | nil => simp [mapFindNode] at h
  | cons n rest ih =>
    unfold mapFindNode at h
    by_cases hc : cmp n.1 k = 0
    · simp [hc] at h
      subst h
      simp
    · simp only [hc, if_false] at h
      cases hr : mapFindNode cmp k rest with
      | none => simp [hr] at h
      | some j =>
        simp [hr] at h
        subst h
        have := ih j hr
        simp
        omega

theorem findData_eq_nodeData {K V : Type} (cmp : K → K → Int) (k : K) (l : List (K × V))
    (i : Nat) (h : mapFindNode cmp k l = some i) : nodeData l i = findData cmp k l := by
  induction l generalizing i with
  | nil => simp [mapFindNode] at h
  | cons n rest ih =>
    unfold mapFindNode at h
    unfold findData
    by_cases hc : cmp n.1 k = 0
    · simp [hc] at h
      subst h
      simp [hc, nodeData]
    · simp only [hc, if_false] at h
      cases hr : mapFindNode cmp k rest with
      | none => simp [hr] at h
      | some j =>
        simp [hr] at h
        subst h
        simp only [hc, if_false]
        rw [← ih j hr]
        simp [nodeData]

theorem findData_none_of_find {K V : Type} (cmp : K → K → Int) (k : K) (l : List (K × V))
    (h : mapFindNode cmp k l = none) : findData cmp k l = none := by
  induction l with
  | nil => rfl
  | cons n rest ih =>
    unfold mapFindNode at h
    unfold findData
    by_cases hc : cmp n.1 k = 0
    · simp [hc] at h
    · simp only [hc, if_false] at h
      simp only [hc, if_false]
      apply ih
      cases hr : mapFindNode cmp k rest with
      | none => rfl
      | some j => simp [hr] at h

theorem findData_isSome_iff {K V : Type} (cmp : K → K → Int) (k : K) (l : List (K × V)) :
    (findData cmp k l).isSome = (mapFindNode cmp k l).isSome := by
  induction l with
  | nil => rfl
  | cons n rest ih =>
    unfold mapFindNode findData
    by_cases hc : cmp n.1 k = 0
    · simp [hc]
    · simp only [hc, if_false]
      rw [ih]
      cases mapFindNode cmp k rest <;> rfl

theorem findData_none_iff {K V : Type} (cmp : K → K → Int) (k : K) (l : List (K × V)) :
    findData cmp k l = none ↔ ∀ n ∈ l, cmp n.1 k ≠ 0 := by
  rw [← mapFindNode_none_iff]
  have h := findData_isSome_iff cmp k l
  cases h1 : findData cmp k l <;> cases h2 : mapFindNode cmp k l <;> simp [h1, h2] at h ⊢

/-! ## What each map operation returns and leaves behind -/

theorem mapContains_size {K V : Type} (cmp : K → K → Int) (m : Map K V) (k : Option K) :
    (mapContains cmp m k).2.size = m.size := by
  unfold mapContains
  cases k with
  | none => rfl
  | some k =>
    simp only
    split
    · rfl
    · split <;> rfl

theorem mapContains_nodes {K V : Type} (cmp : K → K → Int) (m : Map K V) (k : Option K) :
    (mapContains cmp m k).2.nodes = m.nodes := by
  unfold mapContains
  cases k with
  | none => rfl
  | some k =>
    simp only
    split
    · rfl
    · split <;> rfl

theorem mapContains_fst {K V : Type} (cmp : K → K → Int) (m : Map K V) (k : K) :
    (mapContains cmp m (some k)).1 =
      (if m.size = 0 then false else (findData cmp k m.nodes).isSome) := by
  unfold mapContains mapGetSize
  simp only
  by_cases h : m.size = 0
  · simp [h]
  · simp only [h, if_false]
    rw [findData_isSome_iff]
    cases mapFindNode cmp k m.nodes <;> rfl

theorem mapGet_fst {K V : Type} (cmp : K → K → Int) (m : Map K V) (k : K) :
    (mapGet cmp m (some k)).1 = (if m.size = 0 then none else findData cmp k m.nodes) := by
  unfold mapGet
  simp only [mapContains_fst]
  by_cases h : m.size = 0
  · simp [h]
  · simp only [h, if_false]
    cases hf : mapFindNode cmp k m.nodes with
    | none =>
      have := findData_none_of_find cmp k m.nodes hf
      simp [this]
    | some i =>
      have h1 := findData_eq_nodeData cmp k m.nodes i hf
      have h2 := findData_isSome_iff cmp k m.nodes
      rw [hf] at h2
      simp at h2
      simp [h2, h1]

theorem mapGet_size {K V : Type} (cmp : K → K → Int) (m : Map K V) (k : Option K) :
    (mapGet cmp m k).2.size = m.size := by
  unfold mapGet
  cases k with
  | none => rfl
  | some k =>
    simp only
    split
    · exact mapContains_size cmp m (some k)
    · split <;> rfl

theorem mapGet_nodes {K V : Type} (cmp : K → K → Int) (m : Map K V) (k : Option K) :
    (mapGet cmp m k).2.nodes = m.nodes := by
  unfold mapGet
  cases k with
  | none => rfl
  | some k =>
    simp only
    split
    · exact mapContains_nodes cmp m (some k)
    · split <;> rfl

/-! ## Node lists after a put and after a remove -/

theorem changeData_keys {K V : Type} (cmp : K → K → Int) (k : K) (v : V) (l : List (K × V)) :
    (changeData cmp k v l).map Prod.fst = l.map Prod.fst := by
  induction l with
  | nil => rfl
  | cons n rest ih =>
    unfold changeData
    by_cases h : cmp n.1 k = 0
    · simp [h]
    · simp [h, ih]

theorem changeData_length {K V : Type} (cmp : K → K → Int) (k : K) (v : V)
    (l : List (K × V)) : (changeData cmp k v l).length = l.length := by
  have h := congrArg List.length (changeData_keys cmp k v l)
  simpa using h

theorem insertNode_length {K V : Type} (cmp : K → K → Int) (k : K) (v : V)
    (l : List (K × V)) : (insertNode cmp k v l).length = l.length + 1 := by
  induction l with
  | nil => rfl
  | cons n rest ih =>
    unfold insertNode
    by_cases h : cmp n.1 k < 0
    · simp [h, ih]
    · simp [h]

theorem mem_insertNode {K V : Type} (cmp : K → K → Int) (k : K) (v : V)
    (l : List (K × V)) (x : K × V) :
    x ∈ insertNode cmp k v l ↔ x = (k, v) ∨ x ∈ l := by
  induction l with
  | nil => simp [insertNode]
  | cons n rest ih =>
    unfold insertNode
    by_cases h : cmp n.1 k < 0
    · simp only [h, if_true, List.mem_cons, ih]
      tauto
    · simp [h]

theorem insertNode_sorted {K V : Type} {cmp : K → K → Int} (hc : CmpOrder cmp) (k : K)
    (v : V) (l : List (K × V))
    (hs : (l.map Prod.fst).Pairwise (fun a b => cmp a b < 0))
    (hn : ∀ n ∈ l, cmp n.1 k ≠ 0) :
    ((insertNode cmp k v l).map Prod.fst).Pairwise (fun a b => cmp a b < 0) := by
  induction l with
  | nil => simp [insertNode]
  | cons n rest ih =>
    simp only [List.map_cons, List.pairwise_cons] at hs
    unfold insertNode
    by_cases h : cmp n.1 k < 0
    · simp only [h, if_true, List.map_cons, List.pairwise_cons]
      refine ⟨?_, ih hs.2 (fun x hx => hn x (List.mem_cons_of_mem _ hx))⟩
      intro b hb
      rw [List.mem_map] at hb
      obtain ⟨x, hx, rfl⟩ := hb
      rcases (mem_insertNode cmp k v rest x).mp hx with rfl | hx
      · exact h
      · exact hs.1 _ (List.mem_map_of_mem _ hx)
    · have hne := hn n (List.mem_cons_self _ _)
      have hkn : cmp k n.1 < 0 := (hc.swap k n.1).mpr (by omega)
      simp only [h, if_false, List.map_cons, List.pairwise_cons]
      refine ⟨?_, hs⟩
      intro b hb
      rcases List.mem_cons.mp hb with rfl | hb
      · exact hkn
      · exact hc.lt_trans hkn (hs.1 b hb)

theorem eraseIdx_sorted {K V : Type} (cmp : K → K → Int) (l : List (K × V)) (i : Nat)
    (hs : (l.map Prod.fst).Pairwise (fun a b => cmp a b < 0)) :
    ((l.eraseIdx i).map Prod.fst).Pairwise (fun a b => cmp a b < 0) := by
  rw [List.pairwise_map] at hs ⊢
  exact hs.sublist (List.eraseIdx_sublist l i)

theorem findData_insertNode {K V : Type} {cmp : K → K → Int} (hc : CmpOrder cmp)
    (k k1 : K) (v : V) (l : List (K × V)) :
    findData cmp k1 (insertNode cmp k v l) =
      if cmp k k1 = 0 then some v else findData cmp k1 l := by
  induction l with
  | nil => simp [insertNode, findData]
  | cons n rest ih =>
    unfold insertNode
    by_cases h : cmp n.1 k < 0
    · simp only [h, if_true]
      unfold findData
      rw [ih]
      by_cases hk : cmp k k1 = 0
      · have : cmp n.1 k1 < 0 := hc.lt_of_lt_of_le h (by omega)
        have hne : cmp n.1 k1 ≠ 0 := by omega
        simp [hk, hne]
      · simp [hk]
    · simp only [h, if_false]
      conv_lhs => unfold findData

theorem findData_changeData {K V : Type} {cmp : K → K → Int} (hc : CmpOrder cmp)
    (k k1 : K) (v : V) (l : List (K × V)) :
    findData cmp k1 (changeData cmp k v l) =
      if cmp k k1 = 0 then (if (findData cmp k l).isSome then some v else none)
      else findData cmp k1 l := by
  induction l with
  | nil => simp [changeData, findData]
  | cons n rest ih =>
    unfold changeData
    by_cases h : cmp n.1 k = 0
    · simp only [h, ne_eq, not_true_eq_false, if_false]
      unfold findData
      by_cases hk : cmp k k1 = 0
      · have : cmp n.1 k1 = 0 := hc.eq_trans h hk
        simp [hk, this, h]
      · have : cmp n.1 k1 ≠ 0 := fun hn => hk (hc.eq_trans (hc.eq_symm h) hn)
        simp [hk, this]
    · simp only [h, ne_eq, not_false_eq_true, if_true]
      unfold findData
      rw [ih]
      by_cases hk : cmp k k1 = 0
      · have : cmp n.1 k1 ≠ 0 := fun hn => h (hc.eq_trans hn (hc.eq_symm hk))
        simp [hk, this, h]
      · simp [hk]

theorem findData_eraseIdx {K V : Type} {cmp : K → K → Int} (hc : CmpOrder cmp)
    (k k1 : K) (l : List (K × V)) (i : Nat)
    (hs : (l.map Prod.fst).Pairwise (fun a b => cmp a b < 0))
    (hf : mapFindNode cmp k l = some i) :
    findData cmp k1 (l.eraseIdx i) = if cmp k k1 = 0 then none else findData cmp k1 l := by
  induction l generalizing i with
  | nil => simp [mapFindNode] at hf
  | cons n rest ih =>
    simp only [List.map_cons, List.pairwise_cons] at hs
    unfold mapFindNode at hf
    by_cases h : cmp n.1 k = 0
    · simp [h] at hf
      subst hf
      simp only [List.eraseIdx_cons_zero]
      by_cases hk : cmp k k1 = 0
      · simp only [hk, if_true]
        rw [findData_none_iff]
        intro r hr hrk
        have h1 : cmp n.1 r.1 < 0 := hs.1 r.1 (List.mem_map_of_mem _ hr)
        have h2 : cmp n.1 k1 = 0 := hc.eq_trans h hk
        have h3 : cmp n.1 r.1 = 0 := hc.eq_trans h2 (hc.eq_symm hrk)
        omega
      · have : cmp n.1 k1 ≠ 0 := fun hn => hk (hc.eq_trans (hc.eq_symm h) hn)
        conv_rhs => unfold findData
        simp [hk, this]
    · simp only [h, if_false] at hf
      cases hr : mapFindNode cmp k rest with
      | none => simp [hr] at hf
      | some j =>
        simp [hr] at hf
        subst hf
        simp only [List.eraseIdx_cons_succ]
        unfold findData
        rw [ih j hs.2 hr]
        by_cases hk : cmp k k1 = 0
        · have : cmp n.1 k1 ≠ 0 := fun hn => h (hc.eq_trans hn (hc.eq_symm hk))
          simp [hk, this]
        · simp [hk]

theorem findData_putNodes {K V : Type} {cmp : K → K → Int} (hc : CmpOrder cmp)
    (k k1 : K) (v : V) (l : List (K × V)) :
    findData cmp k1 (putNodes cmp k v l) =
      if cmp k k1 = 0 then some v else findData cmp k1 l := by
  unfold putNodes
  by_cases h : (findData cmp k l).isSome = true
  · simp only [h, if_true]
    rw [findData_changeData hc]
    simp [h]
  · simp only [h]
    exact findData_insertNode hc k k1 v l

theorem findData_removeNodes {K V : Type} {cmp : K → K → Int} (hc : CmpOrder cmp)
    (k k1 : K) (l : List (K × V))
    (hs : (l.map Prod.fst).Pairwise (fun a b => cmp a b < 0)) :
    findData cmp k1 (removeNodes cmp k l) =
      if cmp k k1 = 0 then none else findData cmp k1 l := by
  unfold removeNodes
  cases hf : mapFindNode cmp k l with
  | some i => exact findData_eraseIdx hc k k1 l i hs hf
  | none =>
    simp only
    by_cases hk : cmp k k1 = 0
    · simp only [hk, if_true]
      rw [findData_none_iff]
      intro n hn hnk
      exact (mapFindNode_none_iff cmp k l).mp hf n hn (hc.eq_trans hnk (hc.eq_symm hk))
    · simp [hk]

theorem putNodes_sorted {K V : Type} {cmp : K → K → Int} (hc : CmpOrder cmp) (k : K)
    (v : V) (l : List (K × V))
    (hs : (l.map Prod.fst).Pairwise (fun a b => cmp a b < 0)) :
    ((putNodes cmp k v l).map Prod.fst).Pairwise (fun a b => cmp a b < 0) := by
  unfold putNodes
  by_cases h : (findData cmp k l).isSome = true
  · simp only [h, if_true]
    rw [changeData_keys]
    exact hs
  · simp only [h]
    apply insertNode_sorted hc k v l hs
    rw [← findData_none_iff]
    cases hf : findData cmp k l with
    | none => rfl
    | some x => simp [hf] at h

theorem putNodes_length {K V : Type} (cmp : K → K → Int) (k : K) (v : V)
    (l : List (K × V)) :
    (putNodes cmp k v l).length =
      if (findData cmp k l).isSome then l.length else l.length + 1 := by
  unfold putNodes
  by_cases h : (findData cmp k l).isSome = true
  · simp [h, changeData_length]
  · simp [h, insertNode_length]

theorem removeNodes_sorted {K V : Type} (cmp : K → K → Int) (k : K) (l : List (K × V))
    (hs : (l.map Prod.fst).Pairwise (fun a b => cmp a b < 0)) :
    ((removeNodes cmp k l).map Prod.fst).Pairwise (fun a b => cmp a b < 0) := by
  unfold removeNodes
  cases mapFindNode cmp k l with
  | some i => exact eraseIdx_sorted cmp l i hs
  | none => exact hs

theorem removeNodes_length {K V : Type} (cmp : K → K → Int) (k : K) (l : List (K × V)) :
    ((removeNodes cmp k l).length : Int) =
      if (findData cmp k l).isSome then (l.length : Int) - 1 else l.length := by
  unfold removeNodes
  rw [findData_isSome_iff]
  cases hf : mapFindNode cmp k l with
  | some i =>
    have := mapFindNode_lt cmp k l i hf
    simp [List.length_eraseIdx, this]
    omega
  | none => simp

/-! ## The map operations on a map that satisfies the invariant -/

theorem MapWF.size_eq_zero_iff {K V : Type} {cmp : K → K → Int} {m : Map K V}
    (h : MapWF cmp m) : m.size = 0 ↔ m.nodes = [] := by
  rw [h.1]
  cases m.nodes <;> simp
  omega

theorem mapContains_wf_fst {K V : Type} {cmp : K → K → Int} {m : Map K V}
    (h : MapWF cmp m) (k : K) :
    (mapContains cmp m (some k)).1 = (findData cmp k m.nodes).isSome := by
  rw [mapContains_fst]
  by_cases h0 : m.size = 0
  · have := h.size_eq_zero_iff.mp h0
    simp [h0, this, findData]
  · simp [h0]

theorem mapGet_wf_fst {K V : Type} {cmp : K → K → Int} {m : Map K V}
    (h : MapWF cmp m) (k : K) :
    (mapGet cmp m (some k)).1 = findData cmp k m.nodes := by
  rw [mapGet_fst]
  by_cases h0 : m.size = 0
  · have := h.size_eq_zero_iff.mp h0
    simp [h0, this, findData]
  · simp [h0]

theorem mapPut_fst {K V : Type} (cmp : K → K → Int) (m : Map K V) (k : K) (v : V) :
    (mapPut cmp m (some k) (some v)).1 = MapResult.MAP_SUCCESS := by
  unfold mapPut
  simp only
  split
  · rfl
  · split <;> rfl

theorem mapPut_wf_nodes {K V : Type} {cmp : K → K → Int} {m : Map K V}
    (h : MapWF cmp m) (k : K) (v : V) :
    (mapPut cmp m (some k) (some v)).2.nodes = putNodes cmp k v m.nodes := by
  unfold mapPut
  simp only
  split
  · rename_i hn
    simp [hn, putNodes, findData, insertNode]
  · rename_i n rest hn
    rw [mapContains_wf_fst h]
    unfold putNodes
    by_cases hc : (findData cmp k m.nodes).isSome = true
    · simp [hc, mapChangeExistingData, mapContains_nodes]
    · simp [hc, mapInsertNewNode, mapContains_nodes]

theorem mapPut_wf_size {K V : Type} {cmp : K → K → Int} {m : Map K V}
    (h : MapWF cmp m) (k : K) (v : V) :
    (mapPut cmp m (some k) (some v)).2.size =
      if (findData cmp k m.nodes).isSome then m.size else m.size + 1 := by
  unfold mapPut
  simp only
  split
  · rename_i hn
    have h0 := h.size_eq_zero_iff.mpr hn
    simp [hn, findData, h0]
  · rename_i n rest hn
    rw [mapContains_wf_fst h]
    by_cases hc : (findData cmp k m.nodes).isSome = true
    · simp [hc, mapChangeExistingData, mapContains_size]
    · simp [hc, mapContains_size]

theorem mapPut_wf {K V : Type} {cmp : K → K → Int} (hc : CmpOrder cmp) {m : Map K V}
    (h : MapWF cmp m) (k : Option K) (v : Option V) : MapWF cmp (mapPut cmp m k v).2 := by
  cases k with
  | none => exact h
  | some k =>
    cases v with
    | none => exact h
    | some v =>
      constructor
      · rw [mapPut_wf_size h, mapPut_wf_nodes h, putNodes_length, h.1]
        split <;> simp
      · unfold mapKeys
        rw [mapPut_wf_nodes h]
        exact putNodes_sorted hc k v m.nodes h.2

theorem mapRemove_fst {K V : Type} (cmp : K → K → Int) (m : Map K V) (k : K) :
    (mapRemove cmp m (some k)).1 =
      if (mapContains cmp m (some k)).1 = true then MapResult.MAP_SUCCESS
      else MapResult.MAP_ITEM_DOES_NOT_EXIST := by
  unfold mapRemove
  simp only
  by_cases hc : (mapContains cmp m (some k)).1 = true
  · simp only [hc, if_true]
    simp only [Bool.true_eq_false, if_false]
    split <;> rfl
  · simp at hc
    simp [hc]

theorem mapRemove_wf_nodes {K V : Type} {cmp : K → K → Int} {m : Map K V}
    (h : MapWF cmp m) (k : K) :
    (mapRemove cmp m (some k)).2.nodes = removeNodes cmp k m.nodes := by
  unfold mapRemove removeNodes
  simp only
  rw [mapContains_wf_fst h, findData_isSome_iff]
  cases hf : mapFindNode cmp k m.nodes with
  | none => simp [mapContains_nodes]
  | some i => simp

theorem mapRemove_wf_size {K V : Type} {cmp : K → K → Int} {m : Map K V}
    (h : MapWF cmp m) (k : K) :
    (mapRemove cmp m (some k)).2.size =
      if (findData cmp k m.nodes).isSome then m.size - 1 else m.size := by
  unfold mapRemove
  simp only
  rw [mapContains_wf_fst h, findData_isSome_iff]
  cases hf : mapFindNode cmp k m.nodes with
  | none => simp [mapContains_size]
  | some i => simp

theorem mapRemove_wf {K V : Type} {cmp : K → K → Int} {m : Map K V}
    (h : MapWF cmp m) (k : Option K) : MapWF cmp (mapRemove cmp m k).2 := by
  cases k with
  | none => exact h
  | some k =>
    constructor
    · rw [mapRemove_wf_size h, mapRemove_wf_nodes h, removeNodes_length, h.1]
    · unfold mapKeys
      rw [mapRemove_wf_nodes h]
      exact removeNodes_sorted cmp k m.nodes h.2

theorem mapContains_wf {K V : Type} {cmp : K → K → Int} {m : Map K V}
    (h : MapWF cmp m) (k : Option K) : MapWF cmp (mapContains cmp m k).2 := by
  unfold MapWF mapKeys
  rw [mapContains_size, mapContains_nodes]
  exact h

theorem mapGet_wf {K V : Type} {cmp : K → K → Int} {m : Map K V}
    (h : MapWF cmp m) (k : Option K) : MapWF cmp (mapGet cmp m k).2 := by
  unfold MapWF mapKeys
  rw [mapGet_size, mapGet_nodes]
  exact h

theorem mapGetFirst_wf {K V : Type} {cmp : K → K → Int} {m : Map K V}
    (h : MapWF cmp m) : MapWF cmp (mapGetFirst m).2 := by
  unfold mapGetFirst
  split
  · exact h
  · exact h

theorem mapGetNext_wf {K V : Type} {cmp : K → K → Int} {m m1 : Map K V} {r : Option K}
    (h : MapWF cmp m) (hn : mapGetNext m = some (r, m1)) : MapWF cmp m1 := by
  unfold mapGetNext at hn
  split at hn
  · simp at hn
  · simp at hn
  · split at hn <;> simp at hn <;> obtain ⟨_, rfl⟩ := hn <;> exact h
  · split at hn <;> simp at hn <;> obtain ⟨_, rfl⟩ := hn <;> exact h
  · simp at hn
    obtain ⟨_, rfl⟩ := hn
    exact h

theorem mapCreate_wf {K V : Type} (cmp : K → K → Int) : MapWF cmp (mapCreate : Map K V) := by
  simp [MapWF, mapCreate, mapKeys]

theorem MapReachable.wf {K V : Type} {cmp : K → K → Int} (hc : CmpOrder cmp) {m : Map K V}
    (h : MapReachable cmp m) : MapWF cmp m := by
  induction h with
  | create => exact mapCreate_wf cmp
  | put m k v _ ih => exact mapPut_wf hc ih k v
  | remove m k _ ih => exact mapRemove_wf ih k
  | contains m k _ ih => exact mapContains_wf ih k
  | get m k _ ih => exact mapGet_wf ih k
  | getFirst m _ ih => exact mapGetFirst_wf ih
  | getNext m m1 r _ hn ih => exact mapGetNext_wf ih hn

/-! ## The traversal -/

theorem mapTraverseLoop_node {K V : Type} (size : Int) (nodes : List (K × V)) :
    ∀ (fuel i : Nat), i < nodes.length → nodes.length ≤ i + fuel →
      mapTraverseLoop fuel { size := size, nodes := nodes, current := Cursor.node i } =
        some ((nodes.drop (i + 1)).map Prod.fst) := by
  intro fuel
  induction fuel with
  | zero =>
    intro i h1 h2
    omega
  | succ fuel ih =>
    intro i h1 h2
    unfold mapTraverseLoop mapGetNext
    simp only
    by_cases hlt : i + 1 < nodes.length
    · simp only [hlt, if_true]
      have hk : nodeKey nodes (i + 1) = some (nodes.get ⟨i + 1, hlt⟩).1 := by
        simp [nodeKey, List.getElem?_eq_getElem hlt]
      have hd : nodes.drop (i + 1) = nodes.get ⟨i + 1, hlt⟩ :: nodes.drop (i + 1 + 1) :=
        List.drop_eq_getElem_cons hlt
      rw [hk, hd]
      simp only
      rw [ih (i + 1) hlt (by omega)]
      simp only [List.map_cons]
    · simp only [hlt, if_false]
      have : nodes.drop (i + 1) = [] := List.drop_eq_nil_of_le (by omega)
      simp [this]

theorem mapTraverse_wf {K V : Type} {cmp : K → K → Int} {m : Map K V} (h : MapWF cmp m)
    (fuel : Nat) (hf : mapGetSize m ≤ fuel) : mapTraverse fuel m = some (mapKeys m) := by
  unfold mapTraverse mapGetFirst mapKeys
  unfold mapGetSize at hf
  by_cases h0 : m.size = 0
  · have := h.size_eq_zero_iff.mp h0
    simp [h0, this]
  · simp only [h0, if_false]
    have hne : m.nodes ≠ [] := fun hn => h0 (h.size_eq_zero_iff.mpr hn)
    obtain ⟨n, rest, hnr⟩ := List.exists_cons_of_ne_nil hne
    have hk : nodeKey m.nodes 0 = some n.1 := by simp [nodeKey, hnr]
    rw [hk]
    simp only
    have hlen : m.nodes.length ≤ 0 + fuel := by
      have := h.1
      omega
    rw [mapTraverseLoop_node m.size m.nodes fuel 0 (by simp [hnr]) hlen]
    simp [hnr]

theorem exampleMap_reachable : MapReachable compareKeyPlayerID exampleMap :=
  MapReachable.remove _ _
    (MapReachable.put _ _ _ (MapReachable.put _ _ _ (MapReachable.put _ _ _ MapReachable.create)))

/-! ## The size never exceeds the number of linked nodes -/

theorem mapGetFirst_size_nodes {K V : Type} (m : Map K V) :
    (mapGetFirst m).2.size = m.size ∧ (mapGetFirst m).2.nodes = m.nodes := by
  unfold mapGetFirst
  split <;> exact ⟨rfl, rfl⟩

theorem mapGetNext_size_nodes {K V : Type} {m m1 : Map K V} {r : Option K}
    (hn : mapGetNext m = some (r, m1)) : m1.size = m.size ∧ m1.nodes = m.nodes := by
  unfold mapGetNext at hn
  split at hn
  · simp at hn
  · simp at hn
  · split at hn <;> simp at hn <;> obtain ⟨_, rfl⟩ := hn <;> exact ⟨rfl, rfl⟩
  · split at hn <;> simp at hn <;> obtain ⟨_, rfl⟩ := hn <;> exact ⟨rfl, rfl⟩
  · simp at hn
    obtain ⟨_, rfl⟩ := hn
    exact ⟨rfl, rfl⟩

theorem mapPut_size_bounds {K V : Type} (cmp : K → K → Int) (m : Map K V) (k : Option K)
    (v : Option V) (h : 0 ≤ m.size ∧ m.size ≤ m.nodes.length) :
    0 ≤ (mapPut cmp m k v).2.size ∧
      (mapPut cmp m k v).2.size ≤ (mapPut cmp m k v).2.nodes.length := by
  unfold mapPut
  split
  · split
    · simp
    · split
      · simp only [mapChangeExistingData, mapContains_size, mapContains_nodes,
          changeData_length]
        exact h
      · simp only [mapInsertNewNode, mapContains_size, mapContains_nodes,
          insertNode_length]
        constructor
        · omega
        · push_cast
          omega
  · exact h

theorem mapRemove_size_bounds {K V : Type} (cmp : K → K → Int) (m : Map K V) (k : Option K)
    (h : 0 ≤ m.size ∧ m.size ≤ m.nodes.length) :
    0 ≤ (mapRemove cmp m k).2.size ∧
      (mapRemove cmp m k).2.size ≤ (mapRemove cmp m k).2.nodes.length := by
  unfold mapRemove
  split
  · exact h
  · rename_i k1
    split
    · rw [mapContains_size, mapContains_nodes]
      exact h
    · rename_i hc
      have h0 : m.size ≠ 0 := by
        intro h0
        rw [mapContains_fst] at hc
        simp [h0] at hc
      split
      · exact h
      · rename_i i hi
        have hlt := mapFindNode_lt cmp k1 m.nodes i hi
        simp only [List.length_eraseIdx, hlt, if_true]
        constructor
        · omega
        · have : (1 : Nat) ≤ m.nodes.length := by omega
          push_cast [Nat.cast_sub this]
          omega

theorem MapApiReachable.size_bounds {K V : Type} {cmp : K → K → Int} {m : Map K V}
    (h : MapApiReachable cmp m) :
    0 ≤ m.size ∧ m.size ≤ m.nodes.length ∧ (m.nodes = [] → m.size = 0) := by
  have hb : 0 ≤ m.size ∧ m.size ≤ m.nodes.length := by
    induction h with
    | create => simp [mapCreate]
    | put m k v _ ih => exact mapPut_size_bounds cmp m k v ih
    | remove m k _ ih => exact mapRemove_size_bounds cmp m k ih
    | clear m _ ih => simp [mapClear]
    | contains m k _ ih =>
      rw [mapContains_size, mapContains_nodes]
      exact ih
    | get m k _ ih =>
      rw [mapGet_size, mapGet_nodes]
      exact ih
    | getFirst m _ ih =>
      rw [(mapGetFirst_size_nodes m).1, (mapGetFirst_size_nodes m).2]
      exact ih
    | getNext m m1 r _ hn ih =>
      rw [(mapGetNext_size_nodes hn).1, (mapGetNext_size_nodes hn).2]
      exact ih
  refine ⟨hb.1, hb.2, ?_⟩
  intro hn
  have := hb.2
  rw [hn] at this
  simp at this
  omega

theorem clearedMap_reachable : MapApiReachable compareKeyPlayerID clearedMap :=
  MapApiReachable.clear _ (MapApiReachable.put _ _ _ MapApiReachable.create)

/-! ## Lookups after a put and after a remove, under the invariant -/

theorem mapPut_mapGet_of_wf {K V : Type} {cmp : K → K → Int} (hc : CmpOrder cmp)
    {m : Map K V} (h : MapWF cmp m) (k k1 : K) (v : V) :
    (mapGet cmp (mapPut cmp m (some k) (some v)).2 (some k1)).1 =
      if cmp k k1 = 0 then some v else (mapGet cmp m (some k1)).1 := by
  rw [mapGet_wf_fst (mapPut_wf hc h (some k) (some v)), mapGet_wf_fst h, mapPut_wf_nodes h]
  exact findData_putNodes hc k k1 v m.nodes

theorem mapRemove_mapGet_of_wf {K V : Type} {cmp : K → K → Int} (hc : CmpOrder cmp)
    {m : Map K V} (h : MapWF cmp m) (k k1 : K) :
    (mapGet cmp (mapRemove cmp m (some k)).2 (some k1)).1 =
      if cmp k k1 = 0 then none else (mapGet cmp m (some k1)).1 := by
  rw [mapGet_wf_fst (mapRemove_wf h (some k)), mapGet_wf_fst h, mapRemove_wf_nodes h]
  exact findData_removeNodes hc k k1 m.nodes h.2

theorem removeNodes_sublist {K V : Type} (cmp : K → K → Int) (k : K) (l : List (K × V)) :
    (removeNodes cmp k l).Sublist l := by
  unfold removeNodes
  cases mapFindNode cmp k l with
  | some i => exact List.eraseIdx_sublist l i
  | none => exact List.Sublist.refl l

/-! ## The id comparators and the helpers of the embedding -/

theorem compareKeyGameID_order : CmpOrder compareKeyGameID :=
  compareKeyPlayerID_order

theorem compareKeyTournamentID_order : CmpOrder compareKeyTournamentID :=
  compareKeyPlayerID_order

theorem compareKeyPlayerID_eq_zero (a b : Int) : compareKeyPlayerID a b = 0 ↔ a = b := by
  unfold compareKeyPlayerID
  omega

theorem compareKeyGameID_eq_zero (a b : Int) : compareKeyGameID a b = 0 ↔ a = b := by
  unfold compareKeyGameID
  omega

theorem compareKeyTournamentID_eq_zero (a b : Int) :
    compareKeyTournamentID a b = 0 ↔ a = b := by
  unfold compareKeyTournamentID
  omega

theorem mapForEach_wf {K V : Type} {cmp : K → K → Int} {m : Map K V} (h : MapWF cmp m) :
    mapForEach m = mapKeys m := by
  unfold mapForEach
  rw [mapTraverse_wf h m.nodes.length (by simp [mapGetSize, h.1])]

theorem mapStore_size {K V : Type} (cmp : K → K → Int) (m : Map K V) (k : K)
    (v : Option V) : (mapStore cmp m k v).size = m.size := by
  cases v <;> rfl

theorem mapStore_keys {K V : Type} (cmp : K → K → Int) (m : Map K V) (k : K)
    (v : Option V) : mapKeys (mapStore cmp m k v) = mapKeys m := by
  cases v with
  | none => rfl
  | some v => simp [mapStore, mapKeys, changeData_keys]

theorem mapStore_nodes_some {K V : Type} (cmp : K → K → Int) (m : Map K V) (k : K) (v : V) :
    (mapStore cmp m k (some v)).nodes = changeData cmp k v m.nodes := rfl

theorem MapWF.of_same_keys {K V : Type} {cmp : K → K → Int} {m m1 : Map K V}
    (h : MapWF cmp m) (hs : m1.size = m.size) (hk : mapKeys m1 = mapKeys m) :
    MapWF cmp m1 := by
  constructor
  · have h1 := congrArg List.length hk
    simp [mapKeys] at h1
    rw [hs, h.1, h1]
  · rw [hk]
    exact h.2

theorem mapStore_wf {K V : Type} {cmp : K → K → Int} {m : Map K V} (h : MapWF cmp m)
    (k : K) (v : Option V) : MapWF cmp (mapStore cmp m k v) :=
  h.of_same_keys (mapStore_size cmp m k v) (mapStore_keys cmp m k v)

theorem mem_changeData {K V : Type} (cmp : K → K → Int) (k : K) (v : V) (l : List (K × V))
    (x : K × V) (hx : x ∈ changeData cmp k v l) : x ∈ l ∨ x.2 = v := by
  induction l with
  | nil => simp [changeData] at hx
  | cons n rest ih =>
    unfold changeData at hx
    by_cases h : cmp n.1 k = 0
    · simp only [h, ne_eq, not_true_eq_false, if_false, List.mem_cons] at hx
      rcases hx with rfl | hx
      · exact Or.inr rfl
      · exact Or.inl (List.mem_cons_of_mem _ hx)
    · simp only [h, ne_eq, not_false_eq_true, if_true, List.mem_cons] at hx
      rcases hx with rfl | hx
      · exact Or.inl (List.mem_cons_self _ _)
      · rcases ih hx with h1 | h1
        · exact Or.inl (List.mem_cons_of_mem _ h1)
        · exact Or.inr h1

theorem mem_putNodes {K V : Type} (cmp : K → K → Int) (k : K) (v : V) (l : List (K × V))
    (x : K × V) (hx : x ∈ putNodes cmp k v l) : x ∈ l ∨ x.2 = v := by
  unfold putNodes at hx
  split at hx
  · exact mem_changeData cmp k v l x hx
  · rcases (mem_insertNode cmp k v l x).mp hx with rfl | h
    · exact Or.inr rfl
    · exact Or.inl h

theorem mem_removeNodes {K V : Type} (cmp : K → K → Int) (k : K) (l : List (K × V))
    (x : K × V) (hx : x ∈ removeNodes cmp k l) : x ∈ l :=
  (removeNodes_sublist cmp k l).subset hx

theorem findData_some_mem {K V : Type} (cmp : K → K → Int) (k : K) (l : List (K × V))
    (v : V) (h : findData cmp k l = some v) : ∃ n ∈ l, cmp n.1 k = 0 ∧ n.2 = v := by
  induction l with
  | nil => simp [findData] at h
  | cons n rest ih =>
    unfold findData at h
    by_cases hc : cmp n.1 k = 0
    · simp [hc] at h
      exact ⟨n, List.mem_cons_self _ _, hc, h⟩
    · simp only [hc, if_false] at h
      obtain ⟨x, hx, h1, h2⟩ := ih h
      exact ⟨x, List.mem_cons_of_mem _ hx, h1, h2⟩

theorem findData_of_mem_sorted {K V : Type} {cmp : K → K → Int} (hc : CmpOrder cmp)
    (l : List (K × V)) (hs : (l.map Prod.fst).Pairwise (fun a b => cmp a b < 0))
    (n : K × V) (hn : n ∈ l) : findData cmp n.1 l = some n.2 := by
  induction l with
  | nil => simp at hn
  | cons x rest ih =>
    simp only [List.map_cons, List.pairwise_cons] at hs
    unfold findData
    rcases List.mem_cons.mp hn with rfl | hn
    · simp [hc.refl]
    · have h1 : cmp x.1 n.1 < 0 := hs.1 n.1 (List.mem_map_of_mem _ hn)
      have h2 : cmp x.1 n.1 ≠ 0 := by omega
      simp only [h2, if_false]
      exact ih hs.2 hn

theorem filterMap_findData_keys {K V : Type} {cmp : K → K → Int} (hc : CmpOrder cmp)
    (l : List (K × V)) (hs : (l.map Prod.fst).Pairwise (fun a b => cmp a b < 0)) :
    (l.map Prod.fst).filterMap (fun k => findData cmp k l) = l.map Prod.snd := by
  have h : ∀ l1 : List (K × V), (∀ n ∈ l1, n ∈ l) →
      (l1.map Prod.fst).filterMap (fun k => findData cmp k l) = l1.map Prod.snd := by
    intro l1
    induction l1 with
    | nil => intro _; rfl
    | cons x rest ih =>
      intro hsub
      have hx := findData_of_mem_sorted hc l hs x (hsub x (List.mem_cons_self _ _))
      simp only [List.map_cons, List.filterMap_cons, hx]
      rw [ih (fun n hn => hsub n (List.mem_cons_of_mem _ hn))]
  exact h l (fun n hn => hn)

theorem changeData_map_eq {K V β : Type} (cmp : K → K → Int) (f : V → β) (k : K)
    (v w : V) (l : List (K × V)) (hf : findData cmp k l = some w) (hv : f v = f w) :
    (changeData cmp k v l).map (fun n => f n.2) = l.map (fun n => f n.2) := by
  induction l with
  | nil => rfl
  | cons n rest ih =>
    unfold findData at hf
    unfold changeData
    by_cases hc : cmp n.1 k = 0
    · simp [hc] at hf
      simp [hc, hv, hf]
    · simp only [hc, if_false] at hf
      simp [hc, ih hf]

theorem changeData_none {K V : Type} (cmp : K → K → Int) (k : K) (v : V) (l : List (K × V))
    (hf : findData cmp k l = none) : changeData cmp k v l = l := by
  induction l with
  | nil => rfl
  | cons n rest ih =>
    unfold findData at hf
    unfold changeData
    by_cases hc : cmp n.1 k = 0
    · simp [hc] at hf
    · simp only [hc, if_false] at hf
      simp [hc, ih hf]

/-! ## Claims about the map -/

/-- C1: for a total-order comparator and every map built from `mapCreate` by
`mapPut` and `mapRemove` calls, the traversal `mapGetFirst`, `mapGetNext`, ...
ends (any fuel of at least `mapGetSize` steps is enough), the keys it yields are
the stored keys (a key is contained iff it compares equal to a yielded one), and
they are strictly ascending: each yielded key compares not greater than and not
equal to every key yielded after it. -/
theorem mapTraverse_strictly_ascending {K V : Type} (cmp : K → K → Int)
    (hc : CmpOrder cmp) (m : Map K V) (h : MapReachable cmp m) :
    ∃ ks : List K,
      (∀ fuel : Nat, mapGetSize m ≤ fuel → mapTraverse fuel m = some ks) ∧
      (∀ k : K, (mapContains cmp m (some k)).1 = true ↔ ∃ k1 ∈ ks, cmp k1 k = 0) ∧
      ks.Pairwise (fun a b => cmp a b ≤ 0 ∧ cmp a b ≠ 0) := by
  have hwf := h.wf hc
  refine ⟨mapKeys m, fun fuel hf => mapTraverse_wf hwf fuel hf, ?_, ?_⟩
  · intro k
    rw [mapContains_wf_fst hwf]
    constructor
    · intro hs
      by_contra hne
      have hnone : findData cmp k m.nodes = none := by
        rw [findData_none_iff]
        intro n hn hnk
        exact hne ⟨n.1, List.mem_map_of_mem _ hn, hnk⟩
      simp [hnone] at hs
    · rintro ⟨k1, hk1, hk⟩
      unfold mapKeys at hk1
      rw [List.mem_map] at hk1
      obtain ⟨n, hn, rfl⟩ := hk1
      cases hf : findData cmp k m.nodes with
      | some x => rfl
      | none => exact absurd hk ((findData_none_iff cmp k m.nodes).mp hf n hn)
  · exact hwf.2.imp (fun hab => ⟨by omega, by omega⟩)

/-- Witness of C1 on the example map (put 3, put 1, put 2, remove 3). -/
theorem mapTraverse_strictly_ascending_witness :
    ∃ ks : List Int,
      (∀ fuel : Nat, mapGetSize exampleMap ≤ fuel → mapTraverse fuel exampleMap = some ks) ∧
      (∀ k : Int, (mapContains compareKeyPlayerID exampleMap (some k)).1 = true ↔
        ∃ k1 ∈ ks, compareKeyPlayerID k1 k = 0) ∧
      ks.Pairwise (fun a b => compareKeyPlayerID a b ≤ 0 ∧ compareKeyPlayerID a b ≠ 0) :=
  mapTraverse_strictly_ascending compareKeyPlayerID compareKeyPlayerID_order exampleMap
    exampleMap_reachable

/-- The traversal of the example map yields the keys 1 and 2. -/
theorem exampleMap_traverse : mapTraverse 2 exampleMap = some [1, 2] := by
  decide

/-- C2 (fails after `mapClear`): on the map obtained by putting (1, 10) and
clearing, `mapGet` of key 1 returns `NULL`; `mapPut` of (2, 20) returns
`MAP_SUCCESS`, and afterwards `mapGet` of key 1, which does not compare equal to
2, returns the stale data 10 instead of `NULL`. -/
theorem mapPut_after_mapClear_changes_other_key :
    (mapGet compareKeyPlayerID clearedMap (some 1)).1 = none ∧
    (mapPut compareKeyPlayerID clearedMap (some 2) (some 20)).1 = MapResult.MAP_SUCCESS ∧
    (mapGet compareKeyPlayerID
      (mapPut compareKeyPlayerID clearedMap (some 2) (some 20)).2 (some 2)).1 = some 20 ∧
    (mapGet compareKeyPlayerID
      (mapPut compareKeyPlayerID clearedMap (some 2) (some 20)).2 (some 1)).1 = some 10 := by
  decide

/-- C3: for every map and every key (also a `NULL` key), `mapContains` returns
true iff `mapGet` returns data rather than `NULL`. -/
theorem mapContains_iff_mapGet_succeeds {K V : Type} (cmp : K → K → Int) (m : Map K V)
    (k : Option K) :
    (mapContains cmp m k).1 = true ↔ ((mapGet cmp m k).1).isSome = true := by
  cases k with
  | none => simp [mapContains, mapGet]
  | some k => rw [mapContains_fst, mapGet_fst]; split <;> simp

/-- C4 (fails after `mapClear`): (1, 10) is put, the map is cleared and (2, 20)
is put.  `mapRemove` of key 1 then returns `MAP_SUCCESS` (key 1 was cleared
before), the size drops to 0, and key 2, which was contained before the
removal, is not contained any more. -/
theorem mapRemove_after_mapClear_loses_other_key :
    (mapContains compareKeyPlayerID
      (mapPut compareKeyPlayerID clearedMap (some 2) (some 20)).2 (some 2)).1 = true ∧
    (mapRemove compareKeyPlayerID
      (mapPut compareKeyPlayerID clearedMap (some 2) (some 20)).2 (some 1)).1
        = MapResult.MAP_SUCCESS ∧
    mapGetSize (mapRemove compareKeyPlayerID
      (mapPut compareKeyPlayerID clearedMap (some 2) (some 20)).2 (some 1)).2 = 0 ∧
    (mapContains compareKeyPlayerID
      (mapRemove compareKeyPlayerID
        (mapPut compareKeyPlayerID clearedMap (some 2) (some 20)).2 (some 1)).2 (some 2)).1
        = false ∧
    (mapGet compareKeyPlayerID
      (mapRemove compareKeyPlayerID
        (mapPut compareKeyPlayerID clearedMap (some 2) (some 20)).2 (some 1)).2 (some 2)).1
        = none := by
  decide

/-- C5: for a total-order comparator and every map built from `mapCreate` by
`mapPut` and `mapRemove` calls, `mapGetSize` is the number of keys the full
traversal yields; it is 0 for a new map, a put leaves it unchanged when the key
is contained and adds 1 otherwise, a successful remove subtracts 1, a failed
remove leaves it unchanged, and a put after the removal of the last pair gives
size 1 again. -/
theorem mapGetSize_counts_pairs {K V : Type} (cmp : K → K → Int) (hc : CmpOrder cmp)
    (m : Map K V) (h : MapReachable cmp m) :
    (∃ ks : List K,
      (∀ fuel : Nat, mapGetSize m ≤ fuel → mapTraverse fuel m = some ks) ∧
      mapGetSize m = ks.length) ∧
    mapGetSize (mapCreate : Map K V) = 0 ∧
    (∀ (k : K) (v : V), mapGetSize (mapPut cmp m (some k) (some v)).2 =
      if (mapContains cmp m (some k)).1 = true then mapGetSize m else mapGetSize m + 1) ∧
    (∀ k : K, (mapRemove cmp m (some k)).1 = MapResult.MAP_SUCCESS →
      mapGetSize (mapRemove cmp m (some k)).2 = mapGetSize m - 1) ∧
    (∀ k : K, (mapRemove cmp m (some k)).1 ≠ MapResult.MAP_SUCCESS →
      mapGetSize (mapRemove cmp m (some k)).2 = mapGetSize m) ∧
    (∀ (k k2 : K) (v : V), mapGetSize m = 1 →
      (mapRemove cmp m (some k)).1 = MapResult.MAP_SUCCESS →
      mapGetSize (mapPut cmp (mapRemove cmp m (some k)).2 (some k2) (some v)).2 = 1) := by
  have hwf := h.wf hc
  have hrem : ∀ k : K, (mapRemove cmp m (some k)).1 = MapResult.MAP_SUCCESS ↔
      (findData cmp k m.nodes).isSome = true := by
    intro k
    rw [mapRemove_fst, mapContains_wf_fst hwf]
    by_cases hf : (findData cmp k m.nodes).isSome = true <;> simp [hf]
  refine ⟨⟨mapKeys m, fun fuel hf => mapTraverse_wf hwf fuel hf, ?_⟩, rfl, ?_, ?_, ?_, ?_⟩
  · simp [mapGetSize, mapKeys, hwf.1]
  · intro k v
    unfold mapGetSize
    rw [mapPut_wf_size hwf, mapContains_wf_fst hwf]
  · intro k hk
    unfold mapGetSize
    rw [mapRemove_wf_size hwf, (hrem k).mp hk]
    simp
  · intro k hk
    unfold mapGetSize
    rw [mapRemove_wf_size hwf]
    have : ¬ (findData cmp k m.nodes).isSome = true := fun hf => hk ((hrem k).mpr hf)
    simp [this]
  · intro k k2 v h1 hk
    have hwf2 : MapWF cmp (mapRemove cmp m (some k)).2 := mapRemove_wf hwf (some k)
    have hs : (mapRemove cmp m (some k)).2.size = 0 := by
      rw [mapRemove_wf_size hwf, (hrem k).mp hk]
      unfold mapGetSize at h1
      simp [h1]
    have hn := hwf2.size_eq_zero_iff.mp hs
    unfold mapGetSize
    rw [mapPut_wf_size hwf2, hn, hs]
    simp [findData]

/-- Witness of C5 on the example map (put 3, put 1, put 2, remove 3). -/
theorem mapGetSize_counts_pairs_witness :
    (∃ ks : List Int,
      (∀ fuel : Nat, mapGetSize exampleMap ≤ fuel → mapTraverse fuel exampleMap = some ks) ∧
      mapGetSize exampleMap = ks.length) ∧
    mapGetSize (mapCreate : Map Int Int) = 0 ∧
    (∀ (k : Int) (v : Int),
      mapGetSize (mapPut compareKeyPlayerID exampleMap (some k) (some v)).2 =
        if (mapContains compareKeyPlayerID exampleMap (some k)).1 = true
        then mapGetSize exampleMap else mapGetSize exampleMap + 1) ∧
    (∀ k : Int, (mapRemove compareKeyPlayerID exampleMap (some k)).1 = MapResult.MAP_SUCCESS →
      mapGetSize (mapRemove compareKeyPlayerID exampleMap (some k)).2 =
        mapGetSize exampleMap - 1) ∧
    (∀ k : Int, (mapRemove compareKeyPlayerID exampleMap (some k)).1 ≠ MapResult.MAP_SUCCESS →
      mapGetSize (mapRemove compareKeyPlayerID exampleMap (some k)).2 =
        mapGetSize exampleMap) ∧
    (∀ (k k2 : Int) (v : Int), mapGetSize exampleMap = 1 →
      (mapRemove compareKeyPlayerID exampleMap (some k)).1 = MapResult.MAP_SUCCESS →
      mapGetSize (mapPut compareKeyPlayerID
        (mapRemove compareKeyPlayerID exampleMap (some k)).2 (some k2) (some v)).2 = 1) :=
  mapGetSize_counts_pairs compareKeyPlayerID compareKeyPlayerID_order exampleMap
    exampleMap_reachable

/-- C6 (fails): (1, 10) is put into a new map and the map is cleared.  The size
is 0 and key 1 is not contained; but after one following put of (2, 20) the size
is 1 while the traversal yields the keys 1 and 2, and key 1 is contained again
with its stale data. -/
theorem mapClear_keeps_nodes :
    mapGetSize clearedMap = 0 ∧
    (mapContains compareKeyPlayerID clearedMap (some 1)).1 = false ∧
    clearedMap.nodes = [(1, 10)] ∧
    mapGetSize (mapPut compareKeyPlayerID clearedMap (some 2) (some 20)).2 = 1 ∧
    mapTraverse 2 (mapPut compareKeyPlayerID clearedMap (some 2) (some 20)).2 = some [1, 2] ∧
    (mapContains compareKeyPlayerID
      (mapPut compareKeyPlayerID clearedMap (some 2) (some 20)).2 (some 1)).1 = true ∧
    (mapGet compareKeyPlayerID
      (mapPut compareKeyPlayerID clearedMap (some 2) (some 20)).2 (some 1)).1 = some 10 := by
  decide

/-! ## The statistics updates keep the keys of a players map -/

theorem playersAddStatsToMap_same {m m1 : Map Int Player} {p1 p2 : Int} {w : Winner}
    {t : Int} (h : playersAddStatsToMap m p1 p2 w t = some m1) :
    m1.size = m.size ∧ mapKeys m1 = mapKeys m := by
  unfold playersAddStatsToMap at h
  split at h
  · simp at h
  · simp at h
    subst h
    simp [mapStore_size, mapStore_keys]

theorem playersRemoveStats_same {m m1 : Map Int Player} {p1 p2 : Int} {w : Winner}
    {t : Int} (h : playersRemoveStats m p1 p2 w t = some m1) :
    m1.size = m.size ∧ mapKeys m1 = mapKeys m := by
  unfold playersRemoveStats at h
  split at h
  · simp at h
    subst h
    exact ⟨rfl, rfl⟩
  · split at h
    · simp at h
    · split at h
      · simp at h
      · simp at h
        subst h
        simp [mapStore_size, mapStore_keys]

theorem playersMapTechnicalWinUpdateScore_same {m m1 : Map Int Player} {p1 p2 o : Int}
    {w : Winner} (h : playersMapTechnicalWinUpdateScore m p1 p2 o w = some m1) :
    m1.size = m.size ∧ mapKeys m1 = mapKeys m := by
  unfold playersMapTechnicalWinUpdateScore at h
  split at h
  · simp at h
    subst h
    exact ⟨rfl, rfl⟩
  · split at h
    · simp at h
    · simp at h
      subst h
      simp [mapStore_size, mapStore_keys]

theorem setupPlayer_wf {m : Map Int Player} (h : MapWF compareKeyPlayerID m) (id : Int) :
    MapWF compareKeyPlayerID (setupPlayer m id) := by
  unfold setupPlayer
  split
  · exact mapPut_wf compareKeyPlayerID_order h _ _
  · exact h

/-! ## The player setup of `chessAddGame` -/

theorem playerSetupInMap_chessPlayers (t : Tournament) (p : Map Int Player) (id : Int) :
    playerSetupInMap t p PlayersMapRef.chessPlayers id =
      (MapResult.MAP_SUCCESS, t, setupPlayer p id) := by
  unfold playerSetupInMap setupPlayer
  simp only
  split
  · simp [mapPut_fst]
  · rfl

theorem playerSetupInMap_tournamentPlayers (t : Tournament) (p : Map Int Player) (id : Int) :
    playerSetupInMap t p PlayersMapRef.tournamentPlayers id =
      (MapResult.MAP_SUCCESS,
       { t with
         players := setupPlayer t.players id
         number_of_players :=
           if (mapContains compareKeyPlayerID t.players (some id)).1 = false then
             t.number_of_players + 1
           else t.number_of_players },
       p) := by
  unfold playerSetupInMap setupPlayer
  simp only
  split
  · simp [mapPut_fst, tournamentUpdateNumberOfPlayers]
  · simp

theorem newGameSystemAssign_eq (t : Tournament) (p : Map Int Player) (g : Game)
    (id p1 p2 : Int) :
    ∃ n : Int,
      newGameSystemAssign t p g id p1 p2 =
        (ChessResult.CHESS_SUCCESS,
         { t with
           games := (mapPut compareKeyGameID t.games (some id) (some g)).2
           players := setupPlayer (setupPlayer t.players p1) p2
           number_of_players := n },
         setupPlayer (setupPlayer p p1) p2) := by
  unfold newGameSystemAssign playerMapUpdatePlayers
  simp only [playerSetupInMap_chessPlayers, playerSetupInMap_tournamentPlayers, mapPut_fst,
    ne_eq, not_true_eq_false, if_false]
  exact ⟨_, rfl⟩

/-! ## The tournament invariant under `chessAddGame` -/

theorem insertNode_sum {K V : Type} (cmp : K → K → Int) (f : K × V → Int) (k : K) (v : V)
    (l : List (K × V)) :
    ((insertNode cmp k v l).map f).sum = f (k, v) + (l.map f).sum := by
  induction l with
  | nil => simp [insertNode]
  | cons n rest ih =>
    unfold insertNode
    by_cases h : cmp n.1 k < 0
    · simp only [h, if_true, List.map_cons, List.sum_cons, ih]
      omega
    · simp [h]

theorem insertNode_foldr_max {K V : Type} (cmp : K → K → Int) (f : K × V → Int) (k : K)
    (v : V) (l : List (K × V)) :
    ((insertNode cmp k v l).map f).foldr max 0 = max (f (k, v)) ((l.map f).foldr max 0) := by
  induction l with
  | nil => simp [insertNode]
  | cons n rest ih =>
    unfold insertNode
    by_cases h : cmp n.1 k < 0
    · simp only [h, if_true, List.map_cons, List.foldr_cons, ih]
      exact max_left_comm _ _ _
    · simp [h]

theorem TournamentInv.fresh_key {t : Tournament} (h : TournamentInv t) :
    findData compareKeyGameID (mapGetSize t.games + 1) t.games.nodes = none := by
  rw [findData_none_iff]
  intro n hn hc
  have h1 := (h.2.2.1 n hn).2
  rw [compareKeyGameID_eq_zero] at hc
  unfold mapGetSize at hc
  omega

theorem TournamentInv.put_game {t : Tournament} (h : TournamentInv t) (g : Game) :
    MapWF compareKeyGameID
        (mapPut compareKeyGameID t.games (some (mapGetSize t.games + 1)) (some g)).2 ∧
    (mapPut compareKeyGameID t.games (some (mapGetSize t.games + 1)) (some g)).2.size
        = t.games.size + 1 ∧
    (mapPut compareKeyGameID t.games (some (mapGetSize t.games + 1)) (some g)).2.nodes
        = insertNode compareKeyGameID (mapGetSize t.games + 1) g t.games.nodes := by
  have hf := h.fresh_key
  refine ⟨mapPut_wf compareKeyGameID_order h.1 _ _, ?_, ?_⟩
  · rw [mapPut_wf_size h.1, hf]
    simp
  · rw [mapPut_wf_nodes h.1]
    unfold putNodes
    simp [hf]

theorem tournamentUpdateStats_games (t : Tournament) (time : Int) :
    (tournamentUpdateStats t time).games = t.games := by
  unfold tournamentUpdateStats tournamentUpdateTotalPlayTime tournamentUpdateLongestGameTime
    tournamentUpdateNumberOfGames
  split <;> rfl

theorem tournamentUpdateStats_players (t : Tournament) (time : Int) :
    (tournamentUpdateStats t time).players = t.players := by
  unfold tournamentUpdateStats tournamentUpdateTotalPlayTime tournamentUpdateLongestGameTime
    tournamentUpdateNumberOfGames
  split <;> rfl

theorem tournamentUpdateStats_winner (t : Tournament) (time : Int) :
    (tournamentUpdateStats t time).winner = t.winner := by
  unfold tournamentUpdateStats tournamentUpdateTotalPlayTime tournamentUpdateLongestGameTime
    tournamentUpdateNumberOfGames
  split <;> rfl

theorem tournamentUpdateStats_total (t : Tournament) (time : Int) :
    (tournamentUpdateStats t time).total_play_time = t.total_play_time + time := by
  unfold tournamentUpdateStats tournamentUpdateTotalPlayTime tournamentUpdateLongestGameTime
    tournamentUpdateNumberOfGames
  split <;> rfl

theorem tournamentUpdateStats_number (t : Tournament) (time : Int) :
    (tournamentUpdateStats t time).number_of_games = t.number_of_games + 1 := by
  unfold tournamentUpdateStats tournamentUpdateTotalPlayTime tournamentUpdateLongestGameTime
    tournamentUpdateNumberOfGames
  split <;> rfl

theorem tournamentUpdateStats_longest (t : Tournament) (time : Int) :
    (tournamentUpdateStats t time).longest_game_time = max time t.longest_game_time := by
  unfold tournamentUpdateStats tournamentUpdateTotalPlayTime tournamentUpdateLongestGameTime
    tournamentUpdateNumberOfGames
  split
  · rename_i hlt
    simp only [] at hlt
    exact (max_eq_left (le_of_lt hlt)).symm
  · rename_i hlt
    simp only [] at hlt
    exact (max_eq_right (not_lt.mp hlt)).symm

theorem chessAddGameUpdate_inv {t t1 : Tournament} {p p1 : Map Int Player}
    {first second : Int} {w : Winner} {time : Int}
    (ht : TournamentInv t) (hp : MapWF compareKeyPlayerID p) (htime : 0 ≤ time)
    (h : chessAddGameUpdate t p first second w time = some (t1, p1)) :
    TournamentInv t1 ∧ MapWF compareKeyPlayerID p1 := by
  unfold chessAddGameUpdate at h
  obtain ⟨n, hn⟩ := newGameSystemAssign_eq t p (gameCreate w time first second)
    (mapGetSize t.games + 1) first second
  simp only [hn, ne_eq, not_true_eq_false, if_false] at h
  split at h
  · simp at h
  · rename_i pf hpf
    split at h
    · simp at h
    · rename_i lf hlf
      simp only [Option.some.injEq, Prod.mk.injEq] at h
      obtain ⟨rfl, rfl⟩ := h
      have hsame1 := playersAddStatsToMap_same hpf
      have hsame2 := playersAddStatsToMap_same hlf
      have hwfp : MapWF compareKeyPlayerID (setupPlayer (setupPlayer p first) second) :=
        setupPlayer_wf (setupPlayer_wf hp _) _
      have hwfl : MapWF compareKeyPlayerID (setupPlayer (setupPlayer t.players first) second) :=
        setupPlayer_wf (setupPlayer_wf ht.2.1 _) _
      obtain ⟨hg1, hg2, hg3⟩ := ht.put_game (gameCreate w time first second)
      have hsz : (0 : Int) ≤ t.games.size := by
        rw [ht.1.1]
        exact Int.ofNat_nonneg _
      refine ⟨⟨?_, ?_, ?_, ?_, ?_, ?_, ?_⟩, hwfp.of_same_keys hsame1.1 hsame1.2⟩
      · rw [tournamentUpdateStats_games]
        exact hg1
      · rw [tournamentUpdateStats_players]
        exact hwfl.of_same_keys hsame2.1 hsame2.2
      · intro x hx
        rw [tournamentUpdateStats_games] at hx ⊢
        simp only [] at hx ⊢
        rw [hg2]
        rw [hg3] at hx
        rcases (mem_insertNode _ _ _ _ x).mp hx with rfl | hx
        · simp only [mapGetSize]
          omega
        · have := ht.2.2.1 x hx
          omega
      · intro x hx
        rw [tournamentUpdateStats_games] at hx
        simp only [] at hx
        rw [hg3] at hx
        rcases (mem_insertNode _ _ _ _ x).mp hx with rfl | hx
        · exact htime
        · exact ht.2.2.2.1 x hx
      · rw [tournamentUpdateStats_games, tournamentUpdateStats_total]
        simp only []
        rw [hg3, insertNode_sum, ht.2.2.2.2.1]
        simp only [gameCreate]
        omega
      · rw [tournamentUpdateStats_games, tournamentUpdateStats_longest]
        simp only []
        rw [hg3, insertNode_foldr_max, ← ht.2.2.2.2.2.1]
        simp only [gameCreate]
      · rw [tournamentUpdateStats_games, tournamentUpdateStats_number]
        simp only []
        rw [hg2, ht.2.2.2.2.2.2]

/-! ## The system invariant holds in every reachable state -/

theorem tournamentCreate_inv (max : Int) (location : String) :
    TournamentInv (tournamentCreate max location) := by
  unfold TournamentInv tournamentCreate
  refine ⟨mapCreate_wf _, mapCreate_wf _, ?_⟩
  simp [mapCreate]

theorem chessCreate_inv : SysInv chessCreate := by
  unfold SysInv chessCreate
  refine ⟨mapCreate_wf _, mapCreate_wf _, ?_⟩
  simp [mapCreate]

theorem tournamentSetWinner_inv {t : Tournament} (h : TournamentInv t) (w : Int) :
    TournamentInv (tournamentSetWinner t w) := h

theorem SysInv.lookup {s : ChessSystem} (h : SysInv s) {tid : Int} {t : Tournament}
    (ht : (mapGet compareKeyTournamentID s.tournaments (some tid)).1 = some t) :
    TournamentInv t := by
  rw [mapGet_wf_fst h.1] at ht
  obtain ⟨n, hn, _, rfl⟩ := findData_some_mem _ _ _ _ ht
  exact h.2.2 n hn

theorem SysInv.store {s : ChessSystem} (h : SysInv s) (tid : Int) {t : Tournament}
    (ht : TournamentInv t) {p : Map Int Player} (hp : MapWF compareKeyPlayerID p) :
    SysInv { tournaments := mapStore compareKeyTournamentID s.tournaments tid (some t),
             players := p } := by
  refine ⟨mapStore_wf h.1 _ _, hp, ?_⟩
  intro n hn
  rcases mem_changeData _ _ _ _ n hn with h1 | h1
  · exact h.2.2 n h1
  · rw [h1]
    exact ht

theorem chessAddTournament_inv {s s1 : ChessSystem} {tid max : Int} {loc : Option String}
    {r : ChessResult} (h : SysInv s)
    (hr : chessAddTournament (some s) tid max loc = some (r, some s1)) : SysInv s1 := by
  unfold chessAddTournament at hr
  split at hr
  · simp only [Option.some.injEq, Prod.mk.injEq] at hr
    obtain ⟨_, rfl⟩ := hr
    exact h
  · cases loc with
    | none => simp at hr
    | some location =>
      simp only [mapPut_fst, ne_eq, not_true_eq_false, if_false, Option.some.injEq,
        Prod.mk.injEq] at hr
      obtain ⟨_, rfl⟩ := hr
      refine ⟨mapPut_wf compareKeyTournamentID_order h.1 _ _, h.2.1, ?_⟩
      intro n hn
      simp only [] at hn
      rw [mapPut_wf_nodes h.1] at hn
      rcases mem_putNodes _ _ _ _ n hn with h1 | h1
      · exact h.2.2 n h1
      · rw [h1]
        exact tournamentCreate_inv max location

theorem chessAddGameErrorCheck_time {s : ChessSystem} {tid p1 p2 : Int} {w : Winner}
    {time : Int}
    (h : chessAddGameErrorCheck (some s) tid p1 p2 w time = ChessResult.CHESS_SUCCESS) :
    0 ≤ time := by
  unfold chessAddGameErrorCheck at h
  simp only at h
  split at h
  · simp at h
  · split at h
    · simp at h
    · split at h
      · simp at h
      · split at h
        · simp at h
        · split at h
          · simp at h
          · split at h
            · simp at h
            · rename_i ht
              simpa [isPlayTimeValid] using ht

theorem chessAddGame_inv {s s1 : ChessSystem} {tid p1 p2 : Int} {w : Winner} {time : Int}
    {r : ChessResult} (h : SysInv s)
    (hr : chessAddGame (some s) tid p1 p2 w time = some (r, some s1)) : SysInv s1 := by
  unfold chessAddGame at hr
  split at hr
  · simp only [Option.some.injEq, Prod.mk.injEq] at hr
    obtain ⟨_, rfl⟩ := hr
    exact h
  · rename_i hcheck
    simp only [ne_eq, not_not] at hcheck
    have htime := chessAddGameErrorCheck_time hcheck
    simp only at hr
    split at hr
    · simp at hr
    · rename_i t ht
      split at hr
      · simp at hr
      · rename_i t1 pl1 hup
        simp only [Option.some.injEq, Prod.mk.injEq] at hr
        obtain ⟨_, rfl⟩ := hr
        obtain ⟨hti, hpi⟩ := chessAddGameUpdate_inv (h.lookup ht) h.2.1 htime hup
        exact h.store tid hti hpi

theorem chessEndTournament_inv {s s1 : ChessSystem} {tid : Int} {r : ChessResult}
    (h : SysInv s) (hr : chessEndTournament (some s) tid = some (r, some s1)) :
    SysInv s1 := by
  unfold chessEndTournament at hr
  split at hr
  · simp only [Option.some.injEq, Prod.mk.injEq] at hr
    obtain ⟨_, rfl⟩ := hr
    exact h
  · simp only at hr
    split at hr
    · simp at hr
    · rename_i t ht
      split at hr
      · simp at hr
      · simp only [Option.some.injEq, Prod.mk.injEq] at hr
        obtain ⟨_, rfl⟩ := hr
        exact h.store tid (tournamentSetWinner_inv (h.lookup ht) _) h.2.1

theorem removeTournamentLoop_same (games : Map Int Game) (ids : List Int) :
    ∀ (p p1 : Map Int Player), removeTournamentLoop games ids p = some p1 →
      p1.size = p.size ∧ mapKeys p1 = mapKeys p := by
  induction ids with
  | nil =>
    intro p p1 h
    simp [removeTournamentLoop] at h
    subst h
    exact ⟨rfl, rfl⟩
  | cons id rest ih =>
    intro p p1 h
    unfold removeTournamentLoop at h
    split at h
    · simp at h
    · split at h
      · simp at h
      · rename_i p2 hp2
        have h1 := playersRemoveStats_same hp2
        have h2 := ih p2 p1 h
        exact ⟨h2.1.trans h1.1, h2.2.trans h1.2⟩

theorem chessRemoveTournament_inv {s s1 : ChessSystem} {tid : Int} {r : ChessResult}
    (h : SysInv s) (hr : chessRemoveTournament (some s) tid = some (r, some s1)) :
    SysInv s1 := by
  unfold chessRemoveTournament at hr
  split at hr
  · simp only [Option.some.injEq, Prod.mk.injEq] at hr
    obtain ⟨_, rfl⟩ := hr
    exact h
  · simp only at hr
    split at hr
    · simp at hr
    · rename_i t ht
      split at hr
      · simp at hr
      · rename_i pl hpl
        simp only [Option.some.injEq, Prod.mk.injEq] at hr
        obtain ⟨_, rfl⟩ := hr
        have hs := removeTournamentLoop_same _ _ _ _ hpl
        refine ⟨mapRemove_wf h.1 _, h.2.1.of_same_keys hs.1 hs.2, ?_⟩
        intro n hn
        simp only [] at hn
        rw [mapRemove_wf_nodes h.1] at hn
        exact h.2.2 n (mem_removeNodes _ _ _ _ hn)

theorem gameSetWinner_play_time {g : Option Game} {id : Int} {g1 : Game}
    (h : gameSetWinner g id = some g1) : ∃ g0, g = some g0 ∧ g1.play_time = g0.play_time := by
  cases g with
  | none => simp [gameSetWinner] at h
  | some g0 =>
    refine ⟨g0, rfl, ?_⟩
    unfold gameSetWinner at h
    simp only at h
    split at h <;> simp at h <;> subst h <;> rfl

theorem gameUpdateDeletedPlayerID_play_time {g : Option Game} {id : Int} {g1 : Game}
    (h : gameUpdateDeletedPlayerID g id = some g1) :
    ∃ g0, g = some g0 ∧ g1.play_time = g0.play_time := by
  cases g with
  | none => simp [gameUpdateDeletedPlayerID] at h
  | some g0 =>
    refine ⟨g0, rfl, ?_⟩
    unfold gameUpdateDeletedPlayerID at h
    simp only at h
    split at h <;> simp at h <;> subst h <;> rfl

theorem TournamentInv.store_game {t : Tournament} (h : TournamentInv t) (gid : Int)
    (newg : Option Game)
    (hpt : ∀ g1, newg = some g1 →
      ∃ g, (mapGet compareKeyGameID t.games (some gid)).1 = some g ∧
        g1.play_time = g.play_time)
    {pl : Map Int Player} (hpl : MapWF compareKeyPlayerID pl) :
    TournamentInv { t with games := mapStore compareKeyGameID t.games gid newg,
                           players := pl } := by
  cases newg with
  | none => exact ⟨h.1, hpl, h.2.2⟩
  | some g1 =>
    obtain ⟨g, hg, hgt⟩ := hpt g1 rfl
    rw [mapGet_wf_fst h.1] at hg
    have htimes := changeData_map_eq compareKeyGameID (fun x : Game => x.play_time) gid g1 g
      t.games.nodes hg hgt
    have hkeys := changeData_keys compareKeyGameID gid g1 t.games.nodes
    refine ⟨mapStore_wf h.1 _ _, hpl, ?_, ?_, ?_, ?_, ?_⟩
    · intro n hn
      simp only [mapStore_nodes_some, mapStore_size] at hn ⊢
      have hk : n.1 ∈ (changeData compareKeyGameID gid g1 t.games.nodes).map Prod.fst :=
        List.mem_map_of_mem _ hn
      rw [hkeys, List.mem_map] at hk
      obtain ⟨n0, hn0, hk0⟩ := hk
      rw [← hk0]
      exact h.2.2.1 n0 hn0
    · intro n hn
      simp only [mapStore_nodes_some] at hn
      have hk : n.2.play_time ∈
          (changeData compareKeyGameID gid g1 t.games.nodes).map (fun n => n.2.play_time) :=
        List.mem_map_of_mem (fun n : Int × Game => n.2.play_time) hn
      rw [htimes, List.mem_map] at hk
      obtain ⟨n0, hn0, hk0⟩ := hk
      rw [← hk0]
      exact h.2.2.2.1 n0 hn0
    · simp only [mapStore_nodes_some]
      rw [htimes]
      exact h.2.2.2.2.1
    · simp only [mapStore_nodes_some]
      rw [htimes]
      exact h.2.2.2.2.2.1
    · simp only [mapStore_size]
      exact h.2.2.2.2.2.2

theorem removePlayerGameStep_inv {pid gid : Int} {t t1 : Tournament} {p p1 : Map Int Player}
    (ht : TournamentInv t) (hp : MapWF compareKeyPlayerID p)
    (h : removePlayerGameStep pid t p gid = some (t1, p1)) :
    TournamentInv t1 ∧ MapWF compareKeyPlayerID p1 := by
  unfold removePlayerGameStep at h
  simp only at h
  split at h
  · split at h
    · split at h
      · simp at h
      · rename_i game hgame
        split at h
        · simp at h
        · rename_i cp1 hcp1
          split at h
          · simp at h
          · rename_i tp1 htp1
            simp only [Option.some.injEq, Prod.mk.injEq] at h
            obtain ⟨rfl, rfl⟩ := h
            have h1 := playersMapTechnicalWinUpdateScore_same hcp1
            have h2 := playersMapTechnicalWinUpdateScore_same htp1
            refine ⟨?_, hp.of_same_keys h1.1 h1.2⟩
            apply ht.store_game gid _ _ (ht.2.1.of_same_keys h2.1 h2.2)
            intro g1 hg1
            obtain ⟨g2, hg2, ht2⟩ := gameUpdateDeletedPlayerID_play_time hg1
            obtain ⟨g3, hg3, ht3⟩ := gameSetWinner_play_time hg2
            exact ⟨g3, hg3, ht2.trans ht3⟩
    · simp only [Option.some.injEq, Prod.mk.injEq] at h
      obtain ⟨rfl, rfl⟩ := h
      refine ⟨?_, hp⟩
      apply ht.store_game gid _ _ ht.2.1
      intro g1 hg1
      exact gameUpdateDeletedPlayerID_play_time hg1
  · simp only [Option.some.injEq, Prod.mk.injEq] at h
    obtain ⟨rfl, rfl⟩ := h
    exact ⟨ht, hp⟩

theorem removePlayerGamesLoop_inv (pid : Int) (ids : List Int) :
    ∀ (t t1 : Tournament) (p p1 : Map Int Player), TournamentInv t →
      MapWF compareKeyPlayerID p → removePlayerGamesLoop pid ids t p = some (t1, p1) →
      TournamentInv t1 ∧ MapWF compareKeyPlayerID p1 := by
  induction ids with
  | nil =>
    intro t t1 p p1 ht hp h
    simp only [removePlayerGamesLoop, Option.some.injEq, Prod.mk.injEq] at h
    obtain ⟨rfl, rfl⟩ := h
    exact ⟨ht, hp⟩
  | cons id rest ih =>
    intro t t1 p p1 ht hp h
    unfold removePlayerGamesLoop at h
    split at h
    · simp at h
    · rename_i t2 p2 hstep
      obtain ⟨ht2, hp2⟩ := removePlayerGameStep_inv ht hp hstep
      exact ih t2 t1 p2 p1 ht2 hp2 h

theorem removePlayerTournamentStep_inv {pid tid : Int} {s s1 : ChessSystem} (h : SysInv s)
    (hr : removePlayerTournamentStep pid s tid = some s1) : SysInv s1 := by
  unfold removePlayerTournamentStep at hr
  split at hr
  · simp only [Option.some.injEq] at hr
    subst hr
    exact h
  · rename_i t ht
    have hti := h.lookup ht
    split at hr
    · simp at hr
    · rename_i t1 p1 hloop
      simp only [Option.some.injEq] at hr
      subst hr
      have h1 : TournamentInv t1 ∧ MapWF compareKeyPlayerID p1 := by
        split at hloop
        · exact removePlayerGamesLoop_inv pid _ t t1 s.players p1 hti h.2.1 hloop
        · simp only [Option.some.injEq, Prod.mk.injEq] at hloop
          obtain ⟨rfl, rfl⟩ := hloop
          exact ⟨hti, h.2.1⟩
      apply h.store tid _ h1.2
      exact ⟨h1.1.1, mapRemove_wf h1.1.2.1 _, h1.1.2.2⟩

theorem removePlayerTournamentsLoop_inv (pid : Int) (ids : List Int) :
    ∀ (s s1 : ChessSystem), SysInv s → removePlayerTournamentsLoop pid ids s = some s1 →
      SysInv s1 := by
  induction ids with
  | nil =>
    intro s s1 h hr
    simp only [removePlayerTournamentsLoop, Option.some.injEq] at hr
    subst hr
    exact h
  | cons id rest ih =>
    intro s s1 h hr
    unfold removePlayerTournamentsLoop at hr
    split at hr
    · simp at hr
    · rename_i s2 hstep
      exact ih s2 s1 (removePlayerTournamentStep_inv h hstep) hr

theorem chessRemovePlayer_inv {s s1 : ChessSystem} {pid : Int} {r : ChessResult}
    (h : SysInv s) (hr : chessRemovePlayer (some s) pid = some (r, some s1)) :
    SysInv s1 := by
  unfold chessRemovePlayer at hr
  split at hr
  · simp only [Option.some.injEq, Prod.mk.injEq] at hr
    obtain ⟨_, rfl⟩ := hr
    exact h
  · simp only at hr
    split at hr
    · simp at hr
    · rename_i c1 hloop
      simp only [Option.some.injEq, Prod.mk.injEq] at hr
      obtain ⟨_, rfl⟩ := hr
      have h1 := removePlayerTournamentsLoop_inv pid _ s c1 h hloop
      exact ⟨h1.1, mapRemove_wf h1.2.1 _, h1.2.2⟩

theorem Reachable.inv {s : ChessSystem} (h : Reachable s) : SysInv s := by
  induction h with
  | create => exact chessCreate_inv
  | addTournament s s1 tid max loc r _ hr ih => exact chessAddTournament_inv ih hr
  | addGame s s1 tid p1 p2 w time r _ hr ih => exact chessAddGame_inv ih hr
  | removePlayer s s1 pid r _ hr ih => exact chessRemovePlayer_inv ih hr
  | endTournament s s1 tid r _ hr ih => exact chessEndTournament_inv ih hr
  | removeTournament s s1 tid r _ hr ih => exact chessRemoveTournament_inv ih hr

/-! ## Example runs are reachable -/

theorem runA1_reachable : Reachable (systemOf runA1) :=
  Reachable.addTournament chessCreate (systemOf runA1) 1 2 (some "London")
    ChessResult.CHESS_SUCCESS Reachable.create (by decide)

theorem runA2_reachable : Reachable (systemOf runA2) :=
  Reachable.addGame (systemOf runA1) (systemOf runA2) 1 1 2 Winner.FIRST_PLAYER 10
    ChessResult.CHESS_SUCCESS runA1_reachable (by decide)

theorem runA3_reachable : Reachable (systemOf runA3) :=
  Reachable.addGame (systemOf runA2) (systemOf runA3) 1 1 3 Winner.DRAW 25
    ChessResult.CHESS_SUCCESS runA2_reachable (by decide)

/-! ## Claims about the tournament counters -/

theorem tournamentGames_of_inv {t : Tournament} (h : TournamentInv t) :
    tournamentGames t = t.games.nodes.map Prod.snd := by
  unfold tournamentGames
  rw [mapForEach_wf h.1]
  have hf : (fun id : Int => (mapGet compareKeyGameID t.games (some id)).1) =
      (fun id : Int => findData compareKeyGameID id t.games.nodes) := by
    funext id
    exact mapGet_wf_fst h.1 id
  rw [hf]
  exact filterMap_findData_keys compareKeyGameID_order t.games.nodes h.1.2

theorem le_foldr_max (l : List Int) : ∀ x ∈ l, x ≤ l.foldr max 0 := by
  induction l with
  | nil => simp
  | cons a rest ih =>
    intro x hx
    simp only [List.foldr_cons]
    rcases List.mem_cons.mp hx with rfl | hx
    · exact le_max_left _ _
    · exact le_trans (ih x hx) (le_max_right _ _)

theorem foldr_max_mem (l : List Int) (hne : l ≠ []) (hpos : ∀ x ∈ l, 0 ≤ x) :
    l.foldr max 0 ∈ l := by
  induction l with
  | nil => exact absurd rfl hne
  | cons a rest ih =>
    simp only [List.foldr_cons]
    rcases max_cases a (rest.foldr max 0) with ⟨h1, _⟩ | ⟨h1, h2⟩
    · rw [h1]
      exact List.mem_cons_self _ _
    · rw [h1]
      cases rest with
      | nil =>
        simp only [List.foldr_nil] at h2
        have := hpos a (List.mem_cons_self _ _)
        omega
      | cons b rest1 =>
        exact List.mem_cons_of_mem _
          (ih (List.cons_ne_nil _ _) (fun x hx => hpos x (List.mem_cons_of_mem _ hx)))

/-- In exact arithmetic: in every reachable state, for every tournament stored
in the system,
`total_play_time` is the sum of the play times of the games in its games map,
`longest_game_time` is their maximum (no game is longer and, when there is a
game, one game is that long; 0 when there is no game), and `number_of_games`
is the size of the games map, which is the number of its games. -/
theorem tournament_counters_match_games (s : ChessSystem) (h : Reachable s) (tid : Int)
    (t : Tournament)
    (ht : (mapGet compareKeyTournamentID s.tournaments (some tid)).1 = some t) :
    t.total_play_time = ((tournamentGames t).map (fun g => g.play_time)).sum ∧
    (∀ g ∈ tournamentGames t, g.play_time ≤ t.longest_game_time) ∧
    (tournamentGames t ≠ [] → ∃ g ∈ tournamentGames t, g.play_time = t.longest_game_time) ∧
    (tournamentGames t = [] → t.longest_game_time = 0) ∧
    t.number_of_games = mapGetSize t.games ∧
    mapGetSize t.games = (tournamentGames t).length := by
  have hi := h.inv.lookup ht
  have hg := tournamentGames_of_inv hi
  have hmap : (tournamentGames t).map (fun g => g.play_time) =
      t.games.nodes.map (fun n => n.2.play_time) := by
    rw [hg, List.map_map]
    rfl
  have hmem : ∀ x, x ∈ t.games.nodes.map (fun n => n.2.play_time) ↔
      ∃ g ∈ tournamentGames t, g.play_time = x := by
    intro x
    rw [← hmap, List.mem_map]
  refine ⟨?_, ?_, ?_, ?_, hi.2.2.2.2.2.2, ?_⟩
  · rw [hmap]
    exact hi.2.2.2.2.1
  · intro g hgm
    rw [hi.2.2.2.2.2.1]
    exact le_foldr_max _ _ ((hmem _).mpr ⟨g, hgm, rfl⟩)
  · intro hne
    rw [hi.2.2.2.2.2.1]
    apply (hmem _).mp
    apply foldr_max_mem
    · intro hnil
      apply hne
      have : (tournamentGames t).map (fun g => g.play_time) = [] := by rw [hmap, hnil]
      exact List.map_eq_nil_iff.mp this
    · intro x hx
      rw [List.mem_map] at hx
      obtain ⟨n, hn, rfl⟩ := hx
      exact hi.2.2.2.1 n hn
  · intro hnil
    rw [hi.2.2.2.2.2.1, ← hmap, hnil]
    rfl
  · rw [hg]
    simp [mapGetSize, hi.1.1]

/-- Example: tournament 1 of the example run after its two games (10 and
25 seconds). -/
theorem tournament_counters_match_games_witness :
    (mapGet compareKeyTournamentID (systemOf runA3).tournaments (some 1)).1
      = some (tournamentOf runA3 1) ∧
    ((tournamentOf runA3 1).total_play_time
        = ((tournamentGames (tournamentOf runA3 1)).map (fun g => g.play_time)).sum ∧
      (∀ g ∈ tournamentGames (tournamentOf runA3 1),
        g.play_time ≤ (tournamentOf runA3 1).longest_game_time) ∧
      (tournamentGames (tournamentOf runA3 1) ≠ [] →
        ∃ g ∈ tournamentGames (tournamentOf runA3 1),
          g.play_time = (tournamentOf runA3 1).longest_game_time) ∧
      (tournamentGames (tournamentOf runA3 1) = [] →
        (tournamentOf runA3 1).longest_game_time = 0) ∧
      (tournamentOf runA3 1).number_of_games = mapGetSize (tournamentOf runA3 1).games ∧
      mapGetSize (tournamentOf runA3 1).games
        = (tournamentGames (tournamentOf runA3 1)).length) :=
  ⟨by decide,
    tournament_counters_match_games (systemOf runA3) runA3_reachable 1 (tournamentOf runA3 1)
      (by decide)⟩

/-- The counters of tournament 1 of the example run: 35 seconds in total, the
longest game took 25 seconds, two games. -/
theorem runA3_counters :
    (tournamentOf runA3 1).total_play_time = 35 ∧
    (tournamentOf runA3 1).longest_game_time = 25 ∧
    (tournamentOf runA3 1).number_of_games = 2 ∧
    (tournamentGames (tournamentOf runA3 1)).map (fun g => g.play_time) = [10, 25] := by
  decide

/-! ## Records of a players map after the statistics updates -/

theorem mapGet_mapStore {K V : Type} {cmp : K → K → Int} (hc : CmpOrder cmp) {m : Map K V}
    (h : MapWF cmp m) (k k1 : K) (v : V) :
    (mapGet cmp (mapStore cmp m k (some v)) (some k1)).1 =
      if cmp k k1 = 0 then (if ((mapGet cmp m (some k)).1).isSome then some v else none)
      else (mapGet cmp m (some k1)).1 := by
  rw [mapGet_wf_fst (mapStore_wf h k (some v)), mapGet_wf_fst h, mapGet_wf_fst h,
    mapStore_nodes_some]
  exact findData_changeData hc k k1 v m.nodes

theorem playerRecord_mapStore {m : Map Int Player} (h : MapWF compareKeyPlayerID m)
    (k q : Int) (v : Player) :
    playerRecord (mapStore compareKeyPlayerID m k (some v)) q =
      if k = q then (if (playerRecord m k).isSome then some v else none)
      else playerRecord m q := by
  unfold playerRecord
  rw [mapGet_mapStore compareKeyPlayerID_order h]
  simp only [compareKeyPlayerID_eq_zero]

theorem playerRecord_setupPlayer {m : Map Int Player} (h : MapWF compareKeyPlayerID m)
    (id q : Int) :
    playerRecord (setupPlayer m id) q =
      match playerRecord m q with
      | some r => some r
      | none => if q = id then some (playerCreate id) else none := by
  unfold setupPlayer
  rw [mapContains_wf_fst h]
  by_cases hc : (findData compareKeyPlayerID id m.nodes).isSome = true
  · simp only [hc, Bool.true_eq_false, if_false]
    by_cases hq : q = id
    · subst hq
      unfold playerRecord
      rw [mapGet_wf_fst h]
      cases hf : findData compareKeyPlayerID q m.nodes with
      | none => simp [hf] at hc
      | some r => rfl
    · simp only [hq, if_false]
      cases playerRecord m q <;> rfl
  · have hnone : findData compareKeyPlayerID id m.nodes = none := by
      cases hf : findData compareKeyPlayerID id m.nodes with
      | none => rfl
      | some r => simp [hf] at hc
    simp only [hnone, Option.isSome_none, if_true]
    unfold playerRecord
    rw [mapPut_mapGet_of_wf compareKeyPlayerID_order h]
    by_cases hq : q = id
    · subst hq
      have hq0 : (mapGet compareKeyPlayerID m (some q)).1 = none := by
        rw [mapGet_wf_fst h]
        exact hnone
      simp [hq0, compareKeyPlayerID_eq_zero]
    · have hq1 : ¬ id = q := fun e => hq e.symm
      simp only [compareKeyPlayerID_eq_zero, hq1, hq, if_false]
      cases (mapGet compareKeyPlayerID m (some q)).1 <;> rfl

theorem playerRecord_setupPlayer_self {m : Map Int Player} (h : MapWF compareKeyPlayerID m)
    (id : Int) : playerRecord (setupPlayer m id) id = some (recordBefore m id) := by
  rw [playerRecord_setupPlayer h]
  unfold recordBefore
  cases playerRecord m id <;> simp

theorem playerRecord_setup_two {m : Map Int Player} (h : MapWF compareKeyPlayerID m)
    (p1 p2 : Int) (hne : p1 ≠ p2) :
    playerRecord (setupPlayer (setupPlayer m p1) p2) p1 = some (recordBefore m p1) ∧
    playerRecord (setupPlayer (setupPlayer m p1) p2) p2 = some (recordBefore m p2) ∧
    ∀ q, q ≠ p1 → q ≠ p2 →
      playerRecord (setupPlayer (setupPlayer m p1) p2) q = playerRecord m q := by
  have h1 := setupPlayer_wf h p1
  refine ⟨?_, ?_, ?_⟩
  · rw [playerRecord_setupPlayer h1, playerRecord_setupPlayer_self h]
  · rw [playerRecord_setupPlayer_self h1]
    unfold recordBefore
    rw [playerRecord_setupPlayer h]
    have : ¬ p2 = p1 := fun e => hne e.symm
    simp only [this, if_false]
    cases playerRecord m p2 <;> rfl
  · intro q hq1 hq2
    rw [playerRecord_setupPlayer h1, playerRecord_setupPlayer h]
    simp only [hq1, hq2, if_false]
    cases playerRecord m q <;> rfl

theorem playersAddStatsToMap_records {m : Map Int Player} (h : MapWF compareKeyPlayerID m)
    {p1 p2 : Int} (hne : p1 ≠ p2) {f s : Player} (hf : playerRecord m p1 = some f)
    (hs : playerRecord m p2 = some s) (w : Winner) (t : Int) :
    ∃ m1, playersAddStatsToMap m p1 p2 w t = some m1 ∧ MapWF compareKeyPlayerID m1 ∧
      ∀ q, playerRecord m1 q =
        if q = p1 then some (playerAfterGame f Winner.FIRST_PLAYER w t)
        else if q = p2 then some (playerAfterGame s Winner.SECOND_PLAYER w t)
        else playerRecord m q := by
  unfold playerRecord at hf hs
  have hcalc : playersAddPlayTime (playersAddScore (some f, some s) w) t =
      some (some (playerAfterGame f Winner.FIRST_PLAYER w t),
            some (playerAfterGame s Winner.SECOND_PLAYER w t)) := by
    cases w <;> simp [playersAddScore, playersAddPlayTime, playerAfterGame]
  refine ⟨mapStore compareKeyPlayerID
      (mapStore compareKeyPlayerID m p1 (some (playerAfterGame f Winner.FIRST_PLAYER w t)))
      p2 (some (playerAfterGame s Winner.SECOND_PLAYER w t)),
    ?_, mapStore_wf (mapStore_wf h _ _) _ _, ?_⟩
  · unfold playersAddStatsToMap
    rw [hf, hs, hcalc]
  · intro q
    have hw1 := mapStore_wf h p1 (some (playerAfterGame f Winner.FIRST_PLAYER w t))
    rw [playerRecord_mapStore hw1, playerRecord_mapStore h, playerRecord_mapStore h]
    have hf1 : (playerRecord m p1).isSome = true := by
      unfold playerRecord
      rw [hf]
      rfl
    have hs1 : (playerRecord m p2).isSome = true := by
      unfold playerRecord
      rw [hs]
      rfl
    have hne1 : ¬ p1 = p2 := hne
    simp only [hf1, hs1, hne1, if_true, if_false]
    by_cases hq2 : q = p2
    · subst hq2
      have : ¬ q = p1 := fun e => hne e.symm
      simp [this]
    · have hq2a : ¬ p2 = q := fun e => hq2 e.symm
      simp only [hq2a, hq2, if_false]
      by_cases hq1 : q = p1
      · subst hq1
        simp
      · have hq1a : ¬ p1 = q := fun e => hq1 e.symm
        simp [hq1a, hq1]

/-! ## Claims about `chessAddGame` -/

theorem chessAddGameErrorCheck_ids {s : ChessSystem} {tid p1 p2 : Int} {w : Winner}
    {time : Int}
    (h : chessAddGameErrorCheck (some s) tid p1 p2 w time = ChessResult.CHESS_SUCCESS) :
    0 < tid ∧ 0 < p1 ∧ 0 < p2 ∧ p1 ≠ p2 := by
  unfold chessAddGameErrorCheck at h
  simp only at h
  split at h
  · simp at h
  · rename_i hid
    simp only [isValidID, decide_eq_false_iff_not, not_or, not_not, gt_iff_lt] at hid
    exact hid

theorem tournamentRecord_store {s : ChessSystem} (h : SysInv s) (tid tid1 : Int)
    (t : Tournament) (p : Map Int Player) :
    tournamentRecord
        { tournaments := mapStore compareKeyTournamentID s.tournaments tid (some t),
          players := p } tid1 =
      if tid = tid1 then (if (tournamentRecord s tid).isSome then some t else none)
      else tournamentRecord s tid1 := by
  unfold tournamentRecord
  simp only []
  rw [mapGet_mapStore compareKeyTournamentID_order h.1]
  simp only [compareKeyTournamentID_eq_zero]

theorem chessAddGameUpdate_records {t t1 : Tournament} {p p1 : Map Int Player}
    {first second : Int} {w : Winner} {time : Int}
    (ht : TournamentInv t) (hp : MapWF compareKeyPlayerID p) (hne : first ≠ second)
    (h : chessAddGameUpdate t p first second w time = some (t1, p1)) :
    (∀ q, playerRecord p1 q =
      if q = first then
        some (playerAfterGame (recordBefore p first) Winner.FIRST_PLAYER w time)
      else if q = second then
        some (playerAfterGame (recordBefore p second) Winner.SECOND_PLAYER w time)
      else playerRecord p q) ∧
    (∀ q, playerRecord t1.players q =
      if q = first then
        some (playerAfterGame (recordBefore t.players first) Winner.FIRST_PLAYER w time)
      else if q = second then
        some (playerAfterGame (recordBefore t.players second) Winner.SECOND_PLAYER w time)
      else playerRecord t.players q) := by
  unfold chessAddGameUpdate at h
  obtain ⟨n, hn⟩ := newGameSystemAssign_eq t p (gameCreate w time first second)
    (mapGetSize t.games + 1) first second
  simp only [hn, ne_eq, not_true_eq_false, if_false] at h
  have hwfp : MapWF compareKeyPlayerID (setupPlayer (setupPlayer p first) second) :=
    setupPlayer_wf (setupPlayer_wf hp _) _
  have hwfl : MapWF compareKeyPlayerID (setupPlayer (setupPlayer t.players first) second) :=
    setupPlayer_wf (setupPlayer_wf ht.2.1 _) _
  obtain ⟨hp1, hp2, hp3⟩ := playerRecord_setup_two hp first second hne
  obtain ⟨hl1, hl2, hl3⟩ := playerRecord_setup_two ht.2.1 first second hne
  obtain ⟨pf, hpf, _, hpfr⟩ := playersAddStatsToMap_records hwfp hne hp1 hp2 w time
  obtain ⟨lf, hlf, _, hlfr⟩ := playersAddStatsToMap_records hwfl hne hl1 hl2 w time
  rw [hpf] at h
  simp only [] at h
  rw [hlf] at h
  simp only [Option.some.injEq, Prod.mk.injEq] at h
  obtain ⟨rfl, rfl⟩ := h
  constructor
  · intro q
    rw [hpfr q]
    by_cases h1 : q = first
    · simp [h1]
    · by_cases h2 : q = second
      · simp [h1, h2]
      · simp only [h1, h2, if_false]
        exact hp3 q h1 h2
  · intro q
    rw [tournamentUpdateStats_players]
    simp only []
    rw [hlfr q]
    by_cases h1 : q = first
    · simp [h1]
    · by_cases h2 : q = second
      · simp [h1, h2]
      · simp only [h1, h2, if_false]
        exact hl3 q h1 h2

/-- In exact arithmetic: a successful `chessAddGame(t, p1, p2, winner, time)` in
a reachable state changes the player statistics by exactly this.  In the players map of the
system and in the players map of tournament `t`, the record of `p1` is its
earlier record (all-zero when `p1` was not present) after one more game on the
first side, the record of `p2` likewise on the second side (`playerAfterGame`:
a draw adds 1 to the draws, otherwise the winner gets a win and the loser a
loss, and the play time is added), and the record of every other id is as
before; every other tournament is unchanged. -/
theorem chessAddGame_changes_statistics (s s1 : ChessSystem) (h : Reachable s)
    (tid p1 p2 : Int) (w : Winner) (time : Int)
    (hr : chessAddGame (some s) tid p1 p2 w time
      = some (ChessResult.CHESS_SUCCESS, some s1)) :
    (playerRecord s1.players p1 =
        some (playerAfterGame (recordBefore s.players p1) Winner.FIRST_PLAYER w time) ∧
      playerRecord s1.players p2 =
        some (playerAfterGame (recordBefore s.players p2) Winner.SECOND_PLAYER w time) ∧
      ∀ q, q ≠ p1 → q ≠ p2 → playerRecord s1.players q = playerRecord s.players q) ∧
    (∃ t t1, tournamentRecord s tid = some t ∧ tournamentRecord s1 tid = some t1 ∧
      playerRecord t1.players p1 =
        some (playerAfterGame (recordBefore t.players p1) Winner.FIRST_PLAYER w time) ∧
      playerRecord t1.players p2 =
        some (playerAfterGame (recordBefore t.players p2) Winner.SECOND_PLAYER w time) ∧
      ∀ q, q ≠ p1 → q ≠ p2 → playerRecord t1.players q = playerRecord t.players q) ∧
    (∀ tid1, tid1 ≠ tid → tournamentRecord s1 tid1 = tournamentRecord s tid1) := by
  have hinv := h.inv
  unfold chessAddGame at hr
  split at hr
  · rename_i hcheck
    simp only [Option.some.injEq, Prod.mk.injEq] at hr
    exact absurd hr.1 hcheck
  · rename_i hcheck
    simp only [ne_eq, not_not] at hcheck
    obtain ⟨_, _, _, hne⟩ := chessAddGameErrorCheck_ids hcheck
    have hne2 : ¬ p2 = p1 := fun e => hne e.symm
    simp only at hr
    split at hr
    · simp at hr
    · rename_i t ht
      split at hr
      · simp at hr
      · rename_i t1 pl1 hup
        simp only [Option.some.injEq, Prod.mk.injEq, true_and] at hr
        subst hr
        obtain ⟨hg, hl⟩ := chessAddGameUpdate_records (hinv.lookup ht) hinv.2.1 hne hup
        have htr : tournamentRecord s tid = some t := ht
        refine ⟨⟨?_, ?_, ?_⟩, ⟨t, t1, htr, ?_, ?_, ?_, ?_⟩, ?_⟩
        · rw [hg p1]
          simp
        · rw [hg p2]
          simp [hne2]
        · intro q h1 h2
          rw [hg q]
          simp [h1, h2]
        · rw [tournamentRecord_store hinv, htr]
          simp
        · rw [hl p1]
          simp
        · rw [hl p2]
          simp [hne2]
        · intro q h1 h2
          rw [hl q]
          simp [h1, h2]
        · intro tid1 hne1
          rw [tournamentRecord_store hinv]
          have : ¬ tid = tid1 := fun e => hne1 e.symm
          simp [this]

/-! ## Taking the games of a tournament out of the players map -/

theorem playersRemoveStats_records {m : Map Int Player} (h : MapWF compareKeyPlayerID m)
    {p1 p2 : Int} (hne : p1 ≠ p2) (hv : 0 < p1) {f s : Player}
    (hf : playerRecord m p1 = some f) (hs : playerRecord m p2 = some s) (w : Winner)
    (t : Int) :
    ∃ m1, playersRemoveStats m p1 p2 w t = some m1 ∧ MapWF compareKeyPlayerID m1 ∧
      ∀ q, playerRecord m1 q =
        if q = p1 then some (playerBeforeGame f Winner.FIRST_PLAYER w t)
        else if q = p2 then some (playerBeforeGame s Winner.SECOND_PLAYER w t)
        else playerRecord m q := by
  have hf0 := hf
  have hs0 := hs
  unfold playerRecord at hf hs
  have hcalc : ∃ x, playersRemoveScore (some f, some s) w = some x ∧
      playersRemovePlayTime x t =
        some (some (playerBeforeGame f Winner.FIRST_PLAYER w t),
              some (playerBeforeGame s Winner.SECOND_PLAYER w t)) := by
    cases w <;> exact ⟨_, rfl, by simp [playersRemovePlayTime, playerBeforeGame]⟩
  obtain ⟨x, hx1, hx2⟩ := hcalc
  refine ⟨mapStore compareKeyPlayerID
      (mapStore compareKeyPlayerID m p1 (some (playerBeforeGame f Winner.FIRST_PLAYER w t)))
      p2 (some (playerBeforeGame s Winner.SECOND_PLAYER w t)),
    ?_, mapStore_wf (mapStore_wf h _ _) _ _, ?_⟩
  · unfold playersRemoveStats
    have hvalid : ¬ (isValidID p1 = false ∧ isValidID p2 = false) := by
      simp [isValidID, hv]
    simp only [hvalid, if_false]
    rw [hf, hs, hx1]
    simp only []
    rw [hx2]
  · intro q
    have hw1 := mapStore_wf h p1 (some (playerBeforeGame f Winner.FIRST_PLAYER w t))
    rw [playerRecord_mapStore hw1, playerRecord_mapStore h, playerRecord_mapStore h]
    have hne1 : ¬ p1 = p2 := hne
    simp only [hf0, hs0, Option.isSome_some, hne1, if_true, if_false]
    by_cases hq2 : q = p2
    · subst hq2
      have : ¬ q = p1 := fun e => hne e.symm
      simp [this]
    · have hq2a : ¬ p2 = q := fun e => hq2 e.symm
      simp only [hq2a, hq2, if_false]
      by_cases hq1 : q = p1
      · subst hq1
        simp
      · have hq1a : ¬ p1 = q := fun e => hq1 e.symm
        simp [hq1a, hq1]

theorem removeTournamentLoop_eq {games : Map Int Game} (h : MapWF compareKeyGameID games) :
    ∀ (l1 : List (Int × Game)), (∀ n ∈ l1, n ∈ games.nodes) → ∀ p : Map Int Player,
      removeTournamentLoop games (l1.map Prod.fst) p = removeGamesStats (l1.map Prod.snd) p := by
  intro l1
  induction l1 with
  | nil => intro _ p; rfl
  | cons x rest ih =>
    intro hsub p
    have hx : (mapGet compareKeyGameID games (some x.1)).1 = some x.2 := by
      rw [mapGet_wf_fst h]
      exact findData_of_mem_sorted compareKeyGameID_order games.nodes h.2 x
        (hsub x (List.mem_cons_self _ _))
    simp only [List.map_cons, removeTournamentLoop, removeGamesStats, hx, gameGetFirstPlayer,
      gameGetSecondPlayer, gameGetWinner, gameGetPlayTime]
    cases playersRemoveStats p x.2.first_player x.2.second_player x.2.winner x.2.play_time with
    | none => rfl
    | some p2 => exact ih (fun n hn => hsub n (List.mem_cons_of_mem _ hn)) p2

theorem removeGamesStats_records (gs : List Game) :
    ∀ (m : Map Int Player), MapWF compareKeyPlayerID m →
      (∀ g ∈ gs, g.first_player ≠ g.second_player ∧ 0 < g.first_player ∧
        (playerRecord m g.first_player).isSome = true ∧
        (playerRecord m g.second_player).isSome = true) →
      ∃ m1, removeGamesStats gs m = some m1 ∧
        ∀ q, playerRecord m1 q =
          (playerRecord m q).map (fun r => gs.foldl (fun r g => removeGameFromPlayer g q r) r) := by
  induction gs with
  | nil =>
    intro m _ _
    refine ⟨m, rfl, ?_⟩
    intro q
    cases playerRecord m q <;> rfl
  | cons g rest ih =>
    intro m hm hg
    obtain ⟨hne, hv, h1, h2⟩ := hg g (List.mem_cons_self _ _)
    obtain ⟨f, hf⟩ := Option.isSome_iff_exists.mp h1
    obtain ⟨s, hs⟩ := Option.isSome_iff_exists.mp h2
    obtain ⟨m1, hm1, hwf1, hrec1⟩ := playersRemoveStats_records hm hne hv hf hs g.winner
      g.play_time
    have hpres : ∀ q, (playerRecord m1 q).isSome = (playerRecord m q).isSome := by
      intro q
      rw [hrec1 q]
      by_cases hq1 : q = g.first_player
      · simp [hq1, hf]
      · by_cases hq2 : q = g.second_player
        · have hne2 : ¬ g.second_player = g.first_player := fun e => hne e.symm
          simp [hq2, hne2, hs]
        · simp [hq1, hq2]
    obtain ⟨m2, hm2, hrec2⟩ := ih m1 hwf1 (fun g1 hg1 => by
      obtain ⟨a, b, c, d⟩ := hg g1 (List.mem_cons_of_mem _ hg1)
      exact ⟨a, b, by rw [hpres]; exact c, by rw [hpres]; exact d⟩)
    refine ⟨m2, ?_, ?_⟩
    · simp only [removeGamesStats, hm1]
      exact hm2
    · intro q
      rw [hrec2 q, hrec1 q]
      simp only [List.foldl_cons]
      by_cases hq1 : q = g.first_player
      · subst hq1
        simp [hf, removeGameFromPlayer]
      · by_cases hq2 : q = g.second_player
        · subst hq2
          simp [hq1, hs, removeGameFromPlayer]
        · simp only [hq1, hq2, if_false, removeGameFromPlayer]

/-! ## Adding a game and taking it out again -/

theorem Player.eq_of_fields (a b : Player) (h1 : a.id = b.id) (h2 : a.wins = b.wins)
    (h3 : a.loses = b.loses) (h4 : a.draws = b.draws)
    (h5 : a.total_play_time = b.total_play_time) : a = b := by
  cases a
  cases b
  simp only [Player.mk.injEq]
  exact ⟨h1, h2, h3, h4, h5⟩

theorem playerBeforeGame_playerAfterGame (r : Player) (side w : Winner) (t : Int) :
    playerBeforeGame (playerAfterGame r side w t) side w t = r := by
  apply Player.eq_of_fields <;> simp only [playerBeforeGame, playerAfterGame] <;> omega

theorem playerBeforeGame_playerAfterGame_comm (r : Player) (side side1 w w1 : Winner)
    (t t1 : Int) :
    playerBeforeGame (playerAfterGame r side1 w1 t1) side w t =
      playerAfterGame (playerBeforeGame r side w t) side1 w1 t1 := by
  apply Player.eq_of_fields <;> simp only [playerBeforeGame, playerAfterGame] <;> omega

theorem removeGameFromPlayer_addGameToPlayer (g : Game) (q : Int) (r : Player) :
    removeGameFromPlayer g q (addGameToPlayer g q r) = r := by
  unfold removeGameFromPlayer addGameToPlayer
  split
  · exact playerBeforeGame_playerAfterGame _ _ _ _
  · split
    · exact playerBeforeGame_playerAfterGame _ _ _ _
    · rfl

theorem removeGameFromPlayer_addGameToPlayer_comm (g g1 : Game) (q : Int) (r : Player) :
    removeGameFromPlayer g q (addGameToPlayer g1 q r) =
      addGameToPlayer g1 q (removeGameFromPlayer g q r) := by
  unfold removeGameFromPlayer addGameToPlayer
  split_ifs <;>
    first
      | rfl
      | exact playerBeforeGame_playerAfterGame_comm _ _ _ _ _ _ _

theorem removeGameFromPlayer_foldl_add (g : Game) (q : Int) (gs : List Game) :
    ∀ r : Player,
      removeGameFromPlayer g q (gs.foldl (fun r g1 => addGameToPlayer g1 q r) r) =
        gs.foldl (fun r g1 => addGameToPlayer g1 q r) (removeGameFromPlayer g q r) := by
  induction gs with
  | nil => intro r; rfl
  | cons g1 rest ih =>
    intro r
    simp only [List.foldl_cons]
    rw [ih, removeGameFromPlayer_addGameToPlayer_comm]

theorem foldl_remove_foldl_add (q : Int) (gs : List Game) :
    ∀ r : Player,
      gs.foldl (fun r g => removeGameFromPlayer g q r)
        (gs.foldl (fun r g => addGameToPlayer g q r) r) = r := by
  induction gs with
  | nil => intro r; rfl
  | cons g rest ih =>
    intro r
    simp only [List.foldl_cons]
    rw [removeGameFromPlayer_foldl_add, removeGameFromPlayer_addGameToPlayer, ih]

theorem insertNode_append {K V : Type} (cmp : K → K → Int) (k : K) (v : V)
    (l : List (K × V)) (h : ∀ n ∈ l, cmp n.1 k < 0) : insertNode cmp k v l = l ++ [(k, v)] := by
  induction l with
  | nil => rfl
  | cons n rest ih =>
    unfold insertNode
    have h1 := h n (List.mem_cons_self _ _)
    simp only [h1, if_true, List.cons_append]
    rw [ih (fun x hx => h x (List.mem_cons_of_mem _ hx))]

/-! ## The round trip: games added to a new tournament, then the tournament removed -/

theorem chessAddGameUpdate_some {t : Tournament} {p : Map Int Player} {first second : Int}
    (ht : TournamentInv t) (hp : MapWF compareKeyPlayerID p) (hne : first ≠ second)
    (w : Winner) (time : Int) :
    ∃ t1 p1, chessAddGameUpdate t p first second w time = some (t1, p1) ∧
      t1.games.nodes = t.games.nodes ++
        [(mapGetSize t.games + 1, gameCreate w time first second)] := by
  unfold chessAddGameUpdate
  obtain ⟨n, hn⟩ := newGameSystemAssign_eq t p (gameCreate w time first second)
    (mapGetSize t.games + 1) first second
  simp only [hn, ne_eq, not_true_eq_false, if_false]
  have hwfp : MapWF compareKeyPlayerID (setupPlayer (setupPlayer p first) second) :=
    setupPlayer_wf (setupPlayer_wf hp _) _
  have hwfl : MapWF compareKeyPlayerID (setupPlayer (setupPlayer t.players first) second) :=
    setupPlayer_wf (setupPlayer_wf ht.2.1 _) _
  obtain ⟨hp1, hp2, _⟩ := playerRecord_setup_two hp first second hne
  obtain ⟨hl1, hl2, _⟩ := playerRecord_setup_two ht.2.1 first second hne
  obtain ⟨pf, hpf, _, _⟩ := playersAddStatsToMap_records hwfp hne hp1 hp2 w time
  obtain ⟨lf, hlf, _, _⟩ := playersAddStatsToMap_records hwfl hne hl1 hl2 w time
  rw [hpf]
  simp only []
  rw [hlf]
  refine ⟨_, _, rfl, ?_⟩
  rw [tournamentUpdateStats_games]
  simp only []
  obtain ⟨_, _, hg3⟩ := ht.put_game (gameCreate w time first second)
  rw [hg3]
  apply insertNode_append
  intro x hx
  have := (ht.2.2.1 x hx).2
  unfold compareKeyGameID mapGetSize
  omega

theorem RoundTripInv.after_addGame {players0 : Map Int Player} {tid : Int} {s : ChessSystem}
    (h : RoundTripInv players0 tid s) (p1 p2 : Int) (w : Winner) (time : Int) :
    ∃ r s1, chessAddGame (some s) tid p1 p2 w time = some (r, some s1) ∧
      RoundTripInv players0 tid s1 := by
  obtain ⟨hinv, htid, t, ht, hgames, hstats⟩ := h
  by_cases hcheck : chessAddGameErrorCheck (some s) tid p1 p2 w time = ChessResult.CHESS_SUCCESS
  · obtain ⟨_, hv1, hv2, hne⟩ := chessAddGameErrorCheck_ids hcheck
    have hne2 : ¬ p2 = p1 := fun e => hne e.symm
    have hti := hinv.lookup ht
    obtain ⟨t1, pl1, hup, hnodes⟩ := chessAddGameUpdate_some hti hinv.2.1 hne w time
    obtain ⟨hg, _⟩ := chessAddGameUpdate_records hti hinv.2.1 hne hup
    have hr : chessAddGame (some s) tid p1 p2 w time =
        some (ChessResult.CHESS_SUCCESS,
          some { tournaments := mapStore compareKeyTournamentID s.tournaments tid (some t1),
                 players := pl1 }) := by
      unfold chessAddGame
      unfold tournamentRecord at ht
      simp only [hcheck, ne_eq, not_true_eq_false, if_false, ht, hup]
    refine ⟨_, _, hr, chessAddGame_inv hinv hr, htid, t1, ?_, ?_, ?_⟩
    · rw [tournamentRecord_store hinv, ht]
      simp
    · have hpres : ∀ x, (playerRecord s.players x).isSome = true →
          (playerRecord pl1 x).isSome = true := by
        intro x hx
        rw [hg x]
        by_cases h1 : x = p1
        · simp [h1]
        · by_cases h2 : x = p2
          · simp [h2, hne2]
          · simp only [h1, h2, if_false]
            exact hx
      intro n hn
      rw [hnodes, List.mem_append, List.mem_singleton] at hn
      simp only []
      rcases hn with hn | rfl
      · obtain ⟨a, b, c, d⟩ := hgames n hn
        exact ⟨a, b, hpres _ c, hpres _ d⟩
      · simp only [gameCreate]
        refine ⟨hne, hv1, ?_, ?_⟩
        · rw [hg p1]
          simp
        · rw [hg p2]
          simp [hne2]
    · intro q r hq
      have hold := hstats q r hq
      simp only []
      rw [hg q, hnodes, List.map_append, List.foldl_append]
      simp only [List.map_cons, List.map_nil, List.foldl_cons, List.foldl_nil]
      by_cases h1 : q = p1
      · subst h1
        simp only [if_true]
        unfold recordBefore
        rw [hold]
        simp [addGameToPlayer, gameCreate]
      · by_cases h2 : q = p2
        · subst h2
          simp only [h1, if_false, if_true]
          unfold recordBefore
          rw [hold]
          simp [addGameToPlayer, gameCreate, h1]
        · simp only [h1, h2, if_false]
          rw [hold]
          simp [addGameToPlayer, gameCreate, h1, h2]
  · refine ⟨chessAddGameErrorCheck (some s) tid p1 p2 w time, s, ?_,
      hinv, htid, t, ht, hgames, hstats⟩
    unfold chessAddGame
    simp only [ne_eq, hcheck, not_false_eq_true, if_true]

theorem RoundTripInv.after_addGames {players0 : Map Int Player} {tid : Int}
    (calls : List (Int × Int × Winner × Int)) :
    ∀ s : ChessSystem, RoundTripInv players0 tid s →
      ∃ s2, addGames s tid calls = some s2 ∧ RoundTripInv players0 tid s2 := by
  induction calls with
  | nil =>
    intro s h
    exact ⟨s, rfl, h⟩
  | cons call rest ih =>
    intro s h
    obtain ⟨r, s1, hr, h1⟩ := h.after_addGame call.1 call.2.1 call.2.2.1 call.2.2.2
    obtain ⟨s2, hs2, h2⟩ := ih s1 h1
    refine ⟨s2, ?_, h2⟩
    unfold addGames
    rw [hr]
    exact hs2

theorem RoundTripInv.removeTournament {players0 : Map Int Player} {tid : Int}
    {s : ChessSystem} (h : RoundTripInv players0 tid s) :
    ∃ s3, chessRemoveTournament (some s) tid = some (ChessResult.CHESS_SUCCESS, some s3) ∧
      ∀ q r, playerRecord players0 q = some r → playerRecord s3.players q = some r := by
  obtain ⟨hinv, htid, t, ht, hgames, hstats⟩ := h
  have hti := hinv.lookup ht
  have hcontains : (mapContains compareKeyTournamentID s.tournaments (some tid)).1 = true := by
    rw [mapContains_wf_fst hinv.1]
    unfold tournamentRecord at ht
    rw [mapGet_wf_fst hinv.1] at ht
    rw [ht]
    rfl
  have hcheck : chessRemoveTournamentErrorCheck (some s) tid = ChessResult.CHESS_SUCCESS := by
    unfold chessRemoveTournamentErrorCheck
    simp [isValidID, htid, hcontains]
  have hloop : removeTournamentLoop t.games (mapForEach t.games) s.players =
      removeGamesStats (t.games.nodes.map Prod.snd) s.players := by
    rw [mapForEach_wf hti.1]
    exact removeTournamentLoop_eq hti.1 t.games.nodes (fun n hn => hn) s.players
  obtain ⟨m1, hm1, hrec⟩ := removeGamesStats_records (t.games.nodes.map Prod.snd) s.players
    hinv.2.1 (by
      intro g hg
      rw [List.mem_map] at hg
      obtain ⟨n, hn, rfl⟩ := hg
      exact hgames n hn)
  refine ⟨{ tournaments := (mapRemove compareKeyTournamentID s.tournaments (some tid)).2,
            players := m1 }, ?_, ?_⟩
  · unfold chessRemoveTournament
    unfold tournamentRecord at ht
    simp only [hcheck, ne_eq, not_true_eq_false, if_false, ht, hloop, hm1]
  · intro q r hq
    simp only []
    rw [hrec q, hstats q r hq]
    simp only [Option.map_some']
    rw [foldl_remove_foldl_add]

theorem RoundTripInv.start {s s1 : ChessSystem} (h : SysInv s) {tid max : Int}
    {loc : Option String}
    (hadd : chessAddTournament (some s) tid max loc
      = some (ChessResult.CHESS_SUCCESS, some s1)) :
    RoundTripInv s.players tid s1 := by
  have hinv1 := chessAddTournament_inv h hadd
  unfold chessAddTournament at hadd
  split at hadd
  · rename_i hcheck
    simp only [Option.some.injEq, Prod.mk.injEq] at hadd
    exact absurd hadd.1 hcheck
  · rename_i hcheck
    simp only [ne_eq, not_not] at hcheck
    cases loc with
    | none => simp at hadd
    | some location =>
      have htid : 0 < tid := by
        unfold chessAddTournamentErrorCheck at hcheck
        simp only at hcheck
        split at hcheck
        · simp at hcheck
        · rename_i hv
          simpa [isValidID] using hv
      simp only [mapPut_fst, ne_eq, not_true_eq_false, if_false, Option.some.injEq,
        Prod.mk.injEq, true_and] at hadd
      subst hadd
      refine ⟨hinv1, htid, tournamentCreate max location, ?_, ?_, ?_⟩
      · unfold tournamentRecord
        simp only []
        rw [mapPut_mapGet_of_wf compareKeyTournamentID_order h.1]
        simp [compareKeyTournamentID_eq_zero]
      · intro n hn
        simp [tournamentCreate, mapCreate] at hn
      · intro q r hq
        simp only [tournamentCreate, mapCreate, List.map_nil, List.foldl_nil]
        exact hq

/-- C7: in every reachable state, after a new tournament `t` has been added
(`chessAddTournament` returned `CHESS_SUCCESS`), every sequence of
`chessAddGame` calls on `t`, with any arguments and any results, runs to its
end, `chessRemoveTournament(t)` then returns `CHESS_SUCCESS`, and afterwards
every player that was in the players map of the system before the sequence has
exactly its earlier record (id, wins, losses, draws and total play time). -/
theorem addGames_removeTournament_round_trip (s s1 : ChessSystem) (h : Reachable s)
    (tid max : Int) (loc : Option String)
    (hadd : chessAddTournament (some s) tid max loc
      = some (ChessResult.CHESS_SUCCESS, some s1))
    (calls : List (Int × Int × Winner × Int)) :
    ∃ s2 s3, addGames s1 tid calls = some s2 ∧
      chessRemoveTournament (some s2) tid = some (ChessResult.CHESS_SUCCESS, some s3) ∧
      ∀ q r, playerRecord s.players q = some r → playerRecord s3.players q = some r := by
  obtain ⟨s2, hs2, h2⟩ := RoundTripInv.after_addGames calls s1 (RoundTripInv.start h.inv hadd)
  obtain ⟨s3, hs3, h3⟩ := h2.removeTournament
  exact ⟨s2, s3, hs2, hs3, h3⟩

/-- Example: the second game of the example run (players 1 and 3, a draw
of 25 seconds, in tournament 1). -/
theorem chessAddGame_changes_statistics_witness :
    (playerRecord (systemOf runA3).players 1 =
        some (playerAfterGame (recordBefore (systemOf runA2).players 1)
          Winner.FIRST_PLAYER Winner.DRAW 25) ∧
      playerRecord (systemOf runA3).players 3 =
        some (playerAfterGame (recordBefore (systemOf runA2).players 3)
          Winner.SECOND_PLAYER Winner.DRAW 25) ∧
      ∀ q, q ≠ 1 → q ≠ 3 →
        playerRecord (systemOf runA3).players q = playerRecord (systemOf runA2).players q) ∧
    (∃ t t1, tournamentRecord (systemOf runA2) 1 = some t ∧
      tournamentRecord (systemOf runA3) 1 = some t1 ∧
      playerRecord t1.players 1 =
        some (playerAfterGame (recordBefore t.players 1) Winner.FIRST_PLAYER Winner.DRAW 25) ∧
      playerRecord t1.players 3 =
        some (playerAfterGame (recordBefore t.players 3) Winner.SECOND_PLAYER Winner.DRAW 25) ∧
      ∀ q, q ≠ 1 → q ≠ 3 → playerRecord t1.players q = playerRecord t.players q) ∧
    (∀ tid1, tid1 ≠ 1 →
      tournamentRecord (systemOf runA3) tid1 = tournamentRecord (systemOf runA2) tid1) :=
  chessAddGame_changes_statistics (systemOf runA2) (systemOf runA3) runA2_reachable
    1 1 3 Winner.DRAW 25 (by decide)

/-- The records of players 1 and 3 in the system after the second game of the
example run. -/
theorem runA3_records :
    playerRecord (systemOf runA3).players 1 =
      some { id := 1, wins := 1, loses := 0, draws := 1, total_play_time := 35 } ∧
    playerRecord (systemOf runA3).players 3 =
      some { id := 3, wins := 0, loses := 0, draws := 1, total_play_time := 25 } := by
  decide

/-- Witness of C7: after the example run, tournament 2 is added, four
`chessAddGame` calls are made on it (the third and the fourth are rejected) and
tournament 2 is removed. -/
theorem addGames_removeTournament_round_trip_witness :
    ∃ s2 s3,
      addGames (systemOf runA4) 2
        [(1, 2, Winner.SECOND_PLAYER, 5), (2, 4, Winner.DRAW, 7),
         (1, 2, Winner.FIRST_PLAYER, 3), (4, 4, Winner.DRAW, 1)] = some s2 ∧
      chessRemoveTournament (some s2) 2 = some (ChessResult.CHESS_SUCCESS, some s3) ∧
      ∀ q r, playerRecord (systemOf runA3).players q = some r →
        playerRecord s3.players q = some r :=
  addGames_removeTournament_round_trip (systemOf runA3) (systemOf runA4) runA3_reachable
    2 3 (some "Paris") (by decide)
    [(1, 2, Winner.SECOND_PLAYER, 5), (2, 4, Winner.DRAW, 7),
     (1, 2, Winner.FIRST_PLAYER, 3), (4, 4, Winner.DRAW, 1)]

/-! ## The statistics after a player and then a tournament are removed -/

theorem runB5_reachable : Reachable (systemOf runB5) :=
  Reachable.removeTournament (systemOf runB4) (systemOf runB5) 1 ChessResult.CHESS_SUCCESS
    (Reachable.removePlayer (systemOf runB3) (systemOf runB4) 1 ChessResult.CHESS_SUCCESS
      (Reachable.endTournament (systemOf runB2) (systemOf runB3) 1 ChessResult.CHESS_SUCCESS
        (Reachable.addGame (systemOf runB1) (systemOf runB2) 1 1 2 Winner.FIRST_PLAYER 10
          ChessResult.CHESS_SUCCESS
          (Reachable.addTournament chessCreate (systemOf runB1) 1 1 (some "London")
            ChessResult.CHESS_SUCCESS Reachable.create (by decide))
          (by decide))
        (by decide))
      (by decide))
    (by decide)

/-- C8 (fails): tournament 1 is added, players 1 and 2 play 10 seconds in it
(player 1 wins), the tournament is ended, player 1 is removed and the
tournament is removed; every call returns `CHESS_SUCCESS`.  In the state
reached no tournament is left, but player 2 is in the players map of the system
with -1 wins and 1 loss. -/
theorem removeTournament_after_removePlayer_negative_wins :
    resultOf runB1 = some ChessResult.CHESS_SUCCESS ∧
    resultOf runB2 = some ChessResult.CHESS_SUCCESS ∧
    resultOf runB3 = some ChessResult.CHESS_SUCCESS ∧
    resultOf runB4 = some ChessResult.CHESS_SUCCESS ∧
    resultOf runB5 = some ChessResult.CHESS_SUCCESS ∧
    Reachable (systemOf runB5) ∧
    mapGetSize (systemOf runB5).tournaments = 0 ∧
    playerRecord (systemOf runB4).players 2 =
      some { id := 2, wins := 0, loses := 1, draws := 0, total_play_time := 10 } ∧
    playerRecord (systemOf runB5).players 2 =
      some { id := 2, wins := -1, loses := 1, draws := 0, total_play_time := 0 } :=
  ⟨by decide, by decide, by decide, by decide, by decide, runB5_reachable, by decide,
    by decide, by decide⟩

/-! ## The pairwise comparison of `chessEndTournament` -/

theorem paritySign_values :
    paritySign 0 = 1 ∧ paritySign 1 = -1 ∧ paritySign 2 = 1 ∧ paritySign 3 = -1 ∧
      paritySign 4 = 1 := by
  decide

theorem tournamentFindWinner_eq (a b : Player) :
    tournamentFindWinner a b = if betterPlayer b a then b else a := by
  obtain ⟨s0, s1, s2, s3, s4⟩ := paritySign_values
  unfold tournamentFindWinner findWinnerLoop findWinnerLoop findWinnerLoop findWinnerLoop
    findWinnerLoop comparePlayerData betterPlayer playerGetLoses playerGetWins
    playerGetID
  simp only [zero_add, Int.reduceAdd]
  split_ifs <;> simp only [s0, s1, s2, s3, s4] at * <;> first | rfl | (exfalso; omega)

theorem betterPlayer_asymm {a b : Player} (h : betterPlayer a b) : ¬ betterPlayer b a := by
  unfold betterPlayer at *
  omega

theorem betterPlayer_trans {a b c : Player} (hab : betterPlayer a b) (hbc : betterPlayer b c) :
    betterPlayer a c := by
  unfold betterPlayer at *
  omega

theorem betterPlayer_total {a b : Player} (h : a.id ≠ b.id) :
    betterPlayer a b ∨ betterPlayer b a := by
  unfold betterPlayer
  omega

/-- C18: the pairwise comparison `tournamentFindWinner` does not depend on the
order of its two arguments, nor on the ids when an earlier criterion decides: of
two records with equal scores and different losses both argument orders return
the one with fewer losses, and of two records with different ids both argument
orders return the same record, the better one in the tie-break order. -/
theorem tournamentFindWinner_argument_order (a b : Player) :
    (playerGetScore a = playerGetScore b → a.loses < b.loses →
      tournamentFindWinner a b = a ∧ tournamentFindWinner b a = a) ∧
    (a.id ≠ b.id →
      tournamentFindWinner a b = tournamentFindWinner b a ∧
      (betterPlayer a b → tournamentFindWinner a b = a) ∧
      (betterPlayer b a → tournamentFindWinner a b = b)) := by
  constructor
  · intro hs hl
    have hab : betterPlayer a b := Or.inr ⟨hs, Or.inl hl⟩
    rw [tournamentFindWinner_eq, tournamentFindWinner_eq, if_neg (betterPlayer_asymm hab),
      if_pos hab]
    exact ⟨rfl, rfl⟩
  · intro hid
    rw [tournamentFindWinner_eq, tournamentFindWinner_eq]
    rcases betterPlayer_total hid with hab | hba
    · rw [if_neg (betterPlayer_asymm hab), if_pos hab]
      exact ⟨rfl, fun _ => rfl, fun h => absurd h (betterPlayer_asymm hab)⟩
    · rw [if_pos hba, if_neg (betterPlayer_asymm hba)]
      exact ⟨rfl, fun h => absurd h (betterPlayer_asymm hba), fun _ => rfl⟩

theorem tournamentFindWinner_argument_order_witness :
    (playerGetScore tieA = playerGetScore tieB ∧ tieA.loses < tieB.loses ∧
      tieA.id ≠ tieB.id) ∧
    (tournamentFindWinner tieA tieB = tieA ∧ tournamentFindWinner tieB tieA = tieA) ∧
    (tournamentFindWinner tieA tieB = tournamentFindWinner tieB tieA ∧
      (betterPlayer tieA tieB → tournamentFindWinner tieA tieB = tieA) ∧
      (betterPlayer tieB tieA → tournamentFindWinner tieA tieB = tieB)) :=
  ⟨by decide,
   (tournamentFindWinner_argument_order tieA tieB).1 (by decide) (by decide),
   (tournamentFindWinner_argument_order tieA tieB).2 (by decide)⟩

theorem tieA_tieB_scores :
    playerGetScore tieA = 4 ∧ playerGetScore tieB = 4 ∧ tieA.loses = 0 ∧ tieB.loses = 1 ∧
    tournamentFindWinner tieA tieB = tieA ∧ tournamentFindWinner tieB tieA = tieA := by
  decide

/-! ## What a call of the system does to the tournaments -/

theorem mapContains_of_mapGet {K V : Type} (cmp : K → K → Int) (m : Map K V) (k : K) :
    (mapContains cmp m (some k)).1 = ((mapGet cmp m (some k)).1).isSome := by
  rw [mapContains_fst, mapGet_fst]
  split <;> simp

theorem chessAddGameErrorCheck_success_iff (s : ChessSystem) (tid p1 p2 : Int) (w : Winner)
    (time : Int) :
    chessAddGameErrorCheck (some s) tid p1 p2 w time = ChessResult.CHESS_SUCCESS ↔
      0 < tid ∧ 0 < p1 ∧ 0 < p2 ∧ p1 ≠ p2 ∧
      ∃ t, tournamentRecord s tid = some t ∧ t.winner = TOURNAMENT_NOT_ENDED ∧
        isGameExistInTournament t p1 p2 = false ∧ 0 ≤ time ∧
        isMaxGamesPerPlayerExceeded t p1 = false ∧ isMaxGamesPerPlayerExceeded t p2 = false := by
  unfold chessAddGameErrorCheck tournamentRecord
  simp only [mapContains_of_mapGet, isValidID, isPlayTimeValid, tournamentGetWinner]
  cases hg : (mapGet compareKeyTournamentID s.tournaments (some tid)).1 with
  | none =>
    simp only [Option.isSome_none]
    split <;> simp
  | some t =>
    simp only [Option.isSome_some, Option.some.injEq, exists_eq_left']
    split
    · rename_i h
      simp only [decide_eq_false_iff_not, not_lt] at h
      constructor
      · intro h1
        simp at h1
      · rintro ⟨h1, h2, h3, h4, _⟩
        omega
    · rename_i h
      simp only [decide_eq_false_iff_not, not_lt, not_or, not_le] at h
      obtain ⟨h1, h2, h3, h4⟩ := h
      simp only [Bool.true_eq_false, if_false, h1, h2, h3, true_and, ne_eq, h4,
        not_false_eq_true]
      split
      · rename_i hw
        simp [hw]
      · rename_i hw
        simp only [ne_eq, not_not] at hw
        simp only [hw, true_and]
        split
        · rename_i he
          simp [he]
        · rename_i he
          simp only [Bool.not_eq_true] at he
          simp only [he, true_and]
          split
          · rename_i ht
            simp only [ge_iff_le, decide_eq_false_iff_not, not_le] at ht
            simp
            intro h5
            omega
          · rename_i ht
            simp only [ge_iff_le, decide_eq_false_iff_not, not_le, not_lt] at ht
            simp only [ht, true_and]
            split
            · rename_i hm
              simp
              intro h5
              rcases hm with hm | hm
              · simp [hm] at h5
              · simp [hm]
            · rename_i hm
              simp only [not_or, Bool.not_eq_true] at hm
              simp [hm.1, hm.2]

theorem newGameSystemAssign_exact (t : Tournament) (p : Map Int Player) (g : Game)
    (id p1 p2 : Int) :
    newGameSystemAssign t p g id p1 p2 =
      (ChessResult.CHESS_SUCCESS,
       { t with
         games := (mapPut compareKeyGameID t.games (some id) (some g)).2
         players := setupPlayer (setupPlayer t.players p1) p2
         number_of_players :=
           t.number_of_players +
             (if (playerRecord t.players p1).isSome then 0 else 1) +
             (if (playerRecord (setupPlayer t.players p1) p2).isSome then 0 else 1) },
       setupPlayer (setupPlayer p p1) p2) := by
  unfold newGameSystemAssign playerMapUpdatePlayers
  simp only [playerSetupInMap_chessPlayers, playerSetupInMap_tournamentPlayers, mapPut_fst,
    ne_eq, not_true_eq_false, if_false, mapContains_of_mapGet, playerRecord]
  congr 2
  simp only [Tournament.mk.injEq, true_and, and_true]
  split_ifs <;> simp_all

theorem tournamentUpdateStats_fields (t : Tournament) (time : Int) :
    (tournamentUpdateStats t time).max_games_per_player = t.max_games_per_player ∧
    (tournamentUpdateStats t time).location = t.location ∧
    (tournamentUpdateStats t time).number_of_players = t.number_of_players := by
  unfold tournamentUpdateStats tournamentUpdateTotalPlayTime tournamentUpdateLongestGameTime
    tournamentUpdateNumberOfGames
  split <;> exact ⟨rfl, rfl, rfl⟩

theorem isSome_playerRecord_setupPlayer {m : Map Int Player} (h : MapWF compareKeyPlayerID m)
    (id q : Int) :
    (playerRecord (setupPlayer m id) q).isSome = ((playerRecord m q).isSome || decide (q = id)) := by
  rw [playerRecord_setupPlayer h]
  cases playerRecord m q with
  | some r => simp
  | none =>
    by_cases hq : q = id <;> simp [hq]

theorem chessAddGameUpdate_fields {t t1 : Tournament} {p p1 : Map Int Player}
    {first second : Int} {w : Winner} {time : Int}
    (ht : TournamentInv t) (hne : first ≠ second)
    (h : chessAddGameUpdate t p first second w time = some (t1, p1)) :
    t1.games.nodes = t.games.nodes ++
        [(mapGetSize t.games + 1, gameCreate w time first second)] ∧
    t1.winner = t.winner ∧ t1.max_games_per_player = t.max_games_per_player ∧
    t1.location = t.location ∧
    t1.number_of_players = t.number_of_players +
      (if (playerRecord t.players first).isSome then 0 else 1) +
      (if (playerRecord t.players second).isSome then 0 else 1) := by
  unfold chessAddGameUpdate at h
  simp only [newGameSystemAssign_exact, ne_eq, not_true_eq_false, if_false] at h
  split at h
  · simp at h
  · split at h
    · simp at h
    · simp only [Option.some.injEq, Prod.mk.injEq] at h
      obtain ⟨rfl, rfl⟩ := h
      obtain ⟨h1, h2, h3⟩ := tournamentUpdateStats_fields
        { t with
          games := (mapPut compareKeyGameID t.games (some (mapGetSize t.games + 1))
            (some (gameCreate w time first second))).2
          players := by assumption
          number_of_players :=
           t.number_of_players +
             (if (playerRecord t.players first).isSome then 0 else 1) +
             (if (playerRecord (setupPlayer t.players first) second).isSome then 0 else 1) } time
      refine ⟨?_, ?_, ?_, ?_, ?_⟩
      · rw [tournamentUpdateStats_games]
        simp only []
        obtain ⟨_, _, hg3⟩ := ht.put_game (gameCreate w time first second)
        rw [hg3]
        apply insertNode_append
        intro x hx
        have := (ht.2.2.1 x hx).2
        unfold compareKeyGameID mapGetSize
        omega
      · rw [tournamentUpdateStats_winner]
      · exact h1
      · exact h2
      · rw [h3]
        simp only []
        rw [isSome_playerRecord_setupPlayer ht.2.1]
        have : ¬ second = first := fun e => hne e.symm
        simp [this]


theorem tournamentRecord_mapPut {s : ChessSystem} (h : SysInv s) (tid tid1 : Int)
    (t : Tournament) :
    (mapGet compareKeyTournamentID
        (mapPut compareKeyTournamentID s.tournaments (some tid) (some t)).2 (some tid1)).1 =
      if tid = tid1 then some t else tournamentRecord s tid1 := by
  rw [mapPut_mapGet_of_wf compareKeyTournamentID_order h.1]
  simp only [compareKeyTournamentID_eq_zero, tournamentRecord]

theorem tournamentRecord_mapRemove {s : ChessSystem} (h : SysInv s) (tid tid1 : Int) :
    (mapGet compareKeyTournamentID
        (mapRemove compareKeyTournamentID s.tournaments (some tid)).2 (some tid1)).1 =
      if tid = tid1 then none else tournamentRecord s tid1 := by
  rw [mapRemove_mapGet_of_wf compareKeyTournamentID_order h.1]
  simp only [compareKeyTournamentID_eq_zero, tournamentRecord]

theorem chessAddTournament_effect {s s1 : ChessSystem} {tid max : Int} {loc : Option String}
    {r : ChessResult} (h : SysInv s)
    (hr : chessAddTournament (some s) tid max loc = some (r, some s1)) :
    s1.players = s.players ∧
    (r ≠ ChessResult.CHESS_SUCCESS → s1 = s) ∧
    (r = ChessResult.CHESS_SUCCESS →
      0 < tid ∧ 0 < max ∧ tournamentRecord s tid = none ∧
      ∃ location, loc = some location ∧
        ∀ tid1, tournamentRecord s1 tid1 =
          if tid = tid1 then some (tournamentCreate max location)
          else tournamentRecord s tid1) := by
  unfold chessAddTournament at hr
  split at hr
  · rename_i hcheck
    simp only [Option.some.injEq, Prod.mk.injEq] at hr
    obtain ⟨rfl, rfl⟩ := hr
    exact ⟨rfl, fun _ => rfl, fun e => absurd e hcheck⟩
  · rename_i hcheck
    simp only [ne_eq, not_not] at hcheck
    cases loc with
    | none => simp at hr
    | some location =>
      simp only [mapPut_fst, ne_eq, not_true_eq_false, if_false, Option.some.injEq,
        Prod.mk.injEq] at hr
      obtain ⟨rfl, rfl⟩ := hr
      refine ⟨rfl, fun e => absurd rfl e, fun _ => ?_⟩
      unfold chessAddTournamentErrorCheck at hcheck
      simp only [isValidID, isMaxGamesPerPlayerValid, mapContains_of_mapGet] at hcheck
      split at hcheck
      · simp at hcheck
      · rename_i h1
        split at hcheck
        · simp at hcheck
        · rename_i h2
          split at hcheck
          · simp at hcheck
          · split at hcheck
            · simp at hcheck
            · rename_i h4
              simp only [gt_iff_lt, decide_eq_false_iff_not, not_not] at h1 h4
              refine ⟨h1, h4, ?_, location, rfl, ?_⟩
              · unfold tournamentRecord
                cases hx : (mapGet compareKeyTournamentID s.tournaments (some tid)).1 with
                | none => rfl
                | some x => simp [hx] at h2
              · intro tid1
                exact tournamentRecord_mapPut h tid tid1 _

theorem chessAddGame_effect {s s1 : ChessSystem} {tid p1 p2 : Int} {w : Winner} {time : Int}
    {r : ChessResult} (h : SysInv s)
    (hr : chessAddGame (some s) tid p1 p2 w time = some (r, some s1)) :
    (r ≠ ChessResult.CHESS_SUCCESS → s1 = s) ∧
    (r = ChessResult.CHESS_SUCCESS →
      chessAddGameErrorCheck (some s) tid p1 p2 w time = ChessResult.CHESS_SUCCESS ∧
      ∃ t t1, tournamentRecord s tid = some t ∧
        chessAddGameUpdate t s.players p1 p2 w time = some (t1, s1.players) ∧
        ∀ tid1, tournamentRecord s1 tid1 =
          if tid = tid1 then some t1 else tournamentRecord s tid1) := by
  unfold chessAddGame at hr
  split at hr
  · rename_i hcheck
    simp only [Option.some.injEq, Prod.mk.injEq] at hr
    obtain ⟨rfl, rfl⟩ := hr
    exact ⟨fun _ => rfl, fun e => absurd e hcheck⟩
  · rename_i hcheck
    simp only [ne_eq, not_not] at hcheck
    simp only at hr
    split at hr
    · simp at hr
    · rename_i t ht
      split at hr
      · simp at hr
      · rename_i t1 pl1 hup
        simp only [Option.some.injEq, Prod.mk.injEq] at hr
        obtain ⟨rfl, rfl⟩ := hr
        refine ⟨fun e => absurd rfl e, fun _ => ⟨hcheck, t, t1, ht, hup, ?_⟩⟩
        intro tid1
        have htr : tournamentRecord s tid = some t := ht
        rw [tournamentRecord_store h, htr]
        simp

theorem chessEndTournament_effect {s s1 : ChessSystem} {tid : Int} {r : ChessResult}
    (h : SysInv s) (hr : chessEndTournament (some s) tid = some (r, some s1)) :
    s1.players = s.players ∧
    (r ≠ ChessResult.CHESS_SUCCESS → s1 = s) ∧
    (r = ChessResult.CHESS_SUCCESS →
      chessEndTournamentErrorCheck (some s) tid = ChessResult.CHESS_SUCCESS ∧
      ∃ t cw, tournamentRecord s tid = some t ∧
        endTournamentLoop t.players (mapForEach t.players)
          (mapGet compareKeyPlayerID t.players (mapGetFirst t.players).1).1 = some cw ∧
        ∀ tid1, tournamentRecord s1 tid1 =
          if tid = tid1 then some (tournamentSetWinner t (playerGetID cw))
          else tournamentRecord s tid1) := by
  unfold chessEndTournament at hr
  split at hr
  · rename_i hcheck
    simp only [Option.some.injEq, Prod.mk.injEq] at hr
    obtain ⟨rfl, rfl⟩ := hr
    exact ⟨rfl, fun _ => rfl, fun e => absurd e hcheck⟩
  · rename_i hcheck
    simp only [ne_eq, not_not] at hcheck
    simp only at hr
    split at hr
    · simp at hr
    · rename_i t ht
      split at hr
      · simp at hr
      · rename_i cw hcw
        simp only [Option.some.injEq, Prod.mk.injEq] at hr
        obtain ⟨rfl, rfl⟩ := hr
        refine ⟨rfl, fun e => absurd rfl e, fun _ => ⟨hcheck, t, cw, ht, hcw, ?_⟩⟩
        intro tid1
        have htr : tournamentRecord s tid = some t := ht
        have := tournamentRecord_store h tid tid1 (tournamentSetWinner t (playerGetID cw))
          s.players
        rw [htr] at this
        simpa using this

theorem chessRemoveTournament_effect {s s1 : ChessSystem} {tid : Int} {r : ChessResult}
    (h : SysInv s) (hr : chessRemoveTournament (some s) tid = some (r, some s1)) :
    (r ≠ ChessResult.CHESS_SUCCESS → s1 = s) ∧
    (r = ChessResult.CHESS_SUCCESS →
      ∃ t, tournamentRecord s tid = some t ∧
        removeTournamentLoop t.games (mapForEach t.games) s.players = some s1.players ∧
        ∀ tid1, tournamentRecord s1 tid1 =
          if tid = tid1 then none else tournamentRecord s tid1) := by
  unfold chessRemoveTournament at hr
  split at hr
  · rename_i hcheck
    simp only [Option.some.injEq, Prod.mk.injEq] at hr
    obtain ⟨rfl, rfl⟩ := hr
    exact ⟨fun _ => rfl, fun e => absurd e hcheck⟩
  · simp only at hr
    split at hr
    · simp at hr
    · rename_i t ht
      split at hr
      · simp at hr
      · rename_i pl hpl
        simp only [Option.some.injEq, Prod.mk.injEq] at hr
        obtain ⟨rfl, rfl⟩ := hr
        refine ⟨fun e => absurd rfl e, fun _ => ⟨t, ht, hpl, ?_⟩⟩
        intro tid1
        exact tournamentRecord_mapRemove h tid tid1

/-! ## The technical win in a players map -/

theorem technicalWin_records {m : Map Int Player} (h : MapWF compareKeyPlayerID m)
    {a b : Int} (hne : a ≠ b) (ha : 0 < a) (hb : 0 < b) {ra rb : Player}
    (hra : playerRecord m a = some ra) (hrb : playerRecord m b = some rb) (opp : Int)
    (w : Winner) :
    ∃ m1, playersMapTechnicalWinUpdateScore m a b opp w = some m1 ∧
      MapWF compareKeyPlayerID m1 ∧
      ∀ q, playerRecord m1 q =
        if q = a then
          some (if opp = a then technicalWin ra Winner.FIRST_PLAYER w
            else technicalLoss ra Winner.FIRST_PLAYER w)
        else if q = b then
          some (if opp = a then technicalLoss rb Winner.SECOND_PLAYER w
            else technicalWin rb Winner.SECOND_PLAYER w)
        else playerRecord m q := by
  have hra0 := hra
  have hrb0 := hrb
  unfold playerRecord at hra hrb
  have hcalc : ∃ x, playersRemoveScore (some ra, some rb) w = some x ∧
      playersAddScore x (if opp = a then Winner.FIRST_PLAYER else Winner.SECOND_PLAYER) =
        (some (if opp = a then technicalWin ra Winner.FIRST_PLAYER w
            else technicalLoss ra Winner.FIRST_PLAYER w),
         some (if opp = a then technicalLoss rb Winner.SECOND_PLAYER w
            else technicalWin rb Winner.SECOND_PLAYER w)) := by
    by_cases ho : opp = a <;> cases w <;>
      exact ⟨_, rfl, by simp [playersAddScore, technicalWin, technicalLoss, ho]⟩
  obtain ⟨x, hx1, hx2⟩ := hcalc
  refine ⟨mapStore compareKeyPlayerID
      (mapStore compareKeyPlayerID m a
        (some (if opp = a then technicalWin ra Winner.FIRST_PLAYER w
            else technicalLoss ra Winner.FIRST_PLAYER w)))
      b (some (if opp = a then technicalLoss rb Winner.SECOND_PLAYER w
            else technicalWin rb Winner.SECOND_PLAYER w)),
    ?_, mapStore_wf (mapStore_wf h _ _) _ _, ?_⟩
  · unfold playersMapTechnicalWinUpdateScore
    have hvalid : ¬ (isValidID a = false ∨ isValidID b = false) := by
      simp [isValidID, ha, hb]
    simp only [hvalid, if_false]
    rw [hra, hrb, hx1]
    simp only []
    rw [hx2]
  · intro q
    have hw1 := mapStore_wf h a
      (some (if opp = a then technicalWin ra Winner.FIRST_PLAYER w
            else technicalLoss ra Winner.FIRST_PLAYER w))
    rw [playerRecord_mapStore hw1, playerRecord_mapStore h, playerRecord_mapStore h]
    have hne1 : ¬ a = b := hne
    simp only [hra0, hrb0, Option.isSome_some, hne1, if_true, if_false]
    by_cases hq2 : q = b
    · subst hq2
      have : ¬ q = a := fun e => hne e.symm
      simp [this]
    · have hq2a : ¬ b = q := fun e => hq2 e.symm
      simp only [hq2a, hq2, if_false]
      by_cases hq1 : q = a
      · subst hq1
        simp
      · have hq1a : ¬ a = q := fun e => hq1 e.symm
        simp [hq1a, hq1]


theorem SameIds.same_refl (m : Map Int Player) : SameIds m m := fun _ => rfl

theorem SameIds.same_trans {m m1 m2 : Map Int Player} (h1 : SameIds m m1) (h2 : SameIds m1 m2) :
    SameIds m m2 := fun q => (h2 q).trans (h1 q)

theorem SameIds.isSome {m m1 : Map Int Player} (h : SameIds m m1) (q : Int) :
    (playerRecord m1 q).isSome = (playerRecord m q).isSome := by
  have := h q
  cases h1 : playerRecord m1 q <;> cases h2 : playerRecord m q <;> simp [h1, h2] at this ⊢

theorem SameIds.playersInv {m m1 : Map Int Player} (h : SameIds m m1) (hi : PlayersInv m) :
    PlayersInv m1 := by
  intro q r hr
  have := h q
  rw [hr] at this
  cases h2 : playerRecord m q with
  | none => simp [h2] at this
  | some r0 =>
    simp only [h2, Option.map_some', Option.some.injEq] at this
    have := hi q r0 h2
    omega

theorem SameIds.linked {m m1 : Map Int Player} (h : SameIds m m1) {g : Game}
    (hl : GameLinked m g) : GameLinked m1 g := by
  unfold GameLinked
  rw [h.isSome, h.isSome]
  exact hl

theorem technicalWin_id (r : Player) (side w : Winner) : (technicalWin r side w).id = r.id :=
  rfl

theorem technicalLoss_id (r : Player) (side w : Winner) : (technicalLoss r side w).id = r.id :=
  rfl

theorem technicalWinOver_id (p : Int) (g : Game) (q : Int) (r : Player) :
    (technicalWinOver p g q r).id = r.id := by
  unfold technicalWinOver
  split_ifs <;> rfl

theorem technicalWinOver_other (p : Int) {g : Game} {q : Int} (h1 : ¬ g.first_player = q)
    (h2 : ¬ g.second_player = q) (r : Player) : technicalWinOver p g q r = r := by
  simp [technicalWinOver, h1, h2]

theorem technicalWin_step {p : Int} (hp : 0 < p) {m : Map Int Player}
    (hm : MapWF compareKeyPlayerID m) {g : Game} (hgi : GameInv g) (hl : GameLinked m g)
    (hin : g.first_player = p ∨ g.second_player = p)
    (hv : 0 < gameGetOpponent (some g) p) :
    ∃ m1, playersMapTechnicalWinUpdateScore m g.first_player g.second_player
        (gameGetOpponent (some g) p) g.winner = some m1 ∧
      MapWF compareKeyPlayerID m1 ∧ SameIds m m1 ∧
      ∀ q, q ≠ p → playerRecord m1 q = (playerRecord m q).map (technicalWinOver p g q) := by
  obtain ⟨h0a, h0b, habs⟩ := hgi
  have hne : g.first_player ≠ g.second_player := fun e => habs (by rw [e])
  by_cases h1 : g.first_player = p
  · have hopp : gameGetOpponent (some g) p = g.second_player := by
      simp [gameGetOpponent, h1]
    rw [hopp] at hv ⊢
    have ha : 0 < g.first_player := by omega
    obtain ⟨ra, hra⟩ := Option.isSome_iff_exists.mp (hl.1 ha)
    obtain ⟨rb, hrb⟩ := Option.isSome_iff_exists.mp (hl.2 hv)
    obtain ⟨m1, hm1, hwf, hrec⟩ := technicalWin_records hm hne ha hv hra hrb
      g.second_player g.winner
    have hno : ¬ g.second_player = g.first_player := fun e => hne e.symm
    simp only [hno, if_false] at hrec
    refine ⟨m1, hm1, hwf, ?_, ?_⟩
    · intro q
      rw [hrec q]
      by_cases hq1 : q = g.first_player
      · simp [hq1, hra, technicalLoss_id]
      · by_cases hq2 : q = g.second_player
        · simp [hq1, hq2, hrb, technicalWin_id, hno]
        · simp [hq1, hq2]
    · intro q hq
      rw [hrec q]
      have hq1 : ¬ q = g.first_player := by omega
      simp only [hq1, if_false]
      by_cases hq2 : q = g.second_player
      · subst hq2
        simp [hrb, technicalWinOver, h1, hv]
      · have hq2a : ¬ g.second_player = q := fun e => hq2 e.symm
        have hq1a : ¬ g.first_player = q := fun e => hq1 e.symm
        simp only [hq2, if_false]
        cases playerRecord m q <;> simp [technicalWinOver_other p hq1a hq2a]
  · have h2 : g.second_player = p := by tauto
    have hopp : gameGetOpponent (some g) p = g.first_player := by
      simp [gameGetOpponent, h1]
    rw [hopp] at hv ⊢
    have hb : 0 < g.second_player := by omega
    obtain ⟨ra, hra⟩ := Option.isSome_iff_exists.mp (hl.1 hv)
    obtain ⟨rb, hrb⟩ := Option.isSome_iff_exists.mp (hl.2 hb)
    obtain ⟨m1, hm1, hwf, hrec⟩ := technicalWin_records hm hne hv hb hra hrb
      g.first_player g.winner
    simp only [if_true] at hrec
    refine ⟨m1, hm1, hwf, ?_, ?_⟩
    · intro q
      rw [hrec q]
      by_cases hq1 : q = g.first_player
      · simp [hq1, hra, technicalWin_id]
      · by_cases hq2 : q = g.second_player
        · have hno : ¬ g.second_player = g.first_player := fun e => hne e.symm
          simp [hq2, hrb, technicalLoss_id, hno]
        · simp [hq1, hq2]
    · intro q hq
      rw [hrec q]
      have hq2 : ¬ q = g.second_player := by omega
      by_cases hq1 : q = g.first_player
      · subst hq1
        simp [hra, technicalWinOver, h2, hv, h1]
      · have hq2a : ¬ g.second_player = q := fun e => hq2 e.symm
        have hq1a : ¬ g.first_player = q := fun e => hq1 e.symm
        simp only [hq1, hq2, if_false]
        cases playerRecord m q <;> simp [technicalWinOver_other p hq1a hq2a]

/-! ## What `chessRemovePlayer` does to the games of one tournament -/

theorem changeData_self {K V : Type} (cmp : K → K → Int) (k : K) (v : V) (l : List (K × V))
    (h : findData cmp k l = some v) : changeData cmp k v l = l := by
  induction l with
  | nil => rfl
  | cons n rest ih =>
    unfold changeData
    unfold findData at h
    by_cases hc : cmp n.1 k = 0
    · simp only [hc, if_true, Option.some.injEq] at h
      simp [hc, ← h]
    · simp only [hc, if_false] at h
      simp [hc, ih h]

theorem mapStore_self {K V : Type} (cmp : K → K → Int) (m : Map K V) (k : K) (v : V)
    (h : findData cmp k m.nodes = some v) : mapStore cmp m k (some v) = m := by
  unfold mapStore
  simp only [changeData_self cmp k v m.nodes h]

theorem gameAfterRemoval_of_not_in {p : Int} {g : Game} (h1 : ¬ g.first_player = p)
    (h2 : ¬ g.second_player = p) : gameAfterRemoval p g = g := by
  simp [gameAfterRemoval, h1, h2]

theorem gameAfterRemoval_valid {p : Int} {g : Game} (hgi : GameInv g)
    (hin : g.first_player = p ∨ g.second_player = p)
    (hv : 0 < gameGetOpponent (some g) p) :
    gameUpdateDeletedPlayerID (gameSetWinner (some g) (gameGetOpponent (some g) p)) p =
      some (gameAfterRemoval p g) := by
  obtain ⟨h0a, h0b, habs⟩ := hgi
  have hne : g.first_player ≠ g.second_player := fun e => habs (by rw [e])
  by_cases h1 : g.first_player = p
  · have h2 : ¬ g.second_player = p := fun e => hne (h1.trans e.symm)
    have hopp : gameGetOpponent (some g) p = g.second_player := by
      simp [gameGetOpponent, h1]
    rw [hopp] at hv ⊢
    have h3 : ¬ p = g.second_player := fun e => h2 e.symm
    simp [gameSetWinner, gameUpdateDeletedPlayerID, gameAfterRemoval, h1, h3, hv]
  · have h2 : g.second_player = p := by tauto
    have hopp : gameGetOpponent (some g) p = g.first_player := by
      simp [gameGetOpponent, h1]
    rw [hopp] at hv ⊢
    simp [gameSetWinner, gameUpdateDeletedPlayerID, gameAfterRemoval, h1, h2, hv]

theorem gameAfterRemoval_invalid {p : Int} {g : Game}
    (hin : g.first_player = p ∨ g.second_player = p)
    (hv : ¬ 0 < gameGetOpponent (some g) p) :
    gameUpdateDeletedPlayerID (some g) p = some (gameAfterRemoval p g) := by
  by_cases h1 : g.first_player = p
  · have hopp : gameGetOpponent (some g) p = g.second_player := by
      simp [gameGetOpponent, h1]
    rw [hopp] at hv
    simp [gameUpdateDeletedPlayerID, gameAfterRemoval, h1, hv]
  · have h2 : g.second_player = p := by tauto
    have hopp : gameGetOpponent (some g) p = g.first_player := by
      simp [gameGetOpponent, h1]
    rw [hopp] at hv
    simp [gameUpdateDeletedPlayerID, gameAfterRemoval, h1, h2, hv]

theorem technicalWinOver_invalid {p : Int} {g : Game} (hv : ¬ 0 < gameGetOpponent (some g) p)
    (q : Int) (r : Player) : technicalWinOver p g q r = r := by
  unfold technicalWinOver
  unfold gameGetOpponent at hv
  simp only at hv
  split_ifs with h1 h2
  · obtain ⟨hq, hf, hs⟩ := h1
    simp only [hf, if_true] at hv
    omega
  · obtain ⟨hq, hs, hf⟩ := h2
    by_cases h3 : g.first_player = p
    · simp only [h3, if_true] at hv
      omega
    · simp only [h3, if_false] at hv
      omega
  · rfl

theorem technicalWinOver_of_not_in {p : Int} {g : Game} (h1 : ¬ g.first_player = p)
    (h2 : ¬ g.second_player = p) (q : Int) (r : Player) : technicalWinOver p g q r = r := by
  simp [technicalWinOver, h1, h2]

theorem SameSettings.settings_refl (t : Tournament) : SameSettings t t :=
  ⟨rfl, rfl, rfl, rfl, rfl, rfl, rfl⟩

theorem SameSettings.settings_trans {t t1 t2 : Tournament} (h1 : SameSettings t t1)
    (h2 : SameSettings t1 t2) : SameSettings t t2 := by
  unfold SameSettings at *
  obtain ⟨a1, a2, a3, a4, a5, a6, a7⟩ := h1
  obtain ⟨b1, b2, b3, b4, b5, b6, b7⟩ := h2
  exact ⟨b1.trans a1, b2.trans a2, b3.trans a3, b4.trans a4, b5.trans a5, b6.trans a6,
    b7.trans a7⟩

theorem map_id_of_forall {f : Player → Player} (hf : ∀ r, f r = r) (o : Option Player) :
    o.map f = o := by
  cases o <;> simp [hf]

theorem removePlayerGameStep_effect {p gid : Int} (hp : 0 < p) {t : Tournament}
    {m : Map Int Player} {g : Game} (ht : TournamentInv t)
    (hm : MapWF compareKeyPlayerID m)
    (hg : (mapGet compareKeyGameID t.games (some gid)).1 = some g) (hgi : GameInv g)
    (hl : GameLinked t.players g) (hgl : GameLinked m g) :
    ∃ t1 m1, removePlayerGameStep p t m gid = some (t1, m1) ∧
      t1.games = mapStore compareKeyGameID t.games gid (some (gameAfterRemoval p g)) ∧
      SameSettings t t1 ∧ MapWF compareKeyPlayerID t1.players ∧
      MapWF compareKeyPlayerID m1 ∧ SameIds t.players t1.players ∧ SameIds m m1 ∧
      (∀ q, q ≠ p →
        playerRecord t1.players q = (playerRecord t.players q).map (technicalWinOver p g q)) ∧
      (∀ q, q ≠ p → playerRecord m1 q = (playerRecord m q).map (technicalWinOver p g q)) := by
  unfold removePlayerGameStep
  simp only [hg, isPlayerInCurrentGame, gameGetFirstPlayer, gameGetSecondPlayer,
    Bool.or_eq_true, decide_eq_true_eq, isValidID, gameGetWinner]
  by_cases hin : g.first_player = p ∨ g.second_player = p
  · simp only [hin, if_true]
    by_cases hv : 0 < gameGetOpponent (some g) p
    · simp only [gt_iff_lt, hv, if_true]
      obtain ⟨m1, hm1, hwf1, hs1, hr1⟩ := technicalWin_step hp hm hgi hgl hin hv
      obtain ⟨l1, hl1, hwfl, hsl, hrl⟩ := technicalWin_step hp ht.2.1 hgi hl hin hv
      rw [hm1]
      simp only []
      rw [hl1]
      simp only []
      rw [gameAfterRemoval_valid hgi hin hv]
      exact ⟨_, _, rfl, rfl, SameSettings.settings_refl t, hwfl, hwf1, hsl, hs1, hrl, hr1⟩
    · simp only [gt_iff_lt, hv, if_false]
      rw [gameAfterRemoval_invalid hin hv]
      refine ⟨_, _, rfl, rfl, SameSettings.settings_refl t, ht.2.1, hm, SameIds.same_refl _, SameIds.same_refl _,
        ?_, ?_⟩
      · intro q _
        exact (map_id_of_forall (technicalWinOver_invalid hv q) _).symm
      · intro q _
        exact (map_id_of_forall (technicalWinOver_invalid hv q) _).symm
  · simp only [hin, if_false]
    have h1 : ¬ g.first_player = p := fun e => hin (Or.inl e)
    have h2 : ¬ g.second_player = p := fun e => hin (Or.inr e)
    refine ⟨_, _, rfl, ?_, SameSettings.settings_refl t, ht.2.1, hm, SameIds.same_refl _, SameIds.same_refl _,
      ?_, ?_⟩
    · rw [gameAfterRemoval_of_not_in h1 h2, mapStore_self]
      rw [← mapGet_wf_fst ht.1]
      exact hg
    · intro q _
      exact (map_id_of_forall (technicalWinOver_of_not_in h1 h2 q) _).symm
    · intro q _
      exact (map_id_of_forall (technicalWinOver_of_not_in h1 h2 q) _).symm


theorem changeData_append_sorted {K V : Type} {cmp : K → K → Int} (hc : CmpOrder cmp)
    (k : K) (v w : V) (rest : List (K × V)) :
    ∀ done : List (K × V),
      ((done ++ (k, w) :: rest).map Prod.fst).Pairwise (fun a b => cmp a b < 0) →
      changeData cmp k v (done ++ (k, w) :: rest) = done ++ (k, v) :: rest := by
  intro done
  induction done with
  | nil =>
    intro _
    simp [changeData, hc.refl k]
  | cons n d ih =>
    intro hs
    simp only [List.cons_append, List.map_cons, List.pairwise_cons] at hs
    have hlt : cmp n.1 k < 0 := by
      apply hs.1
      simp
    have hne : cmp n.1 k ≠ 0 := by omega
    have := ih hs.2
    simp only [List.cons_append, changeData, hne, ne_eq, not_false_eq_true, if_true]
    exact congrArg (List.cons n) this

theorem technicalWins_cons (p q : Int) (g : Game) (gs : List Game) (r : Player) :
    technicalWins p q (g :: gs) r = technicalWins p q gs (technicalWinOver p g q r) := rfl

theorem removePlayerGamesLoop_effect {p : Int} (hp : 0 < p) :
    ∀ (todo done : List (Int × Game)) (t : Tournament) (m : Map Int Player),
      t.games.nodes = done ++ todo → TournamentInv t → MapWF compareKeyPlayerID m →
      (∀ n ∈ todo, GameInv n.2 ∧ GameLinked t.players n.2 ∧ GameLinked m n.2) →
      ∃ t1 m1, removePlayerGamesLoop p (todo.map Prod.fst) t m = some (t1, m1) ∧
        t1.games.nodes = done ++ todo.map (fun n => (n.1, gameAfterRemoval p n.2)) ∧
        t1.games.size = t.games.size ∧ SameSettings t t1 ∧ TournamentInv t1 ∧
        MapWF compareKeyPlayerID m1 ∧ SameIds t.players t1.players ∧ SameIds m m1 ∧
        (∀ q, q ≠ p → playerRecord t1.players q =
          (playerRecord t.players q).map (technicalWins p q (todo.map Prod.snd))) ∧
        (∀ q, q ≠ p → playerRecord m1 q =
          (playerRecord m q).map (technicalWins p q (todo.map Prod.snd))) := by
  intro todo
  induction todo with
  | nil =>
    intro done t m hn ht hm _
    refine ⟨t, m, rfl, ?_, rfl, SameSettings.settings_refl t, ht, hm, SameIds.same_refl _, SameIds.same_refl _,
      ?_, ?_⟩
    · simpa using hn
    · intro q _
      exact (map_id_of_forall (fun _ => rfl) _).symm
    · intro q _
      exact (map_id_of_forall (fun _ => rfl) _).symm
  | cons n rest ih =>
    intro done t m hn ht hm hall
    obtain ⟨gid, g⟩ := n
    have hmem : (gid, g) ∈ t.games.nodes := by
      rw [hn]
      simp
    have hg : (mapGet compareKeyGameID t.games (some gid)).1 = some g := by
      rw [mapGet_wf_fst ht.1]
      exact findData_of_mem_sorted compareKeyGameID_order _ ht.1.2 (gid, g) hmem
    obtain ⟨hgi, hgl, hgm⟩ := hall (gid, g) (List.mem_cons_self _ _)
    obtain ⟨t2, m2, hstep, hgames, hset, hwfl, hwfm, hsl, hsm, hrl, hrm⟩ :=
      removePlayerGameStep_effect hp ht hm hg hgi hgl hgm
    obtain ⟨ht2, _⟩ := removePlayerGameStep_inv ht hm hstep
    have hsorted : ((done ++ (gid, g) :: rest).map Prod.fst).Pairwise
        (fun a b => compareKeyGameID a b < 0) := by
      rw [← hn]
      exact ht.1.2
    have hn2 : t2.games.nodes = (done ++ [(gid, gameAfterRemoval p g)]) ++ rest := by
      rw [hgames, mapStore_nodes_some, hn,
        changeData_append_sorted compareKeyGameID_order gid _ g rest done hsorted]
      simp
    have hall2 : ∀ n ∈ rest, GameInv n.2 ∧ GameLinked t2.players n.2 ∧ GameLinked m2 n.2 := by
      intro n hn
      obtain ⟨a, b, c⟩ := hall n (List.mem_cons_of_mem _ hn)
      exact ⟨a, hsl.linked b, hsm.linked c⟩
    obtain ⟨t1, m1, hloop, hnodes, hsize, hset1, hinv1, hwf1, hsl1, hsm1, hrl1, hrm1⟩ :=
      ih (done ++ [(gid, gameAfterRemoval p g)]) t2 m2 hn2 ht2 hwfm hall2
    refine ⟨t1, m1, ?_, ?_, ?_, hset.settings_trans hset1, hinv1, hwf1, hsl.same_trans hsl1,
      hsm.same_trans hsm1, ?_, ?_⟩
    · simp only [List.map_cons, removePlayerGamesLoop, hstep]
      exact hloop
    · rw [hnodes]
      simp
    · rw [hsize, hgames, mapStore_size]
    · intro q hq
      rw [hrl1 q hq, hrl q hq, Option.map_map]
      rfl
    · intro q hq
      rw [hrm1 q hq, hrm q hq, Option.map_map]
      rfl

/-! ## What `chessRemovePlayer` does to the system -/

theorem technicalWins_append (p q : Int) (l1 l2 : List Game) (r : Player) :
    technicalWins p q (l1 ++ l2) r = technicalWins p q l2 (technicalWins p q l1 r) := by
  unfold technicalWins
  rw [List.foldl_append]

theorem technicalWins_nil (p q : Int) (r : Player) : technicalWins p q [] r = r := rfl

theorem playerRecord_mapRemove {m : Map Int Player} (h : MapWF compareKeyPlayerID m)
    (p q : Int) :
    playerRecord (mapRemove compareKeyPlayerID m (some p)).2 q =
      if q = p then none else playerRecord m q := by
  unfold playerRecord
  rw [mapRemove_mapGet_of_wf compareKeyPlayerID_order h]
  simp only [compareKeyPlayerID_eq_zero]
  by_cases hq : q = p
  · simp [hq]
  · have : ¬ p = q := fun e => hq e.symm
    simp [hq, this]

theorem removePlayerTournamentStep_effect {p : Int} (hp : 0 < p) {s : ChessSystem}
    (h : SysInv s) {tid : Int} {t : Tournament} (ht : tournamentRecord s tid = some t)
    (hlinks : t.winner = TOURNAMENT_NOT_ENDED →
      ∀ n ∈ t.games.nodes, GameInv n.2 ∧ GameLinked t.players n.2 ∧ GameLinked s.players n.2) :
    ∃ s1 t1, removePlayerTournamentStep p s tid = some s1 ∧ SysInv s1 ∧
      (∀ tid1, tournamentRecord s1 tid1 =
        if tid = tid1 then some t1 else tournamentRecord s tid1) ∧
      RemovedFrom p t t1 ∧ SameIds s.players s1.players ∧
      (∀ q, q ≠ p → playerRecord s1.players q =
        (playerRecord s.players q).map (technicalWins p q (openGames t))) := by
  have hti := h.lookup ht
  have hstore : ∀ (t1 : Tournament) (pl : Map Int Player) (tid1 : Int),
      tournamentRecord
        { tournaments := mapStore compareKeyTournamentID s.tournaments tid (some t1),
          players := pl } tid1 =
        if tid = tid1 then some t1 else tournamentRecord s tid1 := by
    intro t1 pl tid1
    rw [tournamentRecord_store h, ht]
    simp
  unfold tournamentRecord at ht
  by_cases hw : t.winner = TOURNAMENT_NOT_ENDED
  · obtain ⟨t1, m1, hloop, hnodes, hsize, hset, hinv1, hwf1, hsl, hsm, hrl, hrm⟩ :=
      removePlayerGamesLoop_effect hp t.games.nodes [] t s.players (by simp) hti h.2.1
        (hlinks hw)
    have hfe : mapForEach t.games = t.games.nodes.map Prod.fst := mapForEach_wf hti.1
    have hstep : removePlayerTournamentStep p s tid = some
        { tournaments := mapStore compareKeyTournamentID s.tournaments tid
            (some { t1 with players := (mapRemove compareKeyPlayerID t1.players (some p)).2 }),
          players := m1 } := by
      unfold removePlayerTournamentStep
      simp only [ht, tournamentGetWinner, hw, if_true, hfe, hloop]
    refine ⟨_, _, hstep, removePlayerTournamentStep_inv h hstep, hstore _ _, ?_, hsm, ?_⟩
    · refine ⟨hset, hsize, fun e => absurd hw e, fun _ => ?_, ?_⟩
      · simpa using hnodes
      · intro q
        simp only []
        rw [playerRecord_mapRemove hinv1.2.1]
        by_cases hq : q = p
        · simp [hq]
        · simp only [hq, if_false]
          rw [hrl q hq]
          simp [openGames, hw]
    · intro q hq
      rw [hrm q hq]
      simp [openGames, hw]
  · have hstep : removePlayerTournamentStep p s tid = some
        { tournaments := mapStore compareKeyTournamentID s.tournaments tid
            (some { t with players := (mapRemove compareKeyPlayerID t.players (some p)).2 }),
          players := s.players } := by
      unfold removePlayerTournamentStep
      simp only [ht, tournamentGetWinner, hw, if_false]
    refine ⟨_, _, hstep, removePlayerTournamentStep_inv h hstep, hstore _ _, ?_,
      SameIds.same_refl _, ?_⟩
    · refine ⟨SameSettings.settings_refl t, rfl, fun _ => rfl, fun e => absurd e hw, ?_⟩
      intro q
      simp only []
      rw [playerRecord_mapRemove hti.2.1]
      by_cases hq : q = p
      · simp [hq]
      · simp only [hq, if_false, openGames, hw]
        exact (map_id_of_forall (fun _ => rfl) _).symm
    · intro q _
      simp only [openGames, hw, if_false]
      exact (map_id_of_forall (fun _ => rfl) _).symm


theorem removePlayerTournamentsLoop_effect {p : Int} (hp : 0 < p) :
    ∀ (todo : List (Int × Tournament)) (s : ChessSystem), SysInv s →
      (todo.map Prod.fst).Nodup →
      (∀ n ∈ todo, tournamentRecord s n.1 = some n.2) →
      (∀ n ∈ todo, n.2.winner = TOURNAMENT_NOT_ENDED →
        ∀ g ∈ n.2.games.nodes,
          GameInv g.2 ∧ GameLinked n.2.players g.2 ∧ GameLinked s.players g.2) →
      ∃ s1, removePlayerTournamentsLoop p (todo.map Prod.fst) s = some s1 ∧ SysInv s1 ∧
        (∀ tid, tid ∉ todo.map Prod.fst → tournamentRecord s1 tid = tournamentRecord s tid) ∧
        (∀ n ∈ todo, ∃ t1, tournamentRecord s1 n.1 = some t1 ∧ RemovedFrom p n.2 t1) ∧
        SameIds s.players s1.players ∧
        (∀ q, q ≠ p → playerRecord s1.players q =
          (playerRecord s.players q).map
            (technicalWins p q (todo.flatMap (fun n => openGames n.2)))) := by
  intro todo
  induction todo with
  | nil =>
    intro s h _ _ _
    refine ⟨s, rfl, h, fun _ _ => rfl, ?_, SameIds.same_refl _, ?_⟩
    · intro n hn
      simp at hn
    · intro q _
      exact (map_id_of_forall (fun _ => rfl) _).symm
  | cons n rest ih =>
    intro s h hnd hrec hlinks
    obtain ⟨tid, t⟩ := n
    simp only [List.map_cons, List.nodup_cons] at hnd
    have ht : tournamentRecord s tid = some t := hrec (tid, t) (List.mem_cons_self _ _)
    obtain ⟨s2, t2, hstep, hinv2, hlook, hrem, hsame, hglob⟩ :=
      removePlayerTournamentStep_effect hp h ht (hlinks (tid, t) (List.mem_cons_self _ _))
    have hrec2 : ∀ n ∈ rest, tournamentRecord s2 n.1 = some n.2 := by
      intro n hn
      rw [hlook]
      have : ¬ tid = n.1 := by
        intro e
        apply hnd.1
        rw [e]
        exact List.mem_map_of_mem _ hn
      simp only [this, if_false]
      exact hrec n (List.mem_cons_of_mem _ hn)
    have hlinks2 : ∀ n ∈ rest, n.2.winner = TOURNAMENT_NOT_ENDED →
        ∀ g ∈ n.2.games.nodes,
          GameInv g.2 ∧ GameLinked n.2.players g.2 ∧ GameLinked s2.players g.2 := by
      intro n hn hw g hg
      obtain ⟨a, b, c⟩ := hlinks n (List.mem_cons_of_mem _ hn) hw g hg
      exact ⟨a, b, hsame.linked c⟩
    obtain ⟨s1, hloop, hinv1, hother, hdone, hsame1, hglob1⟩ :=
      ih s2 hinv2 hnd.2 hrec2 hlinks2
    refine ⟨s1, ?_, hinv1, ?_, ?_, hsame.same_trans hsame1, ?_⟩
    · simp only [List.map_cons, removePlayerTournamentsLoop, hstep]
      exact hloop
    · intro tid1 hnot
      simp only [List.map_cons, List.mem_cons, not_or] at hnot
      rw [hother tid1 hnot.2, hlook]
      have : ¬ tid = tid1 := fun e => hnot.1 e.symm
      simp [this]
    · intro n hn
      rcases List.mem_cons.mp hn with rfl | hn
      · refine ⟨t2, ?_, hrem⟩
        rw [hother _ hnd.1, hlook]
        simp
      · exact hdone n hn
    · intro q hq
      rw [hglob1 q hq, hglob q hq, Option.map_map]
      congr 1
      funext r
      simp only [List.flatMap_cons, Function.comp, technicalWins_append]

theorem nodup_of_ascending (l : List Int)
    (h : l.Pairwise (fun a b => compareKeyTournamentID a b < 0)) : l.Nodup := by
  apply List.Pairwise.imp _ h
  intro a b hab
  unfold compareKeyTournamentID at hab
  omega

theorem tournamentRecord_of_mem {s : ChessSystem} (h : SysInv s) {n : Int × Tournament}
    (hn : n ∈ s.tournaments.nodes) : tournamentRecord s n.1 = some n.2 := by
  unfold tournamentRecord
  rw [mapGet_wf_fst h.1]
  exact findData_of_mem_sorted compareKeyTournamentID_order _ h.1.2 n hn

theorem mem_of_tournamentRecord {s : ChessSystem} (h : SysInv s) {tid : Int} {t : Tournament}
    (ht : tournamentRecord s tid = some t) : (tid, t) ∈ s.tournaments.nodes := by
  unfold tournamentRecord at ht
  rw [mapGet_wf_fst h.1] at ht
  obtain ⟨n, hn, hk, hv⟩ := findData_some_mem _ _ _ _ ht
  rw [compareKeyTournamentID_eq_zero] at hk
  rw [← hk, ← hv]
  exact hn

theorem LinkInv.tournament_links {s : ChessSystem} (hl : LinkInv s) {tid : Int} {t : Tournament}
    (ht : tournamentRecord s tid = some t) (hw : t.winner = TOURNAMENT_NOT_ENDED) :
    ∀ g ∈ t.games.nodes, GameInv g.2 ∧ GameLinked t.players g.2 ∧ GameLinked s.players g.2 := by
  intro g hg
  obtain ⟨_, _, _, hgi, hlk⟩ := hl.2 tid t ht
  exact ⟨hgi g hg, (hlk hw g hg).1, (hlk hw g hg).2⟩

theorem chessRemovePlayer_effect {s : ChessSystem} (h : SysInv s) (hl : LinkInv s) {p : Int}
    (hc : chessRemovePlayerErrorCheck (some s) p = ChessResult.CHESS_SUCCESS) :
    ∃ s1, chessRemovePlayer (some s) p = some (ChessResult.CHESS_SUCCESS, some s1) ∧
      SysInv s1 ∧ 0 < p ∧ (playerRecord s.players p).isSome = true ∧
      (∀ tid t, tournamentRecord s tid = some t →
        ∃ t1, tournamentRecord s1 tid = some t1 ∧ RemovedFrom p t t1) ∧
      (∀ tid, tournamentRecord s tid = none → tournamentRecord s1 tid = none) ∧
      (∀ q, playerRecord s1.players q =
        if q = p then none
        else (playerRecord s.players q).map (technicalWins p q (notEndedGames s))) := by
  have hp : 0 < p ∧ (playerRecord s.players p).isSome = true := by
    unfold chessRemovePlayerErrorCheck at hc
    simp only [isValidID, mapContains_of_mapGet] at hc
    split at hc
    · simp at hc
    · rename_i h1
      split at hc
      · simp at hc
      · rename_i h2
        simp only [gt_iff_lt, decide_eq_false_iff_not, not_not] at h1
        simp only [Bool.not_eq_false] at h2
        exact ⟨h1, h2⟩
  have hfe : mapForEach s.tournaments = s.tournaments.nodes.map Prod.fst :=
    mapForEach_wf h.1
  obtain ⟨s2, hloop, hinv2, hother, hdone, hsame, hglob⟩ :=
    removePlayerTournamentsLoop_effect hp.1 s.tournaments.nodes s h
      (nodup_of_ascending _ h.1.2) (fun n hn => tournamentRecord_of_mem h hn)
      (fun n hn hw => hl.tournament_links (tournamentRecord_of_mem h hn) hw)
  have hres : chessRemovePlayer (some s) p = some (ChessResult.CHESS_SUCCESS,
      some { s2 with players := (mapRemove compareKeyPlayerID s2.players (some p)).2 }) := by
    unfold chessRemovePlayer
    simp only [hc, ne_eq, not_true_eq_false, if_false, hfe, hloop]
  refine ⟨_, hres, chessRemovePlayer_inv h hres, hp.1, hp.2, ?_, ?_, ?_⟩
  · intro tid t ht
    exact hdone (tid, t) (mem_of_tournamentRecord h ht)
  · intro tid ht
    have hnot : tid ∉ s.tournaments.nodes.map Prod.fst := by
      intro hmem
      obtain ⟨n, hn, hk⟩ := List.mem_map.mp hmem
      have := tournamentRecord_of_mem h hn
      rw [hk, ht] at this
      simp at this
    have := hother tid hnot
    rw [ht] at this
    exact this
  · intro q
    simp only []
    rw [playerRecord_mapRemove hinv2.2.1]
    by_cases hq : q = p
    · simp [hq]
    · simp only [hq, if_false]
      exact hglob q hq

/-! ## The second invariant holds in every reachable state -/

theorem playerRecord_mapCreate (q : Int) : playerRecord (mapCreate : Map Int Player) q = none := by
  simp [playerRecord, mapGet, mapContains, mapCreate, mapGetSize]

theorem PlayersInv.of_mapCreate : PlayersInv (mapCreate : Map Int Player) := by
  intro q r h
  rw [playerRecord_mapCreate] at h
  simp at h

theorem SameIds.mapStore {m : Map Int Player} (h : MapWF compareKeyPlayerID m) (k : Int)
    (v : Option Player)
    (hv : ∀ x, v = some x → (playerRecord m k).map (fun r => r.id) = some x.id) :
    SameIds m (mapStore compareKeyPlayerID m k v) := by
  cases v with
  | none => exact SameIds.same_refl m
  | some x =>
    intro q
    rw [playerRecord_mapStore h]
    have := hv x rfl
    by_cases hq : k = q
    · subst hq
      cases hr : playerRecord m k with
      | none => simp [hr] at this
      | some r =>
        simp only [hr, Option.map_some', Option.some.injEq] at this
        simp [this]
    · simp [hq]

theorem playersRemoveScore_ids {a b a1 b1 : Option Player} {w : Winner}
    (h : playersRemoveScore (a, b) w = some (a1, b1)) :
    a1.map (fun r => r.id) = a.map (fun r => r.id) ∧
    b1.map (fun r => r.id) = b.map (fun r => r.id) := by
  cases a <;> cases b <;> cases w <;> simp [playersRemoveScore] at h <;>
    obtain ⟨rfl, rfl⟩ := h <;> exact ⟨rfl, rfl⟩

theorem playersRemovePlayTime_ids {a b a1 b1 : Option Player} {time : Int}
    (h : playersRemovePlayTime (a, b) time = some (a1, b1)) :
    a1.map (fun r => r.id) = a.map (fun r => r.id) ∧
    b1.map (fun r => r.id) = b.map (fun r => r.id) := by
  cases a <;> cases b <;> simp [playersRemovePlayTime] at h <;>
    obtain ⟨rfl, rfl⟩ := h <;> exact ⟨rfl, rfl⟩

theorem playersRemoveStats_sameIds {m m1 : Map Int Player} (hm : MapWF compareKeyPlayerID m)
    {p1 p2 : Int} {w : Winner} {time : Int}
    (h : playersRemoveStats m p1 p2 w time = some m1) : SameIds m m1 := by
  unfold playersRemoveStats at h
  split at h
  · simp only [Option.some.injEq] at h
    subst h
    exact SameIds.same_refl m
  · split at h
    · simp at h
    · rename_i x hx
      split at h
      · simp at h
      · rename_i y hy
        simp only [Option.some.injEq] at h
        subst h
        obtain ⟨x1, x2⟩ := x
        obtain ⟨y1, y2⟩ := y
        obtain ⟨hx1, hx2⟩ := playersRemoveScore_ids hx
        obtain ⟨hy1, hy2⟩ := playersRemovePlayTime_ids hy
        have hs1 : SameIds m (mapStore compareKeyPlayerID m p1 y1) := by
          apply SameIds.mapStore hm
          intro v hv
          have e := hy1.trans hx1
          rw [hv] at e
          exact e.symm
        refine hs1.same_trans ?_
        apply SameIds.mapStore (mapStore_wf hm _ _)
        intro v hv
        have e := hy2.trans hx2
        simp only [] at hv
        rw [hv] at e
        rw [hs1 p2]
        exact e.symm

theorem removeTournamentLoop_sameIds (games : Map Int Game) (ids : List Int) :
    ∀ (m m1 : Map Int Player), MapWF compareKeyPlayerID m →
      removeTournamentLoop games ids m = some m1 → SameIds m m1 := by
  induction ids with
  | nil =>
    intro m m1 _ h
    simp only [removeTournamentLoop, Option.some.injEq] at h
    subst h
    exact SameIds.same_refl m
  | cons id rest ih =>
    intro m m1 hm h
    unfold removeTournamentLoop at h
    split at h
    · simp at h
    · split at h
      · simp at h
      · rename_i m2 hm2
        have hs := playersRemoveStats_sameIds hm hm2
        have hk := playersRemoveStats_same hm2
        exact hs.same_trans (ih m2 m1 (hm.of_same_keys hk.1 hk.2) h)


theorem recordBefore_id {m : Map Int Player} (hi : PlayersInv m) (p : Int) :
    (recordBefore m p).id = p := by
  unfold recordBefore
  cases h : playerRecord m p with
  | none => rfl
  | some r => exact (hi p r h).2

theorem playersInv_after_game {m m1 : Map Int Player} (hi : PlayersInv m) {p1 p2 : Int}
    (h1 : 0 < p1) (h2 : 0 < p2) {w : Winner} {time : Int}
    (hrec : ∀ q, playerRecord m1 q =
      if q = p1 then
        some (playerAfterGame (recordBefore m p1) Winner.FIRST_PLAYER w time)
      else if q = p2 then
        some (playerAfterGame (recordBefore m p2) Winner.SECOND_PLAYER w time)
      else playerRecord m q) :
    PlayersInv m1 ∧ (playerRecord m1 p1).isSome = true ∧ (playerRecord m1 p2).isSome = true ∧
    ∀ q, (playerRecord m q).isSome = true → (playerRecord m1 q).isSome = true := by
  refine ⟨?_, ?_, ?_, ?_⟩
  · intro q r hr
    rw [hrec q] at hr
    split at hr
    · rename_i hq
      simp only [Option.some.injEq] at hr
      subst hr
      subst hq
      exact ⟨h1, recordBefore_id hi q⟩
    · split at hr
      · rename_i hq
        simp only [Option.some.injEq] at hr
        subst hr
        subst hq
        exact ⟨h2, recordBefore_id hi q⟩
      · exact hi q r hr
  · rw [hrec p1]
    simp
  · rw [hrec p2]
    by_cases h : p2 = p1 <;> simp [h]
  · intro q hq
    rw [hrec q]
    split
    · rfl
    · split
      · rfl
      · exact hq

theorem GameLinked.mono {m m1 : Map Int Player} {g : Game}
    (h : ∀ q, (playerRecord m q).isSome = true → (playerRecord m1 q).isSome = true)
    (hl : GameLinked m g) : GameLinked m1 g :=
  ⟨fun hp => h _ (hl.1 hp), fun hp => h _ (hl.2 hp)⟩

theorem LinkInv.of_chessCreate : LinkInv chessCreate := by
  refine ⟨PlayersInv.of_mapCreate, ?_⟩
  intro tid t ht
  have : tournamentRecord chessCreate tid = none := by
    simp [tournamentRecord, chessCreate, mapGet, mapContains, mapCreate, mapGetSize]
  rw [this] at ht
  simp at ht

theorem TournamentLinks.of_tournamentCreate (players : Map Int Player) {max : Int} (hmax : 0 < max)
    (location : String) : TournamentLinks players (tournamentCreate max location) := by
  refine ⟨PlayersInv.of_mapCreate, hmax, ?_, ?_⟩
  · intro n hn
    simp [tournamentCreate, mapCreate] at hn
  · intro _ n hn
    simp [tournamentCreate, mapCreate] at hn

theorem chessAddTournament_links {s s1 : ChessSystem} {tid max : Int} {loc : Option String}
    {r : ChessResult} (h : SysInv s) (hl : LinkInv s)
    (hr : chessAddTournament (some s) tid max loc = some (r, some s1)) : LinkInv s1 := by
  obtain ⟨hpl, hfail, hsucc⟩ := chessAddTournament_effect h hr
  by_cases hres : r = ChessResult.CHESS_SUCCESS
  · obtain ⟨htid, hmax, _, location, _, hrec⟩ := hsucc hres
    refine ⟨by rw [hpl]; exact hl.1, ?_⟩
    intro tid1 t1 ht1
    rw [hrec tid1] at ht1
    rw [hpl]
    split at ht1
    · rename_i he
      simp only [Option.some.injEq] at ht1
      subst ht1
      subst he
      exact ⟨htid, TournamentLinks.of_tournamentCreate _ hmax _⟩
    · exact hl.2 tid1 t1 ht1
  · rw [hfail hres]
    exact hl

theorem chessAddGame_links {s s1 : ChessSystem} {tid p1 p2 : Int} {w : Winner} {time : Int}
    {r : ChessResult} (h : SysInv s) (hl : LinkInv s)
    (hr : chessAddGame (some s) tid p1 p2 w time = some (r, some s1)) : LinkInv s1 := by
  obtain ⟨hfail, hsucc⟩ := chessAddGame_effect h hr
  by_cases hres : r = ChessResult.CHESS_SUCCESS
  · obtain ⟨hcheck, t, t1, ht, hup, hrec⟩ := hsucc hres
    obtain ⟨htid, hp1, hp2, hne⟩ := chessAddGameErrorCheck_ids hcheck
    have hti := h.lookup ht
    obtain ⟨hg, hloc⟩ := chessAddGameUpdate_records hti h.2.1 hne hup
    obtain ⟨hnodes, hwin, hmax, _, _⟩ := chessAddGameUpdate_fields hti hne hup
    obtain ⟨_, htl⟩ := hl.2 tid t ht
    obtain ⟨hpi, hmax0, hgi, hlk⟩ := htl
    obtain ⟨hgpi, hg1, hg2, hgmono⟩ := playersInv_after_game hl.1 hp1 hp2 hg
    obtain ⟨hlpi, hl1, hl2, hlmono⟩ := playersInv_after_game hpi hp1 hp2 hloc
    refine ⟨hgpi, ?_⟩
    intro tid1 t2 ht2
    rw [hrec tid1] at ht2
    split at ht2
    · rename_i he
      simp only [Option.some.injEq] at ht2
      subst ht2
      subst he
      refine ⟨htid, hlpi, by rw [hmax]; exact hmax0, ?_, ?_⟩
      · intro n hn
        rw [hnodes] at hn
        rcases List.mem_append.mp hn with hn | hn
        · exact hgi n hn
        · simp only [List.mem_singleton] at hn
          subst hn
          simp only [gameCreate, GameInv]
          omega
      · intro hw n hn
        rw [hwin] at hw
        rw [hnodes] at hn
        rcases List.mem_append.mp hn with hn | hn
        · exact ⟨(hlk hw n hn).1.mono hlmono, (hlk hw n hn).2.mono hgmono⟩
        · simp only [List.mem_singleton] at hn
          subst hn
          exact ⟨⟨fun _ => hl1, fun _ => hl2⟩, ⟨fun _ => hg1, fun _ => hg2⟩⟩
    · obtain ⟨htid1, hpi1, hmax1, hgi1, hlk1⟩ := hl.2 tid1 t2 ht2
      exact ⟨htid1, hpi1, hmax1, hgi1, fun hw n hn =>
        ⟨(hlk1 hw n hn).1, (hlk1 hw n hn).2.mono hgmono⟩⟩
  · rw [hfail hres]
    exact hl

theorem chessEndTournament_links {s s1 : ChessSystem} {tid : Int} {r : ChessResult}
    (h : SysInv s) (hl : LinkInv s)
    (hr : chessEndTournament (some s) tid = some (r, some s1)) : LinkInv s1 := by
  obtain ⟨hpl, hfail, hsucc⟩ := chessEndTournament_effect h hr
  by_cases hres : r = ChessResult.CHESS_SUCCESS
  · obtain ⟨hcheck, t, cw, ht, _, hrec⟩ := hsucc hres
    have hw0 : t.winner = TOURNAMENT_NOT_ENDED := by
      unfold chessEndTournamentErrorCheck at hcheck
      unfold tournamentRecord at ht
      simp only [ht, tournamentGetWinner] at hcheck
      split at hcheck
      · simp at hcheck
      · split at hcheck
        · simp at hcheck
        · split at hcheck
          · simp at hcheck
          · rename_i hw
            simpa using hw
    refine ⟨by rw [hpl]; exact hl.1, ?_⟩
    intro tid1 t1 ht1
    rw [hrec tid1] at ht1
    rw [hpl]
    split at ht1
    · rename_i he
      simp only [Option.some.injEq] at ht1
      subst ht1
      subst he
      obtain ⟨htid, hpi, hmax, hgi, hlk⟩ := hl.2 tid t ht
      exact ⟨htid, hpi, hmax, hgi, fun _ => hlk hw0⟩
    · exact hl.2 tid1 t1 ht1
  · rw [hfail hres]
    exact hl

theorem chessRemoveTournament_links {s s1 : ChessSystem} {tid : Int} {r : ChessResult}
    (h : SysInv s) (hl : LinkInv s)
    (hr : chessRemoveTournament (some s) tid = some (r, some s1)) : LinkInv s1 := by
  obtain ⟨hfail, hsucc⟩ := chessRemoveTournament_effect h hr
  by_cases hres : r = ChessResult.CHESS_SUCCESS
  · obtain ⟨t, ht, hloop, hrec⟩ := hsucc hres
    have hsame := removeTournamentLoop_sameIds _ _ _ _ h.2.1 hloop
    refine ⟨hsame.playersInv hl.1, ?_⟩
    intro tid1 t1 ht1
    rw [hrec tid1] at ht1
    split at ht1
    · simp at ht1
    · obtain ⟨htid1, hpi1, hmax1, hgi1, hlk1⟩ := hl.2 tid1 t1 ht1
      exact ⟨htid1, hpi1, hmax1, hgi1, fun hw n hn =>
        ⟨(hlk1 hw n hn).1, hsame.linked (hlk1 hw n hn).2⟩⟩
  · rw [hfail hres]
    exact hl


theorem technicalWins_id (p q : Int) (gs : List Game) :
    ∀ r : Player, (technicalWins p q gs r).id = r.id := by
  induction gs with
  | nil => intro r; rfl
  | cons g rest ih =>
    intro r
    rw [technicalWins_cons, ih, technicalWinOver_id]

theorem GameInv.afterRemoval {p : Int} {g : Game} (hp : 0 < p) (h : GameInv g) :
    GameInv (gameAfterRemoval p g) := by
  unfold GameInv at *
  unfold gameAfterRemoval
  split
  · rename_i h1
    simp only []
    rw [← h1]
    refine ⟨by omega, h.2.1, ?_⟩
    rw [Int.natAbs_neg]
    exact h.2.2
  · split
    · rename_i h2
      simp only []
      rw [← h2]
      refine ⟨h.1, by omega, ?_⟩
      rw [Int.natAbs_neg]
      exact h.2.2
    · exact h

theorem gameAfterRemoval_first {p : Int} {g : Game} (hp : 0 < p)
    (h : 0 < (gameAfterRemoval p g).first_player) :
    (gameAfterRemoval p g).first_player = g.first_player ∧ g.first_player ≠ p := by
  unfold gameAfterRemoval at h ⊢
  split
  · rename_i h1
    simp only [h1, if_true] at h
    omega
  · rename_i h1
    split <;> exact ⟨rfl, h1⟩

theorem gameAfterRemoval_second {p : Int} {g : Game} (hp : 0 < p) (hgi : GameInv g)
    (h : 0 < (gameAfterRemoval p g).second_player) :
    (gameAfterRemoval p g).second_player = g.second_player ∧ g.second_player ≠ p := by
  unfold gameAfterRemoval at h ⊢
  split
  · rename_i h1
    refine ⟨rfl, ?_⟩
    intro e
    apply hgi.2.2
    rw [h1, e]
  · rename_i h1
    split
    · rename_i h2
      simp only [h1, h2, if_true, if_false] at h
      omega
    · rename_i h2
      exact ⟨rfl, h2⟩


theorem chessRemovePlayer_cases {s s1 : ChessSystem} {p : Int} {r : ChessResult}
    (hr : chessRemovePlayer (some s) p = some (r, some s1)) :
    (r ≠ ChessResult.CHESS_SUCCESS ∧ s1 = s ∧
      chessRemovePlayerErrorCheck (some s) p = r) ∨
    (r = ChessResult.CHESS_SUCCESS ∧
      chessRemovePlayerErrorCheck (some s) p = ChessResult.CHESS_SUCCESS) := by
  unfold chessRemovePlayer at hr
  split at hr
  · rename_i hcheck
    simp only [Option.some.injEq, Prod.mk.injEq] at hr
    obtain ⟨rfl, rfl⟩ := hr
    exact Or.inl ⟨hcheck, rfl, rfl⟩
  · rename_i hcheck
    simp only [ne_eq, not_not] at hcheck
    simp only at hr
    split at hr
    · simp at hr
    · simp only [Option.some.injEq, Prod.mk.injEq] at hr
      exact Or.inr ⟨hr.1.symm, hcheck⟩

theorem removed_playersInv {p : Int} {m m1 : Map Int Player} {gs : List Game}
    (hi : PlayersInv m)
    (hrec : ∀ q, playerRecord m1 q =
      if q = p then none else (playerRecord m q).map (technicalWins p q gs)) :
    PlayersInv m1 ∧
    ∀ q, q ≠ p → (playerRecord m q).isSome = true → (playerRecord m1 q).isSome = true := by
  constructor
  · intro q r hr
    rw [hrec q] at hr
    split at hr
    · simp at hr
    · cases h0 : playerRecord m q with
      | none => simp [h0] at hr
      | some r0 =>
        simp only [h0, Option.map_some', Option.some.injEq] at hr
        subst hr
        rw [technicalWins_id]
        exact hi q r0 h0
  · intro q hq hs
    rw [hrec q]
    simp only [hq, if_false, Option.isSome_map']
    exact hs

theorem GameLinked.linked_afterRemoval {p : Int} (hp : 0 < p) {m m1 : Map Int Player} {g : Game}
    (hgi : GameInv g)
    (hmono : ∀ q, q ≠ p → (playerRecord m q).isSome = true → (playerRecord m1 q).isSome = true)
    (hl : GameLinked m g) : GameLinked m1 (gameAfterRemoval p g) := by
  constructor
  · intro h
    obtain ⟨he, hne⟩ := gameAfterRemoval_first hp h
    rw [he] at h ⊢
    exact hmono _ hne (hl.1 h)
  · intro h
    obtain ⟨he, hne⟩ := gameAfterRemoval_second hp hgi h
    rw [he] at h ⊢
    exact hmono _ hne (hl.2 h)

theorem RemovedFrom.keeps_links {p : Int} (hp : 0 < p) {t t1 : Tournament} {m m1 : Map Int Player}
    (hrem : RemovedFrom p t t1) (htl : TournamentLinks m t)
    (hmono : ∀ q, q ≠ p → (playerRecord m q).isSome = true → (playerRecord m1 q).isSome = true) :
    TournamentLinks m1 t1 := by
  obtain ⟨hset, _, hended, hopen, hrec⟩ := hrem
  obtain ⟨hpi, hmax, hgi, hlk⟩ := htl
  obtain ⟨hpi1, hlmono⟩ := removed_playersInv hpi hrec
  refine ⟨hpi1, by rw [hset.2.1]; exact hmax, ?_, ?_⟩
  · intro n hn
    by_cases hw : t.winner = TOURNAMENT_NOT_ENDED
    · rw [hopen hw] at hn
      obtain ⟨n0, hn0, rfl⟩ := List.mem_map.mp hn
      exact (hgi n0 hn0).afterRemoval hp
    · rw [hended hw] at hn
      exact hgi n hn
  · intro hw1 n hn
    have hw : t.winner = TOURNAMENT_NOT_ENDED := by rw [← hset.1]; exact hw1
    rw [hopen hw] at hn
    obtain ⟨n0, hn0, rfl⟩ := List.mem_map.mp hn
    obtain ⟨ha, hb⟩ := hlk hw n0 hn0
    exact ⟨ha.linked_afterRemoval hp (hgi n0 hn0) hlmono, hb.linked_afterRemoval hp (hgi n0 hn0) hmono⟩

theorem chessRemovePlayer_links {s s1 : ChessSystem} {p : Int} {r : ChessResult}
    (h : SysInv s) (hl : LinkInv s)
    (hr : chessRemovePlayer (some s) p = some (r, some s1)) : LinkInv s1 := by
  rcases chessRemovePlayer_cases hr with ⟨_, rfl, _⟩ | ⟨rfl, hcheck⟩
  · exact hl
  · obtain ⟨s2, heq, _, hp, _, htour, hnone, hglob⟩ := chessRemovePlayer_effect h hl hcheck
    rw [hr] at heq
    simp only [Option.some.injEq, Prod.mk.injEq, true_and] at heq
    subst heq
    obtain ⟨hgpi, hgmono⟩ := removed_playersInv hl.1 hglob
    refine ⟨hgpi, ?_⟩
    intro tid t1 ht1
    cases h0 : tournamentRecord s tid with
    | none =>
      rw [hnone tid h0] at ht1
      simp at ht1
    | some t =>
      obtain ⟨t2, ht2, hrem⟩ := htour tid t h0
      rw [ht2] at ht1
      simp only [Option.some.injEq] at ht1
      subst ht1
      obtain ⟨htid, htl⟩ := hl.2 tid t h0
      exact ⟨htid, hrem.keeps_links hp htl hgmono⟩

theorem Reachable.links {s : ChessSystem} (h : Reachable s) : LinkInv s := by
  induction h with
  | create => exact LinkInv.of_chessCreate
  | addTournament s s1 tid max loc r hs hr ih => exact chessAddTournament_links hs.inv ih hr
  | addGame s s1 tid p1 p2 w time r hs hr ih => exact chessAddGame_links hs.inv ih hr
  | removePlayer s s1 pid r hs hr ih => exact chessRemovePlayer_links hs.inv ih hr
  | endTournament s s1 tid r hs hr ih => exact chessEndTournament_links hs.inv ih hr
  | removeTournament s s1 tid r hs hr ih => exact chessRemoveTournament_links hs.inv ih hr

/-! ## What one call does to a tournament -/

theorem Call.run_inv {c : Call} {s s1 : ChessSystem} {r : ChessResult} (h : SysInv s)
    (hl : LinkInv s) (hr : c.run (some s) = some (r, some s1)) : SysInv s1 ∧ LinkInv s1 := by
  cases c with
  | addTournament tid max loc =>
    exact ⟨chessAddTournament_inv h hr, chessAddTournament_links h hl hr⟩
  | addGame tid p1 p2 w time => exact ⟨chessAddGame_inv h hr, chessAddGame_links h hl hr⟩
  | removePlayer p => exact ⟨chessRemovePlayer_inv h hr, chessRemovePlayer_links h hl hr⟩
  | endTournament tid => exact ⟨chessEndTournament_inv h hr, chessEndTournament_links h hl hr⟩
  | removeTournament tid =>
    exact ⟨chessRemoveTournament_inv h hr, chessRemoveTournament_links h hl hr⟩

theorem Call.run_reachable {c : Call} {s s1 : ChessSystem} {r : ChessResult}
    (h : Reachable s) (hr : c.run (some s) = some (r, some s1)) : Reachable s1 := by
  cases c with
  | addTournament tid max loc => exact Reachable.addTournament s s1 tid max loc r h hr
  | addGame tid p1 p2 w time => exact Reachable.addGame s s1 tid p1 p2 w time r h hr
  | removePlayer p => exact Reachable.removePlayer s s1 p r h hr
  | endTournament tid => exact Reachable.endTournament s s1 tid r h hr
  | removeTournament tid => exact Reachable.removeTournament s s1 tid r h hr

theorem runCalls_reachable (calls : List Call) :
    ∀ (s s1 : ChessSystem), Reachable s → runCalls calls s = some s1 → Reachable s1 := by
  induction calls with
  | nil =>
    intro s s1 h hr
    simp only [runCalls, Option.some.injEq] at hr
    subst hr
    exact h
  | cons c rest ih =>
    intro s s1 h hr
    unfold runCalls at hr
    split at hr
    · rename_i r s2 hc
      exact ih s2 s1 (Call.run_reachable h hc) hr
    · simp at hr

theorem chessEndTournamentErrorCheck_open {s : ChessSystem} {tid : Int} {t : Tournament}
    (ht : tournamentRecord s tid = some t)
    (hc : chessEndTournamentErrorCheck (some s) tid = ChessResult.CHESS_SUCCESS) :
    0 < tid ∧ t.winner = TOURNAMENT_NOT_ENDED ∧ mapGetSize t.games ≠ 0 := by
  unfold chessEndTournamentErrorCheck at hc
  unfold tournamentRecord at ht
  simp only [ht, tournamentGetWinner, isValidID] at hc
  split at hc
  · simp at hc
  · rename_i h1
    split at hc
    · simp at hc
    · split at hc
      · simp at hc
      · rename_i hw
        split at hc
        · simp at hc
        · rename_i hsz
          simp only [gt_iff_lt, decide_eq_false_iff_not, not_not] at h1
          simp only [ne_eq, not_not] at hw
          exact ⟨h1, hw, hsz⟩

theorem Call.run_frame {c : Call} {s s1 : ChessSystem} {r : ChessResult} (h : SysInv s)
    (hl : LinkInv s) (hr : c.run (some s) = some (r, some s1)) {tid : Int} {t : Tournament}
    (ht : tournamentRecord s tid = some t) :
    (c = Call.removeTournament tid ∧ r = ChessResult.CHESS_SUCCESS ∧
      tournamentRecord s1 tid = none) ∨
    ∃ t1, tournamentRecord s1 tid = some t1 ∧ CallChanges s.players c r tid t t1 s1.players := by
  cases c with
  | addTournament tid0 max loc =>
    obtain ⟨_, hfail, hsucc⟩ := chessAddTournament_effect h hr
    refine Or.inr ⟨t, ?_, Or.inl rfl⟩
    by_cases hres : r = ChessResult.CHESS_SUCCESS
    · obtain ⟨_, _, hnone, _, _, hrec⟩ := hsucc hres
      rw [hrec tid]
      have : ¬ tid0 = tid := by
        intro e
        rw [e, ht] at hnone
        simp at hnone
      simp only [this, if_false]
      exact ht
    · rw [hfail hres]
      exact ht
  | addGame tid0 p1 p2 w time =>
    obtain ⟨hfail, hsucc⟩ := chessAddGame_effect h hr
    by_cases hres : r = ChessResult.CHESS_SUCCESS
    · obtain ⟨hcheck, t0, t1, ht0, hup, hrec⟩ := hsucc hres
      by_cases he : tid0 = tid
      · subst he
        rw [ht] at ht0
        simp only [Option.some.injEq] at ht0
        subst ht0
        refine Or.inr ⟨t1, ?_, Or.inr (Or.inl ⟨p1, p2, w, time, rfl, hres, ?_, ?_, ?_, ?_, hup⟩)⟩
        · rw [hrec]
          simp
        · obtain ⟨_, _, _, _, t2, ht2, hw, _⟩ :=
            (chessAddGameErrorCheck_success_iff s tid0 p1 p2 w time).mp hcheck
          rw [ht] at ht2
          simp only [Option.some.injEq] at ht2
          rw [ht2]
          exact hw
        · exact (chessAddGameErrorCheck_ids hcheck).2.1
        · exact (chessAddGameErrorCheck_ids hcheck).2.2.1
        · exact (chessAddGameErrorCheck_ids hcheck).2.2.2
      · refine Or.inr ⟨t, ?_, Or.inl rfl⟩
        rw [hrec]
        simp only [he, if_false]
        exact ht
    · rw [hfail hres]
      exact Or.inr ⟨t, ht, Or.inl rfl⟩
  | removePlayer p =>
    rcases chessRemovePlayer_cases hr with ⟨_, rfl, _⟩ | ⟨rfl, hcheck⟩
    · exact Or.inr ⟨t, ht, Or.inl rfl⟩
    · obtain ⟨s2, heq, _, hp, _, htour, _, _⟩ := chessRemovePlayer_effect h hl hcheck
      have hr1 : chessRemovePlayer (some s) p = some (ChessResult.CHESS_SUCCESS, some s1) := hr
      rw [hr1] at heq
      simp only [Option.some.injEq, Prod.mk.injEq, true_and] at heq
      subst heq
      obtain ⟨t1, ht1, hrem⟩ := htour tid t ht
      exact Or.inr ⟨t1, ht1, Or.inr (Or.inr (Or.inr ⟨p, rfl, rfl, hp, hrem⟩))⟩
  | endTournament tid0 =>
    obtain ⟨_, hfail, hsucc⟩ := chessEndTournament_effect h hr
    by_cases hres : r = ChessResult.CHESS_SUCCESS
    · obtain ⟨hcheck, t0, cw, ht0, _, hrec⟩ := hsucc hres
      by_cases he : tid0 = tid
      · subst he
        rw [ht] at ht0
        simp only [Option.some.injEq] at ht0
        subst ht0
        refine Or.inr ⟨_, ?_, Or.inr (Or.inr (Or.inl ⟨playerGetID cw, rfl, hres, ?_, rfl⟩))⟩
        · rw [hrec]
          simp
        · exact (chessEndTournamentErrorCheck_open ht hcheck).2.1
      · refine Or.inr ⟨t, ?_, Or.inl rfl⟩
        rw [hrec]
        simp only [he, if_false]
        exact ht
    · rw [hfail hres]
      exact Or.inr ⟨t, ht, Or.inl rfl⟩
  | removeTournament tid0 =>
    obtain ⟨hfail, hsucc⟩ := chessRemoveTournament_effect h hr
    by_cases hres : r = ChessResult.CHESS_SUCCESS
    · obtain ⟨_, _, _, hrec⟩ := hsucc hres
      by_cases he : tid0 = tid
      · subst he
        refine Or.inl ⟨rfl, hres, ?_⟩
        rw [hrec]
        simp
      · refine Or.inr ⟨t, ?_, Or.inl rfl⟩
        rw [hrec]
        simp only [he, if_false]
        exact ht
    · rw [hfail hres]
      exact Or.inr ⟨t, ht, Or.inl rfl⟩

/-! ## Claims about the game keys -/

theorem ascending_reaches (l : List Int) :
    ∀ lo : Int, l.Pairwise (fun a b => a < b) → (∀ x ∈ l, lo < x) → l ≠ [] →
      ∃ y ∈ l, lo + l.length ≤ y := by
  induction l with
  | nil => intro lo _ _ h; exact absurd rfl h
  | cons x rest ih =>
    intro lo hs hlo _
    simp only [List.pairwise_cons] at hs
    by_cases hr : rest = []
    · subst hr
      refine ⟨x, List.mem_cons_self _ _, ?_⟩
      have := hlo x (List.mem_cons_self _ _)
      simp only [List.length_singleton, Nat.cast_one]
      omega
    · obtain ⟨y, hy, hle⟩ := ih x hs.2 hs.1 hr
      refine ⟨y, List.mem_cons_of_mem _ hy, ?_⟩
      have := hlo x (List.mem_cons_self _ _)
      simp only [List.length_cons, Nat.cast_add, Nat.cast_one]
      omega

theorem ascending_eq_range (l : List Int) :
    ∀ lo : Int, l.Pairwise (fun a b => a < b) → (∀ x ∈ l, lo < x ∧ x ≤ lo + l.length) →
      l = (List.range l.length).map (fun (i : Nat) => lo + ((i : Int) + 1)) := by
  induction l with
  | nil => intro lo _ _; rfl
  | cons x rest ih =>
    intro lo hs hb
    simp only [List.pairwise_cons] at hs
    have hx := hb x (List.mem_cons_self _ _)
    simp only [List.length_cons, Nat.cast_add, Nat.cast_one] at hx
    have hx1 : x = lo + 1 := by
      by_cases hr : rest = []
      · subst hr
        simp only [List.length_nil, Nat.cast_zero] at hx
        omega
      · obtain ⟨y, hy, hle⟩ := ascending_reaches rest x hs.2 hs.1 hr
        have := (hb y (List.mem_cons_of_mem _ hy)).2
        simp only [List.length_cons, Nat.cast_add, Nat.cast_one] at this
        omega
    have hrest := ih (lo + 1) hs.2 (by
      intro y hy
      have h1 := hs.1 y hy
      have h2 := (hb y (List.mem_cons_of_mem _ hy)).2
      simp only [List.length_cons, Nat.cast_add, Nat.cast_one] at h2
      omega)
    rw [List.length_cons, List.range_succ_eq_map, List.map_cons, List.map_map]
    simp only [Nat.cast_zero, zero_add]
    rw [← hx1]
    congr 1
    rw [hrest]
    simp only [List.length_map, List.length_range]
    apply List.map_congr_left
    intro i _
    simp only [Function.comp, Nat.succ_eq_add_one, Nat.cast_add, Nat.cast_one]
    omega

theorem TournamentInv.game_keys_range {t : Tournament} (h : TournamentInv t) :
    mapKeys t.games = (List.range t.games.nodes.length).map (fun (i : Nat) => (i : Int) + 1) := by
  have hlen : (mapKeys t.games).length = t.games.nodes.length := by
    simp [mapKeys]
  have := ascending_eq_range (mapKeys t.games) 0 (by
      apply List.Pairwise.imp _ h.1.2
      intro a b hab
      unfold compareKeyGameID at hab
      omega) (by
      intro x hx
      obtain ⟨n, hn, rfl⟩ := List.mem_map.mp hx
      have := h.2.2.1 n hn
      rw [h.1.1] at this
      rw [hlen]
      omega)
  rw [hlen] at this
  rw [this]
  apply List.map_congr_left
  intro i _
  omega


theorem CallChanges.keys_step {players players1 : Map Int Player} {c : Call} {r : ChessResult}
    {tid : Int} {t t1 : Tournament} (ht : TournamentInv t)
    (h : CallChanges players c r tid t t1 players1)
    (hno : ¬ ∃ p1 p2 w time, c = Call.addGame tid p1 p2 w time ∧
      r = ChessResult.CHESS_SUCCESS) :
    mapKeys t1.games = mapKeys t.games := by
  rcases h with rfl | ⟨p1, p2, w, time, hc, hr, _⟩ | ⟨cw, _, _, _, rfl⟩ | ⟨p, _, _, _, hrem⟩
  · rfl
  · exact absurd ⟨p1, p2, w, time, hc, hr⟩ hno
  · rfl
  · obtain ⟨_, _, hended, hopen, _⟩ := hrem
    by_cases hw : t.winner = TOURNAMENT_NOT_ENDED
    · unfold mapKeys
      rw [hopen hw, List.map_map]
      rfl
    · rw [hended hw]

/-- C11: in every reachable state the keys of the games map of a tournament are
exactly 1, 2, ..., n, where n is the size of the map and the tournament's number
of games; a successful `chessAddGame` on the tournament appends its game under
the key n + 1 and leaves every earlier node as it is, and no other call changes
the keys. -/
theorem game_keys_sequential (s : ChessSystem) (h : Reachable s) (tid : Int) (t : Tournament)
    (ht : tournamentRecord s tid = some t) :
    mapKeys t.games = (List.range t.games.nodes.length).map (fun (i : Nat) => (i : Int) + 1) ∧
    mapGetSize t.games = t.games.nodes.length ∧
    t.number_of_games = t.games.nodes.length ∧
    (∀ p1 p2 w time s1,
      chessAddGame (some s) tid p1 p2 w time = some (ChessResult.CHESS_SUCCESS, some s1) →
      ∃ t1, tournamentRecord s1 tid = some t1 ∧
        t1.games.nodes = t.games.nodes ++
          [((t.games.nodes.length : Int) + 1, gameCreate w time p1 p2)]) ∧
    (∀ (c : Call) (r : ChessResult) (s1 : ChessSystem) (t1 : Tournament),
      c.run (some s) = some (r, some s1) → tournamentRecord s1 tid = some t1 →
      (¬ ∃ p1 p2 w time, c = Call.addGame tid p1 p2 w time ∧
        r = ChessResult.CHESS_SUCCESS) →
      mapKeys t1.games = mapKeys t.games) := by
  have hinv := h.inv
  have hti := hinv.lookup ht
  refine ⟨hti.game_keys_range, hti.1.1, hti.2.2.2.2.2.2.trans hti.1.1, ?_, ?_⟩
  · intro p1 p2 w time s1 hr
    obtain ⟨_, hsucc⟩ := chessAddGame_effect hinv hr
    obtain ⟨hcheck, t0, t1, ht0, hup, hrec⟩ := hsucc rfl
    rw [ht] at ht0
    simp only [Option.some.injEq] at ht0
    subst ht0
    refine ⟨t1, by rw [hrec]; simp, ?_⟩
    have := (chessAddGameUpdate_fields hti (chessAddGameErrorCheck_ids hcheck).2.2.2 hup).1
    rw [this]
    simp only [mapGetSize, hti.1.1]
  · intro c r s1 t1 hr ht1 hno
    rcases Call.run_frame hinv h.links hr ht with ⟨_, _, hnone⟩ | ⟨t2, ht2, hch⟩
    · rw [hnone] at ht1
      simp at ht1
    · rw [ht2] at ht1
      simp only [Option.some.injEq] at ht1
      subst ht1
      exact hch.keys_step hti hno

theorem game_keys_sequential_witness :
    (Reachable (systemOf runA3) ∧
      tournamentRecord (systemOf runA3) 1 = some (tournamentOf runA3 1)) ∧
    mapKeys (tournamentOf runA3 1).games =
      (List.range (tournamentOf runA3 1).games.nodes.length).map
        (fun (i : Nat) => (i : Int) + 1) ∧
    mapGetSize (tournamentOf runA3 1).games = (tournamentOf runA3 1).games.nodes.length ∧
    (tournamentOf runA3 1).number_of_games = (tournamentOf runA3 1).games.nodes.length :=
  ⟨⟨runA3_reachable, by decide⟩,
   (game_keys_sequential (systemOf runA3) runA3_reachable 1 (tournamentOf runA3 1)
      (by decide)).1,
   (game_keys_sequential (systemOf runA3) runA3_reachable 1 (tournamentOf runA3 1)
      (by decide)).2.1,
   (game_keys_sequential (systemOf runA3) runA3_reachable 1 (tournamentOf runA3 1)
      (by decide)).2.2.1⟩

theorem runA3_game_keys :
    mapKeys (tournamentOf runA3 1).games = [1, 2] ∧
    mapKeys (tournamentOf
      (thenCall runA3 (fun s => chessAddGame s 1 2 3 Winner.SECOND_PLAYER 5)) 1).games
      = [1, 2, 3] := by
  decide

/-! ## Claims about tournaments that have ended -/

theorem stateAfter_reachable (calls : List Call)
    (h : runCalls calls chessCreate = some (stateAfter calls)) : Reachable (stateAfter calls) :=
  runCalls_reachable calls chessCreate _ Reachable.create h

theorem CallChanges.ended {players players1 : Map Int Player} {c : Call} {r : ChessResult}
    {tid : Int} {t t1 : Tournament} (hw : t.winner ≠ TOURNAMENT_NOT_ENDED)
    (h : CallChanges players c r tid t t1 players1) :
    t1.games = t.games ∧ SameSettings t t1 := by
  rcases h with rfl | ⟨_, _, _, _, _, _, hw0, _⟩ | ⟨_, _, _, hw0, _⟩ | ⟨p, _, _, _, hrem⟩
  · exact ⟨rfl, SameSettings.settings_refl _⟩
  · exact absurd hw0 hw
  · exact absurd hw0 hw
  · exact ⟨hrem.2.2.1 hw, hrem.1⟩

theorem chessRemovePlayer_returns {s : ChessSystem} (h : SysInv s) (hl : LinkInv s) (p : Int) :
    ∃ r s1, chessRemovePlayer (some s) p = some (r, some s1) := by
  by_cases hc : chessRemovePlayerErrorCheck (some s) p = ChessResult.CHESS_SUCCESS
  · obtain ⟨s1, hr, _⟩ := chessRemovePlayer_effect h hl hc
    exact ⟨_, s1, hr⟩
  · refine ⟨chessRemovePlayerErrorCheck (some s) p, s, ?_⟩
    unfold chessRemovePlayer
    simp [hc]

/-- C14: `chessRemovePlayer` changes no game of a tournament that has ended.  In
every reachable state the call returns, and a tournament whose winner is set has
afterwards the same games map (so every game has the same winner, play time and
participant ids), the same winner and the same counters and settings. -/
theorem chessRemovePlayer_keeps_ended_tournament (s : ChessSystem) (h : Reachable s)
    (tid : Int) (t : Tournament) (ht : tournamentRecord s tid = some t)
    (hw : t.winner ≠ TOURNAMENT_NOT_ENDED) (p : Int) :
    ∃ r s1 t1, chessRemovePlayer (some s) p = some (r, some s1) ∧
      tournamentRecord s1 tid = some t1 ∧ t1.games = t.games ∧
      tournamentGames t1 = tournamentGames t ∧ SameSettings t t1 := by
  obtain ⟨r, s1, hr⟩ := chessRemovePlayer_returns h.inv h.links p
  have hrun : (Call.removePlayer p).run (some s) = some (r, some s1) := hr
  rcases Call.run_frame h.inv h.links hrun ht with ⟨hc, _, _⟩ | ⟨t1, ht1, hch⟩
  · simp at hc
  · obtain ⟨hg, hset⟩ := hch.ended hw
    refine ⟨r, s1, t1, hr, ht1, hg, ?_, hset⟩
    unfold tournamentGames
    rw [hg]

theorem callsEnded_run : runCalls callsEnded chessCreate = some (stateAfter callsEnded) := by
  decide

theorem chessRemovePlayer_keeps_ended_tournament_witness :
    (Reachable (stateAfter callsEnded) ∧
      tournamentRecord (stateAfter callsEnded) 1 = some (tournamentIn (stateAfter callsEnded) 1) ∧
      (tournamentIn (stateAfter callsEnded) 1).winner ≠ TOURNAMENT_NOT_ENDED) ∧
    ∃ r s1 t1, chessRemovePlayer (some (stateAfter callsEnded)) 1 = some (r, some s1) ∧
      tournamentRecord s1 1 = some t1 ∧
      t1.games = (tournamentIn (stateAfter callsEnded) 1).games ∧
      tournamentGames t1 = tournamentGames (tournamentIn (stateAfter callsEnded) 1) ∧
      SameSettings (tournamentIn (stateAfter callsEnded) 1) t1 :=
  ⟨⟨stateAfter_reachable callsEnded callsEnded_run, by decide, by decide⟩,
   chessRemovePlayer_keeps_ended_tournament (stateAfter callsEnded)
     (stateAfter_reachable callsEnded callsEnded_run) 1
     (tournamentIn (stateAfter callsEnded) 1) (by decide) (by decide) 1⟩

theorem callsEnded_removePlayer :
    callResults (callsEnded ++ [Call.removePlayer 1]) (some chessCreate) =
      [some ChessResult.CHESS_SUCCESS, some ChessResult.CHESS_SUCCESS,
       some ChessResult.CHESS_SUCCESS, some ChessResult.CHESS_SUCCESS] ∧
    tournamentGames (tournamentIn (stateAfter callsEnded) 1) =
      [gameCreate Winner.FIRST_PLAYER 10 1 2] ∧
    tournamentGames (tournamentIn (stateAfter (callsEnded ++ [Call.removePlayer 1])) 1) =
      [gameCreate Winner.FIRST_PLAYER 10 1 2] ∧
    (tournamentIn (stateAfter (callsEnded ++ [Call.removePlayer 1])) 1).winner = 1 := by
  decide

theorem runCalls_ended (calls : List Call) (tid : Int) :
    ∀ (s s1 : ChessSystem) (t : Tournament), Reachable s → tournamentRecord s tid = some t →
      t.winner ≠ TOURNAMENT_NOT_ENDED → Call.removeTournament tid ∉ calls →
      runCalls calls s = some s1 →
      ∃ t1, tournamentRecord s1 tid = some t1 ∧ t1.games = t.games ∧ SameSettings t t1 := by
  induction calls with
  | nil =>
    intro s s1 t _ ht _ _ hr
    simp only [runCalls, Option.some.injEq] at hr
    subst hr
    exact ⟨t, ht, rfl, SameSettings.settings_refl _⟩
  | cons c rest ih =>
    intro s s1 t h ht hw hno hr
    unfold runCalls at hr
    split at hr
    · rename_i r s2 hc
      simp only [List.mem_cons, not_or] at hno
      rcases Call.run_frame h.inv h.links hc ht with ⟨he, _, _⟩ | ⟨t2, ht2, hch⟩
      · exact absurd he.symm hno.1
      · obtain ⟨hg, hset⟩ := hch.ended hw
        have hw2 : t2.winner ≠ TOURNAMENT_NOT_ENDED := by rw [hset.1]; exact hw
        obtain ⟨t1, ht1, hg1, hset1⟩ :=
          ih s2 s1 t2 (Call.run_reachable h hc) ht2 hw2 hno.2 hr
        exact ⟨t1, ht1, hg1.trans hg, hset.settings_trans hset1⟩
    · simp at hr

/-- C20: once the winner of a tournament is set (not `TOURNAMENT_NOT_ENDED`), no
sequence of later calls of `chessAddTournament`, `chessAddGame`,
`chessRemovePlayer`, `chessEndTournament`, or of `chessRemoveTournament` for
another tournament, changes the winner or the games map of the tournament: as
long as the tournament is not removed it keeps its winner, its games and its
counters. -/
theorem ended_tournament_stays_ended (s : ChessSystem) (h : Reachable s) (tid : Int)
    (t : Tournament) (ht : tournamentRecord s tid = some t)
    (hw : t.winner ≠ TOURNAMENT_NOT_ENDED) (calls : List Call)
    (hno : Call.removeTournament tid ∉ calls) (s1 : ChessSystem)
    (hr : runCalls calls s = some s1) :
    ∃ t1, tournamentRecord s1 tid = some t1 ∧ t1.winner = t.winner ∧ t1.games = t.games ∧
      tournamentGames t1 = tournamentGames t ∧ t1.number_of_games = t.number_of_games := by
  obtain ⟨t1, ht1, hg, hset⟩ := runCalls_ended calls tid s s1 t h ht hw hno hr
  refine ⟨t1, ht1, hset.1, hg, ?_, hset.2.2.2.1⟩
  unfold tournamentGames
  rw [hg]

theorem ended_tournament_stays_ended_witness :
    (Reachable (stateAfter callsEnded) ∧
      tournamentRecord (stateAfter callsEnded) 1 = some (tournamentIn (stateAfter callsEnded) 1) ∧
      (tournamentIn (stateAfter callsEnded) 1).winner ≠ TOURNAMENT_NOT_ENDED ∧
      Call.removeTournament 1 ∉ callsLater ∧
      runCalls callsLater (stateAfter callsEnded) =
        some (stateAfter (callsEnded ++ callsLater))) ∧
    ∃ t1, tournamentRecord (stateAfter (callsEnded ++ callsLater)) 1 = some t1 ∧
      t1.winner = (tournamentIn (stateAfter callsEnded) 1).winner ∧
      t1.games = (tournamentIn (stateAfter callsEnded) 1).games ∧
      tournamentGames t1 = tournamentGames (tournamentIn (stateAfter callsEnded) 1) ∧
      t1.number_of_games = (tournamentIn (stateAfter callsEnded) 1).number_of_games :=
  ⟨⟨stateAfter_reachable callsEnded callsEnded_run, by decide, by decide, by decide,
      by decide⟩,
   ended_tournament_stays_ended (stateAfter callsEnded)
     (stateAfter_reachable callsEnded callsEnded_run) 1
     (tournamentIn (stateAfter callsEnded) 1) (by decide) (by decide) callsLater (by decide)
     (stateAfter (callsEnded ++ callsLater)) (by decide)⟩

theorem callsLater_results :
    callResults callsLater (some (stateAfter callsEnded)) =
      [some ChessResult.CHESS_TOURNAMENT_ENDED, some ChessResult.CHESS_SUCCESS,
       some ChessResult.CHESS_TOURNAMENT_ENDED, some ChessResult.CHESS_SUCCESS,
       some ChessResult.CHESS_SUCCESS, some ChessResult.CHESS_SUCCESS] ∧
    (tournamentIn (stateAfter (callsEnded ++ callsLater)) 1).winner = 1 := by
  decide

/-! ## Claims about the winner of a tournament -/

theorem betterPlayer_congr_right {w a b : Player} (h1 : ¬ betterPlayer a b)
    (h2 : ¬ betterPlayer b a) (hid : a.id = b.id) (h : betterPlayer w a) : betterPlayer w b := by
  unfold betterPlayer at *
  omega

theorem foldl_findWinner (l : List Player) :
    ∀ acc : Player,
      (l.foldl tournamentFindWinner acc = acc ∨ l.foldl tournamentFindWinner acc ∈ l) ∧
      (l.foldl tournamentFindWinner acc = acc ∨
        betterPlayer (l.foldl tournamentFindWinner acc) acc) ∧
      ∀ x ∈ l, x.id ≠ (l.foldl tournamentFindWinner acc).id →
        betterPlayer (l.foldl tournamentFindWinner acc) x := by
  induction l with
  | nil =>
    intro acc
    exact ⟨Or.inl rfl, Or.inl rfl, fun x hx => absurd hx (List.not_mem_nil x)⟩
  | cons y rest ih =>
    intro acc
    simp only [List.foldl_cons]
    obtain ⟨h1, h2, h3⟩ := ih (tournamentFindWinner acc y)
    rw [tournamentFindWinner_eq] at h1 h2 h3 ⊢
    by_cases hb : betterPlayer y acc
    · simp only [hb, if_true] at h1 h2 h3 ⊢
      refine ⟨?_, ?_, ?_⟩
      · rcases h1 with h1 | h1
        · right
          rw [h1]
          exact List.mem_cons_self _ _
        · exact Or.inr (List.mem_cons_of_mem _ h1)
      · rcases h2 with h2 | h2
        · right
          rw [h2]
          exact hb
        · exact Or.inr (betterPlayer_trans h2 hb)
      · intro x hx hid
        rcases List.mem_cons.mp hx with rfl | hx
        · rcases h2 with h2 | h2
          · rw [h2] at hid
            exact absurd rfl hid
          · exact h2
        · exact h3 x hx hid
    · simp only [hb, if_false] at h1 h2 h3 ⊢
      refine ⟨?_, h2, ?_⟩
      · rcases h1 with h1 | h1
        · exact Or.inl h1
        · exact Or.inr (List.mem_cons_of_mem _ h1)
      · intro x hx hid
        rcases List.mem_cons.mp hx with rfl | hx
        · by_cases hax : betterPlayer acc x
          · rcases h2 with h2 | h2
            · rw [h2]
              exact hax
            · exact betterPlayer_trans h2 hax
          · have hide : acc.id = x.id := by
              by_contra hne
              rcases betterPlayer_total hne with h | h
              · exact hax h
              · exact hb h
            rcases h2 with h2 | h2
            · rw [h2] at hid
              exact absurd hide.symm hid
            · exact betterPlayer_congr_right hax hb hide h2
        · exact h3 x hx hid

theorem playerRecord_of_mem {m : Map Int Player} (h : MapWF compareKeyPlayerID m)
    {n : Int × Player} (hn : n ∈ m.nodes) : playerRecord m n.1 = some n.2 := by
  unfold playerRecord
  rw [mapGet_wf_fst h]
  exact findData_of_mem_sorted compareKeyPlayerID_order _ h.2 n hn

theorem mem_of_playerRecord {m : Map Int Player} (h : MapWF compareKeyPlayerID m) {q : Int}
    {r : Player} (hr : playerRecord m q = some r) : (q, r) ∈ m.nodes := by
  unfold playerRecord at hr
  rw [mapGet_wf_fst h] at hr
  obtain ⟨n, hn, hk, hv⟩ := findData_some_mem _ _ _ _ hr
  rw [compareKeyPlayerID_eq_zero] at hk
  rw [← hk, ← hv]
  exact hn

theorem endTournamentLoop_eq {m : Map Int Player} (h : MapWF compareKeyPlayerID m)
    (hi : PlayersInv m) :
    ∀ (l : List (Int × Player)), (∀ n ∈ l, n ∈ m.nodes) → ∀ w : Player,
      endTournamentLoop m (l.map Prod.fst) (some w) =
        some (some ((l.map Prod.snd).foldl tournamentFindWinner w)) := by
  intro l
  induction l with
  | nil => intro _ w; rfl
  | cons n rest ih =>
    intro hmem w
    have hn := playerRecord_of_mem h (hmem n (List.mem_cons_self _ _))
    have hv := hi n.1 n.2 hn
    unfold playerRecord at hn
    simp only [List.map_cons, endTournamentLoop, hn, playerGetID, isValidID, List.foldl_cons]
    have : ¬ (decide (n.2.id > 0) = false) := by
      simp only [decide_eq_false_iff_not, not_not]
      omega
    simp only [this, if_false]
    exact ih (fun x hx => hmem x (List.mem_cons_of_mem _ hx)) _

theorem chessEndTournament_winner {t : Tournament} (ht : TournamentInv t)
    (hi : PlayersInv t.players) (hne : mapGetSize t.players ≠ 0) :
    ∃ w, endTournamentLoop t.players (mapForEach t.players)
        (mapGet compareKeyPlayerID t.players (mapGetFirst t.players).1).1 = some (some w) ∧
      playerRecord t.players w.id = some w ∧ 0 < w.id ∧
      ∀ q x, playerRecord t.players q = some x → q ≠ w.id → betterPlayer w x := by
  have hwf := ht.2.1
  cases hnodes : t.players.nodes with
  | nil =>
    have := (hwf.size_eq_zero_iff).mpr hnodes
    exact absurd this hne
  | cons n0 rest =>
    have hfirst : (mapGetFirst t.players).1 = some n0.1 := by
      unfold mapGetFirst
      unfold mapGetSize at hne
      simp [hne, nodeKey, hnodes]
    have hmem0 : n0 ∈ t.players.nodes := by
      rw [hnodes]
      exact List.mem_cons_self _ _
    have hrec0 := playerRecord_of_mem hwf hmem0
    have hloop := endTournamentLoop_eq hwf hi t.players.nodes (fun _ hx => hx) n0.2
    rw [hfirst, mapForEach_wf hwf]
    unfold playerRecord at hrec0
    rw [hrec0]
    unfold mapKeys
    refine ⟨_, hloop, ?_⟩
    obtain ⟨h1, _, h3⟩ := foldl_findWinner (t.players.nodes.map Prod.snd) n0.2
    have hin : (t.players.nodes.map Prod.snd).foldl tournamentFindWinner n0.2 ∈
        t.players.nodes.map Prod.snd := by
      rcases h1 with h1 | h1
      · rw [h1]
        exact List.mem_map_of_mem _ hmem0
      · exact h1
    obtain ⟨nw, hnw, hnwe⟩ := List.mem_map.mp hin
    have hrecw := playerRecord_of_mem hwf hnw
    have hidw := hi nw.1 nw.2 hrecw
    rw [hnwe] at hrecw hidw
    refine ⟨?_, ?_, ?_⟩
    · rw [hidw.2]
      exact hrecw
    · omega
    · intro q x hx hq
      have hxm := mem_of_playerRecord hwf hx
      have hxid := (hi q x hx).2
      apply h3 x (List.mem_map_of_mem Prod.snd hxm)
      rw [hxid]
      exact hq


theorem endTournament_returns_best {s : ChessSystem} (h : Reachable s) {tid : Int}
    {t : Tournament} (ht : tournamentRecord s tid = some t)
    (hc : chessEndTournamentErrorCheck (some s) tid = ChessResult.CHESS_SUCCESS)
    (hne : mapGetSize t.players ≠ 0) :
    ∃ s1 t1 w, chessEndTournament (some s) tid = some (ChessResult.CHESS_SUCCESS, some s1) ∧
      tournamentRecord s1 tid = some t1 ∧ t1.games = t.games ∧
      playerRecord t.players t1.winner = some w ∧ w.id = t1.winner ∧ 0 < t1.winner ∧
      ∀ q x, playerRecord t.players q = some x → q ≠ t1.winner → betterPlayer w x := by
  have hinv := h.inv
  have hti := hinv.lookup ht
  obtain ⟨_, hpi, _⟩ := h.links.2 tid t ht
  obtain ⟨w, hloop, hrec, hpos, hbest⟩ := chessEndTournament_winner hti hpi hne
  have hstore := tournamentRecord_store hinv tid tid (tournamentSetWinner t w.id) s.players
  rw [ht] at hstore
  simp only [if_true, Option.isSome_some] at hstore
  have ht0 := ht
  unfold tournamentRecord at ht0
  refine ⟨_, tournamentSetWinner t w.id, w, ?_, hstore, rfl, hrec, rfl, hpos, hbest⟩
  unfold chessEndTournament
  simp only [hc, ne_eq, not_true_eq_false, if_false, ht0, hloop, playerGetID]

/-- C17: when the checks of `chessEndTournament` pass in a reachable state and
the players map of the tournament is not empty, the call returns
`CHESS_SUCCESS` and the recorded winner is the id of a player of that map who is
better, in the tie-break order (higher score, then fewer losses, then more wins,
then lower id), than every other player of the map: every other player loses
the pairwise comparison `tournamentFindWinner` against the winner in both
argument orders. -/
theorem chessEndTournament_winner_is_best (s : ChessSystem) (h : Reachable s) (tid : Int)
    (t : Tournament) (ht : tournamentRecord s tid = some t)
    (hc : chessEndTournamentErrorCheck (some s) tid = ChessResult.CHESS_SUCCESS)
    (hne : mapGetSize t.players ≠ 0) :
    ∃ s1 t1 w, chessEndTournament (some s) tid = some (ChessResult.CHESS_SUCCESS, some s1) ∧
      tournamentRecord s1 tid = some t1 ∧ t1.games = t.games ∧
      playerRecord t.players t1.winner = some w ∧ w.id = t1.winner ∧ 0 < t1.winner ∧
      ∀ q x, playerRecord t.players q = some x → q ≠ t1.winner →
        betterPlayer w x ∧ tournamentFindWinner w x = w ∧ tournamentFindWinner x w = w := by
  obtain ⟨s1, t1, w, hr, ht1, hg, hrec, hid, hpos, hbest⟩ :=
    endTournament_returns_best h ht hc hne
  refine ⟨s1, t1, w, hr, ht1, hg, hrec, hid, hpos, ?_⟩
  intro q x hx hq
  have hb := hbest q x hx hq
  refine ⟨hb, ?_, ?_⟩
  · rw [tournamentFindWinner_eq, if_neg (betterPlayer_asymm hb)]
  · rw [tournamentFindWinner_eq, if_pos hb]

theorem callsTie_run : runCalls callsTie chessCreate = some (stateAfter callsTie) := by
  decide

theorem chessEndTournament_winner_is_best_witness :
    (Reachable (stateAfter callsTie) ∧
      tournamentRecord (stateAfter callsTie) 1 = some (tournamentIn (stateAfter callsTie) 1) ∧
      chessEndTournamentErrorCheck (some (stateAfter callsTie)) 1
        = ChessResult.CHESS_SUCCESS ∧
      mapGetSize (tournamentIn (stateAfter callsTie) 1).players ≠ 0) ∧
    ∃ s1 t1 w,
      chessEndTournament (some (stateAfter callsTie)) 1
        = some (ChessResult.CHESS_SUCCESS, some s1) ∧
      tournamentRecord s1 1 = some t1 ∧
      t1.games = (tournamentIn (stateAfter callsTie) 1).games ∧
      playerRecord (tournamentIn (stateAfter callsTie) 1).players t1.winner = some w ∧
      w.id = t1.winner ∧ 0 < t1.winner ∧
      ∀ q x, playerRecord (tournamentIn (stateAfter callsTie) 1).players q = some x →
        q ≠ t1.winner →
        betterPlayer w x ∧ tournamentFindWinner w x = w ∧ tournamentFindWinner x w = w :=
  ⟨⟨stateAfter_reachable callsTie callsTie_run, by decide, by decide, by decide⟩,
   chessEndTournament_winner_is_best (stateAfter callsTie)
     (stateAfter_reachable callsTie callsTie_run) 1 (tournamentIn (stateAfter callsTie) 1)
     (by decide) (by decide) (by decide)⟩

theorem callsTie_winner :
    (tournamentIn (stateAfter callsTie) 1).players.nodes =
      [(1, { id := 1, wins := 1, loses := 0, draws := 1, total_play_time := 15 }),
       (2, { id := 2, wins := 0, loses := 1, draws := 0, total_play_time := 10 }),
       (3, { id := 3, wins := 1, loses := 0, draws := 1, total_play_time := 15 }),
       (4, { id := 4, wins := 0, loses := 1, draws := 0, total_play_time := 10 })] ∧
    (tournamentIn (stateAfter (callsTie ++ [Call.endTournament 1])) 1).winner = 1 := by
  decide

theorem chessEndTournament_ends {s s1 : ChessSystem} (h : Reachable s) {tid : Int}
    {t : Tournament} (ht : tournamentRecord s tid = some t)
    (hne : mapGetSize t.players ≠ 0)
    (hr : chessEndTournament (some s) tid = some (ChessResult.CHESS_SUCCESS, some s1)) :
    chessEndTournament (some s1) tid = some (ChessResult.CHESS_TOURNAMENT_ENDED, some s1) ∧
    ∀ p1 p2 w time, 0 < p1 → 0 < p2 → p1 ≠ p2 →
      chessAddGame (some s1) tid p1 p2 w time
        = some (ChessResult.CHESS_TOURNAMENT_ENDED, some s1) := by
  obtain ⟨_, _, hsucc⟩ := chessEndTournament_effect h.inv hr
  obtain ⟨hc, _, _, _, _, _⟩ := hsucc rfl
  obtain ⟨s2, t1, w, hr2, ht1, _, _, _, hpos, _⟩ :=
    endTournament_returns_best h ht hc hne
  rw [hr] at hr2
  simp only [Option.some.injEq, Prod.mk.injEq, true_and] at hr2
  subst hr2
  have htid := (chessEndTournamentErrorCheck_open ht hc).1
  have ht1g : (mapGet compareKeyTournamentID s1.tournaments (some tid)).1 = some t1 := ht1
  have hvalid : ¬ (decide (tid > 0) = false) := by simp [htid]
  have hwne : ¬ t1.winner = TOURNAMENT_NOT_ENDED := by
    unfold TOURNAMENT_NOT_ENDED
    omega
  constructor
  · have hcheck : chessEndTournamentErrorCheck (some s1) tid
        = ChessResult.CHESS_TOURNAMENT_ENDED := by
      unfold chessEndTournamentErrorCheck
      simp only [isValidID, hvalid, if_false, mapContains_of_mapGet, ht1g, Option.isSome_some,
        Bool.true_eq_false, tournamentGetWinner, ne_eq, hwne, not_false_eq_true, if_true]
    unfold chessEndTournament
    simp [hcheck]
  · intro p1 p2 w0 time h1 h2 hne12
    have hcheck : chessAddGameErrorCheck (some s1) tid p1 p2 w0 time
        = ChessResult.CHESS_TOURNAMENT_ENDED := by
      unfold chessAddGameErrorCheck
      have hids : ¬ (isValidID tid = false ∨ isValidID p1 = false ∨ isValidID p2 = false ∨
          p1 = p2) := by
        simp [isValidID, htid, h1, h2, hne12]
      simp only [hids, if_false, mapContains_of_mapGet, ht1g, Option.isSome_some,
        Bool.true_eq_false, tournamentGetWinner, ne_eq, hwne, not_false_eq_true, if_true]
    unfold chessAddGame
    simp [hcheck]


theorem callsNoPlayers_run :
    runCalls callsNoPlayers chessCreate = some (stateAfter callsNoPlayers) := by
  decide

/-- C19 (fails): tournament 1 is added, players 1 and 2 play in it and both are
removed from the system, so the players map of the tournament is empty while
the game is still recorded.  `chessEndTournament` then returns `CHESS_SUCCESS`
and stores the id of the `NULL` player, 0, which is `TOURNAMENT_NOT_ENDED`: a
second `chessEndTournament` returns `CHESS_SUCCESS` again and a following
`chessAddGame` with the valid ids 3 and 4 returns `CHESS_SUCCESS` and adds a
second game. -/
theorem endTournament_without_players_does_not_end :
    Reachable (stateAfter callsNoPlayers) ∧
    callResults callsNoPlayers (some chessCreate) =
      [some ChessResult.CHESS_SUCCESS, some ChessResult.CHESS_SUCCESS,
       some ChessResult.CHESS_SUCCESS, some ChessResult.CHESS_SUCCESS] ∧
    mapGetSize (tournamentIn (stateAfter callsNoPlayers) 1).players = 0 ∧
    mapGetSize (tournamentIn (stateAfter callsNoPlayers) 1).games = 1 ∧
    callResults callsEndTwice (some (stateAfter callsNoPlayers)) =
      [some ChessResult.CHESS_SUCCESS, some ChessResult.CHESS_SUCCESS,
       some ChessResult.CHESS_SUCCESS] ∧
    (tournamentIn (stateAfter (callsNoPlayers ++ [Call.endTournament 1])) 1).winner
      = TOURNAMENT_NOT_ENDED ∧
    mapGetSize (tournamentIn (stateAfter (callsNoPlayers ++ callsEndTwice)) 1).games = 2 :=
  ⟨stateAfter_reachable callsNoPlayers callsNoPlayers_run, by decide, by decide, by decide,
    by decide, by decide, by decide⟩

/-! ## Claims about `chessRemovePlayer` -/

/-- C13: when the checks of `chessRemovePlayer(p)` pass in a reachable state, the
call returns `CHESS_SUCCESS`, and for every tournament that has not ended each
game becomes `gameAfterRemoval`: a game in which `p` is a current participant
and the opponent `q` has a valid id gets the side of `q` as stored winner and
the id `-p` on the side of `p`, and keeps the opponent's id and the play time.
The record of every other player `q` in the players map of that tournament is
the earlier record with, for each such game of the tournament against `q`, the
stored result replaced by a win (`technicalWin`: after a loss one more win and
one loss less, after a draw one more win and one draw less, after a win no
change; the play time stays), and the record of `q` in the players map of the
system is the earlier record changed in this way for the games of all
tournaments that have not ended. -/
theorem chessRemovePlayer_gives_technical_wins (s : ChessSystem) (h : Reachable s) (p : Int)
    (hc : chessRemovePlayerErrorCheck (some s) p = ChessResult.CHESS_SUCCESS) :
    ∃ s1, chessRemovePlayer (some s) p = some (ChessResult.CHESS_SUCCESS, some s1) ∧
      (∀ tid t, tournamentRecord s tid = some t → t.winner = TOURNAMENT_NOT_ENDED →
        ∃ t1, tournamentRecord s1 tid = some t1 ∧
          t1.games.nodes = t.games.nodes.map (fun n => (n.1, gameAfterRemoval p n.2)) ∧
          tournamentGames t1 = (tournamentGames t).map (gameAfterRemoval p) ∧
          ∀ q, q ≠ p → playerRecord t1.players q =
            (playerRecord t.players q).map (technicalWins p q (tournamentGames t))) ∧
      (∀ q, q ≠ p → playerRecord s1.players q =
        (playerRecord s.players q).map (technicalWins p q (notEndedGames s))) ∧
      (∀ g q, 0 < q → g.first_player = p → g.second_player = q →
        gameAfterRemoval p g =
          { winner := Winner.SECOND_PLAYER, play_time := g.play_time, first_player := -p,
            second_player := q } ∧
        ∀ r, technicalWinOver p g q r = technicalWin r Winner.SECOND_PLAYER g.winner) ∧
      (∀ g q, 0 < q → q ≠ p → g.second_player = p → g.first_player = q →
        gameAfterRemoval p g =
          { winner := Winner.FIRST_PLAYER, play_time := g.play_time, first_player := q,
            second_player := -p } ∧
        ∀ r, technicalWinOver p g q r = technicalWin r Winner.FIRST_PLAYER g.winner) ∧
      (∀ r side w, (technicalWin r side w).total_play_time = r.total_play_time ∧
        (technicalWin r side w).id = r.id ∧
        (w = side → side ≠ Winner.DRAW → technicalWin r side w = r) ∧
        (w = Winner.DRAW → side ≠ Winner.DRAW →
          (technicalWin r side w).wins = r.wins + 1 ∧
          (technicalWin r side w).draws = r.draws - 1 ∧
          (technicalWin r side w).loses = r.loses) ∧
        (w ≠ Winner.DRAW → w ≠ side →
          (technicalWin r side w).wins = r.wins + 1 ∧
          (technicalWin r side w).loses = r.loses - 1 ∧
          (technicalWin r side w).draws = r.draws)) := by
  obtain ⟨s1, hr, hinv1, hp, _, htour, _, hglob⟩ := chessRemovePlayer_effect h.inv h.links hc
  refine ⟨s1, hr, ?_, ?_, ?_, ?_, ?_⟩
  · intro tid t ht hw
    obtain ⟨t1, ht1, hrem⟩ := htour tid t ht
    obtain ⟨_, _, _, hopen, hrec⟩ := hrem
    have hti := h.inv.lookup ht
    have hti1 : TournamentInv t1 := hinv1.lookup ht1
    refine ⟨t1, ht1, hopen hw, ?_, ?_⟩
    · rw [tournamentGames_of_inv hti1, tournamentGames_of_inv hti, hopen hw]
      simp [List.map_map, Function.comp]
    · intro q hq
      rw [hrec q, tournamentGames_of_inv hti]
      simp [hq, openGames, hw]
  · intro q hq
    rw [hglob q]
    simp [hq]
  · intro g q hq h1 h2
    constructor
    · simp [gameAfterRemoval, h1, h2, hq]
    · intro r
      simp [technicalWinOver, h1, h2, hq]
  · intro g q hq hqp h2 h1
    have hne : ¬ g.first_player = p := by rw [h1]; exact hqp
    constructor
    · simp [gameAfterRemoval, h1, h2, hq, hqp]
    · intro r
      simp [technicalWinOver, h1, h2, hq, hqp]
  · intro r side w
    refine ⟨rfl, rfl, ?_, ?_, ?_⟩
    · intro e hs
      subst e
      simp [technicalWin, hs]
    · intro e hs
      subst e
      have : ¬ Winner.DRAW = side := fun e => hs e.symm
      simp [technicalWin, this]
    · intro h1 h2
      simp [technicalWin, h1, h2]

theorem callsTechnical_run :
    runCalls callsTechnical chessCreate = some (stateAfter callsTechnical) := by
  decide

theorem chessRemovePlayer_gives_technical_wins_witness :
    (Reachable (stateAfter callsTechnical) ∧
      chessRemovePlayerErrorCheck (some (stateAfter callsTechnical)) 1
        = ChessResult.CHESS_SUCCESS) ∧
    ∃ s1, chessRemovePlayer (some (stateAfter callsTechnical)) 1
        = some (ChessResult.CHESS_SUCCESS, some s1) ∧
      (∀ q, q ≠ 1 → playerRecord s1.players q =
        (playerRecord (stateAfter callsTechnical).players q).map
          (technicalWins 1 q (notEndedGames (stateAfter callsTechnical)))) :=
  ⟨⟨stateAfter_reachable callsTechnical callsTechnical_run, by decide⟩,
   (chessRemovePlayer_gives_technical_wins (stateAfter callsTechnical)
      (stateAfter_reachable callsTechnical callsTechnical_run) 1 (by decide)).elim
     (fun s1 hs1 => ⟨s1, hs1.1, hs1.2.2.1⟩)⟩

theorem callsTechnical_removePlayer :
    tournamentGames (tournamentIn (stateAfter callsTechnical) 1) =
      [gameCreate Winner.FIRST_PLAYER 10 1 2, gameCreate Winner.DRAW 20 3 1] ∧
    tournamentGames (tournamentIn (stateAfter (callsTechnical ++ [Call.removePlayer 1])) 1) =
      [gameCreate Winner.SECOND_PLAYER 10 (-1) 2, gameCreate Winner.FIRST_PLAYER 20 3 (-1)] ∧
    tournamentGames (tournamentIn (stateAfter (callsTechnical ++ [Call.removePlayer 1])) 2) =
      [gameCreate Winner.SECOND_PLAYER 5 1 2, gameCreate Winner.FIRST_PLAYER 7 2 3] ∧
    playerRecord (stateAfter callsTechnical).players 2 =
      some { id := 2, wins := 2, loses := 1, draws := 0, total_play_time := 22 } ∧
    playerRecord (stateAfter (callsTechnical ++ [Call.removePlayer 1])).players 2 =
      some { id := 2, wins := 3, loses := 0, draws := 0, total_play_time := 22 } ∧
    playerRecord (stateAfter callsTechnical).players 3 =
      some { id := 3, wins := 0, loses := 1, draws := 1, total_play_time := 27 } ∧
    playerRecord (stateAfter (callsTechnical ++ [Call.removePlayer 1])).players 3 =
      some { id := 3, wins := 1, loses := 1, draws := 0, total_play_time := 27 } ∧
    playerRecord (tournamentIn (stateAfter (callsTechnical ++ [Call.removePlayer 1])) 1).players 2
      = some { id := 2, wins := 1, loses := 0, draws := 0, total_play_time := 10 } ∧
    playerRecord (tournamentIn (stateAfter (callsTechnical ++ [Call.removePlayer 1])) 1).players 3
      = some { id := 3, wins := 1, loses := 0, draws := 0, total_play_time := 20 } := by
  decide

/-! ## Claims about the system after `chessRemovePlayer` -/

theorem gameRecord_of_mem {games : Map Int Game} (h : MapWF compareKeyGameID games)
    {n : Int × Game} (hn : n ∈ games.nodes) :
    (mapGet compareKeyGameID games (some n.1)).1 = some n.2 := by
  rw [mapGet_wf_fst h]
  exact findData_of_mem_sorted compareKeyGameID_order _ h.2 n hn

theorem countGamesLoop_eq {games : Map Int Game} (h : MapWF compareKeyGameID games) (p : Int) :
    ∀ (l : List (Int × Game)), (∀ n ∈ l, n ∈ games.nodes) → ∀ c : Int,
      countGamesLoop games p (l.map Prod.fst) c =
        c + ((l.filter (fun n => isPlayerInCurrentGame (some n.2) p)).length : Int) := by
  intro l
  induction l with
  | nil =>
    intro _ c
    simp [countGamesLoop]
  | cons n rest ih =>
    intro hmem c
    have hn := gameRecord_of_mem h (hmem n (List.mem_cons_self _ _))
    have hrest := ih (fun x hx => hmem x (List.mem_cons_of_mem _ hx))
    simp only [List.map_cons, countGamesLoop, hn]
    by_cases hp : isPlayerInCurrentGame (some n.2) p = true
    · simp only [hp, if_true, List.filter_cons_of_pos, List.length_cons]
      rw [hrest]
      push_cast
      omega
    · have hp0 : isPlayerInCurrentGame (some n.2) p = false := by simpa using hp
      simp [hp0, hrest, List.filter_cons]

theorem countGames_eq {t : Tournament} (ht : TournamentInv t) (p : Int) :
    countGamesPlayerPlayedInTournament t p =
      ((t.games.nodes.filter (fun n => isPlayerInCurrentGame (some n.2) p)).length : Int) := by
  unfold countGamesPlayerPlayedInTournament
  rw [mapForEach_wf ht.1]
  unfold mapKeys
  rw [countGamesLoop_eq ht.1 p t.games.nodes (fun _ hx => hx)]
  omega

theorem isGameExist_false {t : Tournament} (ht : TournamentInv t) {p1 : Int}
    (h : ∀ n ∈ t.games.nodes, n.2.first_player ≠ p1 ∧ n.2.second_player ≠ p1) (p2 : Int) :
    isGameExistInTournament t p1 p2 = false := by
  unfold isGameExistInTournament
  rw [List.any_eq_false]
  intro k hk
  rw [mapForEach_wf ht.1] at hk
  obtain ⟨n, hn, rfl⟩ := List.mem_map.mp hk
  rw [gameRecord_of_mem ht.1 hn]
  obtain ⟨h1, h2⟩ := h n hn
  simp [gameGetFirstPlayer, gameGetSecondPlayer, h1, h2]

theorem chessAddGame_returns {s : ChessSystem} (h : SysInv s) {tid p1 p2 : Int} {w : Winner}
    {time : Int}
    (hc : chessAddGameErrorCheck (some s) tid p1 p2 w time = ChessResult.CHESS_SUCCESS) :
    ∃ s1, chessAddGame (some s) tid p1 p2 w time
      = some (ChessResult.CHESS_SUCCESS, some s1) := by
  obtain ⟨_, _, _, hne, t, ht, _⟩ := (chessAddGameErrorCheck_success_iff s tid p1 p2 w time).mp hc
  obtain ⟨t1, pl, hup, _⟩ := chessAddGameUpdate_some (h.lookup ht) h.2.1 hne w time
  unfold tournamentRecord at ht
  unfold chessAddGame
  simp only [hc, ne_eq, not_true_eq_false, if_false, ht, hup]
  exact ⟨_, rfl⟩

theorem gameAfterRemoval_sides {p : Int} (hp : 0 < p) {g : Game} (hgi : GameInv g) :
    (gameAfterRemoval p g).first_player ≠ p ∧ (gameAfterRemoval p g).second_player ≠ p := by
  unfold gameAfterRemoval
  split
  · rename_i h1
    constructor
    · simp only []
      omega
    · simp only []
      intro e
      apply hgi.2.2
      rw [h1, e]
  · rename_i h1
    split
    · rename_i h2
      constructor
      · exact h1
      · simp only []
        omega
    · rename_i h2
      exact ⟨h1, h2⟩


/-- C15: after a successful `chessRemovePlayer(p)` in a reachable state, `p` is
a participant of no game of a tournament that has not ended, the number of games
counted for `p` in it is 0, and `chessAddGame` for `p` and any other valid id
`q` with a valid play time returns `CHESS_SUCCESS` whenever `q` has fewer than
`max_games_per_player` games in the tournament: the call is not rejected as
`CHESS_GAME_ALREADY_EXISTS` and the earlier games of `p` do not count. -/
theorem chessAddGame_after_chessRemovePlayer (s s1 : ChessSystem) (h : Reachable s) (p : Int)
    (hr : chessRemovePlayer (some s) p = some (ChessResult.CHESS_SUCCESS, some s1))
    (tid : Int) (t1 : Tournament) (ht1 : tournamentRecord s1 tid = some t1)
    (hw : t1.winner = TOURNAMENT_NOT_ENDED) :
    (∀ g ∈ tournamentGames t1, isPlayerInCurrentGame (some g) p = false) ∧
    countGamesPlayerPlayedInTournament t1 p = 0 ∧
    ∀ q w time, 0 < q → q ≠ p → 0 ≤ time →
      countGamesPlayerPlayedInTournament t1 q < t1.max_games_per_player →
      isGameExistInTournament t1 p q = false ∧
      ∃ s2, chessAddGame (some s1) tid p q w time
        = some (ChessResult.CHESS_SUCCESS, some s2) := by
  have hinv := h.inv
  have hl := h.links
  have hreach1 : Reachable s1 := Reachable.removePlayer s s1 p _ h hr
  have hinv1 := hreach1.inv
  have hti1 := hinv1.lookup ht1
  obtain ⟨htid, _, hmax, _, _⟩ := hreach1.links.2 tid t1 ht1
  rcases chessRemovePlayer_cases hr with ⟨hne, _, _⟩ | ⟨_, hcheck⟩
  · exact absurd rfl hne
  · obtain ⟨s2, heq, _, hp, _, htour, hnone, _⟩ := chessRemovePlayer_effect hinv hl hcheck
    rw [hr] at heq
    simp only [Option.some.injEq, Prod.mk.injEq, true_and] at heq
    subst heq
    have hsides : ∀ n ∈ t1.games.nodes, n.2.first_player ≠ p ∧ n.2.second_player ≠ p := by
      cases h0 : tournamentRecord s tid with
      | none =>
        rw [hnone tid h0] at ht1
        simp at ht1
      | some t =>
        obtain ⟨t2, ht2, hrem⟩ := htour tid t h0
        rw [ht1] at ht2
        simp only [Option.some.injEq] at ht2
        subst ht2
        obtain ⟨hset, _, _, hopen, _⟩ := hrem
        have hw0 : t.winner = TOURNAMENT_NOT_ENDED := by rw [← hset.1]; exact hw
        intro n hn
        rw [hopen hw0] at hn
        obtain ⟨n0, hn0, rfl⟩ := List.mem_map.mp hn
        obtain ⟨_, _, _, hgi, _⟩ := hl.2 tid t h0
        exact gameAfterRemoval_sides hp (hgi n0 hn0)
    have hnot : ∀ n ∈ t1.games.nodes, isPlayerInCurrentGame (some n.2) p = false := by
      intro n hn
      obtain ⟨a, b⟩ := hsides n hn
      simp [isPlayerInCurrentGame, gameGetFirstPlayer, gameGetSecondPlayer, a, b]
    have hcount : countGamesPlayerPlayedInTournament t1 p = 0 := by
      rw [countGames_eq hti1]
      have : t1.games.nodes.filter (fun n => isPlayerInCurrentGame (some n.2) p) = [] := by
        rw [List.filter_eq_nil_iff]
        intro n hn
        rw [hnot n hn]
        simp
      rw [this]
      rfl
    refine ⟨?_, hcount, ?_⟩
    · intro g hg
      rw [tournamentGames_of_inv hti1] at hg
      obtain ⟨n, hn, rfl⟩ := List.mem_map.mp hg
      exact hnot n hn
    · intro q w time hq hqp htime hqcount
      have hex := isGameExist_false hti1 hsides q
      refine ⟨hex, ?_⟩
      apply chessAddGame_returns hinv1
      rw [chessAddGameErrorCheck_success_iff]
      refine ⟨htid, hp, hq, fun e => hqp e.symm, t1, ht1, hw, hex, htime, ?_, ?_⟩
      · unfold isMaxGamesPerPlayerExceeded
        rw [hcount]
        simp only [decide_eq_false_iff_not, not_le]
        exact hmax
      · unfold isMaxGamesPerPlayerExceeded
        simp only [decide_eq_false_iff_not, not_le]
        exact hqcount


theorem callsPlayed_run :
    runCalls callsPlayed chessCreate = some (stateAfter callsPlayed) := by
  decide

theorem chessAddGame_after_chessRemovePlayer_witness :
    (Reachable (stateAfter callsPlayed) ∧
      chessRemovePlayer (some (stateAfter callsPlayed)) 1
        = some (ChessResult.CHESS_SUCCESS, some (stateAfter callsRemoved)) ∧
      tournamentRecord (stateAfter callsRemoved) 1
        = some (tournamentIn (stateAfter callsRemoved) 1) ∧
      (tournamentIn (stateAfter callsRemoved) 1).winner = TOURNAMENT_NOT_ENDED ∧
      countGamesPlayerPlayedInTournament (tournamentIn (stateAfter callsRemoved) 1) 2 <
        (tournamentIn (stateAfter callsRemoved) 1).max_games_per_player) ∧
    countGamesPlayerPlayedInTournament (tournamentIn (stateAfter callsRemoved) 1) 1 = 0 ∧
    isGameExistInTournament (tournamentIn (stateAfter callsRemoved) 1) 1 2 = false ∧
    ∃ s2, chessAddGame (some (stateAfter callsRemoved)) 1 1 2 Winner.FIRST_PLAYER 6
      = some (ChessResult.CHESS_SUCCESS, some s2) :=
  ⟨⟨stateAfter_reachable callsPlayed callsPlayed_run, by decide, by decide, by decide,
      by decide⟩,
   (chessAddGame_after_chessRemovePlayer (stateAfter callsPlayed) (stateAfter callsRemoved)
      (stateAfter_reachable callsPlayed callsPlayed_run) 1 (by decide) 1
      (tournamentIn (stateAfter callsRemoved) 1) (by decide) (by decide)).2.1,
   ((chessAddGame_after_chessRemovePlayer (stateAfter callsPlayed) (stateAfter callsRemoved)
      (stateAfter_reachable callsPlayed callsPlayed_run) 1 (by decide) 1
      (tournamentIn (stateAfter callsRemoved) 1) (by decide) (by decide)).2.2
      2 Winner.FIRST_PLAYER 6 (by decide) (by decide) (by decide) (by decide)).1,
   ((chessAddGame_after_chessRemovePlayer (stateAfter callsPlayed) (stateAfter callsRemoved)
      (stateAfter_reachable callsPlayed callsPlayed_run) 1 (by decide) 1
      (tournamentIn (stateAfter callsRemoved) 1) (by decide) (by decide)).2.2
      2 Winner.FIRST_PLAYER 6 (by decide) (by decide) (by decide) (by decide)).2⟩

theorem callsRejoined_results :
    callResults callsRejoined (some chessCreate) =
      [some ChessResult.CHESS_SUCCESS, some ChessResult.CHESS_SUCCESS,
       some ChessResult.CHESS_SUCCESS, some ChessResult.CHESS_SUCCESS] ∧
    tournamentGames (tournamentIn (stateAfter callsRejoined) 1) =
      [gameCreate Winner.SECOND_PLAYER 6 (-1) 2, gameCreate Winner.FIRST_PLAYER 6 1 2] := by
  decide

theorem mapContains_playerRecord (m : Map Int Player) (p : Int) :
    (mapContains compareKeyPlayerID m (some p)).1 = (playerRecord m p).isSome :=
  mapContains_of_mapGet compareKeyPlayerID m p

/-- C16: `chessRemovePlayer` returns `CHESS_INVALID_ID` for an id that is not
positive and `CHESS_PLAYER_NOT_EXIST` for a positive id that is not in the
players map of the system, and leaves the system as it is; for a positive id in
the players map it returns `CHESS_SUCCESS` in every reachable state, and then
the id is neither in the players map of the system nor in the players map of any
tournament, so that a second `chessRemovePlayer` and the result code of
`chessCalculateAveragePlayTime` are `CHESS_PLAYER_NOT_EXIST`. -/
theorem chessRemovePlayer_results (s : ChessSystem) (h : Reachable s) (p : Int) :
    (p ≤ 0 → chessRemovePlayer (some s) p = some (ChessResult.CHESS_INVALID_ID, some s)) ∧
    (0 < p → (mapContains compareKeyPlayerID s.players (some p)).1 = false →
      chessRemovePlayer (some s) p = some (ChessResult.CHESS_PLAYER_NOT_EXIST, some s)) ∧
    (0 < p → (mapContains compareKeyPlayerID s.players (some p)).1 = true →
      ∃ s1, chessRemovePlayer (some s) p = some (ChessResult.CHESS_SUCCESS, some s1)) ∧
    (∀ s1, chessRemovePlayer (some s) p = some (ChessResult.CHESS_SUCCESS, some s1) →
      (mapContains compareKeyPlayerID s1.players (some p)).1 = false ∧
      (∀ tid t1, tournamentRecord s1 tid = some t1 →
        (mapContains compareKeyPlayerID t1.players (some p)).1 = false) ∧
      chessRemovePlayer (some s1) p = some (ChessResult.CHESS_PLAYER_NOT_EXIST, some s1) ∧
      chessCalculateAveragePlayTimeResult (some s1) p = ChessResult.CHESS_PLAYER_NOT_EXIST) := by
  have hcheck1 : p ≤ 0 →
      chessRemovePlayerErrorCheck (some s) p = ChessResult.CHESS_INVALID_ID := by
    intro hp
    have : ¬ 0 < p := by omega
    simp [chessRemovePlayerErrorCheck, isValidID, this]
  have hcheck2 : ∀ s0 : ChessSystem, 0 < p →
      (mapContains compareKeyPlayerID s0.players (some p)).1 = false →
      chessRemovePlayerErrorCheck (some s0) p = ChessResult.CHESS_PLAYER_NOT_EXIST := by
    intro s0 hp hcont
    simp [chessRemovePlayerErrorCheck, isValidID, hp, hcont]
  refine ⟨?_, ?_, ?_, ?_⟩
  · intro hp
    unfold chessRemovePlayer
    simp [hcheck1 hp]
  · intro hp hcont
    unfold chessRemovePlayer
    simp [hcheck2 s hp hcont]
  · intro hp hcont
    have hc : chessRemovePlayerErrorCheck (some s) p = ChessResult.CHESS_SUCCESS := by
      simp [chessRemovePlayerErrorCheck, isValidID, hp, hcont]
    obtain ⟨s1, hr, _⟩ := chessRemovePlayer_effect h.inv h.links hc
    exact ⟨s1, hr⟩
  · intro s1 hr
    rcases chessRemovePlayer_cases hr with ⟨hne, _, _⟩ | ⟨_, hc⟩
    · exact absurd rfl hne
    · obtain ⟨s2, heq, _, hp, _, htour, hnone, hglob⟩ :=
        chessRemovePlayer_effect h.inv h.links hc
      rw [hr] at heq
      simp only [Option.some.injEq, Prod.mk.injEq, true_and] at heq
      subst heq
      have hg : (mapContains compareKeyPlayerID s1.players (some p)).1 = false := by
        rw [mapContains_playerRecord, hglob p]
        simp
      refine ⟨hg, ?_, ?_, ?_⟩
      · intro tid t1 ht1
        cases h0 : tournamentRecord s tid with
        | none =>
          rw [hnone tid h0] at ht1
          simp at ht1
        | some t =>
          obtain ⟨t2, ht2, hrem⟩ := htour tid t h0
          rw [ht1] at ht2
          simp only [Option.some.injEq] at ht2
          subst ht2
          rw [mapContains_playerRecord, hrem.2.2.2.2 p]
          simp
      · unfold chessRemovePlayer
        simp [hcheck2 s1 hp hg]
      · simp [chessCalculateAveragePlayTimeResult, chessCalculateAveragePlayTimeErrorCheck,
          isValidID, hp, hg]

theorem chessRemovePlayer_results_witness :
    (Reachable (stateAfter callsPlayed) ∧
      chessRemovePlayer (some (stateAfter callsPlayed)) 1
        = some (ChessResult.CHESS_SUCCESS, some (stateAfter callsRemoved))) ∧
    (mapContains compareKeyPlayerID (stateAfter callsRemoved).players (some 1)).1 = false ∧
    (∀ tid t1, tournamentRecord (stateAfter callsRemoved) tid = some t1 →
      (mapContains compareKeyPlayerID t1.players (some 1)).1 = false) ∧
    chessRemovePlayer (some (stateAfter callsRemoved)) 1
      = some (ChessResult.CHESS_PLAYER_NOT_EXIST, some (stateAfter callsRemoved)) ∧
    chessCalculateAveragePlayTimeResult (some (stateAfter callsRemoved)) 1
      = ChessResult.CHESS_PLAYER_NOT_EXIST :=
  ⟨⟨stateAfter_reachable callsPlayed callsPlayed_run, by decide⟩,
   (chessRemovePlayer_results (stateAfter callsPlayed)
     (stateAfter_reachable callsPlayed callsPlayed_run) 1).2.2.2
     (stateAfter callsRemoved) (by decide)⟩

theorem chessRemovePlayer_error_results :
    resultOf (chessRemovePlayer (some (stateAfter callsRemoved)) 0)
      = some ChessResult.CHESS_INVALID_ID ∧
    resultOf (chessRemovePlayer (some (stateAfter callsRemoved)) (-2))
      = some ChessResult.CHESS_INVALID_ID ∧
    resultOf (chessRemovePlayer (some (stateAfter callsRemoved)) 7)
      = some ChessResult.CHESS_PLAYER_NOT_EXIST ∧
    resultOf (chessRemovePlayer (some (stateAfter callsRemoved)) 2)
      = some ChessResult.CHESS_SUCCESS := by
  decide

/-! ## Claims about the number of players -/

theorem Reachable.call_induction {P : ChessSystem → Prop} (h0 : P chessCreate)
    (hstep : ∀ (s s1 : ChessSystem) (c : Call) (r : ChessResult), Reachable s → P s →
      c.run (some s) = some (r, some s1) → P s1) :
    ∀ s, Reachable s → P s := by
  intro s h
  induction h with
  | create => exact h0
  | addTournament s s1 tid max loc r hs hr ih =>
    exact hstep s s1 (Call.addTournament tid max loc) r hs ih hr
  | addGame s s1 tid p1 p2 w time r hs hr ih =>
    exact hstep s s1 (Call.addGame tid p1 p2 w time) r hs ih hr
  | removePlayer s s1 pid r hs hr ih => exact hstep s s1 (Call.removePlayer pid) r hs ih hr
  | endTournament s s1 tid r hs hr ih => exact hstep s s1 (Call.endTournament tid) r hs ih hr
  | removeTournament s s1 tid r hs hr ih =>
    exact hstep s s1 (Call.removeTournament tid) r hs ih hr

theorem Call.run_new {c : Call} {s s1 : ChessSystem} {r : ChessResult} (h : SysInv s)
    (hl : LinkInv s) (hr : c.run (some s) = some (r, some s1)) {tid : Int} {t1 : Tournament}
    (ht : tournamentRecord s tid = none) (ht1 : tournamentRecord s1 tid = some t1) :
    ∃ max location, c = Call.addTournament tid max (some location) ∧
      r = ChessResult.CHESS_SUCCESS ∧ t1 = tournamentCreate max location := by
  cases c with
  | addTournament tid0 max loc =>
    obtain ⟨_, hfail, hsucc⟩ := chessAddTournament_effect h hr
    by_cases hres : r = ChessResult.CHESS_SUCCESS
    · obtain ⟨_, _, _, location, hloc, hrec⟩ := hsucc hres
      rw [hrec tid] at ht1
      by_cases he : tid0 = tid
      · simp only [he, if_true, Option.some.injEq] at ht1
        subst he
        exact ⟨max, location, by rw [hloc], hres, ht1.symm⟩
      · simp only [he, if_false] at ht1
        rw [ht] at ht1
        simp at ht1
    · rw [hfail hres, ht] at ht1
      simp at ht1
  | addGame tid0 p1 p2 w time =>
    obtain ⟨hfail, hsucc⟩ := chessAddGame_effect h hr
    by_cases hres : r = ChessResult.CHESS_SUCCESS
    · obtain ⟨_, t0, t2, ht0, _, hrec⟩ := hsucc hres
      rw [hrec tid] at ht1
      by_cases he : tid0 = tid
      · subst he
        rw [ht] at ht0
        simp at ht0
      · simp only [he, if_false] at ht1
        rw [ht] at ht1
        simp at ht1
    · rw [hfail hres, ht] at ht1
      simp at ht1
  | removePlayer p =>
    rcases chessRemovePlayer_cases hr with ⟨_, rfl, _⟩ | ⟨rfl, hcheck⟩
    · rw [ht] at ht1
      simp at ht1
    · obtain ⟨s2, heq, _, _, _, _, hnone, _⟩ := chessRemovePlayer_effect h hl hcheck
      have hr1 : chessRemovePlayer (some s) p = some (ChessResult.CHESS_SUCCESS, some s1) := hr
      rw [hr1] at heq
      simp only [Option.some.injEq, Prod.mk.injEq, true_and] at heq
      subst heq
      rw [hnone tid ht] at ht1
      simp at ht1
  | endTournament tid0 =>
    obtain ⟨_, hfail, hsucc⟩ := chessEndTournament_effect h hr
    by_cases hres : r = ChessResult.CHESS_SUCCESS
    · obtain ⟨_, t0, _, ht0, _, hrec⟩ := hsucc hres
      rw [hrec tid] at ht1
      by_cases he : tid0 = tid
      · subst he
        rw [ht] at ht0
        simp at ht0
      · simp only [he, if_false] at ht1
        rw [ht] at ht1
        simp at ht1
    · rw [hfail hres, ht] at ht1
      simp at ht1
  | removeTournament tid0 =>
    obtain ⟨hfail, hsucc⟩ := chessRemoveTournament_effect h hr
    by_cases hres : r = ChessResult.CHESS_SUCCESS
    · obtain ⟨_, _, _, hrec⟩ := hsucc hres
      rw [hrec tid] at ht1
      split at ht1
      · simp at ht1
      · rw [ht] at ht1
        simp at ht1
    · rw [hfail hres, ht] at ht1
      simp at ht1

theorem toFinset_append_two (l : List Int) (a b : Int) :
    (l ++ [a, b]).toFinset = insert a (insert b l.toFinset) := by
  ext x
  simp only [List.toFinset_append, List.toFinset_cons, List.toFinset_nil, Finset.mem_union,
    List.mem_toFinset, Finset.mem_insert, Finset.mem_singleton]
  tauto

theorem dedup_length_append_two (l : List Int) (a b : Int) :
    ((l ++ [a, b]).dedup.length : Int) ≤
      l.dedup.length + (if a ∈ l then 0 else 1) + (if b ∈ l then 0 else 1) := by
  rw [← List.card_toFinset, ← List.card_toFinset, toFinset_append_two]
  have h1 : ((insert a (insert b l.toFinset)).card : Int) ≤
      (insert b l.toFinset).card + (if a ∈ l then 0 else 1) := by
    by_cases ha : a ∈ l
    · have : a ∈ insert b l.toFinset := Finset.mem_insert_of_mem (List.mem_toFinset.mpr ha)
      rw [Finset.insert_eq_of_mem this]
      simp [ha]
    · have := Finset.card_insert_le a (insert b l.toFinset)
      simp only [ha, if_false]
      exact_mod_cast this
  have h2 : ((insert b l.toFinset).card : Int) ≤
      l.toFinset.card + (if b ∈ l then 0 else 1) := by
    by_cases hb : b ∈ l
    · rw [Finset.insert_eq_of_mem (List.mem_toFinset.mpr hb)]
      simp [hb]
    · have := Finset.card_insert_le b l.toFinset
      simp only [hb, if_false]
      exact_mod_cast this
  omega

theorem participantIds_of_inv {t : Tournament} (h : TournamentInv t) :
    participantIds t = (t.games.nodes.map Prod.snd).flatMap (fun g =>
      [(g.first_player.natAbs : Int), (g.second_player.natAbs : Int)]) := by
  unfold participantIds
  rw [tournamentGames_of_inv h]

theorem gameAfterRemoval_natAbs (p : Int) (g : Game) :
    (gameAfterRemoval p g).first_player.natAbs = g.first_player.natAbs ∧
    (gameAfterRemoval p g).second_player.natAbs = g.second_player.natAbs := by
  unfold gameAfterRemoval
  split
  · rename_i h1
    simp only [Int.natAbs_neg, and_true]
    rw [h1]
  · split
    · rename_i h2
      simp only [Int.natAbs_neg, true_and]
      rw [h2]
    · exact ⟨rfl, rfl⟩

theorem CountInv.of_new_tournament (max : Int) (location : String) :
    CountInv (tournamentCreate max location) := by
  constructor
  · have : distinctParticipants (tournamentCreate max location) = 0 := by
      simp [distinctParticipants, participantIds, tournamentGames, tournamentCreate,
        mapForEach, mapTraverse, mapGetFirst, mapCreate]
    rw [this]
    simp [tournamentCreate]
  · intro q hq
    rw [show (tournamentCreate max location).players = mapCreate from rfl,
      playerRecord_mapCreate] at hq
    simp at hq


theorem CallChanges.number_of_players {players players1 : Map Int Player} {c : Call}
    {r : ChessResult} {tid : Int} {t t1 : Tournament} (ht : TournamentInv t)
    (h : CallChanges players c r tid t t1 players1) :
    (∃ p1 p2 w time, c = Call.addGame tid p1 p2 w time ∧ r = ChessResult.CHESS_SUCCESS ∧
      t1.number_of_players = t.number_of_players +
        (if (playerRecord t.players p1).isSome then 0 else 1) +
        (if (playerRecord t.players p2).isSome then 0 else 1)) ∨
    t1.number_of_players = t.number_of_players := by
  rcases h with rfl | ⟨p1, p2, w, time, hc, hr, _, _, _, hne, hup⟩ | ⟨cw, _, _, _, rfl⟩ |
    ⟨p, _, _, _, hrem⟩
  · exact Or.inr rfl
  · exact Or.inl ⟨p1, p2, w, time, hc, hr, (chessAddGameUpdate_fields ht hne hup).2.2.2.2⟩
  · exact Or.inr rfl
  · exact Or.inr hrem.1.2.2.2.2.1

theorem participantIds_removed {p : Int} {t t1 : Tournament} (ht : TournamentInv t)
    (ht1 : TournamentInv t1) (hrem : RemovedFrom p t t1) :
    participantIds t1 = participantIds t := by
  rw [participantIds_of_inv ht, participantIds_of_inv ht1]
  obtain ⟨_, _, hended, hopen, _⟩ := hrem
  by_cases hw : t.winner = TOURNAMENT_NOT_ENDED
  · rw [hopen hw, List.map_map]
    generalize t.games.nodes = l
    induction l with
    | nil => rfl
    | cons n rest ih =>
      simp only [List.map_cons, List.flatMap_cons, Function.comp, ih,
        (gameAfterRemoval_natAbs p n.2).1, (gameAfterRemoval_natAbs p n.2).2]
  · rw [hended hw]

theorem CallChanges.counts_step {players players1 : Map Int Player} {c : Call} {r : ChessResult}
    {tid : Int} {t t1 : Tournament} (ht : TournamentInv t) (ht1 : TournamentInv t1)
    (hp : MapWF compareKeyPlayerID players) (hc : CountInv t)
    (h : CallChanges players c r tid t t1 players1) : CountInv t1 := by
  rcases h with rfl | ⟨p1, p2, w, time, _, _, _, hp1, hp2, hne, hup⟩ | ⟨cw, _, _, _, rfl⟩ |
    ⟨p, _, _, _, hrem⟩
  · exact hc
  · obtain ⟨hnodes, _, _, _, hnop⟩ := chessAddGameUpdate_fields ht hne hup
    obtain ⟨_, hloc⟩ := chessAddGameUpdate_records ht hp hne hup
    have hids : participantIds t1 = participantIds t ++ [p1, p2] := by
      rw [participantIds_of_inv ht, participantIds_of_inv ht1, hnodes]
      simp only [List.map_append, List.map_cons, List.map_nil, List.flatMap_append,
        List.flatMap_cons, List.flatMap_nil, List.append_nil, gameCreate]
      rw [Int.natAbs_of_nonneg (by omega), Int.natAbs_of_nonneg (by omega)]
    constructor
    · unfold distinctParticipants
      rw [hids, hnop]
      have h1 := dedup_length_append_two (participantIds t) p1 p2
      have h2 := hc.1
      unfold distinctParticipants at h2
      have h3 : (if p1 ∈ participantIds t then (0 : Int) else 1) ≤
          (if (playerRecord t.players p1).isSome then 0 else 1) := by
        by_cases hs : (playerRecord t.players p1).isSome = true
        · simp [hs, hc.2 p1 hs]
        · simp only [hs]
          split <;> simp
      have h4 : (if p2 ∈ participantIds t then (0 : Int) else 1) ≤
          (if (playerRecord t.players p2).isSome then 0 else 1) := by
        by_cases hs : (playerRecord t.players p2).isSome = true
        · simp [hs, hc.2 p2 hs]
        · simp only [hs]
          split <;> simp
      omega
    · intro q hq
      rw [hids]
      rw [hloc q] at hq
      by_cases hq1 : q = p1
      · simp [hq1]
      · by_cases hq2 : q = p2
        · simp [hq2]
        · simp only [hq1, hq2, if_false] at hq
          exact List.mem_append_left _ (hc.2 q hq)
  · exact hc
  · have hids := participantIds_removed ht ht1 hrem
    constructor
    · unfold distinctParticipants
      rw [hids, hrem.1.2.2.2.2.1]
      exact hc.1
    · intro q hq
      rw [hids]
      apply hc.2
      rw [hrem.2.2.2.2 q] at hq
      split at hq
      · simp at hq
      · simpa using hq

theorem Reachable.counts {s : ChessSystem} (h : Reachable s) :
    ∀ tid t, tournamentRecord s tid = some t → CountInv t := by
  revert s
  apply Reachable.call_induction
  · intro tid t ht
    have : tournamentRecord chessCreate tid = none := by
      simp [tournamentRecord, chessCreate, mapGet, mapContains, mapCreate, mapGetSize]
    rw [this] at ht
    simp at ht
  · intro s s1 c r hs ih hr tid t1 ht1
    have hs1 := Call.run_reachable hs hr
    cases h0 : tournamentRecord s tid with
    | none =>
      obtain ⟨max, location, _, _, rfl⟩ := Call.run_new hs.inv hs.links hr h0 ht1
      exact CountInv.of_new_tournament max location
    | some t =>
      rcases Call.run_frame hs.inv hs.links hr h0 with ⟨_, _, hnone⟩ | ⟨t2, ht2, hch⟩
      · rw [hnone] at ht1
        simp at ht1
      · rw [ht1] at ht2
        simp only [Option.some.injEq] at ht2
        subst ht2
        exact hch.counts_step (hs.inv.lookup h0) (hs1.inv.lookup ht1) hs.inv.2.1 (ih tid t h0)

/-- C12 (as amended): in every reachable state the number of players of a
tournament is at least the number of distinct player ids that have taken part
in its games.  A new tournament starts with 0; a successful `chessAddGame` on
the tournament raises the number by one for each of its two players that has no
record in the players map of the tournament when the call is made, so that a
player who was removed from the system and plays in the tournament again is
counted again; no other call changes the number, and no call lowers it. -/
theorem number_of_players_counts_records (s : ChessSystem) (h : Reachable s) (tid : Int)
    (t : Tournament) (ht : tournamentRecord s tid = some t) :
    (distinctParticipants t : Int) ≤ t.number_of_players ∧
    (∀ (p1 p2 : Int) (w : Winner) (time : Int) (s1 : ChessSystem),
      (Call.addGame tid p1 p2 w time).run (some s)
        = some (ChessResult.CHESS_SUCCESS, some s1) →
      ∃ t1, tournamentRecord s1 tid = some t1 ∧
        t1.number_of_players = t.number_of_players +
          (if (playerRecord t.players p1).isSome then 0 else 1) +
          (if (playerRecord t.players p2).isSome then 0 else 1)) ∧
    (∀ (c : Call) (r : ChessResult) (s1 : ChessSystem) (t1 : Tournament),
      c.run (some s) = some (r, some s1) → tournamentRecord s1 tid = some t1 →
      (¬ ∃ p1 p2 w time, c = Call.addGame tid p1 p2 w time ∧ r = ChessResult.CHESS_SUCCESS) →
      t1.number_of_players = t.number_of_players) ∧
    (∀ (c : Call) (r : ChessResult) (s1 : ChessSystem) (t1 : Tournament),
      c.run (some s) = some (r, some s1) → tournamentRecord s1 tid = some t1 →
      t.number_of_players ≤ t1.number_of_players) ∧
    (∀ (tid0 max : Int) (loc : Option String) (s1 : ChessSystem) (t0 : Tournament),
      chessAddTournament (some s) tid0 max loc = some (ChessResult.CHESS_SUCCESS, some s1) →
      tournamentRecord s1 tid0 = some t0 → t0.number_of_players = 0) := by
  have hstep : ∀ (c : Call) (r : ChessResult) (s1 : ChessSystem) (t1 : Tournament),
      c.run (some s) = some (r, some s1) → tournamentRecord s1 tid = some t1 →
      (∃ p1 p2 w time, c = Call.addGame tid p1 p2 w time ∧ r = ChessResult.CHESS_SUCCESS ∧
        t1.number_of_players = t.number_of_players +
          (if (playerRecord t.players p1).isSome then 0 else 1) +
          (if (playerRecord t.players p2).isSome then 0 else 1)) ∨
      t1.number_of_players = t.number_of_players := by
    intro c r s1 t1 hr ht1
    rcases Call.run_frame h.inv h.links hr ht with ⟨_, _, hnone⟩ | ⟨t2, ht2, hch⟩
    · rw [hnone] at ht1
      simp at ht1
    · rw [ht1] at ht2
      simp only [Option.some.injEq] at ht2
      subst ht2
      exact hch.number_of_players (h.inv.lookup ht)
  refine ⟨(h.counts tid t ht).1, ?_, ?_, ?_, ?_⟩
  · intro p1 p2 w time s1 hr
    have hr1 : chessAddGame (some s) tid p1 p2 w time
        = some (ChessResult.CHESS_SUCCESS, some s1) := hr
    obtain ⟨hcheck, t0, t1, ht0, hup, hrec⟩ := (chessAddGame_effect h.inv hr1).2 rfl
    rw [ht] at ht0
    obtain rfl := Option.some.inj ht0
    refine ⟨t1, ?_, ?_⟩
    · rw [hrec tid, if_pos rfl]
    · exact (chessAddGameUpdate_fields (h.inv.lookup ht)
        (chessAddGameErrorCheck_ids hcheck).2.2.2 hup).2.2.2.2
  · intro c r s1 t1 hr ht1 hnot
    rcases hstep c r s1 t1 hr ht1 with ⟨p1, p2, w, time, hc, hres, _⟩ | e
    · exact absurd ⟨p1, p2, w, time, hc, hres⟩ hnot
    · exact e
  · intro c r s1 t1 hr ht1
    rcases hstep c r s1 t1 hr ht1 with ⟨p1, p2, w, time, _, _, e⟩ | e
    · rw [e]
      have a1 : (0 : Int) ≤ (if (playerRecord t.players p1).isSome then 0 else 1) := by
        split <;> decide
      have a2 : (0 : Int) ≤ (if (playerRecord t.players p2).isSome then 0 else 1) := by
        split <;> decide
      omega
    · rw [e]
  · intro tid0 max loc s1 t0 hr ht0
    obtain ⟨_, _, hsucc⟩ := chessAddTournament_effect h.inv hr
    obtain ⟨_, _, _, location, _, hrec⟩ := hsucc rfl
    rw [hrec tid0] at ht0
    simp only [if_true, Option.some.injEq] at ht0
    rw [← ht0]
    rfl

theorem callsRemoved_run :
    runCalls callsRemoved chessCreate = some (stateAfter callsRemoved) := by
  decide

theorem callsRejoined_run :
    runCalls callsRejoined chessCreate = some (stateAfter callsRejoined) := by
  decide

theorem number_of_players_counts_records_witness :
    (Reachable (stateAfter callsRemoved) ∧
      tournamentRecord (stateAfter callsRemoved) 1
        = some (tournamentIn (stateAfter callsRemoved) 1) ∧
      (Call.addGame 1 1 2 Winner.FIRST_PLAYER 6).run (some (stateAfter callsRemoved))
        = some (ChessResult.CHESS_SUCCESS, some (stateAfter callsRejoined)) ∧
      playerRecord (tournamentIn (stateAfter callsRemoved) 1).players 1 = none ∧
      (playerRecord (tournamentIn (stateAfter callsRemoved) 1).players 2).isSome = true ∧
      (1 : Int) ∈ participantIds (tournamentIn (stateAfter callsRemoved) 1) ∧
      (tournamentIn (stateAfter callsRemoved) 1).number_of_players = 2) ∧
    (distinctParticipants (tournamentIn (stateAfter callsRemoved) 1) : Int) ≤
      (tournamentIn (stateAfter callsRemoved) 1).number_of_players ∧
    (∃ t1, tournamentRecord (stateAfter callsRejoined) 1 = some t1 ∧
      t1.number_of_players =
        (tournamentIn (stateAfter callsRemoved) 1).number_of_players +
        (if (playerRecord (tournamentIn (stateAfter callsRemoved) 1).players 1).isSome
          then 0 else 1) +
        (if (playerRecord (tournamentIn (stateAfter callsRemoved) 1).players 2).isSome
          then 0 else 1)) :=
  ⟨⟨stateAfter_reachable callsRemoved callsRemoved_run, by decide, by decide, by decide,
      by decide, by decide, by decide⟩,
   (number_of_players_counts_records (stateAfter callsRemoved)
      (stateAfter_reachable callsRemoved callsRemoved_run) 1
      (tournamentIn (stateAfter callsRemoved) 1) (by decide)).1,
   (number_of_players_counts_records (stateAfter callsRemoved)
      (stateAfter_reachable callsRemoved callsRemoved_run) 1
      (tournamentIn (stateAfter callsRemoved) 1) (by decide)).2.1
      1 2 Winner.FIRST_PLAYER 6 (stateAfter callsRejoined) (by decide)⟩

/-- C12 (fails as stated): tournament 1 is added, players 1 and 2 play in it,
player 1 is removed from the system, and players 1 and 2 play in it again; every
call returns `CHESS_SUCCESS`.  The ids 1 and 2 are the only ones that have taken
part in a game of the tournament, but its number of players is 3. -/
theorem number_of_players_counts_rejoined_player_twice :
    Reachable (stateAfter callsRejoined) ∧
    callResults callsRejoined (some chessCreate) =
      [some ChessResult.CHESS_SUCCESS, some ChessResult.CHESS_SUCCESS,
       some ChessResult.CHESS_SUCCESS, some ChessResult.CHESS_SUCCESS] ∧
    tournamentRecord (stateAfter callsRejoined) 1
      = some (tournamentIn (stateAfter callsRejoined) 1) ∧
    participantIds (tournamentIn (stateAfter callsRejoined) 1) = [1, 2, 1, 2] ∧
    distinctParticipants (tournamentIn (stateAfter callsRejoined) 1) = 2 ∧
    (tournamentIn (stateAfter callsRejoined) 1).number_of_players = 3 ∧
    (tournamentIn (stateAfter callsRejoined) 1).number_of_players ≠
      distinctParticipants (tournamentIn (stateAfter callsRejoined) 1) :=
  ⟨stateAfter_reachable callsRejoined callsRejoined_run, by decide, by decide, by decide,
    by decide, by decide, by decide⟩

/-! ## Claims about the order of the error checks -/

theorem mapContains_tournamentRecord (s : ChessSystem) (tid : Int) :
    (mapContains compareKeyTournamentID s.tournaments (some tid)).1
      = (tournamentRecord s tid).isSome :=
  Bool.eq_iff_iff.mpr (mapContains_iff_mapGet_succeeds _ _ _)

theorem chessEndTournamentErrorCheck_eq (s : ChessSystem) (tid : Int) :
    chessEndTournamentErrorCheck (some s) tid =
      if tid ≤ 0 then ChessResult.CHESS_INVALID_ID
      else match tournamentRecord s tid with
        | none => ChessResult.CHESS_TOURNAMENT_NOT_EXIST
        | some t =>
          if t.winner ≠ TOURNAMENT_NOT_ENDED then ChessResult.CHESS_TOURNAMENT_ENDED
          else if mapGetSize t.games = 0 then ChessResult.CHESS_NO_GAMES
          else ChessResult.CHESS_SUCCESS := by
  unfold chessEndTournamentErrorCheck
  simp only [mapContains_tournamentRecord, isValidID, decide_eq_false_iff_not, gt_iff_lt, not_lt]
  unfold tournamentRecord
  by_cases h : tid ≤ 0
  · simp [h]
  · cases hrec : (mapGet compareKeyTournamentID s.tournaments (some tid)).1 with
    | none => simp [h]
    | some t => simp [h, tournamentGetWinner]

theorem tournamentGames_eq_nil_iff {t : Tournament} (h : TournamentInv t) :
    tournamentGames t = [] ↔ mapGetSize t.games = 0 := by
  rw [tournamentGames_of_inv h, List.map_eq_nil_iff]
  exact (h.1.size_eq_zero_iff).symm

theorem chessEndTournament_error {s : ChessSystem} {tid : Int} {r : ChessResult}
    (hc : chessEndTournamentErrorCheck (some s) tid = r) (hr : r ≠ ChessResult.CHESS_SUCCESS) :
    chessEndTournament (some s) tid = some (r, some s) := by
  unfold chessEndTournament
  rw [hc]
  simp [hr]

theorem chessEndTournament_returns {s : ChessSystem} (h : Reachable s) {tid : Int}
    (hc : chessEndTournamentErrorCheck (some s) tid = ChessResult.CHESS_SUCCESS) :
    ∃ s1, chessEndTournament (some s) tid = some (ChessResult.CHESS_SUCCESS, some s1) := by
  have hc0 := hc
  rw [chessEndTournamentErrorCheck_eq] at hc0
  cases ht : tournamentRecord s tid with
  | none =>
    rw [ht] at hc0
    split_ifs at hc0
  | some t =>
    by_cases hne : mapGetSize t.players = 0
    · have hti := h.inv.lookup ht
      have hnodes := (hti.2.1.size_eq_zero_iff).mp hne
      have hfe : mapForEach t.players = [] := by
        rw [mapForEach_wf hti.2.1]
        simp [mapKeys, hnodes]
      have ht0 := ht
      unfold tournamentRecord at ht0
      unfold chessEndTournament
      simp only [hc, ne_eq, not_true_eq_false, if_false, ht0, hfe, endTournamentLoop]
      exact ⟨_, rfl⟩
    · obtain ⟨s1, _, _, hr, _⟩ := endTournament_returns_best h ht hc hne
      exact ⟨s1, hr⟩

/-- C21: `chessEndTournament` returns the first error that applies, in the
order `CHESS_NULL_ARGUMENT` (no system), `CHESS_INVALID_ID` (the tournament id is
not positive), `CHESS_TOURNAMENT_NOT_EXIST`, `CHESS_TOURNAMENT_ENDED` (the winner
of the tournament is set), `CHESS_NO_GAMES` (the tournament has no game), and an
error leaves the system as it is; in a reachable state it returns
`CHESS_SUCCESS` when none of them applies, and only then. -/
theorem chessEndTournament_error_order (s : ChessSystem) (h : Reachable s) (tid : Int) :
    chessEndTournament none tid = some (ChessResult.CHESS_NULL_ARGUMENT, none) ∧
    (tid ≤ 0 →
      chessEndTournament (some s) tid = some (ChessResult.CHESS_INVALID_ID, some s)) ∧
    (0 < tid → tournamentRecord s tid = none →
      chessEndTournament (some s) tid
        = some (ChessResult.CHESS_TOURNAMENT_NOT_EXIST, some s)) ∧
    (∀ t, 0 < tid → tournamentRecord s tid = some t → t.winner ≠ TOURNAMENT_NOT_ENDED →
      chessEndTournament (some s) tid = some (ChessResult.CHESS_TOURNAMENT_ENDED, some s)) ∧
    (∀ t, 0 < tid → tournamentRecord s tid = some t → t.winner = TOURNAMENT_NOT_ENDED →
      tournamentGames t = [] →
      chessEndTournament (some s) tid = some (ChessResult.CHESS_NO_GAMES, some s)) ∧
    (∀ t, 0 < tid → tournamentRecord s tid = some t → t.winner = TOURNAMENT_NOT_ENDED →
      tournamentGames t ≠ [] →
      ∃ s1, chessEndTournament (some s) tid = some (ChessResult.CHESS_SUCCESS, some s1)) ∧
    (∀ s1, chessEndTournament (some s) tid = some (ChessResult.CHESS_SUCCESS, s1) →
      0 < tid ∧ ∃ t, tournamentRecord s tid = some t ∧ t.winner = TOURNAMENT_NOT_ENDED ∧
        tournamentGames t ≠ []) := by
  have hce := chessEndTournamentErrorCheck_eq s tid
  refine ⟨by simp [chessEndTournament, chessEndTournamentErrorCheck], ?_, ?_, ?_, ?_, ?_, ?_⟩
  · intro h0
    rw [if_pos h0] at hce
    exact chessEndTournament_error hce (by decide)
  · intro h0 ht
    rw [if_neg (not_le.mpr h0), ht] at hce
    exact chessEndTournament_error hce (by decide)
  · intro t h0 ht hw
    rw [if_neg (not_le.mpr h0), ht] at hce
    simp only [hw, ne_eq, not_false_eq_true, if_true] at hce
    exact chessEndTournament_error hce (by decide)
  · intro t h0 ht hw hg
    rw [if_neg (not_le.mpr h0), ht] at hce
    have hsz := (tournamentGames_eq_nil_iff (h.inv.lookup ht)).mp hg
    simp only [hw, ne_eq, not_true_eq_false, if_false, hsz, if_true] at hce
    exact chessEndTournament_error hce (by decide)
  · intro t h0 ht hw hg
    rw [if_neg (not_le.mpr h0), ht] at hce
    have hsz : ¬ mapGetSize t.games = 0 :=
      fun e => hg ((tournamentGames_eq_nil_iff (h.inv.lookup ht)).mpr e)
    simp only [hw, ne_eq, not_true_eq_false, if_false, hsz] at hce
    exact chessEndTournament_returns h hce
  · intro s1 hr
    have hc : chessEndTournamentErrorCheck (some s) tid = ChessResult.CHESS_SUCCESS := by
      by_contra hne
      unfold chessEndTournament at hr
      rw [if_pos hne] at hr
      simp only [Option.some.injEq, Prod.mk.injEq] at hr
      exact hne hr.1
    rw [hc] at hce
    by_cases h0 : tid ≤ 0
    · rw [if_pos h0] at hce
      exact absurd hce (by decide)
    · rw [if_neg h0] at hce
      cases ht : tournamentRecord s tid with
      | none =>
        rw [ht] at hce
        exact absurd hce (by decide)
      | some t =>
        rw [ht] at hce
        simp only at hce
        split_ifs at hce with hw hsz
        refine ⟨not_le.mp h0, t, rfl, not_not.mp hw, ?_⟩
        exact fun e => hsz ((tournamentGames_eq_nil_iff (h.inv.lookup ht)).mp e)

theorem chessEndTournament_error_order_witness :
    Reachable (stateAfter callsPlayed) ∧
    tournamentRecord (stateAfter callsPlayed) 1
      = some (tournamentIn (stateAfter callsPlayed) 1) ∧
    (tournamentIn (stateAfter callsPlayed) 1).winner = TOURNAMENT_NOT_ENDED ∧
    tournamentGames (tournamentIn (stateAfter callsPlayed) 1) ≠ [] ∧
    ∃ s1, chessEndTournament (some (stateAfter callsPlayed)) 1
      = some (ChessResult.CHESS_SUCCESS, some s1) :=
  ⟨stateAfter_reachable callsPlayed callsPlayed_run, by decide, by decide, by decide,
    (chessEndTournament_error_order (stateAfter callsPlayed)
      (stateAfter_reachable callsPlayed callsPlayed_run) 1).2.2.2.2.2.1
      (tournamentIn (stateAfter callsPlayed) 1) (by decide) (by decide) (by decide)
      (by decide)⟩

theorem isLocationValid_iff (str : String) :
    isLocationValid str = true ↔
      ∃ c rest, str.data = c :: rest ∧ 'A' ≤ c ∧ c ≤ 'Z' ∧
        ∀ x ∈ rest, x = ' ' ∨ ('a' ≤ x ∧ x ≤ 'z') := by
  unfold isLocationValid
  cases hd : str.data with
  | nil => simp
  | cons c rest =>
    by_cases hc : c < 'A' ∨ c > 'Z'
    · simp only [hc, if_true, Bool.false_eq_true, false_iff]
      rintro ⟨c1, rest1, he, h1, h2, _⟩
      obtain ⟨rfl, rfl⟩ := List.cons.inj he
      rcases hc with hc | hc
      · exact absurd h1 (not_le.mpr hc)
      · exact absurd h2 (not_le.mpr hc)
    · simp only [hc, if_false, List.all_eq_true, Bool.not_eq_true', Bool.and_eq_false_imp,
        decide_eq_true_eq, Bool.or_eq_false_iff, decide_eq_false_iff_not, not_lt, gt_iff_lt]
      push_neg at hc
      constructor
      · intro hall
        refine ⟨c, rest, rfl, hc.1, hc.2, ?_⟩
        intro x hx
        by_cases hsp : x = ' '
        · exact Or.inl hsp
        · exact Or.inr (hall x hx hsp)
      · rintro ⟨c1, rest1, he, _, _, hall⟩ x hx hsp
        obtain ⟨rfl, rfl⟩ := List.cons.inj he
        rcases hall x hx with e | e
        · exact absurd e hsp
        · exact e

theorem chessAddTournamentErrorCheck_eq (s : ChessSystem) (tid max : Int) (location : String) :
    chessAddTournamentErrorCheck (some s) tid max (some location) =
      if tid ≤ 0 then ChessResult.CHESS_INVALID_ID
      else if (tournamentRecord s tid).isSome = true then
        ChessResult.CHESS_TOURNAMENT_ALREADY_EXISTS
      else if isLocationValid location = false then ChessResult.CHESS_INVALID_LOCATION
      else if max ≤ 0 then ChessResult.CHESS_INVALID_MAX_GAMES
      else ChessResult.CHESS_SUCCESS := by
  unfold chessAddTournamentErrorCheck
  simp only [mapContains_tournamentRecord, isValidID, isMaxGamesPerPlayerValid,
    decide_eq_false_iff_not, gt_iff_lt, not_lt]

theorem chessAddTournament_error {chess : Option ChessSystem} {tid max : Int}
    {loc : Option String} {r : ChessResult}
    (hc : chessAddTournamentErrorCheck chess tid max loc = r)
    (hr : r ≠ ChessResult.CHESS_SUCCESS) :
    chessAddTournament chess tid max loc = some (r, chess) := by
  unfold chessAddTournament
  rw [hc]
  simp [hr]

theorem chessAddTournament_returns {s : ChessSystem} (h : SysInv s) {tid max : Int}
    {location : String}
    (hc : chessAddTournamentErrorCheck (some s) tid max (some location)
      = ChessResult.CHESS_SUCCESS) :
    ∃ s1, chessAddTournament (some s) tid max (some location)
        = some (ChessResult.CHESS_SUCCESS, some s1) ∧
      s1.players = s.players ∧
      ∀ tid1, tournamentRecord s1 tid1 =
        if tid = tid1 then some (tournamentCreate max location) else tournamentRecord s tid1 := by
  refine ⟨{ s with tournaments := (mapPut compareKeyTournamentID s.tournaments (some tid)
    (some (tournamentCreate max location))).2 }, ?_, rfl, ?_⟩
  · unfold chessAddTournament
    simp [hc, mapPut_fst]
  · intro tid1
    exact tournamentRecord_mapPut h tid tid1 _

theorem tournamentCreate_empty (max : Int) (location : String) :
    tournamentGames (tournamentCreate max location) = [] ∧
    mapGetSize (tournamentCreate max location).games = 0 ∧
    mapGetSize (tournamentCreate max location).players = 0 ∧
    (∀ q, playerRecord (tournamentCreate max location).players q = none) := by
  refine ⟨?_, rfl, rfl, fun q => playerRecord_mapCreate q⟩
  simp [tournamentGames, tournamentCreate, mapForEach, mapCreate, mapTraverse, mapGetFirst,
    mapGetSize, mapTraverseLoop]

/-- C22: `chessAddTournament` returns the first error that applies, in the
order `CHESS_NULL_ARGUMENT` (no system or no location), `CHESS_INVALID_ID` (the
id is not positive), `CHESS_TOURNAMENT_ALREADY_EXISTS`, `CHESS_INVALID_LOCATION`,
`CHESS_INVALID_MAX_GAMES` (the maximum is not positive), and an error leaves the
system as it is; otherwise it returns `CHESS_SUCCESS` and the tournament is
stored with no games, no players, no winner, and the given maximum and
location.  A location is valid when it is not empty, its first character is an
uppercase letter and every later character is a lowercase letter or a space. -/
theorem chessAddTournament_error_order (s : ChessSystem) (h : Reachable s) (tid max : Int)
    (location : String) :
    (∀ chess loc, chess = none ∨ loc = none →
      chessAddTournament chess tid max loc
        = some (ChessResult.CHESS_NULL_ARGUMENT, chess)) ∧
    (tid ≤ 0 →
      chessAddTournament (some s) tid max (some location)
        = some (ChessResult.CHESS_INVALID_ID, some s)) ∧
    (0 < tid → (tournamentRecord s tid).isSome = true →
      chessAddTournament (some s) tid max (some location)
        = some (ChessResult.CHESS_TOURNAMENT_ALREADY_EXISTS, some s)) ∧
    (0 < tid → tournamentRecord s tid = none → isLocationValid location = false →
      chessAddTournament (some s) tid max (some location)
        = some (ChessResult.CHESS_INVALID_LOCATION, some s)) ∧
    (0 < tid → tournamentRecord s tid = none → isLocationValid location = true → max ≤ 0 →
      chessAddTournament (some s) tid max (some location)
        = some (ChessResult.CHESS_INVALID_MAX_GAMES, some s)) ∧
    (0 < tid → tournamentRecord s tid = none → isLocationValid location = true → 0 < max →
      ∃ s1 t1, chessAddTournament (some s) tid max (some location)
          = some (ChessResult.CHESS_SUCCESS, some s1) ∧
        tournamentRecord s1 tid = some t1 ∧ tournamentGames t1 = [] ∧
        mapGetSize t1.games = 0 ∧ mapGetSize t1.players = 0 ∧
        (∀ q, playerRecord t1.players q = none) ∧ t1.winner = TOURNAMENT_NOT_ENDED ∧
        t1.max_games_per_player = max ∧ t1.location = location) ∧
    (isLocationValid location = true ↔
      ∃ c rest, location.data = c :: rest ∧ 'A' ≤ c ∧ c ≤ 'Z' ∧
        ∀ x ∈ rest, x = ' ' ∨ ('a' ≤ x ∧ x ≤ 'z')) := by
  have hce := chessAddTournamentErrorCheck_eq s tid max location
  refine ⟨?_, ?_, ?_, ?_, ?_, ?_, isLocationValid_iff location⟩
  · intro chess loc hnull
    apply chessAddTournament_error _ (by decide)
    rcases hnull with rfl | rfl
    · rfl
    · cases chess <;> rfl
  · intro h0
    rw [if_pos h0] at hce
    exact chessAddTournament_error hce (by decide)
  · intro h0 ht
    rw [if_neg (not_le.mpr h0), if_pos ht] at hce
    exact chessAddTournament_error hce (by decide)
  · intro h0 ht hl
    rw [if_neg (not_le.mpr h0), ht] at hce
    simp only [Option.isSome_none, Bool.false_eq_true, if_false, hl, if_true] at hce
    exact chessAddTournament_error hce (by decide)
  · intro h0 ht hl hm
    rw [if_neg (not_le.mpr h0), ht] at hce
    simp only [Option.isSome_none, Bool.false_eq_true, if_false, hl, Bool.true_eq_false, hm,
      if_true] at hce
    exact chessAddTournament_error hce (by decide)
  · intro h0 ht hl hm
    rw [if_neg (not_le.mpr h0), ht] at hce
    simp only [Option.isSome_none, Bool.false_eq_true, if_false, hl, Bool.true_eq_false,
      not_le.mpr hm] at hce
    obtain ⟨s1, hr, _, hrec⟩ := chessAddTournament_returns h.inv hce
    have hrec1 := hrec tid
    rw [if_pos rfl] at hrec1
    obtain ⟨e1, e2, e3, e4⟩ := tournamentCreate_empty max location
    exact ⟨s1, _, hr, hrec1, e1, e2, e3, e4, rfl, rfl, rfl⟩

theorem chessAddTournament_error_order_witness :
    (0 : Int) < 1 ∧ tournamentRecord chessCreate 1 = none ∧ isLocationValid "London" = true ∧
    ∃ s1 t1, chessAddTournament (some chessCreate) 1 2 (some "London")
        = some (ChessResult.CHESS_SUCCESS, some s1) ∧
      tournamentRecord s1 1 = some t1 ∧ tournamentGames t1 = [] ∧
      mapGetSize t1.games = 0 ∧ mapGetSize t1.players = 0 ∧
      (∀ q, playerRecord t1.players q = none) ∧ t1.winner = TOURNAMENT_NOT_ENDED ∧
      t1.max_games_per_player = 2 ∧ t1.location = "London" :=
  ⟨by decide, by decide, by decide,
    (chessAddTournament_error_order chessCreate Reachable.create 1 2 "London").2.2.2.2.2.1
      (by decide) (by decide) (by decide) (by decide)⟩

theorem countGames_gamesOf {t : Tournament} (ht : TournamentInv t) (p : Int) :
    countGamesPlayerPlayedInTournament t p = ((gamesOf t p).length : Int) := by
  rw [countGames_eq ht, gamesOf, tournamentGames_of_inv ht, List.filter_map, List.length_map]
  rfl

theorem isGameExist_iff {t : Tournament} (ht : TournamentInv t) (a b : Int) :
    isGameExistInTournament t a b = true ↔ gamesBetween t a b ≠ [] := by
  unfold isGameExistInTournament gamesBetween
  rw [tournamentGames_of_inv ht, mapForEach_wf ht.1, List.any_eq_true, ne_eq,
    List.filter_eq_nil_iff]
  simp only [mapKeys, List.mem_map, not_forall, exists_prop, Decidable.not_not]
  constructor
  · rintro ⟨k, ⟨n, hn, rfl⟩, hk⟩
    rw [gameRecord_of_mem ht.1 hn] at hk
    exact ⟨n.2, ⟨n, hn, rfl⟩, hk⟩
  · rintro ⟨g, ⟨n, hn, rfl⟩, hk⟩
    refine ⟨n.1, ⟨n, hn, rfl⟩, ?_⟩
    rw [gameRecord_of_mem ht.1 hn]
    exact hk

theorem chessAddGameErrorCheck_eq {s : ChessSystem} (h : SysInv s) (tid p1 p2 : Int)
    (w : Winner) (time : Int) :
    chessAddGameErrorCheck (some s) tid p1 p2 w time =
      if tid ≤ 0 ∨ p1 ≤ 0 ∨ p2 ≤ 0 ∨ p1 = p2 then ChessResult.CHESS_INVALID_ID
      else match tournamentRecord s tid with
        | none => ChessResult.CHESS_TOURNAMENT_NOT_EXIST
        | some t =>
          if t.winner ≠ TOURNAMENT_NOT_ENDED then ChessResult.CHESS_TOURNAMENT_ENDED
          else if gamesBetween t p1 p2 ≠ [] then ChessResult.CHESS_GAME_ALREADY_EXISTS
          else if time < 0 then ChessResult.CHESS_INVALID_PLAY_TIME
          else if t.max_games_per_player ≤ ((gamesOf t p1).length : Int) ∨
              t.max_games_per_player ≤ ((gamesOf t p2).length : Int) then
            ChessResult.CHESS_EXCEEDED_GAMES
          else ChessResult.CHESS_SUCCESS := by
  unfold chessAddGameErrorCheck
  simp only [mapContains_tournamentRecord, isValidID, decide_eq_false_iff_not, gt_iff_lt,
    not_lt]
  by_cases h0 : tid ≤ 0 ∨ p1 ≤ 0 ∨ p2 ≤ 0 ∨ p1 = p2
  · rw [if_pos h0, if_pos h0]
  · rw [if_neg h0, if_neg h0]
    cases ht : tournamentRecord s tid with
    | none => simp [ht]
    | some t =>
      have hti := h.lookup ht
      have ht0 := ht
      unfold tournamentRecord at ht0
      simp only [ht, Option.isSome_some, Bool.true_eq_false, if_false, ht0, tournamentGetWinner,
        isPlayTimeValid, ge_iff_le, decide_eq_false_iff_not, not_le, isMaxGamesPerPlayerExceeded,
        decide_eq_true_eq, countGames_gamesOf hti]
      by_cases hg : gamesBetween t p1 p2 ≠ []
      · rw [if_pos ((isGameExist_iff hti p1 p2).mpr hg), if_pos hg]
      · have : ¬ isGameExistInTournament t p1 p2 = true :=
          fun e => hg ((isGameExist_iff hti p1 p2).mp e)
        rw [if_neg this, if_neg hg]

theorem chessAddGame_error {chess : Option ChessSystem} {tid p1 p2 : Int} {w : Winner}
    {time : Int} {r : ChessResult}
    (hc : chessAddGameErrorCheck chess tid p1 p2 w time = r)
    (hr : r ≠ ChessResult.CHESS_SUCCESS) :
    chessAddGame chess tid p1 p2 w time = some (r, chess) := by
  unfold chessAddGame
  rw [hc]
  simp [hr]

/-- C23: `chessAddGame` returns the first error that applies, in the order
`CHESS_NULL_ARGUMENT` (no system), `CHESS_INVALID_ID` (the tournament id or a
player id is not positive, or the two player ids are equal),
`CHESS_TOURNAMENT_NOT_EXIST`, `CHESS_TOURNAMENT_ENDED` (the winner of the
tournament is set), `CHESS_GAME_ALREADY_EXISTS` (the tournament has a game
between the unordered pair of the two ids), `CHESS_INVALID_PLAY_TIME` (negative
play time), `CHESS_EXCEEDED_GAMES` (one of the two players has
`max_games_per_player` games or more in the tournament), and an error leaves
the system as it is; in a reachable state it returns `CHESS_SUCCESS` when none
of them applies. -/
theorem chessAddGame_error_order (s : ChessSystem) (h : Reachable s) (tid p1 p2 : Int)
    (w : Winner) (time : Int) :
    chessAddGame none tid p1 p2 w time = some (ChessResult.CHESS_NULL_ARGUMENT, none) ∧
    (tid ≤ 0 ∨ p1 ≤ 0 ∨ p2 ≤ 0 ∨ p1 = p2 →
      chessAddGame (some s) tid p1 p2 w time = some (ChessResult.CHESS_INVALID_ID, some s)) ∧
    (0 < tid → 0 < p1 → 0 < p2 → p1 ≠ p2 →
      (tournamentRecord s tid = none →
        chessAddGame (some s) tid p1 p2 w time
          = some (ChessResult.CHESS_TOURNAMENT_NOT_EXIST, some s)) ∧
      ∀ t, tournamentRecord s tid = some t →
        (t.winner ≠ TOURNAMENT_NOT_ENDED →
          chessAddGame (some s) tid p1 p2 w time
            = some (ChessResult.CHESS_TOURNAMENT_ENDED, some s)) ∧
        (t.winner = TOURNAMENT_NOT_ENDED →
          (gamesBetween t p1 p2 ≠ [] →
            chessAddGame (some s) tid p1 p2 w time
              = some (ChessResult.CHESS_GAME_ALREADY_EXISTS, some s)) ∧
          (gamesBetween t p1 p2 = [] →
            (time < 0 →
              chessAddGame (some s) tid p1 p2 w time
                = some (ChessResult.CHESS_INVALID_PLAY_TIME, some s)) ∧
            (0 ≤ time →
              (t.max_games_per_player ≤ ((gamesOf t p1).length : Int) ∨
                t.max_games_per_player ≤ ((gamesOf t p2).length : Int) →
                chessAddGame (some s) tid p1 p2 w time
                  = some (ChessResult.CHESS_EXCEEDED_GAMES, some s)) ∧
              (((gamesOf t p1).length : Int) < t.max_games_per_player →
                ((gamesOf t p2).length : Int) < t.max_games_per_player →
                ∃ s1, chessAddGame (some s) tid p1 p2 w time
                  = some (ChessResult.CHESS_SUCCESS, some s1)))))) := by
  have hce := chessAddGameErrorCheck_eq h.inv tid p1 p2 w time
  refine ⟨by simp [chessAddGame, chessAddGameErrorCheck], ?_, ?_⟩
  · intro h0
    rw [if_pos h0] at hce
    exact chessAddGame_error hce (by decide)
  · intro h0 h1 h2 h3
    have hn : ¬ (tid ≤ 0 ∨ p1 ≤ 0 ∨ p2 ≤ 0 ∨ p1 = p2) := by
      rintro (e | e | e | e)
      · omega
      · omega
      · omega
      · exact h3 e
    rw [if_neg hn] at hce
    refine ⟨?_, ?_⟩
    · intro ht
      rw [ht] at hce
      exact chessAddGame_error hce (by decide)
    · intro t ht
      rw [ht] at hce
      simp only at hce
      refine ⟨?_, ?_⟩
      · intro hw
        rw [if_pos hw] at hce
        exact chessAddGame_error hce (by decide)
      · intro hw
        rw [if_neg (not_not.mpr hw)] at hce
        refine ⟨?_, ?_⟩
        · intro hg
          rw [if_pos hg] at hce
          exact chessAddGame_error hce (by decide)
        · intro hg
          rw [if_neg (not_not.mpr hg)] at hce
          refine ⟨?_, ?_⟩
          · intro htime
            rw [if_pos htime] at hce
            exact chessAddGame_error hce (by decide)
          · intro htime
            rw [if_neg (not_lt.mpr htime)] at hce
            refine ⟨?_, ?_⟩
            · intro hmax
              rw [if_pos hmax] at hce
              exact chessAddGame_error hce (by decide)
            · intro hm1 hm2
              have hn2 : ¬ (t.max_games_per_player ≤ ((gamesOf t p1).length : Int) ∨
                  t.max_games_per_player ≤ ((gamesOf t p2).length : Int)) := by
                rintro (e | e) <;> omega
              rw [if_neg hn2] at hce
              exact chessAddGame_returns h.inv hce

theorem chessAddGame_error_order_witness :
    Reachable (stateAfter callsPlayed) ∧
    tournamentRecord (stateAfter callsPlayed) 1
      = some (tournamentIn (stateAfter callsPlayed) 1) ∧
    (tournamentIn (stateAfter callsPlayed) 1).winner = TOURNAMENT_NOT_ENDED ∧
    gamesBetween (tournamentIn (stateAfter callsPlayed) 1) 1 3 = [] ∧
    ((gamesOf (tournamentIn (stateAfter callsPlayed) 1) 1).length : Int) <
      (tournamentIn (stateAfter callsPlayed) 1).max_games_per_player ∧
    ((gamesOf (tournamentIn (stateAfter callsPlayed) 1) 3).length : Int) <
      (tournamentIn (stateAfter callsPlayed) 1).max_games_per_player ∧
    ∃ s1, chessAddGame (some (stateAfter callsPlayed)) 1 1 3 Winner.DRAW 5
      = some (ChessResult.CHESS_SUCCESS, some s1) :=
  ⟨stateAfter_reachable callsPlayed callsPlayed_run, by decide, by decide, by decide,
    by decide, by decide,
    ((((((chessAddGame_error_order (stateAfter callsPlayed)
      (stateAfter_reachable callsPlayed callsPlayed_run) 1 1 3 Winner.DRAW 5).2.2
      (by decide) (by decide) (by decide) (by decide)).2
      (tournamentIn (stateAfter callsPlayed) 1) (by decide)).2 (by decide)).2
      (by decide)).2 (by decide)).2 (by decide) (by decide)⟩

/-! ## Claims about the limits of `chessAddGame` -/

theorem gamesBetween_comm (t : Tournament) (a b : Int) :
    gamesBetween t a b = gamesBetween t b a := by
  unfold gamesBetween
  congr 1
  funext g
  exact Bool.or_comm _ _

theorem length_filter_map_le {α : Type} (f : α → α) (P : α → Bool) (l : List α)
    (h : ∀ x ∈ l, P (f x) = true → P x = true) :
    ((l.map f).filter P).length ≤ (l.filter P).length := by
  induction l with
  | nil => simp
  | cons x rest ih =>
    have ih1 := ih (fun y hy => h y (List.mem_cons_of_mem _ hy))
    have hx := h x (List.mem_cons_self _ _)
    simp only [List.map_cons, List.filter_cons]
    by_cases hp : P (f x) = true
    · rw [if_pos hp, if_pos (hx hp)]
      simp only [List.length_cons]
      omega
    · rw [if_neg hp]
      split
      · simp only [List.length_cons]
        omega
      · exact ih1

theorem isPlayerInCurrentGame_afterRemoval {p q : Int} (hp : 0 < p) (hq : 0 < q) {g : Game}
    (hgi : GameInv g)
    (h : isPlayerInCurrentGame (some (gameAfterRemoval p g)) q = true) :
    isPlayerInCurrentGame (some g) q = true := by
  unfold isPlayerInCurrentGame at h ⊢
  simp only [gameGetFirstPlayer, gameGetSecondPlayer, Bool.or_eq_true, decide_eq_true_eq]
    at h ⊢
  rcases h with h | h
  · left
    rw [← (gameAfterRemoval_first hp (by omega)).1]
    exact h
  · right
    rw [← (gameAfterRemoval_second hp hgi (by omega)).1]
    exact h

theorem isPair_afterRemoval {p a b : Int} (hp : 0 < p) (ha : 0 < a) (hb : 0 < b) {g : Game}
    (hgi : GameInv g)
    (h : ((decide ((gameAfterRemoval p g).first_player = a) &&
          decide ((gameAfterRemoval p g).second_player = b)) ||
        (decide ((gameAfterRemoval p g).first_player = b) &&
          decide ((gameAfterRemoval p g).second_player = a))) = true) :
    ((decide (g.first_player = a) && decide (g.second_player = b)) ||
      (decide (g.first_player = b) && decide (g.second_player = a))) = true := by
  simp only [Bool.or_eq_true, Bool.and_eq_true, decide_eq_true_eq] at h ⊢
  rcases h with ⟨h1, h2⟩ | ⟨h1, h2⟩
  · left
    rw [← (gameAfterRemoval_first hp (by omega)).1,
      ← (gameAfterRemoval_second hp hgi (by omega)).1]
    exact ⟨h1, h2⟩
  · right
    rw [← (gameAfterRemoval_first hp (by omega)).1,
      ← (gameAfterRemoval_second hp hgi (by omega)).1]
    exact ⟨h1, h2⟩

theorem tournamentGames_removed {p : Int} {t t1 : Tournament} (ht : TournamentInv t)
    (ht1 : TournamentInv t1) (hrem : RemovedFrom p t t1) :
    tournamentGames t1 = tournamentGames t ∨
    tournamentGames t1 = (tournamentGames t).map (gameAfterRemoval p) := by
  by_cases hw : t.winner = TOURNAMENT_NOT_ENDED
  · right
    rw [tournamentGames_of_inv ht, tournamentGames_of_inv ht1, hrem.2.2.2.1 hw]
    simp [List.map_map, Function.comp_def]
  · left
    rw [tournamentGames_of_inv ht, tournamentGames_of_inv ht1, hrem.2.2.1 hw]

theorem tournamentGames_added {t t1 : Tournament} {p p1 : Map Int Player}
    {first second : Int} {w : Winner} {time : Int}
    (ht : TournamentInv t) (ht1 : TournamentInv t1) (hne : first ≠ second)
    (h : chessAddGameUpdate t p first second w time = some (t1, p1)) :
    tournamentGames t1 = tournamentGames t ++ [gameCreate w time first second] := by
  rw [tournamentGames_of_inv ht, tournamentGames_of_inv ht1,
    (chessAddGameUpdate_fields ht hne h).1]
  simp

theorem CallChanges.limits_step {players players1 : Map Int Player} {c : Call}
    {r : ChessResult} {tid : Int} {t t1 : Tournament} (ht : TournamentInv t)
    (ht1 : TournamentInv t1) (hgi : ∀ n ∈ t.games.nodes, GameInv n.2) (hl : LimitsInv t)
    (hadd : ∀ p1 p2 w time, c = Call.addGame tid p1 p2 w time →
      r = ChessResult.CHESS_SUCCESS →
      gamesBetween t p1 p2 = [] ∧ ((gamesOf t p1).length : Int) < t.max_games_per_player ∧
        ((gamesOf t p2).length : Int) < t.max_games_per_player)
    (h : CallChanges players c r tid t t1 players1) : LimitsInv t1 := by
  rcases h with rfl | ⟨p1, p2, w, time, hc, hr, _, hp1, hp2, hne, hup⟩ | ⟨cw, _, _, _, rfl⟩ |
    ⟨p, _, _, hp, hrem⟩
  · exact hl
  · obtain ⟨hnone, hm1, hm2⟩ := hadd p1 p2 w time hc hr
    have hgames := tournamentGames_added ht ht1 hne hup
    have hmax := (chessAddGameUpdate_fields ht hne hup).2.2.1
    constructor
    · intro q hq
      have h0 := hl.1 q hq
      unfold gamesOf at h0 hm1 hm2 ⊢
      rw [hgames, hmax, List.filter_append, List.length_append]
      simp only [List.filter_cons, List.filter_nil, isPlayerInCurrentGame, gameGetFirstPlayer,
        gameGetSecondPlayer, gameCreate, Bool.or_eq_true, decide_eq_true_eq] at h0 hm1 hm2 ⊢
      by_cases e1 : p1 = q
      · subst e1
        simp only [true_or, if_true, List.length_cons, List.length_nil]
        push_cast
        omega
      · by_cases e2 : p2 = q
        · subst e2
          simp only [or_true, if_true, List.length_cons, List.length_nil]
          push_cast
          omega
        · simp only [e1, e2, or_self, if_false, List.length_nil]
          push_cast
          omega
    · intro a b ha hb
      have h0 := hl.2 a b ha hb
      have hnone1 : gamesBetween t p2 p1 = [] := by
        rw [gamesBetween_comm]
        exact hnone
      unfold gamesBetween at h0 hnone hnone1 ⊢
      rw [hgames, List.filter_append, List.length_append]
      simp only [List.filter_cons, List.filter_nil, gameCreate, Bool.or_eq_true,
        Bool.and_eq_true, decide_eq_true_eq]
      by_cases e : (p1 = a ∧ p2 = b) ∨ (p1 = b ∧ p2 = a)
      · rw [if_pos e]
        rcases e with ⟨rfl, rfl⟩ | ⟨rfl, rfl⟩
        · rw [hnone]
          simp
        · rw [hnone1]
          simp
      · rw [if_neg e]
        simpa using h0
  · exact hl
  · have hmax := hrem.1.2.1
    have hgi1 : ∀ g ∈ tournamentGames t, GameInv g := by
      intro g hg
      rw [tournamentGames_of_inv ht] at hg
      obtain ⟨n, hn, rfl⟩ := List.mem_map.mp hg
      exact hgi n hn
    rcases tournamentGames_removed ht ht1 hrem with hg | hg
    · constructor
      · intro q hq
        have h0 := hl.1 q hq
        unfold gamesOf at h0 ⊢
        rw [hg, hmax]
        exact h0
      · intro a b ha hb
        have h0 := hl.2 a b ha hb
        unfold gamesBetween at h0 ⊢
        rw [hg]
        exact h0
    · constructor
      · intro q hq
        have h0 := hl.1 q hq
        unfold gamesOf at h0 ⊢
        rw [hg, hmax]
        have := length_filter_map_le (gameAfterRemoval p)
          (fun g => isPlayerInCurrentGame (some g) q) (tournamentGames t)
          (fun g hg0 hx => isPlayerInCurrentGame_afterRemoval hp hq (hgi1 g hg0) hx)
        omega
      · intro a b ha hb
        have h0 := hl.2 a b ha hb
        unfold gamesBetween at h0 ⊢
        rw [hg]
        have := length_filter_map_le (gameAfterRemoval p)
          (fun g => (decide (g.first_player = a) && decide (g.second_player = b)) ||
            (decide (g.first_player = b) && decide (g.second_player = a))) (tournamentGames t)
          (fun g hg0 hx => isPair_afterRemoval hp ha hb (hgi1 g hg0) hx)
        omega

theorem Reachable.limits {s : ChessSystem} (h : Reachable s) :
    ∀ tid t, tournamentRecord s tid = some t → LimitsInv t := by
  revert s
  apply Reachable.call_induction
  · intro tid t ht
    simp [tournamentRecord, chessCreate, mapGet, mapContains, mapCreate, mapGetSize] at ht
  · intro s s1 c r hs ih hr tid t1 ht1
    have hs1 := Call.run_reachable hs hr
    cases h0 : tournamentRecord s tid with
    | none =>
      obtain ⟨max, location, _, _, rfl⟩ := Call.run_new hs.inv hs.links hr h0 ht1
      have hmax := (hs1.links.2 tid _ ht1).2.2.1
      have hg := (tournamentCreate_empty max location).1
      constructor
      · intro p _
        unfold gamesOf
        rw [hg]
        simp only [List.filter_nil, List.length_nil]
        exact le_of_lt hmax
      · intro a b _ _
        unfold gamesBetween
        rw [hg]
        simp
    | some t =>
      rcases Call.run_frame hs.inv hs.links hr h0 with ⟨_, _, hnone⟩ | ⟨t2, ht2, hch⟩
      · rw [hnone] at ht1
        exact absurd ht1 (by simp)
      · rw [ht2] at ht1
        obtain rfl := Option.some.inj ht1
        have hti := hs.inv.lookup h0
        apply CallChanges.limits_step hti (hs1.inv.lookup ht2) (hs.links.2 tid t h0).2.2.2.1
          (ih tid t h0) _ hch
        intro p1 p2 w time hc hres
        subst hc
        subst hres
        have hcheck := ((chessAddGame_effect hs.inv hr).2 rfl).1
        rw [chessAddGameErrorCheck_eq hs.inv, h0] at hcheck
        simp only at hcheck
        split_ifs at hcheck with x1 x2 x3 x4 x5
        push_neg at x5
        exact ⟨not_not.mp x3, by omega, by omega⟩

/-- C24: in every reachable state, for every tournament and every valid player
id, the number of games of the tournament in which the id is a current
participant (what `countGamesPlayerPlayedInTournament` returns) is at most
`max_games_per_player`.  When one of the two players of a new game has that
many games, `chessAddGame` does not return `CHESS_SUCCESS` and leaves the system
as it is, and it returns `CHESS_EXCEEDED_GAMES` when no earlier check fails. -/
theorem games_per_player_within_limit (s : ChessSystem) (h : Reachable s) (tid : Int)
    (t : Tournament) (ht : tournamentRecord s tid = some t) :
    (∀ p, 0 < p →
      countGamesPlayerPlayedInTournament t p = ((gamesOf t p).length : Int) ∧
      countGamesPlayerPlayedInTournament t p ≤ t.max_games_per_player) ∧
    (∀ p1 p2 w time r s1,
      (countGamesPlayerPlayedInTournament t p1 = t.max_games_per_player ∨
        countGamesPlayerPlayedInTournament t p2 = t.max_games_per_player) →
      chessAddGame (some s) tid p1 p2 w time = some (r, s1) →
      r ≠ ChessResult.CHESS_SUCCESS ∧ s1 = some s) ∧
    (∀ p1 p2 w time, 0 < p1 → 0 < p2 → p1 ≠ p2 → t.winner = TOURNAMENT_NOT_ENDED →
      gamesBetween t p1 p2 = [] → 0 ≤ time →
      (countGamesPlayerPlayedInTournament t p1 = t.max_games_per_player ∨
        countGamesPlayerPlayedInTournament t p2 = t.max_games_per_player) →
      chessAddGame (some s) tid p1 p2 w time
        = some (ChessResult.CHESS_EXCEEDED_GAMES, some s)) := by
  have hti := h.inv.lookup ht
  have htid := (h.links.2 tid t ht).1
  refine ⟨?_, ?_, ?_⟩
  · intro p hp
    refine ⟨countGames_gamesOf hti p, ?_⟩
    rw [countGames_gamesOf hti p]
    exact (h.limits tid t ht).1 p hp
  · intro p1 p2 w time r s1 hmax hr
    rw [countGames_gamesOf hti, countGames_gamesOf hti] at hmax
    have hne : chessAddGameErrorCheck (some s) tid p1 p2 w time
        ≠ ChessResult.CHESS_SUCCESS := by
      intro hc
      rw [chessAddGameErrorCheck_eq h.inv, ht] at hc
      simp only at hc
      split_ifs at hc with x1 x2 x3 x4 x5
      push_neg at x5
      omega
    unfold chessAddGame at hr
    rw [if_pos hne] at hr
    simp only [Option.some.injEq, Prod.mk.injEq] at hr
    exact ⟨hr.1 ▸ hne, hr.2.symm⟩
  · intro p1 p2 w time hp1 hp2 hne hw hg htime hmax
    rw [countGames_gamesOf hti, countGames_gamesOf hti] at hmax
    apply chessAddGame_error _ (by decide)
    rw [chessAddGameErrorCheck_eq h.inv, ht]
    have hn : ¬ (tid ≤ 0 ∨ p1 ≤ 0 ∨ p2 ≤ 0 ∨ p1 = p2) := by
      rintro (e | e | e | e)
      · omega
      · omega
      · omega
      · exact hne e
    have hm : t.max_games_per_player ≤ ((gamesOf t p1).length : Int) ∨
        t.max_games_per_player ≤ ((gamesOf t p2).length : Int) := by
      rcases hmax with e | e
      · exact Or.inl (le_of_eq e.symm)
      · exact Or.inr (le_of_eq e.symm)
    simp only [hn, if_false, hw, ne_eq, not_true_eq_false, hg, not_lt.mpr htime, hm, if_true]

theorem callsPair_run : runCalls callsPair chessCreate = some (stateAfter callsPair) := by
  decide

theorem games_per_player_within_limit_witness :
    Reachable (stateAfter callsPair) ∧
    tournamentRecord (stateAfter callsPair) 1 = some (tournamentIn (stateAfter callsPair) 1) ∧
    (tournamentIn (stateAfter callsPair) 1).winner = TOURNAMENT_NOT_ENDED ∧
    gamesBetween (tournamentIn (stateAfter callsPair) 1) 1 3 = [] ∧
    countGamesPlayerPlayedInTournament (tournamentIn (stateAfter callsPair) 1) 1
      = (tournamentIn (stateAfter callsPair) 1).max_games_per_player ∧
    chessAddGame (some (stateAfter callsPair)) 1 1 3 Winner.DRAW 5
      = some (ChessResult.CHESS_EXCEEDED_GAMES, some (stateAfter callsPair)) :=
  ⟨stateAfter_reachable callsPair callsPair_run, by decide, by decide, by decide, by decide,
    (games_per_player_within_limit (stateAfter callsPair)
      (stateAfter_reachable callsPair callsPair_run) 1
      (tournamentIn (stateAfter callsPair) 1) (by decide)).2.2 1 3 Winner.DRAW 5
      (by decide) (by decide) (by decide) (by decide) (by decide) (by decide)
      (Or.inl (by decide))⟩

/-- C25: in every reachable state no tournament has two games between the same
unordered pair of valid player ids.  When a tournament that has not ended has a
game between `a` and `b` in which neither was removed, `chessAddGame` for the
tournament returns `CHESS_GAME_ALREADY_EXISTS` for `a`, `b` and for `b`, `a`
and leaves the system as it is; what the pair has played in one tournament has
no effect on the checks for another tournament, where the pair may play. -/
theorem no_two_games_of_a_pair (s : ChessSystem) (h : Reachable s) (tid : Int)
    (t : Tournament) (ht : tournamentRecord s tid = some t) :
    (∀ a b, 0 < a → 0 < b → (gamesBetween t a b).length ≤ 1) ∧
    (∀ a b w time, 0 < a → 0 < b → a ≠ b → t.winner = TOURNAMENT_NOT_ENDED →
      gamesBetween t a b ≠ [] →
      chessAddGame (some s) tid a b w time
        = some (ChessResult.CHESS_GAME_ALREADY_EXISTS, some s) ∧
      chessAddGame (some s) tid b a w time
        = some (ChessResult.CHESS_GAME_ALREADY_EXISTS, some s)) ∧
    (∀ tid2 t2 a b w time, tournamentRecord s tid2 = some t2 → 0 < a → 0 < b → a ≠ b →
      t2.winner = TOURNAMENT_NOT_ENDED → gamesBetween t2 a b = [] → 0 ≤ time →
      countGamesPlayerPlayedInTournament t2 a < t2.max_games_per_player →
      countGamesPlayerPlayedInTournament t2 b < t2.max_games_per_player →
      ∃ s1, chessAddGame (some s) tid2 a b w time
        = some (ChessResult.CHESS_SUCCESS, some s1)) := by
  have htid := (h.links.2 tid t ht).1
  refine ⟨(h.limits tid t ht).2, ?_, ?_⟩
  · intro a b w time ha hb hne hw hg
    have key : ∀ x y : Int, 0 < x → 0 < y → x ≠ y → gamesBetween t x y ≠ [] →
        chessAddGame (some s) tid x y w time
          = some (ChessResult.CHESS_GAME_ALREADY_EXISTS, some s) := by
      intro x y hx hy hxy hgxy
      apply chessAddGame_error _ (by decide)
      rw [chessAddGameErrorCheck_eq h.inv, ht]
      have hn : ¬ (tid ≤ 0 ∨ x ≤ 0 ∨ y ≤ 0 ∨ x = y) := by
        rintro (e | e | e | e)
        · omega
        · omega
        · omega
        · exact hxy e
      simp only [hn, if_false, hw, ne_eq, not_true_eq_false, hgxy, not_false_eq_true, if_true]
    refine ⟨key a b ha hb hne hg, key b a hb ha (Ne.symm hne) ?_⟩
    rw [gamesBetween_comm]
    exact hg
  · intro tid2 t2 a b w time ht2 ha hb hne hw hg htime hc1 hc2
    have hti2 := h.inv.lookup ht2
    have htid2 := (h.links.2 tid2 t2 ht2).1
    rw [countGames_gamesOf hti2] at hc1 hc2
    apply chessAddGame_returns h.inv
    rw [chessAddGameErrorCheck_eq h.inv, ht2]
    have hn : ¬ (tid2 ≤ 0 ∨ a ≤ 0 ∨ b ≤ 0 ∨ a = b) := by
      rintro (e | e | e | e)
      · omega
      · omega
      · omega
      · exact hne e
    have hm : ¬ (t2.max_games_per_player ≤ ((gamesOf t2 a).length : Int) ∨
        t2.max_games_per_player ≤ ((gamesOf t2 b).length : Int)) := by
      rintro (e | e) <;> omega
    simp only [hn, if_false, hw, ne_eq, not_true_eq_false, hg, not_lt.mpr htime, hm]

theorem no_two_games_of_a_pair_witness :
    Reachable (stateAfter callsPair) ∧
    tournamentRecord (stateAfter callsPair) 1 = some (tournamentIn (stateAfter callsPair) 1) ∧
    (tournamentIn (stateAfter callsPair) 1).winner = TOURNAMENT_NOT_ENDED ∧
    gamesBetween (tournamentIn (stateAfter callsPair) 1) 1 2 ≠ [] ∧
    (chessAddGame (some (stateAfter callsPair)) 1 1 2 Winner.DRAW 5
        = some (ChessResult.CHESS_GAME_ALREADY_EXISTS, some (stateAfter callsPair)) ∧
      chessAddGame (some (stateAfter callsPair)) 1 2 1 Winner.DRAW 5
        = some (ChessResult.CHESS_GAME_ALREADY_EXISTS, some (stateAfter callsPair))) ∧
    resultOf (chessAddGame (some (stateAfter callsPair)) 2 2 1 Winner.DRAW 5)
      = some ChessResult.CHESS_SUCCESS :=
  ⟨stateAfter_reachable callsPair callsPair_run, by decide, by decide, by decide,
    (no_two_games_of_a_pair (stateAfter callsPair)
      (stateAfter_reachable callsPair callsPair_run) 1
      (tournamentIn (stateAfter callsPair) 1) (by decide)).2.1 1 2 Winner.DRAW 5
      (by decide) (by decide) (by decide) (by decide) (by decide),
    by decide⟩

/-! ## The comparator of the rank map -/

theorem sign_values (x : ℚ) :
    (0 < x → sign x = -1) ∧ (x < 0 → sign x = 1) ∧ (x = 0 → sign x = 0) := by
  unfold sign
  refine ⟨?_, ?_, ?_⟩
  · intro h
    simp [h, not_lt.mpr (le_of_lt h)]
  · intro h
    simp [h, not_lt.mpr (le_of_lt h)]
  · intro h
    simp [h]

theorem compareKeyRank_values (a b : Rank) :
    (b.level < a.level → compareKeyRank a b = -1) ∧
    (a.level < b.level → compareKeyRank a b = 1) ∧
    (a.level = b.level → compareKeyRank a b = a.id - b.id) := by
  unfold compareKeyRank
  refine ⟨?_, ?_, ?_⟩
  · intro h
    have h1 : 0 < a.level - b.level := sub_pos.mpr h
    rw [if_pos (ne_of_gt h1)]
    exact (sign_values _).1 h1
  · intro h
    have h1 : a.level - b.level < 0 := sub_neg.mpr h
    rw [if_pos (ne_of_lt h1)]
    exact (sign_values _).2.1 h1
  · intro h
    have h1 : a.level - b.level = 0 := sub_eq_zero.mpr h
    rw [if_neg (not_not.mpr h1)]

theorem compareKeyRank_lt_iff (a b : Rank) :
    compareKeyRank a b < 0 ↔ b.level < a.level ∨ (a.level = b.level ∧ a.id < b.id) := by
  obtain ⟨h1, h2, h3⟩ := compareKeyRank_values a b
  rcases lt_trichotomy a.level b.level with h | h | h
  · rw [h2 h]
    constructor
    · intro e
      exact absurd e (by decide)
    · rintro (e | ⟨e, _⟩)
      · exact absurd e (not_lt.mpr (le_of_lt h))
      · exact absurd e (ne_of_lt h)
  · rw [h3 h]
    constructor
    · intro e
      exact Or.inr ⟨h, by omega⟩
    · rintro (e | ⟨_, e⟩)
      · exact absurd e (by rw [h]; exact lt_irrefl _)
      · omega
  · rw [h1 h]
    exact ⟨fun _ => Or.inl h, fun _ => by decide⟩

theorem compareKeyRank_pos_iff (a b : Rank) :
    0 < compareKeyRank a b ↔ a.level < b.level ∨ (a.level = b.level ∧ b.id < a.id) := by
  obtain ⟨h1, h2, h3⟩ := compareKeyRank_values a b
  rcases lt_trichotomy a.level b.level with h | h | h
  · rw [h2 h]
    exact ⟨fun _ => Or.inl h, fun _ => by decide⟩
  · rw [h3 h]
    constructor
    · intro e
      exact Or.inr ⟨h, by omega⟩
    · rintro (e | ⟨_, e⟩)
      · exact absurd e (by rw [h]; exact lt_irrefl _)
      · omega
  · rw [h1 h]
    constructor
    · intro e
      exact absurd e (by decide)
    · rintro (e | ⟨e, _⟩)
      · exact absurd e (not_lt.mpr (le_of_lt h))
      · exact absurd e (ne_of_gt h)

theorem compareKeyRank_eq_zero (a b : Rank) : compareKeyRank a b = 0 ↔ a = b := by
  obtain ⟨h1, h2, h3⟩ := compareKeyRank_values a b
  constructor
  · intro e
    rcases lt_trichotomy a.level b.level with h | h | h
    · rw [h2 h] at e
      exact absurd e (by decide)
    · rw [h3 h] at e
      cases a
      cases b
      simp only [Rank.mk.injEq]
      simp only at h e
      exact ⟨h, by omega⟩
    · rw [h1 h] at e
      exact absurd e (by decide)
  · rintro rfl
    rw [h3 rfl]
    omega

theorem compareKeyRank_order : CmpOrder compareKeyRank := by
  constructor
  · intro a b
    rw [compareKeyRank_lt_iff, compareKeyRank_pos_iff]
    constructor
    · rintro (h | ⟨h, h1⟩)
      · exact Or.inl h
      · exact Or.inr ⟨h.symm, h1⟩
    · rintro (h | ⟨h, h1⟩)
      · exact Or.inl h
      · exact Or.inr ⟨h.symm, h1⟩
  · intro a b c hab hbc
    have e1 := not_lt.mpr hab
    have e2 := not_lt.mpr hbc
    rw [compareKeyRank_pos_iff] at e1 e2
    apply not_lt.mp
    rw [compareKeyRank_pos_iff]
    push_neg at e1 e2 ⊢
    obtain ⟨x1, y1⟩ := e1
    obtain ⟨x2, y2⟩ := e2
    constructor
    · exact le_trans x2 x1
    · intro hac
      have hab1 : a.level = b.level := le_antisymm (by rw [hac]; exact x2) x1
      have hbc1 : b.level = c.level := by rw [← hab1, hac]
      have := y1 hab1
      have := y2 hbc1
      omega

/-! ## The rounding of a `double` -/

theorem roundHalfEven_cases (x : ℚ) :
    (roundHalfEven x = ⌊x⌋ ∧ x - ⌊x⌋ ≤ 1 / 2) ∨
    (roundHalfEven x = ⌊x⌋ + 1 ∧ 1 / 2 ≤ x - ⌊x⌋) := by
  unfold roundHalfEven
  split_ifs with h1 h2 h3
  · exact Or.inl ⟨rfl, le_of_lt h1⟩
  · exact Or.inr ⟨rfl, le_of_lt h2⟩
  · exact Or.inl ⟨rfl, not_lt.mp h2⟩
  · exact Or.inr ⟨rfl, not_lt.mp h1⟩

theorem roundHalfEven_nearest (x : ℚ) (z : Int) :
    |((roundHalfEven x : Int) : ℚ) - x| ≤ |(z : ℚ) - x| := by
  have hf1 : ((⌊x⌋ : Int) : ℚ) ≤ x := Int.floor_le x
  have hf2 : x < ((⌊x⌋ : Int) : ℚ) + 1 := Int.lt_floor_add_one x
  have hz : z ≤ ⌊x⌋ ∨ ⌊x⌋ + 1 ≤ z := by omega
  rcases roundHalfEven_cases x with ⟨e, h⟩ | ⟨e, h⟩
  · rw [e]
    rcases hz with hz | hz
    · have hzq : (z : ℚ) ≤ ((⌊x⌋ : Int) : ℚ) := by exact_mod_cast hz
      rw [abs_le]
      constructor
      · have := neg_abs_le ((z : ℚ) - x)
        have h3 : |(z : ℚ) - x| = x - z := by
          rw [abs_sub_comm]
          exact abs_of_nonneg (by linarith)
        linarith
      · have h3 : |(z : ℚ) - x| = x - z := by
          rw [abs_sub_comm]
          exact abs_of_nonneg (by linarith)
        linarith
    · have hzq : ((⌊x⌋ : Int) : ℚ) + 1 ≤ (z : ℚ) := by exact_mod_cast hz
      have h3 : |(z : ℚ) - x| = z - x := abs_of_nonneg (by linarith)
      rw [h3, abs_le]
      constructor <;> linarith
  · rw [e]
    push_cast
    rcases hz with hz | hz
    · have hzq : (z : ℚ) ≤ ((⌊x⌋ : Int) : ℚ) := by exact_mod_cast hz
      have h3 : |(z : ℚ) - x| = x - z := by
        rw [abs_sub_comm]
        exact abs_of_nonneg (by linarith)
      rw [h3, abs_le]
      constructor <;> linarith
    · have hzq : ((⌊x⌋ : Int) : ℚ) + 1 ≤ (z : ℚ) := by exact_mod_cast hz
      have h3 : |(z : ℚ) - x| = z - x := abs_of_nonneg (by linarith)
      rw [h3, abs_le]
      constructor <;> linarith

theorem roundHalfEven_intCast (z : Int) : roundHalfEven (z : ℚ) = z := by
  have h := roundHalfEven_nearest (z : ℚ) z
  rw [sub_self, abs_zero] at h
  have h0 : ((roundHalfEven (z : ℚ) : Int) : ℚ) - z = 0 := abs_eq_zero.mp (le_antisymm h (abs_nonneg _))
  have : ((roundHalfEven (z : ℚ) : Int) : ℚ) = (z : ℚ) := by linarith
  exact_mod_cast this

theorem doubleExponent_bounds {q : ℚ} (hq : q ≠ 0) :
    (2 : ℚ) ^ Int.log 2 |q| ≤ |q| ∧ |q| < (2 : ℚ) ^ (Int.log 2 |q| + 1) := by
  have hpos : 0 < |q| := abs_pos.mpr hq
  have h1 := Int.zpow_log_le_self (b := 2) (by norm_num) hpos
  have h2 := Int.lt_zpow_succ_log_self (b := 2) (by norm_num) |q|
  simp only [Nat.cast_ofNat] at h1 h2
  exact ⟨h1, h2⟩


theorem roundHalfEven_error (x : ℚ) : |((roundHalfEven x : Int) : ℚ) - x| ≤ 1 / 2 := by
  have hf1 : ((⌊x⌋ : Int) : ℚ) ≤ x := Int.floor_le x
  have hf2 : x < ((⌊x⌋ : Int) : ℚ) + 1 := Int.lt_floor_add_one x
  rcases roundHalfEven_cases x with ⟨e, h⟩ | ⟨e, h⟩
  · rw [e, abs_le]
    constructor <;> linarith
  · rw [e]
    push_cast
    rw [abs_le]
    constructor <;> linarith

theorem roundHalfEven_abs_le (x : ℚ) (n : Int) (h : |x| ≤ (n : ℚ)) :
    |roundHalfEven x| ≤ n := by
  have h1 := roundHalfEven_nearest x n
  have h2 := roundHalfEven_nearest x (-n)
  obtain ⟨ha, hb⟩ := abs_le.mp h
  have e1 : |(n : ℚ) - x| = (n : ℚ) - x := abs_of_nonneg (by linarith)
  have e2 : |((-n : Int) : ℚ) - x| = x + (n : ℚ) := by
    push_cast
    rw [abs_of_nonpos (by linarith)]
    ring
  rw [e1] at h1
  rw [e2] at h2
  obtain ⟨_, c2⟩ := abs_le.mp h1
  obtain ⟨c3, _⟩ := abs_le.mp h2
  rw [abs_le]
  constructor
  · have : ((-n : Int) : ℚ) ≤ ((roundHalfEven x : Int) : ℚ) := by
      push_cast
      linarith
    exact_mod_cast this
  · have : ((roundHalfEven x : Int) : ℚ) ≤ (n : ℚ) := by linarith
    exact_mod_cast this

/-- The scaled value: with `u = 2 ^ (Int.log 2 |q| - 52)`, the quotient `q / u`
lies between `2 ^ 52` and `2 ^ 53` in absolute value. -/
theorem doubleScale_bounds {q : ℚ} (hq : q ≠ 0) :
    0 < (2 : ℚ) ^ (Int.log 2 |q| - 52) ∧
    (2 : ℚ) ^ 52 ≤ |q / (2 : ℚ) ^ (Int.log 2 |q| - 52)| ∧
    |q / (2 : ℚ) ^ (Int.log 2 |q| - 52)| < (2 : ℚ) ^ 53 := by
  obtain ⟨h1, h2⟩ := doubleExponent_bounds hq
  have hu : 0 < (2 : ℚ) ^ (Int.log 2 |q| - 52) := zpow_pos (by norm_num) _
  have e1 : (2 : ℚ) ^ Int.log 2 |q| = (2 : ℚ) ^ 52 * (2 : ℚ) ^ (Int.log 2 |q| - 52) := by
    rw [← zpow_natCast (2 : ℚ) 52, ← zpow_add₀ (by norm_num : (2 : ℚ) ≠ 0)]
    congr 1
    push_cast
    ring
  have e2 : (2 : ℚ) ^ (Int.log 2 |q| + 1) = (2 : ℚ) ^ 53 * (2 : ℚ) ^ (Int.log 2 |q| - 52) := by
    rw [← zpow_natCast (2 : ℚ) 53, ← zpow_add₀ (by norm_num : (2 : ℚ) ≠ 0)]
    congr 1
    push_cast
    ring
  refine ⟨hu, ?_, ?_⟩
  · rw [abs_div, abs_of_pos hu, le_div_iff₀ hu, ← e1]
    exact h1
  · rw [abs_div, abs_of_pos hu, div_lt_iff₀ hu, ← e2]
    exact h2

theorem roundDouble_sub (q : ℚ) (hq : q ≠ 0) :
    roundDouble q - q =
      (((roundHalfEven (q / (2 : ℚ) ^ (Int.log 2 |q| - 52)) : Int) : ℚ)
        - q / (2 : ℚ) ^ (Int.log 2 |q| - 52)) * (2 : ℚ) ^ (Int.log 2 |q| - 52) := by
  have hu : (2 : ℚ) ^ (Int.log 2 |q| - 52) ≠ 0 := (zpow_pos (by norm_num) _).ne'
  unfold roundDouble
  rw [if_neg hq, sub_mul, div_mul_cancel₀ _ hu]

theorem roundDouble_isDouble (q : ℚ) : IsDouble (roundDouble q) := by
  by_cases hq : q = 0
  · refine ⟨0, 0, by norm_num, ?_⟩
    simp [roundDouble, hq]
  · obtain ⟨_, _, h3⟩ := doubleScale_bounds hq
    refine ⟨roundHalfEven (q / (2 : ℚ) ^ (Int.log 2 |q| - 52)), Int.log 2 |q| - 52, ?_, ?_⟩
    · have := roundHalfEven_abs_le (q / (2 : ℚ) ^ (Int.log 2 |q| - 52)) (2 ^ 53)
        (by push_cast; exact le_of_lt h3)
      exact this
    · unfold roundDouble
      rw [if_neg hq]

theorem roundHalfEven_scaled_nearest (x : ℚ) (e : Int) (hlo : (2 : ℚ) ^ 52 ≤ |x|)
    (m k : Int) (hm : |m| ≤ 2 ^ 53) :
    |((roundHalfEven x : Int) : ℚ) - x| * (2 : ℚ) ^ e
      ≤ |(m : ℚ) * (2 : ℚ) ^ k - x * (2 : ℚ) ^ e| := by
  have hu : 0 < (2 : ℚ) ^ e := zpow_pos (by norm_num) _
  have hmq : |(m : ℚ)| ≤ (2 : ℚ) ^ 53 := by
    have : ((|m| : Int) : ℚ) ≤ ((2 ^ 53 : Int) : ℚ) := by exact_mod_cast hm
    push_cast at this
    exact this
  by_cases hk : e ≤ k
  · obtain ⟨j, hj⟩ := Int.eq_ofNat_of_zero_le (sub_nonneg.mpr hk)
    have hz : (m : ℚ) * (2 : ℚ) ^ k = ((m * 2 ^ j : Int) : ℚ) * (2 : ℚ) ^ e := by
      have : k = (j : Int) + e := by omega
      rw [this, zpow_add₀ (by norm_num : (2 : ℚ) ≠ 0), zpow_natCast]
      push_cast
      ring
    have hn := roundHalfEven_nearest x (m * 2 ^ j)
    rw [hz, ← sub_mul, abs_mul, abs_of_pos hu]
    exact mul_le_mul_of_nonneg_right hn hu.le
  · have hk1 : k + 1 ≤ e := by omega
    have hpow : (2 : ℚ) ^ k ≤ (2 : ℚ) ^ e / 2 := by
      have h1 : (2 : ℚ) ^ (k + 1) ≤ (2 : ℚ) ^ e :=
        zpow_le_zpow_right₀ (by norm_num) hk1
      rw [zpow_add₀ (by norm_num : (2 : ℚ) ≠ 0), zpow_one] at h1
      linarith
    have hkpos : 0 < (2 : ℚ) ^ k := zpow_pos (by norm_num) _
    have hd1 : |(m : ℚ) * (2 : ℚ) ^ k| ≤ (2 : ℚ) ^ 52 * (2 : ℚ) ^ e := by
      rw [abs_mul, abs_of_pos hkpos]
      calc |(m : ℚ)| * (2 : ℚ) ^ k ≤ (2 : ℚ) ^ 53 * ((2 : ℚ) ^ e / 2) :=
            mul_le_mul hmq hpow hkpos.le (by positivity)
        _ = (2 : ℚ) ^ 52 * (2 : ℚ) ^ e := by ring
    have hq1 : |x * (2 : ℚ) ^ e| = |x| * (2 : ℚ) ^ e := by
      rw [abs_mul, abs_of_pos hu]
    have hback : (|x| - (2 : ℚ) ^ 52) * (2 : ℚ) ^ e
        ≤ |(m : ℚ) * (2 : ℚ) ^ k - x * (2 : ℚ) ^ e| := by
      have h1 : |x * (2 : ℚ) ^ e| - |(m : ℚ) * (2 : ℚ) ^ k|
          ≤ |(m : ℚ) * (2 : ℚ) ^ k - x * (2 : ℚ) ^ e| := by
        rw [abs_sub_comm]
        exact abs_sub_abs_le_abs_sub _ _
      rw [hq1] at h1
      linarith
    have c : ((2 ^ 52 : Int) : ℚ) = (2 : ℚ) ^ 52 := by norm_num
    have hnear : |((roundHalfEven x : Int) : ℚ) - x| ≤ |x| - (2 : ℚ) ^ 52 := by
      by_cases hxs : 0 ≤ x
      · have hn := roundHalfEven_nearest x (2 ^ 52)
        rw [abs_of_nonneg hxs] at hlo ⊢
        have e3 : |(2 : ℚ) ^ 52 - x| = x - (2 : ℚ) ^ 52 := by
          rw [abs_sub_comm]
          exact abs_of_nonneg (by linarith)
        rw [c, e3] at hn
        exact hn
      · have hxn : x < 0 := not_le.mp hxs
        have hn := roundHalfEven_nearest x (-(2 ^ 52))
        rw [abs_of_neg hxn] at hlo ⊢
        have c1 : ((-(2 ^ 52) : Int) : ℚ) = -(2 : ℚ) ^ 52 := by norm_num
        rw [c1, abs_of_nonneg (by linarith : (0 : ℚ) ≤ -(2 : ℚ) ^ 52 - x)] at hn
        linarith
    calc |((roundHalfEven x : Int) : ℚ) - x| * (2 : ℚ) ^ e
        ≤ (|x| - (2 : ℚ) ^ 52) * (2 : ℚ) ^ e := mul_le_mul_of_nonneg_right hnear hu.le
      _ ≤ |(m : ℚ) * (2 : ℚ) ^ k - x * (2 : ℚ) ^ e| := hback

theorem roundDouble_nearest (q d : ℚ) (hd : IsDouble d) :
    |roundDouble q - q| ≤ |d - q| := by
  by_cases hq : q = 0
  · rw [hq]
    simp [roundDouble]
  · obtain ⟨hu, hlo, _⟩ := doubleScale_bounds hq
    obtain ⟨m, k, hm, rfl⟩ := hd
    rw [roundDouble_sub q hq, abs_mul, abs_of_pos hu]
    have h := roundHalfEven_scaled_nearest (q / (2 : ℚ) ^ (Int.log 2 |q| - 52))
      (Int.log 2 |q| - 52) hlo m k hm
    rw [div_mul_cancel₀ _ hu.ne'] at h
    exact h

theorem roundDouble_of_isDouble (d : ℚ) (hd : IsDouble d) : roundDouble d = d := by
  have h := roundDouble_nearest d d hd
  rw [sub_self, abs_zero] at h
  have h0 : roundDouble d - d = 0 := abs_eq_zero.mp (le_antisymm h (abs_nonneg _))
  linarith

theorem roundDouble_error (q : ℚ) : |roundDouble q - q| ≤ |q| / 2 ^ 53 := by
  by_cases hq : q = 0
  · rw [hq]
    simp [roundDouble]
  · obtain ⟨hu, hlo, _⟩ := doubleScale_bounds hq
    rw [roundDouble_sub q hq, abs_mul, abs_of_pos hu]
    have h1 := roundHalfEven_error (q / (2 : ℚ) ^ (Int.log 2 |q| - 52))
    have h2 : (2 : ℚ) ^ 52 * (2 : ℚ) ^ (Int.log 2 |q| - 52) ≤ |q| := by
      rw [abs_div, abs_of_pos hu, le_div_iff₀ hu] at hlo
      exact hlo
    have h3 : |((roundHalfEven (q / (2 : ℚ) ^ (Int.log 2 |q| - 52)) : Int) : ℚ)
        - q / (2 : ℚ) ^ (Int.log 2 |q| - 52)| * (2 : ℚ) ^ (Int.log 2 |q| - 52)
        ≤ 1 / 2 * (2 : ℚ) ^ (Int.log 2 |q| - 52) :=
      mul_le_mul_of_nonneg_right h1 hu.le
    rw [le_div_iff₀ (by positivity)]
    nlinarith

theorem isDouble_intCast (z : Int) (hz : |z| ≤ 2 ^ 53) : IsDouble (z : ℚ) :=
  ⟨z, 0, hz, by simp⟩

theorem roundDouble_intCast (z : Int) (hz : |z| ≤ 2 ^ 53) : roundDouble (z : ℚ) = (z : ℚ) :=
  roundDouble_of_isDouble _ (isDouble_intCast z hz)

/-- The levels of the examples are integers, which the division gives
exactly. -/
theorem roundDouble_examples :
    roundDouble 2 = 2 ∧ roundDouble 4 = 4 ∧ roundDouble 6 = 6 ∧ roundDouble (-10) = -10 := by
  refine ⟨?_, ?_, ?_, ?_⟩
  · exact_mod_cast roundDouble_intCast 2 (by decide)
  · exact_mod_cast roundDouble_intCast 4 (by decide)
  · exact_mod_cast roundDouble_intCast 6 (by decide)
  · exact_mod_cast roundDouble_intCast (-10) (by decide)

/-! ## The level of a player -/

theorem doubleExponent_eq {q : ℚ} {e : Int} (h1 : (2 : ℚ) ^ e ≤ |q|)
    (h2 : |q| < (2 : ℚ) ^ (e + 1)) : Int.log 2 |q| = e := by
  have hq : q ≠ 0 := by
    intro h
    rw [h, abs_zero] at h1
    exact absurd h1 (not_le.mpr (zpow_pos (by norm_num) _))
  obtain ⟨b1, b2⟩ := doubleExponent_bounds hq
  have c1 : e < Int.log 2 |q| + 1 :=
    (zpow_lt_zpow_iff_right₀ (by norm_num : (1 : ℚ) < 2)).mp (lt_of_le_of_lt h1 b2)
  have c2 : Int.log 2 |q| < e + 1 :=
    (zpow_lt_zpow_iff_right₀ (by norm_num : (1 : ℚ) < 2)).mp (lt_of_le_of_lt b1 h2)
  omega

theorem playerGetLevel_eq (p : Player) (hn : p.wins + p.loses + p.draws ≠ 0) :
    playerGetLevel (some p) =
      roundDouble (((6 * p.wins - 10 * p.loses + 2 * p.draws : Int) : ℚ) /
        ((p.wins + p.loses + p.draws : Int) : ℚ)) := by
  have hq : ((p.wins + p.loses + p.draws : Int) : ℚ) ≠ 0 := by
    exact_mod_cast hn
  have hq1 : (p.wins : ℚ) + (p.loses : ℚ) + (p.draws : ℚ) ≠ 0 := by
    push_cast at hq
    exact hq
  unfold playerGetLevel
  simp only [playerGetWins, playerGetLoses, playerGetDraws]
  rw [if_neg hq1]
  push_cast
  rfl

theorem roundDouble_ten_thirds :
    roundDouble (10 / 3) = 7505999378950827 / 2251799813685248 := by
  have he : Int.log 2 |(10 / 3 : ℚ)| = 1 :=
    doubleExponent_eq (by rw [abs_of_pos (by norm_num)]; norm_num)
      (by rw [abs_of_pos (by norm_num)]; norm_num)
  have hx : (10 / 3 : ℚ) / 2 ^ ((1 : Int) - 52) = 22517998136852480 / 3 := by
    rw [show ((1 : Int) - 52) = -(51 : Int) by norm_num, zpow_neg]
    norm_num
  have hf : ⌊(22517998136852480 / 3 : ℚ)⌋ = 7505999378950826 :=
    Int.floor_eq_iff.mpr ⟨by norm_num, by norm_num⟩
  have hr : roundHalfEven (22517998136852480 / 3) = 7505999378950827 := by
    unfold roundHalfEven
    rw [hf]
    norm_num
  unfold roundDouble
  rw [if_neg (by norm_num), he, hx, hr]
  rw [show ((1 : Int) - 52) = -(51 : Int) by norm_num, zpow_neg]
  norm_num

/-- C26 (fails as stated): a player with 1 win, no loss and 2 draws has
`wins + loses + draws = 3` and `6 * wins - 10 * loses + 2 * draws = 10`; the
quotient 10 / 3 is no `double`, and `playerGetLevel` returns the `double`
nearest to it, 7505999378950827 / 2 ^ 51, which is not the exact quotient. -/
theorem playerGetLevel_is_not_the_exact_quotient :
    (1 : Int) + 0 + 2 ≠ 0 ∧
    playerGetLevel (some (Player.mk 1 1 0 2 30)) = 7505999378950827 / 2251799813685248 ∧
    playerGetLevel (some (Player.mk 1 1 0 2 30)) ≠
      ((6 * 1 - 10 * 0 + 2 * 2 : Int) : ℚ) / ((1 + 0 + 2 : Int) : ℚ) ∧
    playerGetLevel (some (Player.mk 1 1 0 2 30)) * ((1 + 0 + 2 : Int) : ℚ) ≠
      ((6 * 1 - 10 * 0 + 2 * 2 : Int) : ℚ) := by
  have hv : playerGetLevel (some (Player.mk 1 1 0 2 30))
      = 7505999378950827 / 2251799813685248 := by
    rw [playerGetLevel_eq _ (by decide)]
    have : (((6 * (Player.mk 1 1 0 2 30).wins - 10 * (Player.mk 1 1 0 2 30).loses
        + 2 * (Player.mk 1 1 0 2 30).draws : Int) : ℚ) /
        (((Player.mk 1 1 0 2 30).wins + (Player.mk 1 1 0 2 30).loses
          + (Player.mk 1 1 0 2 30).draws : Int) : ℚ)) = 10 / 3 := by
      norm_num
    rw [this, roundDouble_ten_thirds]
  refine ⟨by decide, hv, ?_, ?_⟩
  · rw [hv]
    norm_num
  · rw [hv]
    norm_num

/-- C26 (as amended): for every player record `playerGetLevel` returns the
quotient `(6 * wins - 10 * loses + 2 * draws) / (wins + loses + draws)` rounded
to the nearest `double` when `wins + loses + draws` is not 0: the result is a
`double`, no `double` is nearer to the quotient, it is the quotient itself
whenever the quotient is a `double`, and it differs from the quotient by at
most the 2 ^ 53-th part of the quotient.  It returns 0 when
`wins + loses + draws` is 0 (and for `NULL`); 3 wins, 1 loss and no draw
give 2. -/
theorem playerGetLevel_nearest_double (p : Player) :
    (p.wins + p.loses + p.draws ≠ 0 →
      playerGetLevel (some p) =
        roundDouble (((6 * p.wins - 10 * p.loses + 2 * p.draws : Int) : ℚ) /
          ((p.wins + p.loses + p.draws : Int) : ℚ)) ∧
      IsDouble (playerGetLevel (some p)) ∧
      (∀ d, IsDouble d →
        |playerGetLevel (some p) - ((6 * p.wins - 10 * p.loses + 2 * p.draws : Int) : ℚ) /
            ((p.wins + p.loses + p.draws : Int) : ℚ)| ≤
          |d - ((6 * p.wins - 10 * p.loses + 2 * p.draws : Int) : ℚ) /
            ((p.wins + p.loses + p.draws : Int) : ℚ)|) ∧
      (IsDouble (((6 * p.wins - 10 * p.loses + 2 * p.draws : Int) : ℚ) /
          ((p.wins + p.loses + p.draws : Int) : ℚ)) →
        playerGetLevel (some p) = ((6 * p.wins - 10 * p.loses + 2 * p.draws : Int) : ℚ) /
          ((p.wins + p.loses + p.draws : Int) : ℚ)) ∧
      |playerGetLevel (some p) - ((6 * p.wins - 10 * p.loses + 2 * p.draws : Int) : ℚ) /
          ((p.wins + p.loses + p.draws : Int) : ℚ)| ≤
        |((6 * p.wins - 10 * p.loses + 2 * p.draws : Int) : ℚ) /
          ((p.wins + p.loses + p.draws : Int) : ℚ)| / 2 ^ 53) ∧
    (p.wins + p.loses + p.draws = 0 → playerGetLevel (some p) = 0) ∧
    playerGetLevel none = 0 ∧
    playerGetLevel (some { p with wins := 3, loses := 1, draws := 0 }) = 2 := by
  refine ⟨?_, ?_, ?_, ?_⟩
  · intro hn
    have e := playerGetLevel_eq p hn
    refine ⟨e, ?_, ?_, ?_, ?_⟩
    · rw [e]
      exact roundDouble_isDouble _
    · intro d hd
      rw [e]
      exact roundDouble_nearest _ d hd
    · intro hd
      rw [e]
      exact roundDouble_of_isDouble _ hd
    · rw [e]
      exact roundDouble_error _
  · intro hn
    have hq : (p.wins : ℚ) + (p.loses : ℚ) + (p.draws : ℚ) = 0 := by
      exact_mod_cast hn
    unfold playerGetLevel
    simp only [playerGetWins, playerGetLoses, playerGetDraws]
    rw [if_pos hq, hq]
  · norm_num [playerGetLevel, playerGetWins, playerGetLoses, playerGetDraws, PLAYER_NOT_EXIST]
  · norm_num [playerGetLevel, playerGetWins, playerGetLoses, playerGetDraws,
      roundDouble_examples.1]

theorem playerGetLevel_nearest_double_witness :
    ((3 : Int) + 1 + 0 ≠ 0) ∧
    playerGetLevel (some (Player.mk 7 3 1 0 40)) =
      roundDouble (((6 * 3 - 10 * 1 + 2 * 0 : Int) : ℚ) / ((3 + 1 + 0 : Int) : ℚ)) ∧
    playerGetLevel (some (Player.mk 7 3 1 0 40)) = 2 :=
  ⟨by decide, ((playerGetLevel_nearest_double (Player.mk 7 3 1 0 40)).1 (by decide)).1,
    (playerGetLevel_nearest_double (Player.mk 7 3 1 0 40)).2.2.2⟩

/-! ## The rank map of `chessSavePlayersLevels` -/

theorem savePlayersLevelsLoop_wf (players : Map Int Player) :
    ∀ (l : List Int) (m : Map Rank Player), MapWF compareKeyRank m →
      ∃ m1, savePlayersLevelsLoop players l m = some m1 ∧ MapWF compareKeyRank m1 := by
  intro l
  induction l with
  | nil =>
    intro m hm
    exact ⟨m, rfl, hm⟩
  | cons k rest ih =>
    intro m hm
    unfold savePlayersLevelsLoop
    by_cases h0 : playerGetTotalPlayTime (mapGet compareKeyPlayerID players (some k)).1 = 0
    · rw [if_pos h0]
      exact ih m hm
    · rw [if_neg h0]
      cases hrec : (mapGet compareKeyPlayerID players (some k)).1 with
      | none =>
        rw [hrec] at h0
        exact absurd rfl h0
      | some r =>
        rw [mapPut_fst]
        simp only [ne_eq, not_true_eq_false, if_false]
        exact ih _ (mapPut_wf compareKeyRank_order hm _ _)

theorem savePlayersLevelsLoop_eq {players : Map Int Player}
    (h : MapWF compareKeyPlayerID players) :
    ∀ (l : List (Int × Player)), (∀ n ∈ l, n ∈ players.nodes) →
      ∀ (m : Map Rank Player), MapWF compareKeyRank m →
        ∃ m1, savePlayersLevelsLoop players (l.map Prod.fst) m = some m1 ∧
          MapWF compareKeyRank m1 ∧ m1.nodes = rankNodes l m.nodes := by
  intro l
  induction l with
  | nil =>
    intro _ m hm
    exact ⟨m, rfl, hm, rfl⟩
  | cons n rest ih =>
    intro hl m hm
    have hrec := playerRecord_of_mem h (hl n (List.mem_cons_self _ _))
    unfold playerRecord at hrec
    have hrest : ∀ x ∈ rest, x ∈ players.nodes := fun x hx => hl x (List.mem_cons_of_mem _ hx)
    simp only [List.map_cons]
    unfold savePlayersLevelsLoop
    rw [hrec]
    simp only [playerGetTotalPlayTime]
    by_cases h0 : n.2.total_play_time = 0
    · rw [if_pos h0]
      obtain ⟨m1, e1, e2, e3⟩ := ih hrest m hm
      refine ⟨m1, e1, e2, ?_⟩
      rw [e3]
      simp [rankNodes, h0]
    · rw [if_neg h0, mapPut_fst]
      simp only [ne_eq, not_true_eq_false, if_false]
      obtain ⟨m1, e1, e2, e3⟩ := ih hrest _ (mapPut_wf compareKeyRank_order hm _ _)
      refine ⟨m1, e1, e2, ?_⟩
      rw [e3, mapPut_wf_nodes hm]
      simp [rankNodes, h0, rankOf]

theorem chessSavePlayersLevels_rows (s : ChessSystem) (rows : List (Int × ℚ)) :
    chessSavePlayersLevels (some s) (some rows)
      = (ChessResult.CHESS_SUCCESS, some (rows ++ playersLevelsRows s)) := by
  obtain ⟨m1, e1, _⟩ :=
    savePlayersLevelsLoop_wf s.players (mapForEach s.players) mapCreate
      (mapCreate_wf compareKeyRank)
  unfold playersLevelsRows chessSavePlayersLevels
  simp only [e1, List.nil_append, Option.getD_some]

theorem playersLevelsRows_sorted (s : ChessSystem) :
    (playersLevelsRows s).Pairwise (fun a b => b.2 < a.2 ∨ (a.2 = b.2 ∧ a.1 < b.1)) := by
  obtain ⟨m1, e1, hwf⟩ :=
    savePlayersLevelsLoop_wf s.players (mapForEach s.players) mapCreate
      (mapCreate_wf compareKeyRank)
  unfold playersLevelsRows chessSavePlayersLevels
  simp only [e1, List.nil_append, Option.getD_some]
  rw [mapForEach_wf hwf, List.pairwise_map]
  refine List.Pairwise.imp ?_ hwf.2
  intro a b hab
  exact (compareKeyRank_lt_iff a b).mp hab

theorem playersLevelsRows_eq {s : ChessSystem} (h : MapWF compareKeyPlayerID s.players) :
    playersLevelsRows s =
      (rankNodes s.players.nodes []).map (fun n => (n.1.id, n.1.level)) := by
  obtain ⟨m1, e1, hwf, hn⟩ :=
    savePlayersLevelsLoop_eq h s.players.nodes (fun _ hx => hx) mapCreate
      (mapCreate_wf compareKeyRank)
  have e2 : savePlayersLevelsLoop s.players (mapForEach s.players) mapCreate = some m1 := by
    rw [mapForEach_wf h]
    exact e1
  unfold playersLevelsRows chessSavePlayersLevels
  simp only [e2, List.nil_append, Option.getD_some]
  rw [mapForEach_wf hwf]
  unfold mapKeys
  rw [hn]
  simp [mapCreate, playerRankGetID, playerRankGetLevel, List.map_map, Function.comp_def]

theorem mem_keys_putNodes_rank (k : Rank) (v : Player) (l : List (Rank × Player)) (k1 : Rank) :
    k1 ∈ (putNodes compareKeyRank k v l).map Prod.fst ↔ k1 = k ∨ k1 ∈ l.map Prod.fst := by
  unfold putNodes
  split
  · rename_i hf
    rw [changeData_keys]
    obtain ⟨x, hx⟩ := Option.isSome_iff_exists.mp hf
    obtain ⟨n, hn, hc, _⟩ := findData_some_mem compareKeyRank k l x hx
    have hk := (compareKeyRank_eq_zero n.1 k).mp hc
    constructor
    · exact Or.inr
    · rintro (rfl | e)
      · rw [← hk]
        exact List.mem_map_of_mem _ hn
      · exact e
  · simp only [List.mem_map, mem_insertNode]
    constructor
    · rintro ⟨x, hx | hx, rfl⟩
      · left
        rw [hx]
      · exact Or.inr ⟨x, hx, rfl⟩
    · rintro (rfl | ⟨x, hx, rfl⟩)
      · exact ⟨(k1, v), Or.inl rfl, rfl⟩
      · exact ⟨x, Or.inr hx, rfl⟩

theorem mem_keys_rankNodes (k : Rank) :
    ∀ (l : List (Int × Player)) (acc : List (Rank × Player)),
      k ∈ (rankNodes l acc).map Prod.fst ↔
        k ∈ acc.map Prod.fst ∨ ∃ n ∈ l, n.2.total_play_time ≠ 0 ∧ k = rankOf n.2 := by
  intro l
  induction l with
  | nil =>
    intro acc
    simp [rankNodes]
  | cons n rest ih =>
    intro acc
    have hstep : rankNodes (n :: rest) acc =
        rankNodes rest (if n.2.total_play_time = 0 then acc
          else putNodes compareKeyRank (rankOf n.2) n.2 acc) := rfl
    rw [hstep, ih]
    by_cases h0 : n.2.total_play_time = 0
    · rw [if_pos h0]
      constructor
      · rintro (e | ⟨x, hx, e⟩)
        · exact Or.inl e
        · exact Or.inr ⟨x, List.mem_cons_of_mem _ hx, e⟩
      · rintro (e | ⟨x, hx, e1, e2⟩)
        · exact Or.inl e
        · rcases List.mem_cons.mp hx with rfl | hx
          · exact absurd h0 e1
          · exact Or.inr ⟨x, hx, e1, e2⟩
    · rw [if_neg h0, mem_keys_putNodes_rank]
      constructor
      · rintro ((e | e) | ⟨x, hx, e⟩)
        · exact Or.inr ⟨n, List.mem_cons_self _ _, h0, e⟩
        · exact Or.inl e
        · exact Or.inr ⟨x, List.mem_cons_of_mem _ hx, e⟩
      · rintro (e | ⟨x, hx, e1, e2⟩)
        · exact Or.inl (Or.inr e)
        · rcases List.mem_cons.mp hx with rfl | hx
          · exact Or.inl (Or.inl e2)
          · exact Or.inr ⟨x, hx, e1, e2⟩

theorem mem_playersLevelsRows {s : ChessSystem} (h : Reachable s) (id : Int) (level : ℚ) :
    (id, level) ∈ playersLevelsRows s ↔
      ∃ r, playerRecord s.players id = some r ∧ r.total_play_time ≠ 0 ∧
        level = playerGetLevel (some r) := by
  have hwf := h.inv.2.1
  have hpi := h.links.1
  rw [playersLevelsRows_eq hwf]
  constructor
  · intro hm
    obtain ⟨x, hx, he⟩ := List.mem_map.mp hm
    have hk : x.1 ∈ (rankNodes s.players.nodes []).map Prod.fst := List.mem_map_of_mem _ hx
    rw [mem_keys_rankNodes] at hk
    rcases hk with hk | ⟨n, hn, h0, hk⟩
    · simp at hk
    · have hrec := playerRecord_of_mem hwf hn
      have hid := (hpi n.1 n.2 hrec).2
      simp only [Prod.mk.injEq] at he
      rw [hk] at he
      simp only [rankOf, playerRankCreate, playerGetID] at he
      refine ⟨n.2, ?_, h0, he.2.symm⟩
      rw [← he.1, hid]
      exact hrec
  · rintro ⟨r, hr, h0, rfl⟩
    have hn := mem_of_playerRecord hwf hr
    have hid := (hpi id r hr).2
    have hk : rankOf r ∈ (rankNodes s.players.nodes []).map Prod.fst := by
      rw [mem_keys_rankNodes]
      exact Or.inr ⟨(id, r), hn, h0, rfl⟩
    obtain ⟨x, hx, he⟩ := List.mem_map.mp hk
    refine List.mem_map.mpr ⟨x, hx, ?_⟩
    rw [he]
    simp [rankOf, playerRankCreate, playerGetID, hid]

theorem playersLevelsRows_ids_nodup {s : ChessSystem} (h : Reachable s) :
    ((playersLevelsRows s).map Prod.fst).Nodup := by
  unfold List.Nodup
  rw [List.pairwise_map]
  refine List.Pairwise.imp_of_mem ?_ (playersLevelsRows_sorted s)
  intro a b ha hb hab hid
  obtain ⟨r1, hr1, _, hl1⟩ := (mem_playersLevelsRows h a.1 a.2).mp ha
  obtain ⟨r2, hr2, _, hl2⟩ := (mem_playersLevelsRows h b.1 b.2).mp hb
  rw [hid, hr2] at hr1
  obtain rfl := Option.some.inj hr1
  rcases hab with e | ⟨_, e⟩
  · rw [hl1, hl2] at e
    exact lt_irrefl _ e
  · omega

/-! ## Claims about the average play time and the rows of the levels report -/

theorem chessCalculateAveragePlayTime_result (chess : Option ChessSystem) (p : Int) :
    (chessCalculateAveragePlayTime chess p).map Prod.fst
      = some (chessCalculateAveragePlayTimeResult chess p) := by
  unfold chessCalculateAveragePlayTime chessCalculateAveragePlayTimeResult
  by_cases hc : chessCalculateAveragePlayTimeErrorCheck chess p = ChessResult.CHESS_SUCCESS
  · cases chess with
    | none => exact absurd hc (by simp [chessCalculateAveragePlayTimeErrorCheck])
    | some c =>
      simp only [hc, ne_eq, not_true_eq_false, if_false]
      split <;> rfl
  · simp [hc]

theorem chessCalculateAveragePlayTime_eq (s : ChessSystem) (p : Int) (r : Player) (hp : 0 < p)
    (hr : playerRecord s.players p = some r) :
    chessCalculateAveragePlayTime (some s) p =
      some (ChessResult.CHESS_SUCCESS,
        if r.total_play_time = 0 then Double.finite 0
        else if r.wins + r.loses + r.draws = 0 then Double.notFinite
        else Double.finite ((r.total_play_time : ℚ) / ((r.wins + r.loses + r.draws : Int) : ℚ))) := by
  have hc : chessCalculateAveragePlayTimeErrorCheck (some s) p = ChessResult.CHESS_SUCCESS := by
    unfold chessCalculateAveragePlayTimeErrorCheck
    simp only [mapContains_playerRecord, hr]
    simp [isValidID, hp]
  unfold playerRecord at hr
  unfold chessCalculateAveragePlayTime
  simp only [hc, ne_eq, not_true_eq_false, if_false, hr, playerGetTotalPlayTime, playerGetWins,
    playerGetLoses, playerGetDraws, doubleDivide]
  by_cases h0 : r.total_play_time = 0
  · simp [h0]
  · have h0q : ¬ (r.total_play_time : ℚ) = 0 := by exact_mod_cast h0
    rw [if_neg h0q, if_neg h0]
    by_cases hn : r.wins + r.loses + r.draws = 0
    · have hnq : (r.wins : ℚ) + (r.loses : ℚ) + (r.draws : ℚ) = 0 := by exact_mod_cast hn
      rw [if_pos hnq, if_pos hn]
    · have hnq : ¬ (r.wins : ℚ) + (r.loses : ℚ) + (r.draws : ℚ) = 0 := by exact_mod_cast hn
      rw [if_neg hnq, if_neg hn]
      push_cast
      rfl

theorem callsAverage_results :
    callResults callsAverageThree (some chessCreate) =
      [some ChessResult.CHESS_SUCCESS, some ChessResult.CHESS_SUCCESS,
       some ChessResult.CHESS_SUCCESS, some ChessResult.CHESS_SUCCESS,
       some ChessResult.CHESS_SUCCESS] ∧
    chessCalculateAveragePlayTime (some (stateAfter callsAverage)) 1
      = some (ChessResult.CHESS_SUCCESS, Double.finite 10) ∧
    chessCalculateAveragePlayTime (some (stateAfter callsAverageThree)) 1
      = some (ChessResult.CHESS_SUCCESS, Double.finite (40 / 3)) := by
  refine ⟨by decide, ?_, ?_⟩
  · rw [chessCalculateAveragePlayTime_eq (stateAfter callsAverage) 1
      (Player.mk 1 2 0 0 20) (by decide) (by decide)]
    norm_num
  · rw [chessCalculateAveragePlayTime_eq (stateAfter callsAverageThree) 1
      (Player.mk 1 3 0 0 40) (by decide) (by decide)]
    norm_num

theorem callsDivide_run : runCalls callsDivide chessCreate = some (stateAfter callsDivide) := by
  decide

/-- C27 (fails): player 1 loses a game of 10 seconds against player 2 in
tournament 1, the tournament is ended and player 1 is removed from the system;
player 1 then wins a game of 7 seconds in tournament 2, and tournament 1 is
removed.  Every call returns `CHESS_SUCCESS`.  The removal of tournament 1 takes
the lost game out of the new record of player 1, which then has 1 win, -1
losses, 0 draws and a total play time of -3: `chessCalculateAveragePlayTime`
reports `CHESS_SUCCESS` and divides -3 by 0. -/
theorem chessCalculateAveragePlayTime_divides_by_zero :
    Reachable (stateAfter callsDivide) ∧
    callResults callsDivide (some chessCreate) =
      [some ChessResult.CHESS_SUCCESS, some ChessResult.CHESS_SUCCESS,
       some ChessResult.CHESS_SUCCESS, some ChessResult.CHESS_SUCCESS,
       some ChessResult.CHESS_SUCCESS, some ChessResult.CHESS_SUCCESS,
       some ChessResult.CHESS_SUCCESS] ∧
    playerRecord (stateAfter callsDivide).players 1 = some (Player.mk 1 1 (-1) 0 (-3)) ∧
    (1 : Int) + (-1) + 0 = 0 ∧
    chessCalculateAveragePlayTime (some (stateAfter callsDivide)) 1
      = some (ChessResult.CHESS_SUCCESS, Double.notFinite) := by
  refine ⟨stateAfter_reachable callsDivide callsDivide_run, by decide, by decide, by decide, ?_⟩
  rw [chessCalculateAveragePlayTime_eq (stateAfter callsDivide) 1
    (Player.mk 1 1 (-1) 0 (-3)) (by decide) (by decide)]
  simp

theorem callsZeroTime_run :
    runCalls callsZeroTime chessCreate = some (stateAfter callsZeroTime) := by
  decide

/-- C28 (fails): tournament 1 is added and players 1 and 2 play a game of 0
seconds in it, which `chessAddGame` accepts.  Each of the two players has a
record with one game in the players map of the system, and
`chessSavePlayersLevels` returns `CHESS_SUCCESS` and writes no row: it skips
every player whose total play time is 0. -/
theorem chessSavePlayersLevels_skips_zero_play_time :
    Reachable (stateAfter callsZeroTime) ∧
    callResults callsZeroTime (some chessCreate) =
      [some ChessResult.CHESS_SUCCESS, some ChessResult.CHESS_SUCCESS] ∧
    playerRecord (stateAfter callsZeroTime).players 1 = some (Player.mk 1 1 0 0 0) ∧
    playerRecord (stateAfter callsZeroTime).players 2 = some (Player.mk 2 0 1 0 0) ∧
    chessSavePlayersLevels (some (stateAfter callsZeroTime)) (some [])
      = (ChessResult.CHESS_SUCCESS, some []) := by
  have hr := stateAfter_reachable callsZeroTime callsZeroTime_run
  refine ⟨hr, by decide, by decide, by decide, ?_⟩
  rw [chessSavePlayersLevels_rows, List.nil_append]
  have hrows : playersLevelsRows (stateAfter callsZeroTime) = [] := by
    apply List.eq_nil_iff_forall_not_mem.mpr
    rintro ⟨id, level⟩ hm
    obtain ⟨r, h1, h2, _⟩ := (mem_playersLevelsRows hr id level).mp hm
    have hall : ∀ n ∈ (stateAfter callsZeroTime).players.nodes, n.2.total_play_time = 0 := by
      decide
    exact h2 (hall _ (mem_of_playerRecord hr.inv.2.1 h1))
  rw [hrows]

/-! ## Claims about the order of the levels report -/

theorem callsTie_rows :
    playersLevelsRows (stateAfter callsTie) = [(1, 4), (3, 4), (2, -10), (4, -10)] := by
  have hn : (stateAfter callsTie).players.nodes =
      [(1, Player.mk 1 1 0 1 15), (2, Player.mk 2 0 1 0 10), (3, Player.mk 3 1 0 1 15),
       (4, Player.mk 4 0 1 0 10)] := by
    decide
  rw [playersLevelsRows_eq (stateAfter_reachable callsTie callsTie_run).inv.2.1, hn]
  obtain ⟨_, h4, _, h10⟩ := roundDouble_examples
  norm_num [rankNodes, putNodes, findData, insertNode, changeData, compareKeyRank, sign, rankOf,
    playerGetLevel, playerGetWins, playerGetLoses, playerGetDraws, playerGetID,
    playerRankCreate, h4, h10]

/-- C29: for every system `chessSavePlayersLevels` returns `CHESS_SUCCESS` and
appends the rows `playersLevelsRows` to the file, and these rows are ordered by
descending level, and by ascending id among equal levels: of two consecutive
rows (and of any two rows) the earlier one has the bigger level, or the same
level and the smaller id.  After the calls `callsTie` the rows are
(1, 4), (3, 4), (2, -10), (4, -10). -/
theorem players_levels_rows_descend (s : ChessSystem) (rows : List (Int × ℚ)) :
    chessSavePlayersLevels (some s) (some rows)
      = (ChessResult.CHESS_SUCCESS, some (rows ++ playersLevelsRows s)) ∧
    (playersLevelsRows s).Chain' (fun a b => b.2 < a.2 ∨ (a.2 = b.2 ∧ a.1 < b.1)) ∧
    (playersLevelsRows s).Pairwise (fun a b => b.2 < a.2 ∨ (a.2 = b.2 ∧ a.1 < b.1)) ∧
    playersLevelsRows (stateAfter callsTie) = [(1, 4), (3, 4), (2, -10), (4, -10)] :=
  ⟨chessSavePlayersLevels_rows s rows, List.Pairwise.chain' (playersLevelsRows_sorted s),
    playersLevelsRows_sorted s, callsTie_rows⟩

theorem rankMap_sorted (s : ChessSystem) :
    ∃ m, savePlayersLevelsLoop s.players (mapForEach s.players) mapCreate = some m ∧
      (mapForEach m).Pairwise (fun x y => compareKeyRank x y < 0) ∧
      playersLevelsRows s =
        (mapForEach m).map (fun k => (playerRankGetID k, playerRankGetLevel k)) := by
  obtain ⟨m1, e1, hwf⟩ :=
    savePlayersLevelsLoop_wf s.players (mapForEach s.players) mapCreate
      (mapCreate_wf compareKeyRank)
  refine ⟨m1, e1, ?_, ?_⟩
  · rw [mapForEach_wf hwf]
    exact hwf.2
  · unfold playersLevelsRows chessSavePlayersLevels
    simp only [e1, List.nil_append, Option.getD_some]

/-- C30 (the code departs from the claim and from its own documentation): the
level of the first rank, 6, is bigger than the level of the second, -10, and
`compareKeyRank` returns -1, where the claim and the comment of `compareKeyRank`
in `player.h` have a positive number (and 1 where they have a negative number
for the opposite order); after the calls `callsPlayed`, in which player 1
beats player 2, the row of player 1 with level 6 comes before the row of
player 2 with level -10, so the rows are not in ascending order of the
level. -/
theorem compareKeyRank_negative_for_bigger_level :
    (playerRankCreate (-10) 2).level < (playerRankCreate 6 1).level ∧
    compareKeyRank (playerRankCreate 6 1) (playerRankCreate (-10) 2) = -1 ∧
    compareKeyRank (playerRankCreate (-10) 2) (playerRankCreate 6 1) = 1 ∧
    playersLevelsRows (stateAfter callsPlayed) = [(1, 6), (2, -10)] := by
  refine ⟨by norm_num [playerRankCreate], by norm_num [compareKeyRank, sign, playerRankCreate],
    by norm_num [compareKeyRank, sign, playerRankCreate], ?_⟩
  have hn : (stateAfter callsPlayed).players.nodes =
      [(1, Player.mk 1 1 0 0 6), (2, Player.mk 2 0 1 0 6)] := by
    decide
  rw [playersLevelsRows_eq (stateAfter_reachable callsPlayed callsPlayed_run).inv.2.1, hn]
  obtain ⟨_, _, h6, h10⟩ := roundDouble_examples
  norm_num [rankNodes, putNodes, findData, insertNode, changeData, compareKeyRank, sign, rankOf,
    playerGetLevel, playerGetWins, playerGetLoses, playerGetDraws, playerGetID,
    playerRankCreate, h6, h10]

/-- What `compareKeyRank` returns, for all ranks: a negative number (-1) when
the level of the first rank is bigger than the level of the second, a positive
number (1) when it is smaller, and the difference of the ids when the levels are
equal, so that the keys of the rank map, which are strictly ascending for
`compareKeyRank`, and the rows of the report are in descending order of the
level, and in ascending order of the id among equal levels. -/
theorem compareKeyRank_orders_by_descending_level (a b : Rank) (s : ChessSystem) :
    (b.level < a.level → compareKeyRank a b = -1 ∧ compareKeyRank a b < 0) ∧
    (a.level < b.level → compareKeyRank a b = 1 ∧ 0 < compareKeyRank a b) ∧
    (a.level = b.level → compareKeyRank a b = a.id - b.id) ∧
    (compareKeyRank a b < 0 ↔ b.level < a.level ∨ (a.level = b.level ∧ a.id < b.id)) ∧
    ∃ m, savePlayersLevelsLoop s.players (mapForEach s.players) mapCreate = some m ∧
      (mapForEach m).Pairwise (fun x y => compareKeyRank x y < 0) ∧
      (mapForEach m).Pairwise
        (fun x y => y.level < x.level ∨ (x.level = y.level ∧ x.id < y.id)) ∧
      playersLevelsRows s =
        (mapForEach m).map (fun k => (playerRankGetID k, playerRankGetLevel k)) ∧
      (playersLevelsRows s).Pairwise (fun x y => y.2 < x.2 ∨ (x.2 = y.2 ∧ x.1 < y.1)) := by
  obtain ⟨h1, h2, h3⟩ := compareKeyRank_values a b
  refine ⟨?_, ?_, h3, compareKeyRank_lt_iff a b, ?_⟩
  · intro h
    rw [h1 h]
    exact ⟨rfl, by decide⟩
  · intro h
    rw [h2 h]
    exact ⟨rfl, by decide⟩
  · obtain ⟨m, e1, e2, e3⟩ := rankMap_sorted s
    exact ⟨m, e1, e2, e2.imp (fun hxy => (compareKeyRank_lt_iff _ _).mp hxy), e3,
      playersLevelsRows_sorted s⟩

theorem compareKeyRank_orders_by_descending_level_witness :
    (playerRankCreate (-10) 2).level < (playerRankCreate 6 1).level ∧
    compareKeyRank (playerRankCreate 6 1) (playerRankCreate (-10) 2) = -1 ∧
    compareKeyRank (playerRankCreate 6 1) (playerRankCreate (-10) 2) < 0 :=
  ⟨by norm_num [playerRankCreate],
    (compareKeyRank_orders_by_descending_level (playerRankCreate 6 1)
      (playerRankCreate (-10) 2) chessCreate).1 (by norm_num [playerRankCreate])⟩

/-! ## Claims about the functions of `player.c` and `game.c` -/

/-- C33 (fails as stated): the second player reference is absent, the first
player has 2 wins, 1 loss, 1 draw, and `playersAddScore` leaves the record as it
is for each of the three winner values: the wins stay 2. -/
theorem playersAddScore_with_absent_player_adds_no_win :
    playersAddScore (some (Player.mk 1 2 1 1 30), none) Winner.FIRST_PLAYER
      = (some (Player.mk 1 2 1 1 30), none) ∧
    playersAddScore (some (Player.mk 1 2 1 1 30), none) Winner.SECOND_PLAYER
      = (some (Player.mk 1 2 1 1 30), none) ∧
    playersAddScore (some (Player.mk 1 2 1 1 30), none) Winner.DRAW
      = (some (Player.mk 1 2 1 1 30), none) ∧
    playerGetWins (playersAddScore (some (Player.mk 1 2 1 1 30), none) Winner.FIRST_PLAYER).1
      ≠ 2 + 1 := by
  decide

/-- C33 (as amended): `playersAddScore` with one of the two player references
absent changes nothing: the present player keeps its wins, losses and draws,
for every winner value. -/
theorem playersAddScore_with_absent_player (p : Player) (score : Winner) :
    playersAddScore (some p, none) score = (some p, none) ∧
    playersAddScore (none, some p) score = (none, some p) ∧
    playersAddScore (none, none) score = (none, none) :=
  ⟨rfl, rfl, rfl⟩

/-- C34: with both players present `playersRemoveScore` undoes
`playersAddScore` and `playersAddScore` undoes `playersRemoveScore`, and
`playersRemovePlayTime` undoes `playersAddPlayTime` and the other way round:
for every two records, every winner value and every play time both orders give
back the two records. -/
theorem players_add_and_remove_are_inverse (a b : Player) (score : Winner) (play_time : Int) :
    playersRemoveScore (playersAddScore (some a, some b) score) score
      = some (some a, some b) ∧
    (playersRemoveScore (some a, some b) score).map (fun players =>
        playersAddScore players score) = some (some a, some b) ∧
    (playersAddPlayTime (some a, some b) play_time).bind (fun players =>
        playersRemovePlayTime players play_time) = some (some a, some b) ∧
    (playersRemovePlayTime (some a, some b) play_time).bind (fun players =>
        playersAddPlayTime players play_time) = some (some a, some b) := by
  refine ⟨?_, ?_, ?_, ?_⟩
  · cases score <;> simp [playersAddScore, playersRemoveScore]
  · cases score <;> simp [playersAddScore, playersRemoveScore]
  · simp [playersAddPlayTime, playersRemovePlayTime]
  · simp [playersAddPlayTime, playersRemovePlayTime]

/-- C35 (fails as stated): both sides of the game hold the id 5, which is
positive and a current participant; `gameUpdateDeletedPlayerID` negates the
first side only, and afterwards `isPlayerInCurrentGame` is still true for 5. -/
theorem gameUpdateDeletedPlayerID_same_id_on_both_sides :
    isPlayerInCurrentGame (some (gameCreate Winner.FIRST_PLAYER 10 5 5)) 5 = true ∧
    gameUpdateDeletedPlayerID (some (gameCreate Winner.FIRST_PLAYER 10 5 5)) 5
      = some (gameCreate Winner.FIRST_PLAYER 10 (-5) 5) ∧
    isPlayerInCurrentGame
      (gameUpdateDeletedPlayerID (some (gameCreate Winner.FIRST_PLAYER 10 5 5)) 5) 5 = true := by
  decide

/-- C35 (as amended): for every game whose two sides hold different ids and
every positive id that is a current participant of it,
`gameUpdateDeletedPlayerID` replaces the id of the matching side by its
negation and leaves the id of the other side, the winner and the play time as
they are; afterwards `isPlayerInCurrentGame` is false for the id, and before the
call `gameGetOpponent` returns the id of the other side. -/
theorem gameUpdateDeletedPlayerID_negates_matching_side (g : Game) (id : Int) (hid : 0 < id)
    (hin : isPlayerInCurrentGame (some g) id = true)
    (hne : g.first_player ≠ g.second_player) :
    ∃ g1, gameUpdateDeletedPlayerID (some g) id = some g1 ∧
      g1.winner = g.winner ∧ g1.play_time = g.play_time ∧
      (g.first_player = id →
        g1.first_player = -id ∧ g1.second_player = g.second_player ∧
        gameGetOpponent (some g) id = g.second_player) ∧
      (g.second_player = id →
        g1.second_player = -id ∧ g1.first_player = g.first_player ∧
        gameGetOpponent (some g) id = g.first_player) ∧
      isPlayerInCurrentGame (some g1) id = false := by
  simp only [isPlayerInCurrentGame, gameGetFirstPlayer, gameGetSecondPlayer, Bool.or_eq_true,
    decide_eq_true_eq] at hin
  by_cases h1 : g.first_player = id
  · have h2 : g.second_player ≠ id := fun e => hne (h1.trans e.symm)
    refine ⟨{ g with first_player := (-1) * id }, ?_, rfl, rfl, ?_, ?_, ?_⟩
    · simp [gameUpdateDeletedPlayerID, h1]
    · intro _
      simp [gameGetOpponent, h1]
    · intro e
      exact absurd e h2
    · simp only [isPlayerInCurrentGame, gameGetFirstPlayer, gameGetSecondPlayer,
        Bool.or_eq_false_iff, decide_eq_false_iff_not]
      exact ⟨by omega, h2⟩
  · have h2 : g.second_player = id := by
      rcases hin with e | e
      · exact absurd e h1
      · exact e
    refine ⟨{ g with second_player := (-1) * id }, ?_, rfl, rfl, ?_, ?_, ?_⟩
    · simp [gameUpdateDeletedPlayerID, h1]
    · intro e
      exact absurd e h1
    · intro _
      simp [gameGetOpponent, h1]
    · simp only [isPlayerInCurrentGame, gameGetFirstPlayer, gameGetSecondPlayer,
        Bool.or_eq_false_iff, decide_eq_false_iff_not]
      exact ⟨h1, by omega⟩

theorem gameUpdateDeletedPlayerID_negates_matching_side_witness :
    (0 : Int) < 5 ∧ isPlayerInCurrentGame (some (gameCreate Winner.DRAW 10 3 5)) 5 = true ∧
    (gameCreate Winner.DRAW 10 3 5).first_player ≠ (gameCreate Winner.DRAW 10 3 5).second_player ∧
    ∃ g1, gameUpdateDeletedPlayerID (some (gameCreate Winner.DRAW 10 3 5)) 5 = some g1 ∧
      g1.winner = (gameCreate Winner.DRAW 10 3 5).winner ∧
      g1.play_time = (gameCreate Winner.DRAW 10 3 5).play_time ∧
      ((gameCreate Winner.DRAW 10 3 5).first_player = 5 →
        g1.first_player = -5 ∧
        g1.second_player = (gameCreate Winner.DRAW 10 3 5).second_player ∧
        gameGetOpponent (some (gameCreate Winner.DRAW 10 3 5)) 5
          = (gameCreate Winner.DRAW 10 3 5).second_player) ∧
      ((gameCreate Winner.DRAW 10 3 5).second_player = 5 →
        g1.second_player = -5 ∧
        g1.first_player = (gameCreate Winner.DRAW 10 3 5).first_player ∧
        gameGetOpponent (some (gameCreate Winner.DRAW 10 3 5)) 5
          = (gameCreate Winner.DRAW 10 3 5).first_player) ∧
      isPlayerInCurrentGame (some g1) 5 = false :=
  ⟨by decide, by decide, by decide,
    gameUpdateDeletedPlayerID_negates_matching_side (gameCreate Winner.DRAW 10 3 5) 5
      (by decide) (by decide) (by decide)⟩

/-! ## Claims about calls that return an error, and about `chessRemoveTournament` -/

theorem chessRemoveTournament_error {chess : Option ChessSystem} {tid : Int} {r : ChessResult}
    (hc : chessRemoveTournamentErrorCheck chess tid = r) (hr : r ≠ ChessResult.CHESS_SUCCESS) :
    chessRemoveTournament chess tid = some (r, chess) := by
  unfold chessRemoveTournament
  rw [hc]
  simp [hr]

theorem chessRemovePlayer_error {chess : Option ChessSystem} {p : Int} {r : ChessResult}
    (hc : chessRemovePlayerErrorCheck chess p = r) (hr : r ≠ ChessResult.CHESS_SUCCESS) :
    chessRemovePlayer chess p = some (r, chess) := by
  unfold chessRemovePlayer
  rw [hc]
  simp [hr]

theorem chessAddTournament_not_error {s : ChessSystem} {tid max : Int} {loc : Option String}
    {r : ChessResult} {s1 : Option ChessSystem}
    (hc : chessAddTournamentErrorCheck (some s) tid max loc = ChessResult.CHESS_SUCCESS)
    (hr : chessAddTournament (some s) tid max loc = some (r, s1)) :
    r = ChessResult.CHESS_SUCCESS ∨ r = ChessResult.CHESS_OUT_OF_MEMORY := by
  unfold chessAddTournament at hr
  rw [if_neg (not_not.mpr hc)] at hr
  cases loc with
  | none => simp at hr
  | some location =>
    simp only at hr
    split at hr
    · simp only [Option.some.injEq, Prod.mk.injEq] at hr
      exact Or.inr hr.1.symm
    · simp only [Option.some.injEq, Prod.mk.injEq] at hr
      exact Or.inl hr.1.symm

theorem chessAddGame_not_error {s : ChessSystem} {tid p1 p2 : Int} {w : Winner} {time : Int}
    {r : ChessResult} {s1 : Option ChessSystem}
    (hc : chessAddGameErrorCheck (some s) tid p1 p2 w time = ChessResult.CHESS_SUCCESS)
    (hr : chessAddGame (some s) tid p1 p2 w time = some (r, s1)) :
    r = ChessResult.CHESS_SUCCESS := by
  unfold chessAddGame at hr
  rw [if_neg (not_not.mpr hc)] at hr
  simp only at hr
  split at hr
  · simp at hr
  · split at hr
    · simp at hr
    · simp only [Option.some.injEq, Prod.mk.injEq] at hr
      exact hr.1.symm

theorem chessRemoveTournament_not_error {s : ChessSystem} {tid : Int}
    {r : ChessResult} {s1 : Option ChessSystem}
    (hc : chessRemoveTournamentErrorCheck (some s) tid = ChessResult.CHESS_SUCCESS)
    (hr : chessRemoveTournament (some s) tid = some (r, s1)) :
    r = ChessResult.CHESS_SUCCESS := by
  unfold chessRemoveTournament at hr
  rw [if_neg (not_not.mpr hc)] at hr
  simp only at hr
  split at hr
  · simp at hr
  · split at hr
    · simp at hr
    · simp only [Option.some.injEq, Prod.mk.injEq] at hr
      exact hr.1.symm

theorem chessEndTournament_not_error {s : ChessSystem} {tid : Int}
    {r : ChessResult} {s1 : Option ChessSystem}
    (hc : chessEndTournamentErrorCheck (some s) tid = ChessResult.CHESS_SUCCESS)
    (hr : chessEndTournament (some s) tid = some (r, s1)) :
    r = ChessResult.CHESS_SUCCESS := by
  unfold chessEndTournament at hr
  rw [if_neg (not_not.mpr hc)] at hr
  simp only at hr
  split at hr
  · simp at hr
  · split at hr
    · simp at hr
    · simp only [Option.some.injEq, Prod.mk.injEq] at hr
      exact hr.1.symm

theorem chessRemovePlayer_not_error {s : ChessSystem} {p : Int}
    {r : ChessResult} {s1 : Option ChessSystem}
    (hc : chessRemovePlayerErrorCheck (some s) p = ChessResult.CHESS_SUCCESS)
    (hr : chessRemovePlayer (some s) p = some (r, s1)) :
    r = ChessResult.CHESS_SUCCESS := by
  unfold chessRemovePlayer at hr
  rw [if_neg (not_not.mpr hc)] at hr
  simp only at hr
  split at hr
  · simp at hr
  · simp only [Option.some.injEq, Prod.mk.injEq] at hr
    exact hr.1.symm

/-- C39: a call of `chessAddTournament`, `chessAddGame`, `chessRemoveTournament`,
`chessRemovePlayer` or `chessEndTournament` that returns a result other than
`CHESS_SUCCESS` and `CHESS_OUT_OF_MEMORY` leaves the system as it is: the same
tournaments with the same games, players, winner and counters, and the same
players map of the system.  The result is then the value of the error check of
the function. -/
theorem validation_error_leaves_system (s : ChessSystem) (c : Call) (r : ChessResult)
    (s1 : Option ChessSystem) (hr : c.run (some s) = some (r, s1))
    (h1 : r ≠ ChessResult.CHESS_SUCCESS) (h2 : r ≠ ChessResult.CHESS_OUT_OF_MEMORY) :
    s1 = some s ∧
    (∀ tid max loc, c = Call.addTournament tid max loc →
      chessAddTournamentErrorCheck (some s) tid max loc = r) ∧
    (∀ tid p1 p2 w time, c = Call.addGame tid p1 p2 w time →
      chessAddGameErrorCheck (some s) tid p1 p2 w time = r) ∧
    (∀ p, c = Call.removePlayer p → chessRemovePlayerErrorCheck (some s) p = r) ∧
    (∀ tid, c = Call.endTournament tid → chessEndTournamentErrorCheck (some s) tid = r) ∧
    (∀ tid, c = Call.removeTournament tid →
      chessRemoveTournamentErrorCheck (some s) tid = r) := by
  have key : ∀ (check : ChessResult), (check ≠ ChessResult.CHESS_SUCCESS →
      c.run (some s) = some (check, some s)) →
      (check = ChessResult.CHESS_SUCCESS →
        r = ChessResult.CHESS_SUCCESS ∨ r = ChessResult.CHESS_OUT_OF_MEMORY) →
      s1 = some s ∧ check = r := by
    intro check herr hok
    by_cases hc : check = ChessResult.CHESS_SUCCESS
    · rcases hok hc with e | e
      · exact absurd e h1
      · exact absurd e h2
    · rw [herr hc] at hr
      simp only [Option.some.injEq, Prod.mk.injEq] at hr
      exact ⟨hr.2.symm, hr.1⟩
  cases c with
  | addTournament tid max loc =>
    have hk := key (chessAddTournamentErrorCheck (some s) tid max loc)
      (fun hne => chessAddTournament_error rfl hne)
      (fun hc => chessAddTournament_not_error hc hr)
    refine ⟨hk.1, ?_, ?_, ?_, ?_, ?_⟩
    · intro tid1 max1 loc1 e
      cases e
      exact hk.2
    all_goals intros; simp_all
  | addGame tid p1 p2 w time =>
    have hk := key (chessAddGameErrorCheck (some s) tid p1 p2 w time)
      (fun hne => chessAddGame_error rfl hne)
      (fun hc => Or.inl (chessAddGame_not_error hc hr))
    refine ⟨hk.1, ?_, ?_, ?_, ?_, ?_⟩
    · intros; simp_all
    · intro tid1 q1 q2 w1 time1 e
      cases e
      exact hk.2
    all_goals intros; simp_all
  | removePlayer p =>
    have hk := key (chessRemovePlayerErrorCheck (some s) p)
      (fun hne => chessRemovePlayer_error rfl hne)
      (fun hc => Or.inl (chessRemovePlayer_not_error hc hr))
    refine ⟨hk.1, ?_, ?_, ?_, ?_, ?_⟩
    · intros; simp_all
    · intros; simp_all
    · intro p1 e
      cases e
      exact hk.2
    all_goals intros; simp_all
  | endTournament tid =>
    have hk := key (chessEndTournamentErrorCheck (some s) tid)
      (fun hne => chessEndTournament_error rfl hne)
      (fun hc => Or.inl (chessEndTournament_not_error hc hr))
    refine ⟨hk.1, ?_, ?_, ?_, ?_, ?_⟩
    · intros; simp_all
    · intros; simp_all
    · intros; simp_all
    · intro tid1 e
      cases e
      exact hk.2
    · intros; simp_all
  | removeTournament tid =>
    have hk := key (chessRemoveTournamentErrorCheck (some s) tid)
      (fun hne => chessRemoveTournament_error rfl hne)
      (fun hc => Or.inl (chessRemoveTournament_not_error hc hr))
    refine ⟨hk.1, ?_, ?_, ?_, ?_, ?_⟩
    · intros; simp_all
    · intros; simp_all
    · intros; simp_all
    · intros; simp_all
    · intro tid1 e
      cases e
      exact hk.2

theorem validation_error_leaves_system_witness :
    (Call.addGame 1 1 2 Winner.DRAW 5).run (some (stateAfter callsPlayed))
      = some (ChessResult.CHESS_GAME_ALREADY_EXISTS, some (stateAfter callsPlayed)) ∧
    ChessResult.CHESS_GAME_ALREADY_EXISTS ≠ ChessResult.CHESS_SUCCESS ∧
    ChessResult.CHESS_GAME_ALREADY_EXISTS ≠ ChessResult.CHESS_OUT_OF_MEMORY ∧
    some (stateAfter callsPlayed) = some (stateAfter callsPlayed) :=
  ⟨by decide, by decide, by decide,
    (validation_error_leaves_system (stateAfter callsPlayed)
      (Call.addGame 1 1 2 Winner.DRAW 5) ChessResult.CHESS_GAME_ALREADY_EXISTS
      (some (stateAfter callsPlayed)) (by decide) (by decide) (by decide)).1⟩

theorem chessRemoveTournamentErrorCheck_eq (s : ChessSystem) (tid : Int) :
    chessRemoveTournamentErrorCheck (some s) tid =
      if tid ≤ 0 then ChessResult.CHESS_INVALID_ID
      else if (tournamentRecord s tid).isSome = true then ChessResult.CHESS_SUCCESS
      else ChessResult.CHESS_TOURNAMENT_NOT_EXIST := by
  unfold chessRemoveTournamentErrorCheck
  simp only [mapContains_tournamentRecord, isValidID, decide_eq_false_iff_not, gt_iff_lt,
    not_lt]
  by_cases h : tid ≤ 0
  · simp [h]
  · cases hrec : tournamentRecord s tid <;> simp [h]

/-- C32: `chessRemoveTournament` returns `CHESS_INVALID_ID` for an id that is
not positive and `CHESS_TOURNAMENT_NOT_EXIST` for a positive id that is not in
the system, and leaves the system as it is.  When it returns `CHESS_SUCCESS` in
a reachable state the tournament is gone: a second removal and a `chessAddGame`
with valid players for that id return `CHESS_TOURNAMENT_NOT_EXIST`, and
`chessAddTournament` with the same id, a valid location and a valid maximum
returns `CHESS_SUCCESS`; every other tournament is stored as before, with the
same games, players, winner and counters. -/
theorem chessRemoveTournament_results (s : ChessSystem) (h : Reachable s) (tid : Int) :
    (tid ≤ 0 →
      chessRemoveTournament (some s) tid = some (ChessResult.CHESS_INVALID_ID, some s)) ∧
    (0 < tid → tournamentRecord s tid = none →
      chessRemoveTournament (some s) tid
        = some (ChessResult.CHESS_TOURNAMENT_NOT_EXIST, some s)) ∧
    (∀ s1, chessRemoveTournament (some s) tid = some (ChessResult.CHESS_SUCCESS, some s1) →
      tournamentRecord s1 tid = none ∧
      (∀ tid1, tid1 ≠ tid → tournamentRecord s1 tid1 = tournamentRecord s tid1) ∧
      chessRemoveTournament (some s1) tid
        = some (ChessResult.CHESS_TOURNAMENT_NOT_EXIST, some s1) ∧
      (∀ p1 p2 w time, 0 < p1 → 0 < p2 → p1 ≠ p2 →
        chessAddGame (some s1) tid p1 p2 w time
          = some (ChessResult.CHESS_TOURNAMENT_NOT_EXIST, some s1)) ∧
      (∀ max location, isLocationValid location = true → 0 < max →
        ∃ s2 t2, chessAddTournament (some s1) tid max (some location)
            = some (ChessResult.CHESS_SUCCESS, some s2) ∧
          tournamentRecord s2 tid = some t2 ∧ tournamentGames t2 = [])) := by
  have hce := chessRemoveTournamentErrorCheck_eq s tid
  refine ⟨?_, ?_, ?_⟩
  · intro h0
    rw [if_pos h0] at hce
    exact chessRemoveTournament_error hce (by decide)
  · intro h0 ht
    rw [if_neg (not_le.mpr h0), ht] at hce
    exact chessRemoveTournament_error hce (by decide)
  · intro s1 hr
    have hs1 : Reachable s1 := Reachable.removeTournament s s1 tid ChessResult.CHESS_SUCCESS h hr
    obtain ⟨t, ht, _, hrec⟩ := (chessRemoveTournament_effect h.inv hr).2 rfl
    have htid : 0 < tid := (h.links.2 tid t ht).1
    have hnone : tournamentRecord s1 tid = none := by
      rw [hrec tid, if_pos rfl]
    refine ⟨hnone, ?_, ?_, ?_, ?_⟩
    · intro tid1 hne
      rw [hrec tid1, if_neg (Ne.symm hne)]
    · apply chessRemoveTournament_error _ (by decide)
      rw [chessRemoveTournamentErrorCheck_eq, if_neg (not_le.mpr htid), hnone]
      rfl
    · intro p1 p2 w time hp1 hp2 hne
      apply chessAddGame_error _ (by decide)
      rw [chessAddGameErrorCheck_eq hs1.inv, hnone]
      have hn : ¬ (tid ≤ 0 ∨ p1 ≤ 0 ∨ p2 ≤ 0 ∨ p1 = p2) := by
        rintro (e | e | e | e)
        · omega
        · omega
        · omega
        · exact hne e
      rw [if_neg hn]
    · intro max location hl hm
      have hc : chessAddTournamentErrorCheck (some s1) tid max (some location)
          = ChessResult.CHESS_SUCCESS := by
        rw [chessAddTournamentErrorCheck_eq, if_neg (not_le.mpr htid), hnone]
        simp [hl, not_le.mpr hm]
      obtain ⟨s2, e1, _, e3⟩ := chessAddTournament_returns hs1.inv hc
      refine ⟨s2, _, e1, ?_, (tournamentCreate_empty max location).1⟩
      rw [e3 tid, if_pos rfl]

theorem chessRemoveTournament_results_witness :
    Reachable (stateAfter callsPlayed) ∧
    chessRemoveTournament (some (stateAfter callsPlayed)) 1
      = some (ChessResult.CHESS_SUCCESS,
          some (stateAfter (callsPlayed ++ [Call.removeTournament 1]))) ∧
    tournamentRecord (stateAfter (callsPlayed ++ [Call.removeTournament 1])) 1 = none ∧
    chessRemoveTournament (some (stateAfter (callsPlayed ++ [Call.removeTournament 1]))) 1
      = some (ChessResult.CHESS_TOURNAMENT_NOT_EXIST,
          some (stateAfter (callsPlayed ++ [Call.removeTournament 1]))) :=
  ⟨stateAfter_reachable callsPlayed callsPlayed_run, by decide,
    ((chessRemoveTournament_results (stateAfter callsPlayed)
      (stateAfter_reachable callsPlayed callsPlayed_run) 1).2.2
      (stateAfter (callsPlayed ++ [Call.removeTournament 1])) (by decide)).1,
    ((chessRemoveTournament_results (stateAfter callsPlayed)
      (stateAfter_reachable callsPlayed callsPlayed_run) 1).2.2
      (stateAfter (callsPlayed ++ [Call.removeTournament 1])) (by decide)).2.2.1⟩

/-! ## Claims about the other players after `chessRemovePlayer` -/

theorem technicalWin_sums (r : Player) (side w : Winner) (hs : side ≠ Winner.DRAW) :
    (technicalWin r side w).total_play_time = r.total_play_time ∧
    (technicalWin r side w).id = r.id ∧
    (technicalWin r side w).wins + (technicalWin r side w).loses + (technicalWin r side w).draws
      = r.wins + r.loses + r.draws ∧
    r.wins ≤ (technicalWin r side w).wins ∧ (technicalWin r side w).loses ≤ r.loses ∧
    (technicalWin r side w).draws ≤ r.draws := by
  unfold technicalWin
  cases side <;> cases w <;> simp at hs ⊢ <;> omega

theorem technicalWinOver_sums (p : Int) (g : Game) (q : Int) (r : Player) :
    (technicalWinOver p g q r).total_play_time = r.total_play_time ∧
    (technicalWinOver p g q r).id = r.id ∧
    (technicalWinOver p g q r).wins + (technicalWinOver p g q r).loses +
        (technicalWinOver p g q r).draws = r.wins + r.loses + r.draws ∧
    r.wins ≤ (technicalWinOver p g q r).wins ∧ (technicalWinOver p g q r).loses ≤ r.loses ∧
    (technicalWinOver p g q r).draws ≤ r.draws := by
  unfold technicalWinOver
  split
  · exact technicalWin_sums r _ _ (by decide)
  · split
    · exact technicalWin_sums r _ _ (by decide)
    · simp

theorem technicalWins_sums (p q : Int) (games : List Game) :
    ∀ r : Player,
      (technicalWins p q games r).total_play_time = r.total_play_time ∧
      (technicalWins p q games r).id = r.id ∧
      (technicalWins p q games r).wins + (technicalWins p q games r).loses +
          (technicalWins p q games r).draws = r.wins + r.loses + r.draws ∧
      r.wins ≤ (technicalWins p q games r).wins ∧ (technicalWins p q games r).loses ≤ r.loses ∧
      (technicalWins p q games r).draws ≤ r.draws := by
  induction games with
  | nil =>
    intro r
    simp [technicalWins]
  | cons g rest ih =>
    intro r
    have hstep : technicalWins p q (g :: rest) r
        = technicalWins p q rest (technicalWinOver p g q r) := rfl
    rw [hstep]
    obtain ⟨a1, a2, a3, a4, a5, a6⟩ := ih (technicalWinOver p g q r)
    obtain ⟨b1, b2, b3, b4, b5, b6⟩ := technicalWinOver_sums p g q r
    exact ⟨a1.trans b1, a2.trans b2, a3.trans b3, le_trans b4 a4, le_trans a5 b5,
      le_trans a6 b6⟩

/-- C37: a successful `chessRemovePlayer(p)` in a reachable state leaves every
other player `q` of the players map of the system in the map, with the same
total play time and the same number of counted games `wins + loses + draws`: a
technical win only moves counts from the losses and the draws to the wins.  So
`chessCalculateAveragePlayTime(q)` returns the same value (and result code)
before and after the removal. -/
theorem chessRemovePlayer_keeps_average_play_time (s s1 : ChessSystem) (h : Reachable s)
    (p : Int) (hr : chessRemovePlayer (some s) p = some (ChessResult.CHESS_SUCCESS, some s1))
    (q : Int) (r : Player) (hq : q ≠ p) (hrec : playerRecord s.players q = some r) :
    ∃ r1, playerRecord s1.players q = some r1 ∧
      r1.total_play_time = r.total_play_time ∧
      r1.wins + r1.loses + r1.draws = r.wins + r.loses + r.draws ∧
      r.wins ≤ r1.wins ∧ r1.loses ≤ r.loses ∧ r1.draws ≤ r.draws ∧
      chessCalculateAveragePlayTime (some s1) q = chessCalculateAveragePlayTime (some s) q := by
  have hc : chessRemovePlayerErrorCheck (some s) p = ChessResult.CHESS_SUCCESS := by
    rcases chessRemovePlayer_cases hr with ⟨e, _⟩ | ⟨_, e⟩
    · exact absurd rfl e
    · exact e
  obtain ⟨s2, hr2, _, _, _, _, _, hglob⟩ := chessRemovePlayer_effect h.inv h.links hc
  rw [hr] at hr2
  simp only [Option.some.injEq, Prod.mk.injEq, true_and] at hr2
  subst hr2
  have hrec1 := hglob q
  rw [if_neg hq, hrec] at hrec1
  simp only [Option.map_some'] at hrec1
  obtain ⟨a1, _, a3, a4, a5, a6⟩ := technicalWins_sums p q (notEndedGames s) r
  have hq0 : 0 < q := (h.links.1 q r hrec).1
  refine ⟨_, hrec1, a1, a3, a4, a5, a6, ?_⟩
  rw [chessCalculateAveragePlayTime_eq s1 q _ hq0 hrec1,
    chessCalculateAveragePlayTime_eq s q r hq0 hrec, a1, a3]

theorem chessRemovePlayer_keeps_average_play_time_witness :
    Reachable (stateAfter callsAverageThree) ∧
    chessRemovePlayer (some (stateAfter callsAverageThree)) 1
      = some (ChessResult.CHESS_SUCCESS,
          some (stateAfter (callsAverageThree ++ [Call.removePlayer 1]))) ∧
    (3 : Int) ≠ 1 ∧
    playerRecord (stateAfter callsAverageThree).players 3 = some (Player.mk 3 0 2 0 34) ∧
    ∃ r1, playerRecord (stateAfter (callsAverageThree ++ [Call.removePlayer 1])).players 3
        = some r1 ∧
      r1.total_play_time = (Player.mk 3 0 2 0 34).total_play_time ∧
      r1.wins + r1.loses + r1.draws =
        (Player.mk 3 0 2 0 34).wins + (Player.mk 3 0 2 0 34).loses +
          (Player.mk 3 0 2 0 34).draws ∧
      (Player.mk 3 0 2 0 34).wins ≤ r1.wins ∧ r1.loses ≤ (Player.mk 3 0 2 0 34).loses ∧
      r1.draws ≤ (Player.mk 3 0 2 0 34).draws ∧
      chessCalculateAveragePlayTime
          (some (stateAfter (callsAverageThree ++ [Call.removePlayer 1]))) 3
        = chessCalculateAveragePlayTime (some (stateAfter callsAverageThree)) 3 :=
  ⟨stateAfter_reachable callsAverageThree (by decide), by decide, by decide, by decide,
    chessRemovePlayer_keeps_average_play_time (stateAfter callsAverageThree)
      (stateAfter (callsAverageThree ++ [Call.removePlayer 1]))
      (stateAfter_reachable callsAverageThree (by decide)) 1 (by decide) 3
      (Player.mk 3 0 2 0 34) (by decide) (by decide)⟩

/-! ## Claims about a traversal that looks up each key -/

theorem mapFindNode_of_sorted {K V : Type} {cmp : K → K → Int} (hc : CmpOrder cmp) :
    ∀ (l : List (K × V)), (l.map Prod.fst).Pairwise (fun a b => cmp a b < 0) →
      ∀ (i : Nat) (hi : i < l.length), mapFindNode cmp (l.get ⟨i, hi⟩).1 l = some i := by
  intro l
  induction l with
  | nil =>
    intro _ i hi
    simp at hi
  | cons n rest ih =>
    intro hs i hi
    simp only [List.map_cons, List.pairwise_cons] at hs
    unfold mapFindNode
    cases i with
    | zero =>
      simp only [List.get_eq_getElem, List.getElem_cons_zero]
      rw [if_pos (hc.refl n.1)]
    | succ j =>
      have hj : j < rest.length := by
        simp only [List.length_cons] at hi
        omega
      simp only [List.get_eq_getElem, List.getElem_cons_succ]
      have hlt : cmp n.1 (rest[j]).1 < 0 :=
        hs.1 _ (List.mem_map_of_mem Prod.fst (List.getElem_mem hj))
      rw [if_neg (ne_of_lt hlt)]
      have := ih hs.2 j hj
      simp only [List.get_eq_getElem] at this
      rw [this]

theorem mapGet_of_node {K V : Type} {cmp : K → K → Int} (hc : CmpOrder cmp) {m : Map K V}
    (h : MapWF cmp m) (i : Nat) (hi : i < m.nodes.length) :
    mapGet cmp m (some (m.nodes.get ⟨i, hi⟩).1)
      = (some (m.nodes.get ⟨i, hi⟩).2, { m with current := Cursor.node i }) ∧
    (mapContains cmp m (some (m.nodes.get ⟨i, hi⟩).1))
      = (true, { m with current := Cursor.node i }) := by
  have hfind := mapFindNode_of_sorted hc m.nodes h.2 i hi
  have hsz : ¬ mapGetSize m = 0 := by
    unfold mapGetSize
    have := h.1
    omega
  have hcon : mapContains cmp m (some (m.nodes.get ⟨i, hi⟩).1)
      = (true, { m with current := Cursor.node i }) := by
    unfold mapContains
    simp only [hsz, if_false, hfind]
  refine ⟨?_, hcon⟩
  unfold mapGet
  simp only [hcon, Bool.true_eq_false, if_false, hfind, nodeData]
  simp [List.getElem?_eq_getElem hi]

theorem mapTraverseGetLoop_node {K V : Type} {cmp : K → K → Int} (hc : CmpOrder cmp)
    (size : Int) (nodes : List (K × V))
    (h : ∀ cur, MapWF cmp ({ size := size, nodes := nodes, current := cur } : Map K V)) :
    ∀ (fuel i : Nat), i < nodes.length → nodes.length ≤ i + fuel →
      mapTraverseGetLoop cmp fuel { size := size, nodes := nodes, current := Cursor.node i } =
        some ((nodes.drop (i + 1)).map (fun n => (n.1, some n.2))) := by
  intro fuel
  induction fuel with
  | zero =>
    intro i h1 h2
    omega
  | succ fuel ih =>
    intro i h1 h2
    unfold mapTraverseGetLoop mapGetNext
    simp only
    by_cases hlt : i + 1 < nodes.length
    · simp only [hlt, if_true]
      have hk : nodeKey nodes (i + 1) = some (nodes.get ⟨i + 1, hlt⟩).1 := by
        simp [nodeKey, List.getElem?_eq_getElem hlt]
      have hd : nodes.drop (i + 1) = nodes.get ⟨i + 1, hlt⟩ :: nodes.drop (i + 1 + 1) :=
        List.drop_eq_getElem_cons hlt
      rw [hk, hd]
      simp only
      have hget := (mapGet_of_node hc (h (Cursor.node (i + 1))) (i + 1) hlt).1
      simp only at hget
      rw [hget]
      simp only
      rw [ih (i + 1) hlt (by omega)]
      simp only [List.map_cons]
    · simp only [hlt, if_false]
      have : nodes.drop (i + 1) = [] := List.drop_eq_nil_of_le (by omega)
      simp [this]

theorem mapTraverseGet_wf {K V : Type} {cmp : K → K → Int} (hc : CmpOrder cmp) {m : Map K V}
    (h : MapWF cmp m) (fuel : Nat) (hf : mapGetSize m ≤ fuel) :
    mapTraverseGet cmp fuel m = some (m.nodes.map (fun n => (n.1, some n.2))) := by
  have hall : ∀ cur, MapWF cmp ({ size := m.size, nodes := m.nodes, current := cur } : Map K V) :=
    fun _ => h
  unfold mapTraverseGet mapGetFirst
  unfold mapGetSize at hf
  by_cases h0 : m.size = 0
  · have := h.size_eq_zero_iff.mp h0
    simp [h0, this]
  · simp only [h0, if_false]
    have hne : m.nodes ≠ [] := fun hn => h0 (h.size_eq_zero_iff.mpr hn)
    obtain ⟨n, rest, hnr⟩ := List.exists_cons_of_ne_nil hne
    have hpos : 0 < m.nodes.length := by simp [hnr]
    have hk : nodeKey m.nodes 0 = some (m.nodes.get ⟨0, hpos⟩).1 := by
      simp [nodeKey, hnr]
    rw [hk]
    simp only
    have hget := (mapGet_of_node hc (hall (Cursor.node 0)) 0 hpos).1
    simp only at hget
    rw [hget]
    simp only
    have hlen : m.nodes.length ≤ 0 + fuel := by
      have := h.1
      omega
    rw [mapTraverseGetLoop_node hc m.size m.nodes hall fuel 0 hpos hlen]
    simp [hnr]

/-- C40: on a map built by the functions of `map.c` (without `mapClear`), a
traversal that calls `mapGet` on the key it has just been given visits the pairs
of the map from the head on: every key once, in strictly ascending order, each
with its data, and it ends after `size` steps with the keys that the plain
traversal yields.  `mapContains` and `mapGet` move `current`, but for the key of
node `i` they leave it on node `i`, so that the next `mapGetNext` yields the key
of node `i + 1` (`NULL` after the last node). -/
theorem mapTraverseGet_visits_each_key_once {K V : Type} (cmp : K → K → Int)
    (hc : CmpOrder cmp) (m : Map K V) (h : MapReachable cmp m) :
    (∀ fuel : Nat, mapGetSize m ≤ fuel →
      mapTraverseGet cmp fuel m = some (m.nodes.map (fun n => (n.1, some n.2))) ∧
      (mapTraverseGet cmp fuel m).map (fun visits => visits.map Prod.fst)
        = mapTraverse fuel m ∧
      mapTraverse fuel m = some (mapKeys m)) ∧
    ((mapKeys m).length : Int) = mapGetSize m ∧
    (mapKeys m).Pairwise (fun a b => cmp a b < 0) ∧
    (∀ k : K, (mapContains cmp m (some k)).1 = true ↔ ∃ k1 ∈ mapKeys m, cmp k1 k = 0) ∧
    (∀ (i : Nat) (hi : i < m.nodes.length),
      (mapGet cmp m (some (m.nodes.get ⟨i, hi⟩).1)).1 = some (m.nodes.get ⟨i, hi⟩).2 ∧
      (mapGet cmp m (some (m.nodes.get ⟨i, hi⟩).1)).2.current = Cursor.node i ∧
      (mapContains cmp m (some (m.nodes.get ⟨i, hi⟩).1)).2.current = Cursor.node i ∧
      (mapGetNext (mapGet cmp m (some (m.nodes.get ⟨i, hi⟩).1)).2).map Prod.fst
        = some (nodeKey m.nodes (i + 1))) := by
  have hwf := h.wf hc
  refine ⟨?_, ?_, hwf.2, ?_, ?_⟩
  · intro fuel hf
    have e1 := mapTraverseGet_wf hc hwf fuel hf
    have e2 := mapTraverse_wf hwf fuel hf
    refine ⟨e1, ?_, e2⟩
    rw [e1, e2]
    simp [mapKeys, List.map_map, Function.comp_def]
  · unfold mapKeys mapGetSize
    rw [List.length_map, hwf.1]
  · intro k
    obtain ⟨ks, hks, hmem, _⟩ := mapTraverse_strictly_ascending cmp hc m h
    have e2 := mapTraverse_wf hwf m.nodes.length (by
      unfold mapGetSize
      rw [hwf.1])
    have e3 := hks m.nodes.length (by
      unfold mapGetSize
      rw [hwf.1])
    rw [e2] at e3
    obtain rfl := Option.some.inj e3
    exact hmem k
  · intro i hi
    obtain ⟨e1, e2⟩ := mapGet_of_node hc hwf i hi
    rw [e1, e2]
    refine ⟨rfl, rfl, rfl, ?_⟩
    simp only [mapGetNext]
    by_cases hlt : i + 1 < m.nodes.length
    · simp [hlt]
    · simp [hlt, nodeKey, List.getElem?_eq_none (not_lt.mp hlt)]

theorem mapTraverseGet_visits_each_key_once_witness :
    mapGetSize exampleMap ≤ ((2 : Nat) : Int) ∧
    (mapTraverseGet compareKeyPlayerID 2 exampleMap
        = some (exampleMap.nodes.map (fun n => (n.1, some n.2))) ∧
      (mapTraverseGet compareKeyPlayerID 2 exampleMap).map (fun visits => visits.map Prod.fst)
        = mapTraverse 2 exampleMap ∧
      mapTraverse 2 exampleMap = some (mapKeys exampleMap)) :=
  ⟨by decide,
    (mapTraverseGet_visits_each_key_once compareKeyPlayerID compareKeyPlayerID_order exampleMap
      exampleMap_reachable).1 2 (by decide)⟩

/-- The traversal of the example map with `mapGet` on each key visits (1, 10)
and (2, 20). -/
theorem exampleMap_traverse_get :
    mapTraverseGet compareKeyPlayerID 2 exampleMap = some [(1, some 10), (2, some 20)] := by
  decide

/-! ## Claims about the tournament statistics -/

theorem callsTechnical_statistics :
    chessSaveTournamentStatistics (some (stateAfter callsTechnical)) (some "statistics.txt") =
      (ChessResult.CHESS_SUCCESS,
        some [{ winner := 2, longest_game_time := 7, average_game_time := 6,
                location := some "Paris", number_of_games := 2, number_of_players := 3 }]) := by
  have hr := stateAfter_reachable callsTechnical callsTechnical_run
  have hany : isAnyTournamentEnded (stateAfter callsTechnical) = true := by decide
  have hkeys : mapForEach (stateAfter callsTechnical).tournaments = [1, 2] := by decide
  have h1 : (tournamentRecord (stateAfter callsTechnical) 1).map
      (fun t => t.winner) = some 0 := by decide
  have h2 : (tournamentRecord (stateAfter callsTechnical) 2).map
      (fun t => (t.winner, t.longest_game_time, t.total_play_time, t.number_of_games,
        t.location, t.number_of_players)) = some (2, 7, 12, 2, "Paris", 3) := by decide
  unfold tournamentRecord at h1 h2
  unfold chessSaveTournamentStatistics
  simp only [hany, Bool.true_eq_false, if_false, hkeys, saveTournamentStatisticsLoop]
  cases e1 : (mapGet compareKeyTournamentID (stateAfter callsTechnical).tournaments (some 1)).1 with
  | none => simp [e1] at h1
  | some t1 =>
    cases e2 : (mapGet compareKeyTournamentID (stateAfter callsTechnical).tournaments
        (some 2)).1 with
    | none => simp [e2] at h2
    | some t2 =>
      rw [e1] at h1
      rw [e2] at h2
      simp only [Option.map_some', Option.some.injEq, Prod.mk.injEq] at h1 h2
      obtain ⟨a1, a2, a3, a4, a5, a6⟩ := h2
      simp only [tournamentGetWinner, tournamentGetLongestGameTime, tournamentGetNumberOfGames,
        tournamentGetTotalPlayTime, tournamentGetLocation, tournamentGetNumberOfPlayers, h1, a1,
        a2, a3, a4, a5, a6, isValidID]
      norm_num

theorem addGameToPlayer_afterRemoval {p q : Int} (hp : 0 < p) (hq : 0 < q) (hqp : q ≠ p)
    {g : Game} (hgi : GameInv g) (r : Player) :
    addGameToPlayer (gameAfterRemoval p g) q r
      = technicalWinOver p g q (addGameToPlayer g q r) := by
  rcases g with ⟨w, time, a, b⟩
  obtain ⟨h1, h2, h3⟩ := hgi
  simp only at h1 h2 h3
  have hab : a ≠ b := fun e => h3 (by rw [e])
  unfold gameAfterRemoval technicalWinOver addGameToPlayer
  simp only
  by_cases ha : a = p
  · subst ha
    have hb : ¬ b = a := fun e => hab e.symm
    by_cases hqb : q = b
    · subst hqb
      have e1 : ¬ q = -a := by omega
      have e2 : ¬ q = a := hqp
      simp only [if_true, e1, if_false, hq, and_self, e2, true_and]
      apply Player.eq_of_fields <;> cases w <;>
        simp [playerAfterGame, technicalWin]
    · have e1 : ¬ q = -a := by omega
      have e2 : ¬ q = a := hqp
      have e3 : ¬ b = q := fun e => hqb e.symm
      simp [e1, e2, hqb, e3, hb]
  · by_cases hb : b = p
    · subst hb
      by_cases hqa : q = a
      · subst hqa
        have e1 : ¬ q = -b := by omega
        simp only [ha, if_false, if_true, hq, and_self, true_and, and_true, e1]
        apply Player.eq_of_fields <;> cases w <;>
          simp [playerAfterGame, technicalWin]
      · have e1 : ¬ q = -b := by omega
        have e2 : ¬ q = b := hqp
        have e3 : ¬ a = q := fun e => hqa e.symm
        simp [ha, e1, e2, hqa, e3]
    · simp [ha, hb]

theorem technicalWin_playerAfterGame_comm (r : Player) (side w side1 w1 : Winner)
    (time : Int) :
    technicalWin (playerAfterGame r side1 w1 time) side w
      = playerAfterGame (technicalWin r side w) side1 w1 time := by
  apply Player.eq_of_fields <;> simp only [technicalWin, playerAfterGame] <;> omega

theorem technicalWinOver_addGameToPlayer_comm (p : Int) (g g1 : Game) (q : Int) (r : Player) :
    technicalWinOver p g q (addGameToPlayer g1 q r)
      = addGameToPlayer g1 q (technicalWinOver p g q r) := by
  unfold technicalWinOver addGameToPlayer
  split_ifs <;> first | rfl | exact technicalWin_playerAfterGame_comm _ _ _ _ _ _

theorem foldl_addGameToPlayer_technicalWinOver (p : Int) (g : Game) (q : Int)
    (games : List Game) :
    ∀ r : Player,
      games.foldl (fun r g1 => addGameToPlayer g1 q r) (technicalWinOver p g q r)
        = technicalWinOver p g q (games.foldl (fun r g1 => addGameToPlayer g1 q r) r) := by
  induction games with
  | nil =>
    intro r
    rfl
  | cons g1 rest ih =>
    intro r
    simp only [List.foldl_cons]
    rw [← technicalWinOver_addGameToPlayer_comm, ih]

theorem foldl_addGameToPlayer_afterRemoval {p q : Int} (hp : 0 < p) (hq : 0 < q) (hqp : q ≠ p)
    (games : List Game) (hgi : ∀ g ∈ games, GameInv g) :
    ∀ r : Player,
      (games.map (gameAfterRemoval p)).foldl (fun r g => addGameToPlayer g q r) r
        = technicalWins p q games (games.foldl (fun r g => addGameToPlayer g q r) r) := by
  induction games with
  | nil =>
    intro r
    rfl
  | cons g rest ih =>
    intro r
    have hg := hgi g (List.mem_cons_self _ _)
    have hrest : ∀ x ∈ rest, GameInv x := fun x hx => hgi x (List.mem_cons_of_mem _ hx)
    have hstep : technicalWins p q (g :: rest)
        ((g :: rest).foldl (fun r g => addGameToPlayer g q r) r)
        = technicalWins p q rest (technicalWinOver p g q
            (rest.foldl (fun r g => addGameToPlayer g q r) (addGameToPlayer g q r))) := rfl
    rw [hstep]
    simp only [List.map_cons, List.foldl_cons]
    rw [ih hrest, addGameToPlayer_afterRemoval hp hq hqp hg,
      foldl_addGameToPlayer_technicalWinOver]

theorem foldl_addGameToPlayer_of_not_in (q : Int) (games : List Game)
    (h : ∀ g ∈ games, g.first_player ≠ q ∧ g.second_player ≠ q) :
    ∀ r : Player, games.foldl (fun r g => addGameToPlayer g q r) r = r := by
  induction games with
  | nil =>
    intro r
    rfl
  | cons g rest ih =>
    intro r
    obtain ⟨h1, h2⟩ := h g (List.mem_cons_self _ _)
    simp only [List.foldl_cons]
    have e : addGameToPlayer g q r = r := by
      unfold addGameToPlayer
      rw [if_neg (fun e => h1 e.symm), if_neg (fun e => h2 e.symm)]
    rw [e]
    exact ih (fun x hx => h x (List.mem_cons_of_mem _ hx)) r

theorem addGameToPlayer_fields (g : Game) (q : Int) (r : Player) :
    (addGameToPlayer g q r).id = r.id ∧
    (addGameToPlayer g q r).wins = r.wins +
      (if isPlayerInCurrentGame (some g) q = true ∧ g.winner = sideOf g q then 1 else 0) ∧
    (addGameToPlayer g q r).draws = r.draws +
      (if isPlayerInCurrentGame (some g) q = true ∧ g.winner = Winner.DRAW then 1 else 0) ∧
    (addGameToPlayer g q r).loses = r.loses +
      (if isPlayerInCurrentGame (some g) q = true ∧ g.winner ≠ Winner.DRAW ∧
        g.winner ≠ sideOf g q then 1 else 0) ∧
    (addGameToPlayer g q r).total_play_time = r.total_play_time +
      (if isPlayerInCurrentGame (some g) q = true then g.play_time else 0) := by
  rcases g with ⟨w, time, a, b⟩
  unfold addGameToPlayer sideOf isPlayerInCurrentGame
  simp only [gameGetFirstPlayer, gameGetSecondPlayer, Bool.or_eq_true, decide_eq_true_eq]
  by_cases ha : q = a
  · subst ha
    cases w <;> simp [playerAfterGame]
  · have ha1 : ¬ a = q := fun e => ha e.symm
    by_cases hb : q = b
    · subst hb
      cases w <;> simp [playerAfterGame, ha, ha1]
    · have hb1 : ¬ b = q := fun e => hb e.symm
      simp [ha, hb, ha1, hb1]

theorem filter_count_cons (P : Game → Bool) (Q : Game → Prop) [DecidablePred Q] (g : Game)
    (rest : List Game) :
    ((((g :: rest).filter P).filter (fun x => decide (Q x))).length : Int) =
      (if P g = true ∧ Q g then 1 else 0) +
        (((rest.filter P).filter (fun x => decide (Q x))).length : Int) := by
  by_cases hp : P g = true
  · by_cases hq : Q g
    · simp [List.filter_cons, hp, hq]
      omega
    · simp [List.filter_cons, hp, hq]
  · simp [List.filter_cons, hp]

theorem filter_sum_cons (P : Game → Bool) (g : Game) (rest : List Game) :
    (((g :: rest).filter P).map (fun x => x.play_time)).sum =
      (if P g = true then g.play_time else 0) +
        ((rest.filter P).map (fun x => x.play_time)).sum := by
  by_cases hp : P g = true
  · simp [List.filter_cons, hp]
  · simp [List.filter_cons, hp]

theorem tallyOf_fields (q : Int) (games : List Game) :
    ∀ r : Player,
      (games.foldl (fun r g => addGameToPlayer g q r) r).id = r.id ∧
      (games.foldl (fun r g => addGameToPlayer g q r) r).wins = r.wins +
        (((games.filter (fun g => isPlayerInCurrentGame (some g) q)).filter
          (fun g => decide (g.winner = sideOf g q))).length : Int) ∧
      (games.foldl (fun r g => addGameToPlayer g q r) r).draws = r.draws +
        (((games.filter (fun g => isPlayerInCurrentGame (some g) q)).filter
          (fun g => decide (g.winner = Winner.DRAW))).length : Int) ∧
      (games.foldl (fun r g => addGameToPlayer g q r) r).loses = r.loses +
        (((games.filter (fun g => isPlayerInCurrentGame (some g) q)).filter
          (fun g => decide (g.winner ≠ Winner.DRAW ∧ g.winner ≠ sideOf g q))).length : Int) ∧
      (games.foldl (fun r g => addGameToPlayer g q r) r).total_play_time = r.total_play_time +
        (((games.filter (fun g => isPlayerInCurrentGame (some g) q)).map
          (fun g => g.play_time)).sum) := by
  induction games with
  | nil =>
    intro r
    simp
  | cons g rest ih =>
    intro r
    obtain ⟨a1, a2, a3, a4, a5⟩ := ih (addGameToPlayer g q r)
    obtain ⟨b1, b2, b3, b4, b5⟩ := addGameToPlayer_fields g q r
    simp only [List.foldl_cons]
    rw [a1, a2, a3, a4, a5, b1, b2, b3, b4, b5]
    rw [filter_count_cons (fun g => isPlayerInCurrentGame (some g) q)
        (fun g => g.winner = sideOf g q),
      filter_count_cons (fun g => isPlayerInCurrentGame (some g) q)
        (fun g => g.winner = Winner.DRAW),
      filter_count_cons (fun g => isPlayerInCurrentGame (some g) q)
        (fun g => g.winner ≠ Winner.DRAW ∧ g.winner ≠ sideOf g q),
      filter_sum_cons (fun g => isPlayerInCurrentGame (some g) q)]
    refine ⟨rfl, ?_, ?_, ?_, ?_⟩ <;> simp only [add_assoc]

theorem tallyOf_of_no_record {players : Map Int Player} {t : Tournament}
    (ht : TournamentInv t) (hl : TournamentLinks players t)
    (hw : t.winner = TOURNAMENT_NOT_ENDED) {q : Int} (hq : 0 < q)
    (hnone : playerRecord t.players q = none) :
    tallyOf q (tournamentGames t) = playerCreate q := by
  unfold tallyOf
  apply foldl_addGameToPlayer_of_not_in
  intro g hg
  rw [tournamentGames_of_inv ht] at hg
  obtain ⟨n, hn, rfl⟩ := List.mem_map.mp hg
  obtain ⟨⟨h1, h2⟩, _⟩ := hl.2.2.2 hw n hn
  constructor
  · intro e
    have := h1 (by omega)
    rw [e, hnone] at this
    simp at this
  · intro e
    have := h2 (by omega)
    rw [e, hnone] at this
    simp at this

theorem recordBefore_tallyOf {players : Map Int Player} {t : Tournament}
    (ht : TournamentInv t) (hl : TournamentLinks players t) (hinv : TallyInv t)
    (hw : t.winner = TOURNAMENT_NOT_ENDED) {q : Int} (hq : 0 < q) :
    recordBefore t.players q = tallyOf q (tournamentGames t) := by
  unfold recordBefore
  cases hrec : playerRecord t.players q with
  | none =>
    simp only
    exact (tallyOf_of_no_record ht hl hw hq hrec).symm
  | some r =>
    simp only
    exact hinv q r hrec

theorem tallyOf_append (q : Int) (games : List Game) (g : Game) :
    tallyOf q (games ++ [g]) = addGameToPlayer g q (tallyOf q games) := by
  unfold tallyOf
  rw [List.foldl_append]
  rfl

theorem CallChanges.tallies_step {players players1 : Map Int Player} {c : Call}
    {r : ChessResult} {tid : Int} {t t1 : Tournament} (ht : TournamentInv t)
    (ht1 : TournamentInv t1) (hp : MapWF compareKeyPlayerID players)
    (hl : TournamentLinks players t) (hinv : TallyInv t)
    (h : CallChanges players c r tid t t1 players1) : TallyInv t1 := by
  rcases h with rfl | ⟨p1, p2, w, time, _, _, hw, hp1, hp2, hne, hup⟩ | ⟨cw, _, _, _, rfl⟩ |
    ⟨p, _, _, hp0, hrem⟩
  · exact hinv
  · have hgames := tournamentGames_added ht ht1 hne hup
    obtain ⟨_, hloc⟩ := chessAddGameUpdate_records ht hp hne hup
    intro q r1 hr1
    rw [hloc q] at hr1
    rw [hgames, tallyOf_append]
    unfold addGameToPlayer
    simp only [gameCreate]
    by_cases hq1 : q = p1
    · subst hq1
      rw [if_pos rfl] at hr1
      rw [if_pos rfl, ← recordBefore_tallyOf ht hl hinv hw hp1]
      exact (Option.some.inj hr1).symm
    · rw [if_neg hq1] at hr1
      by_cases hq2 : q = p2
      · subst hq2
        rw [if_pos rfl] at hr1
        rw [if_neg hq1, if_pos rfl, ← recordBefore_tallyOf ht hl hinv hw hp2]
        exact (Option.some.inj hr1).symm
      · rw [if_neg hq2] at hr1
        rw [if_neg hq1, if_neg hq2]
        exact hinv q r1 hr1
  · exact hinv
  · intro q r1 hr1
    rw [hrem.2.2.2.2 q] at hr1
    by_cases hqp : q = p
    · rw [if_pos hqp] at hr1
      exact absurd hr1 (by simp)
    · rw [if_neg hqp] at hr1
      cases hrec : playerRecord t.players q with
      | none =>
        rw [hrec] at hr1
        exact absurd hr1 (by simp)
      | some r0 =>
        rw [hrec] at hr1
        simp only [Option.map_some', Option.some.injEq] at hr1
        have hr0 := hinv q r0 hrec
        have hq : 0 < q := (hl.1 q r0 hrec).1
        by_cases hw : t.winner = TOURNAMENT_NOT_ENDED
        · have hg : tournamentGames t1 = (tournamentGames t).map (gameAfterRemoval p) := by
            rw [tournamentGames_of_inv ht, tournamentGames_of_inv ht1, hrem.2.2.2.1 hw]
            simp [List.map_map, Function.comp_def]
          have hopen : openGames t = tournamentGames t := by
            rw [tournamentGames_of_inv ht]
            unfold openGames
            rw [if_pos hw]
          have hgi : ∀ g ∈ tournamentGames t, GameInv g := by
            intro g hg0
            rw [tournamentGames_of_inv ht] at hg0
            obtain ⟨n, hn, rfl⟩ := List.mem_map.mp hg0
            exact hl.2.2.1 n hn
          rw [← hr1, hg, hopen, hr0]
          unfold tallyOf
          exact (foldl_addGameToPlayer_afterRemoval hp0 hq hqp (tournamentGames t) hgi _).symm
        · have hg : tournamentGames t1 = tournamentGames t := by
            rw [tournamentGames_of_inv ht, tournamentGames_of_inv ht1, hrem.2.2.1 hw]
          have hopen : openGames t = [] := by
            unfold openGames
            rw [if_neg hw]
          rw [← hr1, hg, hopen, hr0]
          rfl

theorem Reachable.tallies {s : ChessSystem} (h : Reachable s) :
    ∀ tid t, tournamentRecord s tid = some t → TallyInv t := by
  revert s
  apply Reachable.call_induction
  · intro tid t ht
    simp [tournamentRecord, chessCreate, mapGet, mapContains, mapCreate, mapGetSize] at ht
  · intro s s1 c r hs ih hr tid t1 ht1
    have hs1 := Call.run_reachable hs hr
    cases h0 : tournamentRecord s tid with
    | none =>
      obtain ⟨max, location, _, _, rfl⟩ := Call.run_new hs.inv hs.links hr h0 ht1
      intro q r1 hr1
      rw [(tournamentCreate_empty max location).2.2.2 q] at hr1
      exact absurd hr1 (by simp)
    | some t =>
      rcases Call.run_frame hs.inv hs.links hr h0 with ⟨_, _, hnone⟩ | ⟨t2, ht2, hch⟩
      · rw [hnone] at ht1
        exact absurd ht1 (by simp)
      · rw [ht2] at ht1
        obtain rfl := Option.some.inj ht1
        exact CallChanges.tallies_step (hs.inv.lookup h0) (hs1.inv.lookup ht2) hs.inv.2.1
          (hs.links.2 tid t h0).2 (ih tid t h0) hch

/-- In exact arithmetic: in every reachable state, for every tournament and
every player with a record in the players map of the tournament, the record is the tally over the
games of the tournament in which the player is a current participant, each
counted with its stored winner: the wins are the games whose stored winner is
the side of the player, the draws are the games stored as `DRAW`, the losses
are the rest, and the total play time is the sum of the play times of these
games. -/
theorem local_record_is_tally_of_games (s : ChessSystem) (h : Reachable s) (tid : Int)
    (t : Tournament) (ht : tournamentRecord s tid = some t) (q : Int) (r : Player)
    (hr : playerRecord t.players q = some r) :
    r.id = q ∧
    r.wins = (((gamesOf t q).filter (fun g => decide (g.winner = sideOf g q))).length : Int) ∧
    r.draws = (((gamesOf t q).filter (fun g => decide (g.winner = Winner.DRAW))).length : Int) ∧
    r.loses = (((gamesOf t q).filter
      (fun g => decide (g.winner ≠ Winner.DRAW ∧ g.winner ≠ sideOf g q))).length : Int) ∧
    r.wins + r.draws + r.loses = ((gamesOf t q).length : Int) ∧
    r.total_play_time = ((gamesOf t q).map (fun g => g.play_time)).sum := by
  have hr0 := h.tallies tid t ht q r hr
  obtain ⟨a1, a2, a3, a4, a5⟩ := tallyOf_fields q (tournamentGames t) (playerCreate q)
  unfold tallyOf at hr0
  rw [← hr0] at a1 a2 a3 a4 a5
  simp only [playerCreate, zero_add] at a1 a2 a3 a4 a5
  unfold gamesOf
  refine ⟨a1, a2, a3, a4, ?_, a5⟩
  rw [a2, a3, a4]
  have key : ∀ l : List Game,
      (((l.filter (fun g => decide (g.winner = sideOf g q))).length : Int) +
        ((l.filter (fun g => decide (g.winner = Winner.DRAW))).length : Int) +
        ((l.filter (fun g =>
          decide (g.winner ≠ Winner.DRAW ∧ g.winner ≠ sideOf g q))).length : Int))
        = (l.length : Int) := by
    intro l
    induction l with
    | nil => simp
    | cons g rest ih =>
      have hside : ¬ sideOf g q = Winner.DRAW := by
        unfold sideOf
        split <;> decide
      have hside1 : ¬ Winner.DRAW = sideOf g q := fun e => hside e.symm
      by_cases h1 : g.winner = sideOf g q
      · have h2 : ¬ g.winner = Winner.DRAW := fun e => hside (h1.symm.trans e)
        rw [List.filter_cons, List.filter_cons, List.filter_cons]
        simp only [h1, hside, decide_True, decide_False, if_true, if_false,
          List.length_cons, ne_eq, not_true_eq_false, and_false, Bool.false_eq_true,
          not_false_eq_true] at ih ⊢
        push_cast
        omega
      · by_cases h2 : g.winner = Winner.DRAW
        · rw [List.filter_cons, List.filter_cons, List.filter_cons]
          simp only [h2, hside1, decide_True, decide_False, if_true, if_false,
            List.length_cons, ne_eq, not_true_eq_false, false_and, Bool.false_eq_true] at ih ⊢
          push_cast
          omega
        · rw [List.filter_cons, List.filter_cons, List.filter_cons]
          simp only [h1, h2, decide_True, decide_False, if_true, if_false,
            List.length_cons, ne_eq, not_false_eq_true, and_self, Bool.false_eq_true] at ih ⊢
          push_cast
          omega
  exact key _

theorem local_record_is_tally_of_games_witness :
    Reachable (stateAfter (callsTechnical ++ [Call.removePlayer 1])) ∧
    tournamentRecord (stateAfter (callsTechnical ++ [Call.removePlayer 1])) 1
      = some (tournamentIn (stateAfter (callsTechnical ++ [Call.removePlayer 1])) 1) ∧
    playerRecord (tournamentIn (stateAfter (callsTechnical ++ [Call.removePlayer 1])) 1).players 3
      = some (Player.mk 3 1 0 0 20) ∧
    gamesOf (tournamentIn (stateAfter (callsTechnical ++ [Call.removePlayer 1])) 1) 3
      = [Game.mk Winner.FIRST_PLAYER 20 3 (-1)] ∧
    ((Player.mk 3 1 0 0 20).id = 3 ∧
    (Player.mk 3 1 0 0 20).wins =
      (((gamesOf (tournamentIn (stateAfter (callsTechnical ++ [Call.removePlayer 1])) 1) 3).filter
        (fun g => decide (g.winner = sideOf g 3))).length : Int) ∧
    (Player.mk 3 1 0 0 20).draws =
      (((gamesOf (tournamentIn (stateAfter (callsTechnical ++ [Call.removePlayer 1])) 1) 3).filter
        (fun g => decide (g.winner = Winner.DRAW))).length : Int) ∧
    (Player.mk 3 1 0 0 20).loses =
      (((gamesOf (tournamentIn (stateAfter (callsTechnical ++ [Call.removePlayer 1])) 1) 3).filter
        (fun g => decide (g.winner ≠ Winner.DRAW ∧ g.winner ≠ sideOf g 3))).length : Int) ∧
    (Player.mk 3 1 0 0 20).wins + (Player.mk 3 1 0 0 20).draws + (Player.mk 3 1 0 0 20).loses =
      ((gamesOf (tournamentIn (stateAfter (callsTechnical ++ [Call.removePlayer 1])) 1) 3).length
        : Int) ∧
    (Player.mk 3 1 0 0 20).total_play_time =
      ((gamesOf (tournamentIn (stateAfter (callsTechnical ++ [Call.removePlayer 1])) 1) 3).map
        (fun g => g.play_time)).sum) :=
  ⟨stateAfter_reachable (callsTechnical ++ [Call.removePlayer 1]) (by decide), by decide,
    by decide, by decide,
    local_record_is_tally_of_games (stateAfter (callsTechnical ++ [Call.removePlayer 1]))
      (stateAfter_reachable (callsTechnical ++ [Call.removePlayer 1]) (by decide)) 1
      (tournamentIn (stateAfter (callsTechnical ++ [Call.removePlayer 1])) 1) (by decide) 3
      (Player.mk 3 1 0 0 20) (by decide)⟩

/-! ## Claims about chessAddGame when an allocation fails -/

theorem mapPutAlloc_no_failure {K V : Type} (cmp : K → K → Int) (map : Map K V)
    (keyElement : Option K) (dataElement : Option V) :
    mapPutAlloc false cmp map keyElement dataElement = mapPut cmp map keyElement dataElement := by
  unfold mapPutAlloc mapPut
  cases keyElement <;> cases dataElement <;> rfl

theorem playerSetupInMapAlloc_no_failure (tournament : Tournament)
    (chess_players : Map Int Player) (player_map : PlayersMapRef) (player_id : Int) :
    playerSetupInMapAlloc noFailure tournament chess_players player_map player_id
      = playerSetupInMap tournament chess_players player_map player_id := by
  unfold playerSetupInMapAlloc playerSetupInMap
  cases player_map <;>
    simp only [noFailure, playerCreateAlloc, mapPutAlloc_no_failure, Bool.false_eq_true, if_false]

theorem newGameSystemAssignAlloc_no_failure (tournament : Tournament)
    (chess_players_map : Map Int Player) (new_game : Game)
    (new_game_id first_player second_player : Int) :
    newGameSystemAssignAlloc noFailure tournament chess_players_map new_game new_game_id
        first_player second_player
      = newGameSystemAssign tournament chess_players_map new_game new_game_id first_player
        second_player := by
  unfold newGameSystemAssignAlloc newGameSystemAssign playerMapUpdatePlayersAlloc
    playerMapUpdatePlayers
  simp only [playerSetupInMapAlloc_no_failure]
  have e : mapPutAlloc (noFailure AllocationSite.gameNode) compareKeyGameID tournament.games
      (some new_game_id) (some new_game)
      = mapPut compareKeyGameID tournament.games (some new_game_id) (some new_game) :=
    mapPutAlloc_no_failure _ _ _ _
  rw [e]
  simp only [mapPut_fst, ne_eq, not_true_eq_false, if_false]

/-- When no tested allocation fails, `chessAddGameAlloc` is `chessAddGame`. -/
theorem chessAddGameAlloc_no_failure (chess : Option ChessSystem)
    (tournament_id first_player second_player : Int) (winner : Winner) (play_time : Int) :
    chessAddGameAlloc noFailure chess tournament_id first_player second_player winner play_time
      = chessAddGame chess tournament_id first_player second_player winner play_time := by
  unfold chessAddGameAlloc chessAddGame chessAddGameUpdate
  simp only [newGameSystemAssignAlloc_no_failure, gameCreateAlloc, noFailure,
    Bool.false_eq_true, if_false]
  split
  · rfl
  · cases chess with
    | none => rfl
    | some c =>
      simp only
      cases (mapGet compareKeyTournamentID c.tournaments (some tournament_id)).1 with
      | none => rfl
      | some t =>
        simp only
        split
        · rfl
        · cases playersAddStatsToMap
            (newGameSystemAssign t c.players
              (gameCreate winner play_time first_player second_player)
              (mapGetSize t.games + 1) first_player second_player).2.2
            first_player second_player winner play_time with
          | none => rfl
          | some players =>
            simp only
            cases playersAddStatsToMap
              (newGameSystemAssign t c.players
                (gameCreate winner play_time first_player second_player)
                (mapGetSize t.games + 1) first_player second_player).2.1.players
              first_player second_player winner play_time with
            | none => rfl
            | some tp => rfl

theorem chessAddGameErrorCheck_not_out_of_memory (chess : Option ChessSystem)
    (tournament_id first_player second_player : Int) (winner : Winner) (play_time : Int) :
    chessAddGameErrorCheck chess tournament_id first_player second_player winner play_time
      ≠ ChessResult.CHESS_OUT_OF_MEMORY := by
  unfold chessAddGameErrorCheck
  cases chess with
  | none => simp
  | some c =>
    simp only
    split
    · simp
    · split
      · simp
      · split
        · simp
        · split
          · simp
          · split
            · simp
            · split
              · simp
              · split <;> simp

/-- Whatever allocation fails, `chessAddGameAlloc` never returns
`CHESS_OUT_OF_MEMORY` together with a system: either the error check fails, or
the system is destroyed, or the call goes on with the destroyed system, or the
call returns `CHESS_SUCCESS`. -/
theorem chessAddGameAlloc_never_abandons (fails : AllocationSite → Bool) (s : ChessSystem)
    (tournament_id first_player second_player : Int) (winner : Winner) (play_time : Int)
    (s1 : ChessSystem) :
    chessAddGameAlloc fails (some s) tournament_id first_player second_player winner play_time
      ≠ some (ChessResult.CHESS_OUT_OF_MEMORY, some s1) := by
  intro h
  unfold chessAddGameAlloc at h
  split at h
  · simp only [Option.some.injEq, Prod.mk.injEq] at h
    exact chessAddGameErrorCheck_not_out_of_memory _ _ _ _ _ _ h.1
  · simp only at h
    split at h
    · simp at h
    · split at h
      · simp [chessOutOfMemoryDestroy, chessDestroy] at h
      · split at h
        · simp at h
        · split at h
          · simp at h
          · split at h
            · simp at h
            · simp at h

/-- C36 (the code departs from the claim): in the state after `callsPlayed` the
call `chessAddGame(chess, 1, 3, 4, FIRST_PLAYER, 5)` passes the error check.
When the `malloc` of `playerCreate` fails for the record of player 3 in the
players map of the system, `playerSetupInMap` returns `MAP_OUT_OF_MEMORY` and
`newGameSystemAssign` returns `CHESS_OUT_OF_MEMORY` after the new game has been
stored in the games map of the tournament; `chessAddGame` then destroys the
system and goes on without returning, so the call reports nothing (`none`),
where the claim has the result `CHESS_OUT_OF_MEMORY` and the system of before
the call.  When the `malloc` of `gameCreate` fails the call returns
`CHESS_OUT_OF_MEMORY` and the system is destroyed. -/
theorem chessAddGame_allocation_failure_not_reported :
    chessAddGameErrorCheck (some (stateAfter callsPlayed)) 1 3 4 Winner.FIRST_PLAYER 5
      = ChessResult.CHESS_SUCCESS ∧
    (playerSetupInMapAlloc (failsAtPlayerCreate 3) (tournamentIn (stateAfter callsPlayed) 1)
        (stateAfter callsPlayed).players PlayersMapRef.chessPlayers 3).1
      = MapResult.MAP_OUT_OF_MEMORY ∧
    (newGameSystemAssignAlloc (failsAtPlayerCreate 3) (tournamentIn (stateAfter callsPlayed) 1)
        (stateAfter callsPlayed).players (gameCreate Winner.FIRST_PLAYER 5 3 4) 2 3 4).1
      = ChessResult.CHESS_OUT_OF_MEMORY ∧
    tournamentGames (newGameSystemAssignAlloc (failsAtPlayerCreate 3)
        (tournamentIn (stateAfter callsPlayed) 1) (stateAfter callsPlayed).players
        (gameCreate Winner.FIRST_PLAYER 5 3 4) 2 3 4).2.1
      = [gameCreate Winner.FIRST_PLAYER 6 1 2, gameCreate Winner.FIRST_PLAYER 5 3 4] ∧
    chessAddGameAlloc (failsAtPlayerCreate 3) (some (stateAfter callsPlayed))
        1 3 4 Winner.FIRST_PLAYER 5 = none ∧
    chessAddGameAlloc (failsAtPlayerCreate 3) (some (stateAfter callsPlayed))
        1 3 4 Winner.FIRST_PLAYER 5
      ≠ some (ChessResult.CHESS_OUT_OF_MEMORY, some (stateAfter callsPlayed)) ∧
    chessAddGameAlloc (fun site => decide (site = AllocationSite.gameCreate))
        (some (stateAfter callsPlayed)) 1 3 4 Winner.FIRST_PLAYER 5
      = some (ChessResult.CHESS_OUT_OF_MEMORY, none) ∧
    chessAddGameAlloc noFailure (some (stateAfter callsPlayed)) 1 3 4 Winner.FIRST_PLAYER 5
      = chessAddGame (some (stateAfter callsPlayed)) 1 3 4 Winner.FIRST_PLAYER 5 := by
  refine ⟨by decide, by decide, by decide, by decide, by decide, by decide, by decide,
    chessAddGameAlloc_no_failure _ _ _ _ _ _⟩

/-! ## The totals of play time in 32-bit arithmetic: claims -/

theorem int32_of_inInt32 {x : Int} (h : inInt32 x) : int32 x = x := by
  unfold inInt32 INT_MIN INT_MAX at h
  unfold int32 INT_MIN
  omega

theorem inInt32_int32 (x : Int) : inInt32 (int32 x) := by
  unfold inInt32 int32 INT_MIN INT_MAX
  omega

theorem ReachableInRange.reachable {s : ChessSystem} (h : ReachableInRange s) : Reachable s := by
  induction h with
  | create => exact Reachable.create
  | call s s1 c r _ _ hrun ih => exact Call.run_reachable ih hrun

theorem runCallsInRange_reachable (calls : List Call) :
    ∀ (s s1 : ChessSystem), ReachableInRange s → runCallsInRange calls s = some s1 →
      ReachableInRange s1 := by
  induction calls with
  | nil =>
    intro s s1 hs h
    simp only [runCallsInRange, Option.some.injEq] at h
    rw [← h]
    exact hs
  | cons c rest ih =>
    intro s s1 hs h
    unfold runCallsInRange at h
    split at h
    · rename_i r s2 hrun
      split at h
      · rename_i h32
        exact ih s2 s1 (ReachableInRange.call s s2 c r hs h32 hrun) h
      · simp at h
    · simp at h

theorem playersAddStatsToMapInt32_eq {m : Map Int Player} {p1 p2 : Int} {f s : Player}
    (hf : playerRecord m p1 = some f) (hs : playerRecord m p2 = some s) (w : Winner)
    (time : Int) (h1 : inInt32 (f.total_play_time + time))
    (h2 : inInt32 (s.total_play_time + time)) :
    playersAddStatsToMapInt32 m p1 p2 w time = playersAddStatsToMap m p1 p2 w time := by
  unfold playerRecord at hf hs
  unfold playersAddStatsToMapInt32 playersAddStatsToMap
  rw [hf, hs]
  have e : playersAddPlayTimeInt32 (playersAddScore (some f, some s) w) time
      = playersAddPlayTime (playersAddScore (some f, some s) w) time := by
    cases w <;>
      simp only [playersAddScore, playersAddPlayTimeInt32, playersAddPlayTime,
        int32_of_inInt32 h1, int32_of_inInt32 h2]
  rw [e]

theorem tournamentUpdateStatsInt32_eq (t : Tournament) (time : Int)
    (h : inInt32 (t.total_play_time + time)) :
    tournamentUpdateStatsInt32 t time = tournamentUpdateStats t time := by
  unfold tournamentUpdateStatsInt32 tournamentUpdateStats tournamentUpdateTotalPlayTimeInt32
    tournamentUpdateTotalPlayTime
  have e : (tournamentUpdateLongestGameTime (tournamentUpdateNumberOfGames t) time).total_play_time
      = t.total_play_time := by
    unfold tournamentUpdateLongestGameTime tournamentUpdateNumberOfGames
    split <;> rfl
  rw [e, int32_of_inInt32 h]

theorem chessAddGameUpdateInt32_eq {t : Tournament} {p : Map Int Player} {first second : Int}
    (w : Winner) (time : Int) (ht : TournamentInv t) (hp : MapWF compareKeyPlayerID p)
    (hne : first ≠ second)
    (hg1 : inInt32 ((recordBefore p first).total_play_time + time))
    (hg2 : inInt32 ((recordBefore p second).total_play_time + time))
    (hl1 : inInt32 ((recordBefore t.players first).total_play_time + time))
    (hl2 : inInt32 ((recordBefore t.players second).total_play_time + time))
    (htot : inInt32 (t.total_play_time + time)) :
    chessAddGameUpdateInt32 t p first second w time
      = chessAddGameUpdate t p first second w time := by
  unfold chessAddGameUpdateInt32 chessAddGameUpdate
  obtain ⟨n, hn⟩ := newGameSystemAssign_eq t p (gameCreate w time first second)
    (mapGetSize t.games + 1) first second
  simp only [hn, ne_eq, not_true_eq_false, if_false]
  obtain ⟨hp1, hp2, _⟩ := playerRecord_setup_two hp first second hne
  obtain ⟨hq1, hq2, _⟩ := playerRecord_setup_two ht.2.1 first second hne
  rw [playersAddStatsToMapInt32_eq hp1 hp2 w time hg1 hg2,
    playersAddStatsToMapInt32_eq hq1 hq2 w time hl1 hl2]
  cases playersAddStatsToMap (setupPlayer (setupPlayer p first) second) first second w time with
  | none => rfl
  | some players =>
    simp only
    cases playersAddStatsToMap (setupPlayer (setupPlayer t.players first) second) first second
        w time with
    | none => rfl
    | some tp =>
      simp only
      rw [tournamentUpdateStatsInt32_eq]
      exact htot

/-- When the five totals that a call of `chessAddGame` changes stay in the
range of an `int`, the call gives with 32-bit arithmetic what it gives with
exact arithmetic. -/
theorem chessAddGameInt32_eq {s : ChessSystem} (hinv : SysInv s) {tid p1 p2 : Int}
    (w : Winner) (time : Int) {t : Tournament} (ht : tournamentRecord s tid = some t)
    (hg1 : inInt32 ((recordBefore s.players p1).total_play_time + time))
    (hg2 : inInt32 ((recordBefore s.players p2).total_play_time + time))
    (hl1 : inInt32 ((recordBefore t.players p1).total_play_time + time))
    (hl2 : inInt32 ((recordBefore t.players p2).total_play_time + time))
    (htot : inInt32 (t.total_play_time + time)) :
    chessAddGameInt32 (some s) tid p1 p2 w time = chessAddGame (some s) tid p1 p2 w time := by
  unfold chessAddGameInt32 chessAddGame
  split
  · rfl
  · rename_i hcheck
    simp only [ne_eq, not_not] at hcheck
    obtain ⟨_, _, _, hne⟩ := chessAddGameErrorCheck_ids hcheck
    have ht0 : (mapGet compareKeyTournamentID s.tournaments (some tid)).1 = some t := ht
    simp only [ht0]
    rw [chessAddGameUpdateInt32_eq w time (hinv.lookup ht) hinv.2.1 hne hg1 hg2 hl1 hl2 htot]

theorem stateAfter_reachableInRange (calls : List Call)
    (h : runCallsInRange calls chessCreate = some (stateAfter calls)) :
    ReachableInRange (stateAfter calls) :=
  runCallsInRange_reachable calls chessCreate (stateAfter calls) ReachableInRange.create h

theorem inInt32_zero : inInt32 0 := by
  decide

theorem RecordsInRange.after_store {m : Map Int Player} (h : MapWF compareKeyPlayerID m)
    (hm : RecordsInRange m) (k : Int) (d : Option Player)
    (hd : ∀ v, d = some v → inInt32 v.total_play_time) :
    RecordsInRange (mapStore compareKeyPlayerID m k d) := by
  cases d with
  | none => exact hm
  | some v =>
    intro q r hr
    rw [playerRecord_mapStore h] at hr
    split at hr
    · split at hr
      · obtain rfl := Option.some.inj hr
        exact hd _ rfl
      · exact absurd hr (by simp)
    · exact hm q r hr

theorem RecordsInRange.after_setup {m : Map Int Player} (h : MapWF compareKeyPlayerID m)
    (hm : RecordsInRange m) (id : Int) : RecordsInRange (setupPlayer m id) := by
  intro q r hr
  rw [playerRecord_setupPlayer h] at hr
  cases h0 : playerRecord m q with
  | some r0 =>
    rw [h0] at hr
    obtain rfl := Option.some.inj hr
    exact hm q _ h0
  | none =>
    rw [h0] at hr
    simp only at hr
    split at hr
    · obtain rfl := Option.some.inj hr
      exact inInt32_zero
    · exact absurd hr (by simp)

theorem playersAddPlayTimeInt32_inRange {players players1 : Option Player × Option Player}
    {time : Int} (h : playersAddPlayTimeInt32 players time = some players1) :
    (∀ v, players1.1 = some v → inInt32 v.total_play_time) ∧
    (∀ v, players1.2 = some v → inInt32 v.total_play_time) := by
  rcases players with ⟨a, b⟩
  cases a <;> cases b <;> simp only [playersAddPlayTimeInt32] at h
  · exact absurd h (by simp)
  · obtain rfl := Option.some.inj h
    refine ⟨fun v hv => absurd hv (by simp), fun v hv => ?_⟩
    obtain rfl := Option.some.inj hv
    exact inInt32_int32 _
  · obtain rfl := Option.some.inj h
    refine ⟨fun v hv => ?_, fun v hv => absurd hv (by simp)⟩
    obtain rfl := Option.some.inj hv
    exact inInt32_int32 _
  · obtain rfl := Option.some.inj h
    refine ⟨fun v hv => ?_, fun v hv => ?_⟩
    · obtain rfl := Option.some.inj hv
      exact inInt32_int32 _
    · obtain rfl := Option.some.inj hv
      exact inInt32_int32 _

theorem playersAddStatsToMapInt32_inRange {m m1 : Map Int Player}
    (h : MapWF compareKeyPlayerID m) (hm : RecordsInRange m) {p1 p2 : Int} {w : Winner}
    {time : Int} (hr : playersAddStatsToMapInt32 m p1 p2 w time = some m1) :
    RecordsInRange m1 := by
  unfold playersAddStatsToMapInt32 at hr
  split at hr
  · exact absurd hr (by simp)
  · rename_i players hp
    obtain rfl := Option.some.inj hr
    obtain ⟨h1, h2⟩ := playersAddPlayTimeInt32_inRange hp
    exact RecordsInRange.after_store (mapStore_wf h _ _) (RecordsInRange.after_store h hm _ _ h1) _ _ h2

theorem chessAddGameUpdateInt32_inRange {t t1 : Tournament} {p p1 : Map Int Player}
    {first second : Int} {w : Winner} {time : Int} (ht : TournamentInv t)
    (hm : RecordsInRange t.players)
    (h : chessAddGameUpdateInt32 t p first second w time = some (t1, p1)) :
    inInt32 t1.total_play_time ∧ RecordsInRange t1.players := by
  unfold chessAddGameUpdateInt32 at h
  obtain ⟨n, hn⟩ := newGameSystemAssign_eq t p (gameCreate w time first second)
    (mapGetSize t.games + 1) first second
  simp only [hn, ne_eq, not_true_eq_false, if_false] at h
  split at h
  · exact absurd h (by simp)
  · split at h
    · exact absurd h (by simp)
    · rename_i players hp tp htp
      simp only [Option.some.injEq, Prod.mk.injEq] at h
      obtain ⟨rfl, rfl⟩ := h
      constructor
      · unfold tournamentUpdateStatsInt32 tournamentUpdateTotalPlayTimeInt32
        exact inInt32_int32 _
      · have hwf : MapWF compareKeyPlayerID (setupPlayer (setupPlayer t.players first) second) :=
          setupPlayer_wf (setupPlayer_wf ht.2.1 _) _
        have hset : RecordsInRange (setupPlayer (setupPlayer t.players first) second) :=
          RecordsInRange.after_setup (setupPlayer_wf ht.2.1 _) (RecordsInRange.after_setup ht.2.1 hm _) _
        have := playersAddStatsToMapInt32_inRange hwf hset htp
        unfold tournamentUpdateStatsInt32 tournamentUpdateTotalPlayTimeInt32
          tournamentUpdateLongestGameTime tournamentUpdateNumberOfGames
        split <;> exact this

theorem chessAddGameInt32_effect {s s1 : ChessSystem} {tid p1 p2 : Int} {w : Winner}
    {time : Int} (h : SysInv s)
    (hr : chessAddGameInt32 (some s) tid p1 p2 w time
      = some (ChessResult.CHESS_SUCCESS, some s1)) :
    ∃ t t1 players, tournamentRecord s tid = some t ∧
      chessAddGameUpdateInt32 t s.players p1 p2 w time = some (t1, players) ∧
      tournamentRecord s1 tid = some t1 := by
  unfold chessAddGameInt32 at hr
  split at hr
  · rename_i hcheck
    simp only [Option.some.injEq, Prod.mk.injEq] at hr
    exact absurd hr.1 hcheck
  · simp only at hr
    split at hr
    · exact absurd hr (by simp)
    · rename_i t ht
      split at hr
      · exact absurd hr (by simp)
      · rename_i t1 pl1 hup
        simp only [Option.some.injEq, Prod.mk.injEq, true_and] at hr
        subst hr
        have htr : tournamentRecord s tid = some t := ht
        refine ⟨t, t1, pl1, htr, hup, ?_⟩
        rw [tournamentRecord_store h, htr]
        simp

/-- In a state reached without overflow every total of play times of a
tournament, and of a record in the players map of a tournament, is a value of
an `int`: it has been left there by an addition of 32-bit `int`s. -/
theorem ReachableInRange.totals {s : ChessSystem} (h : ReachableInRange s) :
    TotalsInRange s := by
  induction h with
  | create =>
    intro tid t ht
    simp [tournamentRecord, chessCreate, mapGet, mapContains, mapCreate, mapGetSize] at ht
  | call s s1 c r hs h32 hrun ih =>
    have hr := hs.reachable
    intro tid t1 ht1
    cases h0 : tournamentRecord s tid with
    | none =>
      obtain ⟨max, location, _, _, rfl⟩ := Call.run_new hr.inv hr.links hrun h0 ht1
      refine ⟨inInt32_zero, ?_⟩
      intro q r1 hr1
      rw [(tournamentCreate_empty max location).2.2.2 q] at hr1
      exact absurd hr1 (by simp)
    | some t =>
      obtain ⟨iht, ihr⟩ := ih tid t h0
      rcases Call.run_frame hr.inv hr.links hrun h0 with ⟨_, _, hnone⟩ | ⟨t2, ht2, hch⟩
      · rw [hnone] at ht1
        exact absurd ht1 (by simp)
      · rw [ht2] at ht1
        obtain rfl := Option.some.inj ht1
        rcases hch with rfl | ⟨p1, p2, w, time, rfl, rfl, _, _, _, _, _⟩ | ⟨cw, _, _, _, rfl⟩ |
          ⟨p, _, _, _, hrem⟩
        · exact ⟨iht, ihr⟩
        · obtain ⟨t0, t32, players, ht0, hup, ht32⟩ := chessAddGameInt32_effect hr.inv h32
          rw [h0] at ht0
          obtain rfl := Option.some.inj ht0
          rw [ht2] at ht32
          obtain rfl := Option.some.inj ht32
          exact chessAddGameUpdateInt32_inRange (hr.inv.lookup h0) ihr hup
        · exact ⟨iht, ihr⟩
        · refine ⟨?_, ?_⟩
          · rw [hrem.1.2.2.2.2.2.2]
            exact iht
          · intro q r1 hr1
            rw [hrem.2.2.2.2 q] at hr1
            split at hr1
            · exact absurd hr1 (by simp)
            · cases hq : playerRecord t.players q with
              | none =>
                rw [hq] at hr1
                exact absurd hr1 (by simp)
              | some r0 =>
                rw [hq] at hr1
                simp only [Option.map_some', Option.some.injEq] at hr1
                rw [← hr1, (technicalWins_sums p q (openGames t) r0).1]
                exact ihr q r0 hq

/-- C9 (fails as stated): tournament 1 is added and player 1 wins a game of
2000000000 seconds against player 2; the record of player 1 in the players map
of the system has the total play time 2000000000.  The call
`chessAddGame(1, 1, 3, FIRST_PLAYER, 2000000000)` passes the error check and
returns `CHESS_SUCCESS`; the total play time of player 1 should grow by
2000000000 to 4000000000, which is more than `INT_MAX`: the `int` holds
-294967296 afterwards. -/
theorem chessAddGame_total_play_time_overflows :
    ReachableInRange (stateAfter callsLongGame) ∧
    playerRecord (stateAfter callsLongGame).players 1
      = some (Player.mk 1 1 0 0 2000000000) ∧
    chessAddGameErrorCheck (some (stateAfter callsLongGame)) 1 1 3 Winner.FIRST_PLAYER
      2000000000 = ChessResult.CHESS_SUCCESS ∧
    chessAddGameInt32 (some (stateAfter callsLongGame)) 1 1 3 Winner.FIRST_PLAYER 2000000000
      = some (ChessResult.CHESS_SUCCESS, some (stateAfterInt32 callsLongGames)) ∧
    playerRecord (stateAfterInt32 callsLongGames).players 1
      = some (Player.mk 1 2 0 0 (-294967296)) ∧
    INT_MAX < 2000000000 + 2000000000 ∧
    playerRecord (stateAfterInt32 callsLongGames).players 1 ≠
      some (playerAfterGame (recordBefore (stateAfter callsLongGame).players 1)
        Winner.FIRST_PLAYER Winner.FIRST_PLAYER 2000000000) :=
  ⟨stateAfter_reachableInRange callsLongGame (by decide), by decide, by decide, by decide,
    by decide, by decide, by decide⟩

/-- C9 (as amended): a successful `chessAddGame(t, p1, p2, winner, time)`, in a
state reached without overflow and with the totals of play time that the call
changes (of the two players in both players maps, and of the tournament)
staying in the range of an `int`, changes the player statistics by exactly
this.  In the players map of the system and in the players map of tournament
`t`, the record of `p1` is its earlier record (all-zero when `p1` was not
present) after one more game on the first side, the record of `p2` likewise on
the second side (`playerAfterGame`: a draw adds 1 to the draws, otherwise the
winner gets a win and the loser a loss, and the play time is added), and the
record of every other id is as before; every other tournament is unchanged.
The call gives with 32-bit arithmetic what it gives with exact arithmetic, and
the state after it is again reached without overflow. -/
theorem chessAddGame_statistics_in_int_range (s s1 : ChessSystem)
    (h : ReachableInRange s) (tid p1 p2 : Int) (w : Winner) (time : Int) (t : Tournament)
    (ht : tournamentRecord s tid = some t)
    (hg1 : inInt32 ((recordBefore s.players p1).total_play_time + time))
    (hg2 : inInt32 ((recordBefore s.players p2).total_play_time + time))
    (hl1 : inInt32 ((recordBefore t.players p1).total_play_time + time))
    (hl2 : inInt32 ((recordBefore t.players p2).total_play_time + time))
    (htot : inInt32 (t.total_play_time + time))
    (hr : chessAddGameInt32 (some s) tid p1 p2 w time
      = some (ChessResult.CHESS_SUCCESS, some s1)) :
    (playerRecord s1.players p1 =
        some (playerAfterGame (recordBefore s.players p1) Winner.FIRST_PLAYER w time) ∧
      playerRecord s1.players p2 =
        some (playerAfterGame (recordBefore s.players p2) Winner.SECOND_PLAYER w time) ∧
      ∀ q, q ≠ p1 → q ≠ p2 → playerRecord s1.players q = playerRecord s.players q) ∧
    (∃ t1, tournamentRecord s1 tid = some t1 ∧
      playerRecord t1.players p1 =
        some (playerAfterGame (recordBefore t.players p1) Winner.FIRST_PLAYER w time) ∧
      playerRecord t1.players p2 =
        some (playerAfterGame (recordBefore t.players p2) Winner.SECOND_PLAYER w time) ∧
      ∀ q, q ≠ p1 → q ≠ p2 → playerRecord t1.players q = playerRecord t.players q) ∧
    (∀ tid1, tid1 ≠ tid → tournamentRecord s1 tid1 = tournamentRecord s tid1) ∧
    chessAddGame (some s) tid p1 p2 w time = some (ChessResult.CHESS_SUCCESS, some s1) ∧
    ReachableInRange s1 := by
  have hs := h.reachable
  have heq := chessAddGameInt32_eq hs.inv w time ht hg1 hg2 hl1 hl2 htot
  have hr1 : chessAddGame (some s) tid p1 p2 w time
      = some (ChessResult.CHESS_SUCCESS, some s1) := by
    rw [← heq]
    exact hr
  obtain ⟨a1, ⟨t0, t1, ht0, ht1, b1, b2, b3⟩, a3⟩ :=
    chessAddGame_changes_statistics s s1 hs tid p1 p2 w time hr1
  rw [ht] at ht0
  obtain rfl := Option.some.inj ht0
  exact ⟨a1, ⟨t1, ht1, b1, b2, b3⟩, a3, hr1,
    ReachableInRange.call s s1 (Call.addGame tid p1 p2 w time) ChessResult.CHESS_SUCCESS h hr
      hr1⟩

theorem chessAddGame_statistics_in_int_range_witness :
    (ReachableInRange (stateAfter callsPlayed) ∧
      tournamentRecord (stateAfter callsPlayed) 1
        = some (tournamentIn (stateAfter callsPlayed) 1) ∧
      inInt32 ((recordBefore (stateAfter callsPlayed).players 1).total_play_time + 25) ∧
      inInt32 ((recordBefore (stateAfter callsPlayed).players 3).total_play_time + 25) ∧
      inInt32
        ((recordBefore (tournamentIn (stateAfter callsPlayed) 1).players 1).total_play_time
          + 25) ∧
      inInt32
        ((recordBefore (tournamentIn (stateAfter callsPlayed) 1).players 3).total_play_time
          + 25) ∧
      inInt32 ((tournamentIn (stateAfter callsPlayed) 1).total_play_time + 25) ∧
      chessAddGameInt32 (some (stateAfter callsPlayed)) 1 1 3 Winner.DRAW 25
        = some (ChessResult.CHESS_SUCCESS,
            some (stateAfter (callsPlayed ++ [Call.addGame 1 1 3 Winner.DRAW 25])))) ∧
    playerRecord (stateAfter (callsPlayed ++ [Call.addGame 1 1 3 Winner.DRAW 25])).players 1 =
      some (playerAfterGame (recordBefore (stateAfter callsPlayed).players 1)
        Winner.FIRST_PLAYER Winner.DRAW 25) ∧
    playerRecord (stateAfter (callsPlayed ++ [Call.addGame 1 1 3 Winner.DRAW 25])).players 1 =
      some (Player.mk 1 1 0 1 31) :=
  ⟨⟨stateAfter_reachableInRange callsPlayed (by decide), by decide, by decide, by decide,
      by decide, by decide, by decide, by decide⟩,
    (chessAddGame_statistics_in_int_range (stateAfter callsPlayed)
      (stateAfter (callsPlayed ++ [Call.addGame 1 1 3 Winner.DRAW 25]))
      (stateAfter_reachableInRange callsPlayed (by decide)) 1 1 3 Winner.DRAW 25
      (tournamentIn (stateAfter callsPlayed) 1) (by decide) (by decide) (by decide)
      (by decide) (by decide) (by decide) (by decide)).1.1,
    by decide⟩

/-- C10 (fails as stated): tournament 1 is added and player 1 wins two games of
2000000000 seconds in it; every call returns `CHESS_SUCCESS`.  The play times
of the two games of the tournament add up to 4000000000, which is more than
`INT_MAX`: the `int` `total_play_time` of the tournament holds -294967296. -/
theorem tournament_total_play_time_overflows :
    runCallsInt32 callsLongGames chessCreate
      = some ([ChessResult.CHESS_SUCCESS, ChessResult.CHESS_SUCCESS,
          ChessResult.CHESS_SUCCESS], stateAfterInt32 callsLongGames) ∧
    tournamentRecord (stateAfterInt32 callsLongGames) 1
      = some (tournamentIn (stateAfterInt32 callsLongGames) 1) ∧
    (tournamentGames (tournamentIn (stateAfterInt32 callsLongGames) 1)).map
        (fun g => g.play_time) = [2000000000, 2000000000] ∧
    ((tournamentGames (tournamentIn (stateAfterInt32 callsLongGames) 1)).map
        (fun g => g.play_time)).sum = 4000000000 ∧
    INT_MAX < 4000000000 ∧
    (tournamentIn (stateAfterInt32 callsLongGames) 1).total_play_time = -294967296 ∧
    (tournamentIn (stateAfterInt32 callsLongGames) 1).total_play_time ≠
      ((tournamentGames (tournamentIn (stateAfterInt32 callsLongGames) 1)).map
        (fun g => g.play_time)).sum := by
  refine ⟨by decide, by decide, by decide, by decide, by decide, by decide, by decide⟩

/-- C10 (as amended): in every state reached without overflow of a total of
play times, for every tournament stored in the system, `total_play_time` is the
sum of the play times of the games in its games map, which is a value of an
`int`, `longest_game_time` is their maximum (no game is longer and, when there
is a game, one game is that long; 0 when there is no game), and
`number_of_games` is the size of the games map, which is the number of its
games. -/
theorem tournament_counters_in_int_range (s : ChessSystem) (h : ReachableInRange s)
    (tid : Int) (t : Tournament) (ht : tournamentRecord s tid = some t) :
    t.total_play_time = ((tournamentGames t).map (fun g => g.play_time)).sum ∧
    inInt32 ((tournamentGames t).map (fun g => g.play_time)).sum ∧
    (∀ g ∈ tournamentGames t, g.play_time ≤ t.longest_game_time) ∧
    (tournamentGames t ≠ [] → ∃ g ∈ tournamentGames t, g.play_time = t.longest_game_time) ∧
    (tournamentGames t = [] → t.longest_game_time = 0) ∧
    t.number_of_games = mapGetSize t.games ∧
    mapGetSize t.games = (tournamentGames t).length := by
  obtain ⟨a1, a2, a3, a4, a5, a6⟩ := tournament_counters_match_games s h.reachable tid t ht
  refine ⟨a1, ?_, a2, a3, a4, a5, a6⟩
  rw [← a1]
  exact (h.totals tid t ht).1

theorem tournament_counters_in_int_range_witness :
    (ReachableInRange (stateAfter callsLongGame) ∧
      tournamentRecord (stateAfter callsLongGame) 1
        = some (tournamentIn (stateAfter callsLongGame) 1)) ∧
    (tournamentIn (stateAfter callsLongGame) 1).total_play_time
      = ((tournamentGames (tournamentIn (stateAfter callsLongGame) 1)).map
          (fun g => g.play_time)).sum ∧
    (tournamentIn (stateAfter callsLongGame) 1).total_play_time = 2000000000 :=
  ⟨⟨stateAfter_reachableInRange callsLongGame (by decide), by decide⟩,
    (tournament_counters_in_int_range (stateAfter callsLongGame)
      (stateAfter_reachableInRange callsLongGame (by decide)) 1
      (tournamentIn (stateAfter callsLongGame) 1) (by decide)).1,
    by decide⟩

/-- C38 (fails as stated): tournament 1 is added and player 1 wins two games of
2000000000 seconds in it; every call returns `CHESS_SUCCESS`.  Player 1 is a
current participant of both games, whose play times add up to 4000000000,
which is more than `INT_MAX`: the `int` `total_play_time` of the record of
player 1 in the players map of the tournament holds -294967296. -/
theorem local_total_play_time_overflows :
    runCallsInt32 callsLongGames chessCreate
      = some ([ChessResult.CHESS_SUCCESS, ChessResult.CHESS_SUCCESS,
          ChessResult.CHESS_SUCCESS], stateAfterInt32 callsLongGames) ∧
    tournamentRecord (stateAfterInt32 callsLongGames) 1
      = some (tournamentIn (stateAfterInt32 callsLongGames) 1) ∧
    playerRecord (tournamentIn (stateAfterInt32 callsLongGames) 1).players 1
      = some (Player.mk 1 2 0 0 (-294967296)) ∧
    gamesOf (tournamentIn (stateAfterInt32 callsLongGames) 1) 1
      = [Game.mk Winner.FIRST_PLAYER 2000000000 1 2,
         Game.mk Winner.FIRST_PLAYER 2000000000 1 3] ∧
    ((gamesOf (tournamentIn (stateAfterInt32 callsLongGames) 1) 1).map
        (fun g => g.play_time)).sum = 4000000000 ∧
    INT_MAX < 4000000000 ∧
    (Player.mk 1 2 0 0 (-294967296)).total_play_time ≠
      ((gamesOf (tournamentIn (stateAfterInt32 callsLongGames) 1) 1).map
        (fun g => g.play_time)).sum := by
  refine ⟨by decide, by decide, by decide, by decide, by decide, by decide, by decide⟩

/-- C38 (as amended): in every state reached without overflow of a total of
play times, for every tournament and every player with a record in the players
map of the tournament, the record is the tally over the games of the
tournament in which the player is a current participant, each counted with its
stored winner: the wins are the games whose stored winner is the side of the
player, the draws are the games stored as `DRAW`, the losses are the rest, and
the total play time is the sum of the play times of these games, which is a
value of an `int`. -/
theorem local_tally_in_int_range (s : ChessSystem) (h : ReachableInRange s)
    (tid : Int) (t : Tournament) (ht : tournamentRecord s tid = some t) (q : Int) (r : Player)
    (hr : playerRecord t.players q = some r) :
    r.id = q ∧
    r.wins = (((gamesOf t q).filter (fun g => decide (g.winner = sideOf g q))).length : Int) ∧
    r.draws = (((gamesOf t q).filter (fun g => decide (g.winner = Winner.DRAW))).length : Int) ∧
    r.loses = (((gamesOf t q).filter
      (fun g => decide (g.winner ≠ Winner.DRAW ∧ g.winner ≠ sideOf g q))).length : Int) ∧
    r.wins + r.draws + r.loses = ((gamesOf t q).length : Int) ∧
    r.total_play_time = ((gamesOf t q).map (fun g => g.play_time)).sum ∧
    inInt32 ((gamesOf t q).map (fun g => g.play_time)).sum := by
  obtain ⟨a1, a2, a3, a4, a5, a6⟩ := local_record_is_tally_of_games s h.reachable tid t ht q r hr
  refine ⟨a1, a2, a3, a4, a5, a6, ?_⟩
  rw [← a6]
  exact (h.totals tid t ht).2 q r hr

theorem local_tally_in_int_range_witness :
    ReachableInRange (stateAfter (callsTechnical ++ [Call.removePlayer 1])) ∧
    tournamentRecord (stateAfter (callsTechnical ++ [Call.removePlayer 1])) 1
      = some (tournamentIn (stateAfter (callsTechnical ++ [Call.removePlayer 1])) 1) ∧
    playerRecord (tournamentIn (stateAfter (callsTechnical ++ [Call.removePlayer 1])) 1).players 3
      = some (Player.mk 3 1 0 0 20) ∧
    gamesOf (tournamentIn (stateAfter (callsTechnical ++ [Call.removePlayer 1])) 1) 3
      = [Game.mk Winner.FIRST_PLAYER 20 3 (-1)] ∧
    ((Player.mk 3 1 0 0 20).id = 3 ∧
    (Player.mk 3 1 0 0 20).wins =
      (((gamesOf (tournamentIn (stateAfter (callsTechnical ++ [Call.removePlayer 1])) 1) 3).filter
        (fun g => decide (g.winner = sideOf g 3))).length : Int) ∧
    (Player.mk 3 1 0 0 20).draws =
      (((gamesOf (tournamentIn (stateAfter (callsTechnical ++ [Call.removePlayer 1])) 1) 3).filter
        (fun g => decide (g.winner = Winner.DRAW))).length : Int) ∧
    (Player.mk 3 1 0 0 20).loses =
      (((gamesOf (tournamentIn (stateAfter (callsTechnical ++ [Call.removePlayer 1])) 1) 3).filter
        (fun g => decide (g.winner ≠ Winner.DRAW ∧ g.winner ≠ sideOf g 3))).length : Int) ∧
    (Player.mk 3 1 0 0 20).wins + (Player.mk 3 1 0 0 20).draws + (Player.mk 3 1 0 0 20).loses =
      ((gamesOf (tournamentIn (stateAfter (callsTechnical ++ [Call.removePlayer 1])) 1) 3).length
        : Int) ∧
    (Player.mk 3 1 0 0 20).total_play_time =
      ((gamesOf (tournamentIn (stateAfter (callsTechnical ++ [Call.removePlayer 1])) 1) 3).map
        (fun g => g.play_time)).sum ∧
    inInt32
      ((gamesOf (tournamentIn (stateAfter (callsTechnical ++ [Call.removePlayer 1])) 1) 3).map
        (fun g => g.play_time)).sum) :=
  ⟨stateAfter_reachableInRange (callsTechnical ++ [Call.removePlayer 1]) (by decide), by decide,
    by decide, by decide,
    local_tally_in_int_range
      (stateAfter (callsTechnical ++ [Call.removePlayer 1]))
      (stateAfter_reachableInRange (callsTechnical ++ [Call.removePlayer 1]) (by decide)) 1
      (tournamentIn (stateAfter (callsTechnical ++ [Call.removePlayer 1])) 1) (by decide) 3
      (Player.mk 3 1 0 0 20) (by decide)⟩

end Chess
